import Mathlib

/-!
Reader of the graph plotter (`src/read.c`): a shallow embedding.

C strings are lists of characters; the byte after the last element of the list
reads as NUL, and a NUL inside the list ends the string exactly as it does in
memory.  `int` accumulators wrap to the signed 32-bit range.  Digit and row
counters that are bounded by the size of a line buffer are natural numbers.
The `double` arithmetic of `stod` is taken through a record of operations, so
that a statement proved for every record holds for IEEE doubles, and a
statement about exact values is made at the record `exact_ops`.

The headers `read.h` and `async.h` and the file `plot.c` lie outside the
sources that this development covers.  The constant `READ_COLUMN_MAX` is a parameter of the
functions that use it.  A source is the script of the results of its reads,
the plot store is a type `σ` with a record of the functions of `plot.c`, and
the clock is the list of its readings during a call.  The state of the pump
keeps a record of the calls into `plot.c`, so that a statement on when a
function is called is a statement on that record.
-/

namespace GP

/-! ## Characters and strings -/

/-- The terminating byte of a C string. -/
def NUL : Char := Char.ofNat 0

/-- The byte `*s`: the head of the string, NUL at its end. -/
def peek : List Char → Char
  | [] => NUL
  | c :: _ => c

/-- The test `strchr(str, c) != NULL` of the C library: `c` occurs in `str`
before its terminator, or `c` is the terminator itself. -/
def strchr : List Char → Char → Bool
  | [], c => c == NUL
  | x :: xs, c => if x == c then true else if x == NUL then false else strchr xs c

/-- The type `markup_t`: decimal delimiter, space characters, line-end characters. -/
structure markup_t where
  delim : Char
  space : List Char
  lend : List Char
deriving DecidableEq, Repr

/-- The markup installed by `readAlloc`. -/
def mk_default : markup_t := { delim := '.', space := [' ', '\t', ';'], lend := ['\r', '\n'] }

/-- The terminator test shared by the four parsers:
`*s == 0 || strchr(mk->space, *s) != NULL || strchr(mk->lend, *s) != NULL`. -/
def is_term (mk : markup_t) (c : Char) : Bool :=
  c == NUL || strchr mk.space c || strchr mk.lend c

/-- The test `*s >= '0' && *s <= '9'`. -/
def is_dec (c : Char) : Bool := decide (48 ≤ c.toNat) && decide (c.toNat ≤ 57)

/-- The test `*s >= '0' && *s <= '7'`. -/
def is_oct (c : Char) : Bool := decide (48 ≤ c.toNat) && decide (c.toNat ≤ 55)

/-- The value `*s - '0'`. -/
def dec_val (c : Char) : Int := (c.toNat : Int) - 48

/-- Reduction of a mathematical integer to the signed 32-bit `int`. -/
def wrap32 (x : Int) : Int := (x + 2147483648) % 4294967296 - 2147483648

/-! ## The integer parsers `stoi`, `htoi`, `otoi` -/

/-- The sign step of `stoi` and `stod`:
`if (*s == '-') { n = - 1; s++; } else if (*s == '+') { n = 1; s++; } else { n = 1; }`. -/
def sign_step (s : List Char) : Int × List Char :=
  if peek s = '-' then (-1, s.tail)
  else if peek s = '+' then (1, s.tail)
  else (1, s)

/-- The digit loop of `stoi`: `i = 10 * i + (*s++ - '0') * n; k++; if (k > 9) return NULL;`. -/
def stoi_loop (n : Int) : Int → Nat → List Char → Option (Int × Nat × List Char)
  | i, k, [] => some (i, k, [])
  | i, k, c :: s =>
    if is_dec c then
      let i1 := wrap32 (10 * i + dec_val c * n)
      let k1 := k + 1
      if k1 > 9 then none else stoi_loop n i1 k1 s
    else some (i, k, c :: s)

/-- The function `stoi`: the parsed `int` and the rest of the string, or `none` for NULL. -/
def stoi (mk : markup_t) (s : List Char) : Option (Int × List Char) :=
  let ns := sign_step s
  match stoi_loop ns.1 0 0 ns.2 with
  | none => none
  | some (i, k, r) =>
    if k = 0 then none
    else if is_term mk (peek r) then some (i, r)
    else none

/-- One hexadecimal digit of `htoi`, or `none` where the loop breaks. -/
def hex_val (c : Char) : Option Int :=
  if 48 ≤ c.toNat ∧ c.toNat ≤ 57 then some ((c.toNat : Int) - 48)
  else if 65 ≤ c.toNat ∧ c.toNat ≤ 70 then some (10 + (c.toNat : Int) - 65)
  else if 97 ≤ c.toNat ∧ c.toNat ≤ 102 then some (10 + (c.toNat : Int) - 97)
  else none

/-- The digit loop of `htoi`: `h = 16 * h + i; k++; if (k > 8) return NULL;`. -/
def htoi_loop : Int → Nat → List Char → Option (Int × Nat × List Char)
  | h, k, [] => some (h, k, [])
  | h, k, c :: s =>
    match hex_val c with
    | some i =>
      let h1 := wrap32 (16 * h + i)
      let k1 := k + 1
      if k1 > 8 then none else htoi_loop h1 k1 s
    | none => some (h, k, c :: s)

/-- The function `htoi`. -/
def htoi (mk : markup_t) (s : List Char) : Option (Int × List Char) :=
  let s0 := if peek s = '0' ∧ peek s.tail = 'x' then s.tail.tail else s
  match htoi_loop 0 0 s0 with
  | none => none
  | some (h, k, r) =>
    if k = 0 then none
    else if is_term mk (peek r) then some (h, r)
    else none

/-- The digit loop of `otoi`: `h = 8 * h + i; k++; if (k > 11) return NULL;`. -/
def otoi_loop : Int → Nat → List Char → Option (Int × Nat × List Char)
  | h, k, [] => some (h, k, [])
  | h, k, c :: s =>
    if is_oct c then
      let h1 := wrap32 (8 * h + dec_val c)
      let k1 := k + 1
      if k1 > 11 then none else otoi_loop h1 k1 s
    else some (h, k, c :: s)

/-- The function `otoi`. -/
def otoi (mk : markup_t) (s : List Char) : Option (Int × List Char) :=
  match otoi_loop 0 0 s with
  | none => none
  | some (h, k, r) =>
    if k = 0 then none
    else if is_term mk (peek r) then some (h, r)
    else none

/-! ## The decimal parser `stod` -/

/-- The operations of the type `double` that the reader uses. -/
structure fval_ops (α : Type) where
  ofInt : Int → α
  add : α → α → α
  mul : α → α → α
  div : α → α → α
  nan : α

/-- Values of exact arithmetic, with a not-a-number marker. -/
inductive fexact where
  | nan : fexact
  | num (q : ℚ) : fexact
deriving DecidableEq

/-- Exact sum. -/
def fexact.add : fexact → fexact → fexact
  | .num a, .num b => .num (a + b)
  | _, _ => .nan

/-- Exact product. -/
def fexact.mul : fexact → fexact → fexact
  | .num a, .num b => .num (a * b)
  | _, _ => .nan

/-- Exact quotient; a division by zero is not a number. -/
def fexact.div : fexact → fexact → fexact
  | .num a, .num b => if b = 0 then .nan else .num (a / b)
  | _, _ => .nan

/-- The operations of exact arithmetic. -/
def exact_ops : fval_ops fexact :=
  { ofInt := fun i => .num i, add := fexact.add, mul := fexact.mul, div := fexact.div, nan := .nan }

/-- The integer-part loop of `stod`: `f = 10. * f + (*s++ - '0') * n; k++;`. -/
def stod_int {α : Type} (A : fval_ops α) (n : Int) : α → Nat → List Char → α × Nat × List Char
  | f, k, [] => (f, k, [])
  | f, k, c :: s =>
    if is_dec c then
      stod_int A n (A.add (A.mul (A.ofInt 10) f) (A.ofInt (dec_val c * n))) (k + 1) s
    else (f, k, c :: s)

/-- The fraction loop of `stod`: as the integer-part loop, with `v--`. -/
def stod_frac {α : Type} (A : fval_ops α) (n : Int) :
    α → Nat → Int → List Char → α × Nat × Int × List Char
  | f, k, v, [] => (f, k, v, [])
  | f, k, v, c :: s =>
    if is_dec c then
      stod_frac A n (A.add (A.mul (A.ofInt 10) f) (A.ofInt (dec_val c * n))) (k + 1) (v - 1) s
    else (f, k, v, c :: s)

/-- The loop `while (v < 0) { f /= 10.; v++; }`, for `v = -m`. -/
def stod_down {α : Type} (A : fval_ops α) : Nat → α → α
  | 0, f => f
  | m + 1, f => stod_down A m (A.div f (A.ofInt 10))

/-- The loop `while (v > 0) { f *= 10.; v--; }`, for `v = m`. -/
def stod_up {α : Type} (A : fval_ops α) : Nat → α → α
  | 0, f => f
  | m + 1, f => stod_up A m (A.mul f (A.ofInt 10))

/-- The two scaling loops of `stod`, one after the other. -/
def stod_scale {α : Type} (A : fval_ops α) (v : Int) (f : α) : α :=
  stod_up A v.toNat (stod_down A (-v).toNat f)

/-- The suffix step of `stod`: the new exponent `v` and the rest, or `none`
where `stoi` rejects the exponent. -/
def stod_suffix (mk : markup_t) (v : Int) (s : List Char) : Option (Int × List Char) :=
  if peek s = 'n' then some (v + (-9), s.tail)
  else if peek s = 'u' then some (v + (-6), s.tail)
  else if peek s = 'm' then some (v + (-3), s.tail)
  else if peek s = 'K' then some (v + 3, s.tail)
  else if peek s = 'M' then some (v + 6, s.tail)
  else if peek s = 'G' then some (v + 9, s.tail)
  else if peek s = 'e' ∨ peek s = 'E' then
    match stoi mk s.tail with
    | some (e, r) => some (v + e, r)
    | none => none
  else some (v, s)

/-- The function `stod` after its sign step, for the sign `n`. -/
def stod_body {α : Type} (A : fval_ops α) (mk : markup_t) (n : Int) (s : List Char) :
    Option (α × List Char) :=
  let ip := stod_int A n (A.ofInt 0) 0 s
  let fp : α × Nat × Int × List Char :=
    if peek ip.2.2 = mk.delim then stod_frac A n ip.1 ip.2.1 0 ip.2.2.tail
    else (ip.1, ip.2.1, 0, ip.2.2)
  if fp.2.1 = 0 then none
  else
    match stod_suffix mk fp.2.2.1 fp.2.2.2 with
    | none => none
    | some (v, r) =>
      if is_term mk (peek r) then some (stod_scale A v fp.1, r)
      else none

/-- The function `stod`: the parsed value and the rest of the string, or `none` for NULL. -/
def stod {α : Type} (A : fval_ops α) (mk : markup_t) (s : List Char) : Option (α × List Char) :=
  stod_body A mk (sign_step s).1 (sign_step s).2

/-! ## The row tokenizer `TEXT_GetRow` -/

/-- Modelled from the spec: the per-column hint state `DATA_HINT_*` of `read.h`,
which is absent; the hints are the four that `read.c` names. -/
inductive data_hint where
  | DATA_HINT_NONE
  | DATA_HINT_FLOAT
  | DATA_HINT_HEX
  | DATA_HINT_OCT
deriving DecidableEq, Repr

open data_hint

/-- The arrays `rd->data[dN].row` and `rd->data[dN].hint` that `TEXT_GetRow` writes. -/
structure row_t (α : Type) where
  row : Nat → α
  hint : Nat → data_hint

/-- The separator test of the tokenizers on a byte that is not NUL:
`strchr(rd->mk_text.space, *s) != NULL || strchr(rd->mk_text.lend, *s) != NULL`. -/
def is_sep (mk : markup_t) (c : Char) : Bool := strchr mk.space c || strchr mk.lend c

/-- The body of `TEXT_GetRow` at the first byte `s` of a token of column `N`
whose hint is `h`: the value stored through `*row++` and the new `hint[N]`. -/
def TEXT_GetRow_cell {α : Type} (A : fval_ops α) (mk : markup_t) (h : data_hint)
    (s : List Char) : α × data_hint :=
  if h = DATA_HINT_FLOAT then
    match stod A mk s with
    | some (val, _) => (val, h)
    | none => (A.nan, h)
  else if h = DATA_HINT_HEX then
    match htoi mk s with
    | some (hex, _) => (A.ofInt hex, h)
    | none => (A.nan, h)
  else if h = DATA_HINT_OCT then
    match otoi mk s with
    | some (hex, _) => (A.ofInt hex, h)
    | none => (A.nan, h)
  else
    match stod A mk s with
    | some (val, _) => (val, h)
    | none =>
      match htoi mk s with
      | some (hex, _) => (A.ofInt hex, if h = DATA_HINT_NONE then DATA_HINT_HEX else h)
      | none => (A.nan, h)

/-- The store of one cell: `row[N]` and `hint[N]` of column `N`. -/
def row_t.put {α : Type} (st : row_t α) (N : Nat) (c : α × data_hint) : row_t α :=
  { row := Function.update st.row N c.1, hint := Function.update st.hint N c.2 }

/-- The loop `while (*s != 0)` of `TEXT_GetRow`, with its flag `m` and count `N`. -/
def TEXT_GetRow_loop {α : Type} (A : fval_ops α) (mk : markup_t) (READ_COLUMN_MAX : Nat) :
    Nat → Nat → row_t α → List Char → Nat × row_t α
  | _, N, st, [] => (N, st)
  | m, N, st, c :: s =>
    if c = NUL then (N, st)
    else if is_sep mk c then TEXT_GetRow_loop A mk READ_COLUMN_MAX 0 N st s
    else if m = 0 then
      let st1 := st.put N (TEXT_GetRow_cell A mk (st.hint N) (c :: s))
      let N1 := N + 1
      if N1 ≥ READ_COLUMN_MAX then (N1, st1)
      else TEXT_GetRow_loop A mk READ_COLUMN_MAX 1 N1 st1 s
    else TEXT_GetRow_loop A mk READ_COLUMN_MAX m N st s

/-- The function `TEXT_GetRow` on the line buffer `buf`: the returned count `N`
and the arrays it leaves. -/
def TEXT_GetRow {α : Type} (A : fval_ops α) (mk : markup_t) (READ_COLUMN_MAX : Nat)
    (st : row_t α) (buf : List Char) : Nat × row_t α :=
  TEXT_GetRow_loop A mk READ_COLUMN_MAX 0 0 st buf

/-! ## The reader state and the sources -/

/-- The bound `PLOT_DATASET_MAX` of `plot.h`. -/
def PLOT_DATASET_MAX : Nat := 10

/-- Modelled from the spec: the payload shapes `FORMAT_*` of `read.h`, which is
absent; the formats are the ones that `read.c` names. -/
inductive format_t where
  | FORMAT_NONE
  | FORMAT_PLAIN_TEXT
  | FORMAT_BINARY_FLOAT
  | FORMAT_BINARY_DOUBLE
  | FORMAT_BINARY_LEGACY_V1
  | FORMAT_BINARY_LEGACY_V2
deriving DecidableEq, Repr

open format_t

/-- A non-NULL `FILE *`: the standard input or a file opened by name. -/
inductive file_t where
  | stdin
  | file (id : Nat)
deriving DecidableEq, Repr

/-- The buffer `rd->data[dN].buf` under the three views the reader takes of it:
a C string, an array of `float` and an array of `double`, each element
already converted to `fval_t`. -/
structure buf_t (α : Type) where
  text : List Char
  f32 : Nat → α
  f64 : Nat → α

/-- Modelled from the spec: the result of one read of the external row source of
`async.h`, which is absent: a row (the filled buffer), end of stream, or
nothing for now. -/
inductive async_ret (α : Type) where
  | ASYNC_OK (b : buf_t α)
  | ASYNC_END_OF_FILE
  | ASYNC_PENDING

open async_ret

/-- Modelled from the spec: an open source `async_t *` is the script of the
results its successive reads will give; a script that has run out gives
nothing for now. -/
abbrev async_t (α : Type) := List (async_ret α)

/-- Modelled from the spec: the entry `rd->data[dN]` of the reader, declared in
`read.h`, which is absent, with the fields that the pump of `read.c` uses. -/
structure data_t (α : Type) where
  format : format_t
  column_N : Int
  length_N : Int
  line_N : Int
  follow : Int
  fd : Option file_t
  afd : Option (async_t α)
  buf : buf_t α
  row : Nat → α
  hint : Nat → data_hint

/-- Modelled from the spec: the type `read_t` of `read.h`, which is absent, with
the fields that the pump of `read.c` uses. -/
structure read_t (α : Type) where
  data : Nat → data_t α
  files_N : Int
  mk_text : markup_t

/-- Modelled from the spec: the functions of `plot.c`, which is absent (`plot.h`
declares them), that the pump calls, over a store `σ` that stands for `plot_t`;
`column_N` reads `pl->data[dN].column_N`. -/
structure plot_api (σ α : Type) where
  column_N : σ → Nat → Int
  plotDataInsert : σ → Nat → (Nat → α) → σ
  plotDataSpaceLeft : σ → Nat → Int
  plotDataGrowUp : σ → Nat → σ
  plotDataSubtract : σ → Nat → Int → σ

/-- The record of a pump run: the calls into `plot.c` in order, and a mark
`row dN s` after each read that returned a row, with the store `s` at that point. -/
inductive pump_event (σ α : Type) where
  | insert (dN : Nat) (row : Nat → α)
  | row (dN : Nat) (s : σ)
  | grow (dN : Nat)
  | subtract (dN : Nat) (sN : Int)

/-- The reader, the plot store it points to, and the record of the run. -/
structure pump_t (σ α : Type) where
  rd : read_t α
  pl : σ
  trace : List (pump_event σ α)

/-- The assignment `rd->data[dN] = d`. -/
def pump_t.set_data {σ α : Type} (m : pump_t σ α) (dN : Nat) (d : data_t α) : pump_t σ α :=
  { m with rd := { m.rd with data := Function.update m.rd.data dN d } }

/-- The call `plotDataInsert(rd->pl, dN, row)`. -/
def pump_t.insert {σ α : Type} (P : plot_api σ α) (m : pump_t σ α) (dN : Nat)
    (row : Nat → α) : pump_t σ α :=
  { m with pl := P.plotDataInsert m.pl dN row, trace := m.trace ++ [pump_event.insert dN row] }

/-- Modelled from the spec: one read `async_gets` or `async_read` of a source:
its result, the source after it and the buffer after it. A NULL source and a
script that has run out give nothing for now and leave the buffer. -/
def async_read {α : Type} (afd : Option (async_t α)) (buf : buf_t α) :
    async_ret α × Option (async_t α) × buf_t α :=
  match afd with
  | none => (ASYNC_PENDING, none, buf)
  | some [] => (ASYNC_PENDING, some [], buf)
  | some (ASYNC_OK b :: es) => (ASYNC_OK b, some es, b)
  | some (r :: es) => (r, some es, buf)

/-- The function `readClose`. -/
def readClose {σ α : Type} (m : pump_t σ α) (dN : Nat) : pump_t σ α :=
  let d := m.rd.data dN
  let m1 := m.set_data dN { d with fd := none, afd := none }
  { m1 with rd := { m1.rd with files_N := m1.rd.files_N - 1 } }

/-- The function `TEXT_Read`. -/
def TEXT_Read {σ α : Type} (A : fval_ops α) (P : plot_api σ α) (READ_COLUMN_MAX : Nat)
    (m : pump_t σ α) (dN : Nat) : Int × pump_t σ α :=
  let d := m.rd.data dN
  let r := async_read d.afd d.buf
  let m1 := m.set_data dN { d with afd := r.2.1, buf := r.2.2 }
  match r.1 with
  | ASYNC_OK _ =>
    let g := TEXT_GetRow A m1.rd.mk_text READ_COLUMN_MAX
      { row := (m1.rd.data dN).row, hint := (m1.rd.data dN).hint } (m1.rd.data dN).buf.text
    let m2 := m1.set_data dN { m1.rd.data dN with row := g.2.row, hint := g.2.hint }
    let m3 := if (g.1 : Int) = P.column_N m2.pl dN then m2.insert P dN (m2.rd.data dN).row else m2
    (1, m3)
  | ASYNC_END_OF_FILE => (0, readClose m1 dN)
  | ASYNC_PENDING => (0, m1)

/-- The loop `for (N = 0; N < cN; ++N) rd->data[dN].row[N] = (fval_t) fb[N];`. -/
def row_fill {α : Type} (cN : Int) (fb : Nat → α) (row : Nat → α) : Nat → α :=
  fun N => if (N : Int) < cN then fb N else row N

/-- The function `FLOAT_Read`. -/
def FLOAT_Read {σ α : Type} (P : plot_api σ α) (m : pump_t σ α) (dN : Nat) :
    Int × pump_t σ α :=
  let d := m.rd.data dN
  let cN := P.column_N m.pl dN
  let r := async_read d.afd d.buf
  let m1 := m.set_data dN { d with afd := r.2.1, buf := r.2.2 }
  match r.1 with
  | ASYNC_OK _ =>
    let d1 := m1.rd.data dN
    let m2 := m1.set_data dN { d1 with row := row_fill cN d1.buf.f32 d1.row }
    (1, m2.insert P dN (m2.rd.data dN).row)
  | ASYNC_END_OF_FILE => (0, readClose m1 dN)
  | ASYNC_PENDING => (0, m1)

/-- The function `DOUBLE_Read`. -/
def DOUBLE_Read {σ α : Type} (P : plot_api σ α) (m : pump_t σ α) (dN : Nat) :
    Int × pump_t σ α :=
  let d := m.rd.data dN
  let cN := P.column_N m.pl dN
  let r := async_read d.afd d.buf
  let m1 := m.set_data dN { d with afd := r.2.1, buf := r.2.2 }
  match r.1 with
  | ASYNC_OK _ =>
    let d1 := m1.rd.data dN
    let m2 := m1.set_data dN { d1 with row := row_fill cN d1.buf.f64 d1.row }
    (1, m2.insert P dN (m2.rd.data dN).row)
  | ASYNC_END_OF_FILE => (0, readClose m1 dN)
  | ASYNC_PENDING => (0, m1)

/-! ## The pump `readUpdate` -/

/-- The test `if (X_Read(rd, dN) != 0) { ulN += 1; } else { break; }` on the
result `r` of a read: `none` where the loop breaks, the new `ulN` otherwise;
a row that was read is marked in the record. -/
def readUpdate_count {σ α : Type} (r : Int × pump_t σ α) (dN : Nat) (ulN : Int) :
    pump_t σ α × Option Int :=
  if r.1 ≠ 0 then ({ r.2 with trace := r.2.trace ++ [pump_event.row dN r.2.pl] }, some (ulN + 1))
  else (r.2, none)

/-- The read of one row in the body of the `do` loop of `readUpdate`: `none`
where the loop breaks after the read, and the new `ulN` otherwise. A format
without a branch is not read. -/
def readUpdate_read {σ α : Type} (A : fval_ops α) (P : plot_api σ α) (READ_COLUMN_MAX : Nat)
    (m : pump_t σ α) (dN : Nat) (ulN : Int) : pump_t σ α × Option Int :=
  if (m.rd.data dN).format = FORMAT_PLAIN_TEXT then
    readUpdate_count (TEXT_Read A P READ_COLUMN_MAX m dN) dN ulN
  else if (m.rd.data dN).format = FORMAT_BINARY_FLOAT then
    readUpdate_count (FLOAT_Read P m dN) dN ulN
  else if (m.rd.data dN).format = FORMAT_BINARY_DOUBLE then
    readUpdate_count (DOUBLE_Read P m dN) dN ulN
  else (m, some ulN)

/-- The rest of the body after a read that did not break:
`rd->data[dN].line_N++` and the growth of the dataset. -/
def readUpdate_grow {σ α : Type} (P : plot_api σ α) (m : pump_t σ α) (dN : Nat) : pump_t σ α :=
  let d := m.rd.data dN
  let m1 := m.set_data dN { d with line_N := d.line_N + 1 }
  if (m1.rd.data dN).length_N < 1 ∧ P.plotDataSpaceLeft m1.pl dN < 10 then
    { m1 with pl := P.plotDataGrowUp m1.pl dN, trace := m1.trace ++ [pump_event.grow dN] }
  else m1

/-- The `do { ... } while (SDL_GetTicks() < tTOP)` loop of `readUpdate` for
dataset `dN`. The list holds the readings the clock gives at the successive
tests of the loop, as 32-bit unsigned numbers; the loop is left where the
readings run out. -/
def readUpdate_loop {σ α : Type} (A : fval_ops α) (P : plot_api σ α) (READ_COLUMN_MAX : Nat)
    (dN : Nat) (tTOP : Nat) : List Nat → pump_t σ α → Int → pump_t σ α × Int × List Nat
  | [], m, ulN =>
    match readUpdate_read A P READ_COLUMN_MAX m dN ulN with
    | (m1, none) => (m1, ulN, [])
    | (m1, some u) => (readUpdate_grow P m1 dN, u, [])
  | t :: ts, m, ulN =>
    match readUpdate_read A P READ_COLUMN_MAX m dN ulN with
    | (m1, none) => (m1, ulN, t :: ts)
    | (m1, some u) =>
      if t % 4294967296 < tTOP then
        readUpdate_loop A P READ_COLUMN_MAX dN tTOP ts (readUpdate_grow P m1 dN) u
      else (readUpdate_grow P m1 dN, u, ts)

/-- The body of the `for (dN = 0; dN < PLOT_DATASET_MAX; ++dN)` loop of
`readUpdate`, on the state, the readings of the clock that are left, `file_N`
and `ulN`. -/
def readUpdate_dataset {σ α : Type} (A : fval_ops α) (P : plot_api σ α) (READ_COLUMN_MAX : Nat)
    (acc : pump_t σ α × List Nat × Int × Int) (dN : Nat) : pump_t σ α × List Nat × Int × Int :=
  let m := acc.1
  if (m.rd.data dN).fd ≠ none then
    let tTOP := (acc.2.1.headD 0 + 20) % 4294967296
    let r := readUpdate_loop A P READ_COLUMN_MAX dN tTOP acc.2.1.tail m acc.2.2.2
    let m1 := r.1
    ({ m1 with pl := P.plotDataSubtract m1.pl dN (-1),
               trace := m1.trace ++ [pump_event.subtract dN (-1)] },
      r.2.2, acc.2.2.1 + 1, r.2.1)
  else acc

/-- The function `readUpdate`, given the readings of the clock during the
call: the returned `ulN` and the state it leaves. -/
def readUpdate {σ α : Type} (A : fval_ops α) (P : plot_api σ α) (READ_COLUMN_MAX : Nat)
    (ticks : List Nat) (m : pump_t σ α) : Int × pump_t σ α :=
  let r := (List.range PLOT_DATASET_MAX).foldl (readUpdate_dataset A P READ_COLUMN_MAX)
    (m, ticks, 0, 0)
  let m1 := r.1
  let file_N := r.2.2.1
  (r.2.2.2, { m1 with rd := { m1.rd with
      files_N := if file_N < m1.rd.files_N then file_N else m1.rd.files_N } })

/-! ## Reference definitions, written from the specification -/

/-- The value of a character as a digit: its place among `0` to `9` and `a` to
`f`, in either letter case. -/
def digit_val (c : Char) : Option Nat :=
  if "0123456789abcdef".toList.indexOf c < 16 then some ("0123456789abcdef".toList.indexOf c)
  else if "0123456789ABCDEF".toList.indexOf c < 16 then
    some ("0123456789ABCDEF".toList.indexOf c)
  else none

/-- A digit of base `b`. -/
def is_digit_of (b : Nat) (c : Char) : Bool :=
  match digit_val c with
  | some d => decide (d < b)
  | none => false

/-- The number a string of digits denotes in base `b`. -/
def digits_val (b : Nat) (ds : List Char) : Nat :=
  ds.foldl (fun a c => b * a + (digit_val c).getD 0) 0

/-- The reference hexadecimal parser: an optional `0x`, 1 to 8 hexadecimal
digits and a terminator; the number the digits denote and the rest. -/
def htoi_ref (mk : markup_t) (s : List Char) : Option (Nat × List Char) :=
  let t := if s.take 2 = ['0', 'x'] then s.drop 2 else s
  let ds := t.takeWhile (is_digit_of 16)
  let r := t.dropWhile (is_digit_of 16)
  if 1 ≤ ds.length ∧ ds.length ≤ 8 ∧ is_term mk (peek r) = true then
    some (digits_val 16 ds, r)
  else none

/-- The reference octal parser: 1 to 11 octal digits and a terminator; the
number the digits denote and the rest. -/
def otoi_ref (mk : markup_t) (s : List Char) : Option (Nat × List Char) :=
  let ds := s.takeWhile (is_digit_of 8)
  let r := s.dropWhile (is_digit_of 8)
  if 1 ≤ ds.length ∧ ds.length ≤ 11 ∧ is_term mk (peek r) = true then
    some (digits_val 8 ds, r)
  else none

/-- The exponent an SI suffix stands for. -/
def si_exponent : Char → Option Int
  | 'n' => some (-9) | 'u' => some (-6) | 'm' => some (-3)
  | 'K' => some 3 | 'M' => some 6 | 'G' => some 9
  | _ => none

/-- The suffix of the reference decimal parser: the exponent and the rest;
`e` or `E` is followed by a signed integer that `stoi` accepts, and no suffix
is the exponent 0. -/
def suffix_ref (mk : markup_t) (s : List Char) : Option (Int × List Char) :=
  match si_exponent (peek s) with
  | some e => some (e, s.tail)
  | none => if peek s = 'e' ∨ peek s = 'E' then stoi mk s.tail else some (0, s)

/-- The reference decimal parser: an optional sign, integer digits, optionally
the delimiter and fraction digits, at least one digit in total, an optional
suffix and a terminator; the value is
`sign * (all mantissa digits) * 10 ^ (exponent - number of fraction digits)`. -/
def stod_ref (mk : markup_t) (s : List Char) : Option (ℚ × List Char) :=
  let sign : ℚ := if peek s = '-' then -1 else 1
  let s1 := if peek s = '-' ∨ peek s = '+' then s.tail else s
  let ip := s1.takeWhile (is_digit_of 10)
  let s2 := s1.dropWhile (is_digit_of 10)
  let fp := if peek s2 = mk.delim then s2.tail.takeWhile (is_digit_of 10) else []
  let s3 := if peek s2 = mk.delim then s2.tail.dropWhile (is_digit_of 10) else s2
  if ip.length + fp.length = 0 then none
  else
    match suffix_ref mk s3 with
    | none => none
    | some (e, r) =>
      if is_term mk (peek r) then
        some (sign * (digits_val 10 (ip ++ fp) : ℚ) * (10 : ℚ) ^ (e - (fp.length : Int)), r)
      else none

/-- The SI suffixes with the exponent notation each one abbreviates. -/
def si_table : List (Char × List Char) :=
  [('n', ['e', '-', '9']), ('u', ['e', '-', '6']), ('m', ['e', '-', '3']),
   ('K', ['e', '3']), ('M', ['e', '6']), ('G', ['e', '9'])]

/-- A markup in which no digit, SI suffix or exponent letter is the delimiter
or a terminator. -/
def mk_plain (mk : markup_t) : Bool :=
  "0123456789numKMGe".toList.all (fun c => !is_term mk c && c != mk.delim)

/-- A continuation `z` of a string whose first byte no parser consumes before
its suffix step: it is no sign, no digit, no terminator and not the delimiter. -/
def inert (mk : markup_t) (z : List Char) : Prop :=
  peek z ≠ '-' ∧ peek z ≠ '+' ∧ is_dec (peek z) = false ∧ is_term mk (peek z) = false
    ∧ peek z ≠ mk.delim

/-- The C string held by a buffer: the bytes before the first NUL. -/
def cstr (s : List Char) : List Char := s.takeWhile (fun c => c != NUL)

/-- The tokens of a buffer that follows a byte which is a terminator (`prev`)
or is not: the maximal runs of bytes that are not separators, a run that
continues from before the buffer left out. Each token is given as the code
sees it, by the tail of the buffer that starts at its first byte: that byte is
no terminator, and it is the first byte or follows a terminator. -/
def tokens_from (mk : markup_t) (prev : Bool) (line : List Char) : List (List Char) :=
  (((prev :: (cstr line).map (is_term mk)).zip line.tails).filter
    (fun p => p.1 && !is_term mk (peek p.2))).map Prod.snd

/-- The tokens of a line: the maximal runs of bytes that are not separators. -/
def line_tokens (mk : markup_t) (line : List Char) : List (List Char) :=
  tokens_from mk true line

/-- The value a token parses to under a column hint: as a decimal number, in
base 16 or in base 8 for the hints FLOAT, HEX and OCT, and for the hint NONE as
a decimal number or else in base 16; not-a-number when the token is rejected. -/
def parse_under {α : Type} (A : fval_ops α) (mk : markup_t) : data_hint → List Char → α
  | DATA_HINT_FLOAT, t => ((stod A mk t).map Prod.fst).getD A.nan
  | DATA_HINT_HEX, t => ((htoi mk t).map (fun p => A.ofInt p.1)).getD A.nan
  | DATA_HINT_OCT, t => ((otoi mk t).map (fun p => A.ofInt p.1)).getD A.nan
  | DATA_HINT_NONE, t =>
    match stod A mk t with
    | some p => p.1
    | none => ((htoi mk t).map (fun p => A.ofInt p.1)).getD A.nan

/-- A line of `n` one-digit tokens. -/
def ones_line : Nat → List Char
  | 0 => []
  | n + 1 => '1' :: ' ' :: ones_line n

/-- The growth policy on the record of a run: each `grow dN` stands right after
a mark `row dN s` with no length bound on `dN` and less than 10 rows of space
left in `s`, and each such mark is followed by `grow dN`. -/
def growth_policy {σ α : Type} (P : plot_api σ α) (length_N : Nat → Int) :
    List (pump_event σ α) → Prop
  | [] => True
  | [pump_event.row d s] => ¬ (length_N d < 1 ∧ P.plotDataSpaceLeft s d < 10)
  | pump_event.row d s :: pump_event.grow d1 :: t =>
    d1 = d ∧ (length_N d < 1 ∧ P.plotDataSpaceLeft s d < 10) ∧ growth_policy P length_N t
  | pump_event.row d s :: e :: t =>
    ¬ (length_N d < 1 ∧ P.plotDataSpaceLeft s d < 10) ∧ growth_policy P length_N (e :: t)
  | pump_event.grow _ :: _ => False
  | _ :: t => growth_policy P length_N t

/-- A segment of the record of a run that keeps the growth policy wherever it
is put: it keeps the policy, does not start with a growth, and grows only
datasets without a length bound. -/
def segment_ok {σ α : Type} (P : plot_api σ α) (length_N : Nat → Int)
    (t : List (pump_event σ α)) : Prop :=
  growth_policy P length_N t
  ∧ (∀ d, t.head? ≠ some (pump_event.grow d))
  ∧ (∀ d, pump_event.grow d ∈ t → length_N d < 1)

/-- The kind of an entry of the record: 0 for an insert, 1 for the mark of a
row, 2 for a growth, 3 for a recomputation of the derived columns. -/
def pump_event.kind {σ α : Type} : pump_event σ α → Nat
  | pump_event.insert _ _ => 0
  | pump_event.row _ _ => 1
  | pump_event.grow _ => 2
  | pump_event.subtract _ _ => 3

/-- The formats that `readUpdate` reads outside of Windows. -/
def format_read (f : format_t) : Prop :=
  f = FORMAT_PLAIN_TEXT ∨ f = FORMAT_BINARY_FLOAT ∨ f = FORMAT_BINARY_DOUBLE

/-- The dataset an entry of the record is about. -/
def pump_event.dataset {σ α : Type} : pump_event σ α → Nat
  | pump_event.insert dN _ => dN
  | pump_event.row dN _ => dN
  | pump_event.grow dN => dN
  | pump_event.subtract dN _ => dN

/-- A step from `m` to `m1` that works on dataset `dN` alone: it adds the
entries `t`, all about `dN`, to the record, leaves the entries of the other
datasets, the markup, and the length bound and the format of `dN`, and it
opens no file. -/
def effect_on {σ α : Type} (m m1 : pump_t σ α) (dN : Nat) (t : List (pump_event σ α)) : Prop :=
  m1.trace = m.trace ++ t
  ∧ (∀ j, j ≠ dN → m1.rd.data j = m.rd.data j)
  ∧ (m1.rd.data dN).length_N = (m.rd.data dN).length_N
  ∧ (m1.rd.data dN).format = (m.rd.data dN).format
  ∧ m1.rd.mk_text = m.rd.mk_text
  ∧ (∀ e ∈ t, e.dataset = dN)
  ∧ ((m1.rd.data dN).fd = (m.rd.data dN).fd ∨ (m1.rd.data dN).fd = none)

/-- The state `m1` and the entries `t` added to the record on the way from `m`
through whole turns of the dataset loop of `readUpdate`: no length bound or
format has changed and no file was opened; only datasets without a length
bound were grown; the entries keep the growth policy when every open dataset
of `m` has a format that is read; a dataset that is closed in `m` is left as
it was and has no entry. -/
def run_inv {σ α : Type} (P : plot_api σ α) (m m1 : pump_t σ α)
    (t : List (pump_event σ α)) : Prop :=
  m1.trace = m.trace ++ t
  ∧ (∀ d, (m1.rd.data d).length_N = (m.rd.data d).length_N
      ∧ (m1.rd.data d).format = (m.rd.data d).format
      ∧ ((m1.rd.data d).fd ≠ none → (m.rd.data d).fd ≠ none))
  ∧ (∀ d, pump_event.grow d ∈ t → (m.rd.data d).length_N < 1)
  ∧ ((∀ d, (m.rd.data d).fd ≠ none → format_read (m.rd.data d).format) →
      segment_ok P (fun d => (m.rd.data d).length_N) t)
  ∧ (∀ d, (m.rd.data d).fd = none → m1.rd.data d = m.rd.data d ∧ ∀ e ∈ t, e.dataset ≠ d)

/-! ## A small plot store for concrete runs -/

/-- A store that only counts its rows: 2 columns a dataset, room for 12 rows,
and 8 more rows of room at each growth. -/
def demo_api : plot_api (Nat × Nat) fexact :=
  { column_N := fun _ _ => 2
    plotDataInsert := fun s _ _ => (s.1 + 1, s.2)
    plotDataSpaceLeft := fun s _ => (s.2 : Int) - (s.1 : Int)
    plotDataGrowUp := fun s _ => (s.1, s.2 + 8)
    plotDataSubtract := fun s _ _ => s }

/-- A buffer that holds a line of text. -/
def demo_buf (line : List Char) : buf_t fexact :=
  { text := line, f32 := fun _ => fexact.num 0, f64 := fun _ => fexact.num 0 }

/-- A dataset entry of text format, open on a source with the script `src`,
without a length bound when `length_N` is 0. -/
def demo_data (length_N : Int) (src : Option (async_t fexact)) : data_t fexact :=
  { format := FORMAT_PLAIN_TEXT, column_N := 2, length_N := length_N, line_N := 1, follow := 0,
    fd := src.map (fun _ => file_t.file 0), afd := src, buf := demo_buf [],
    row := fun _ => fexact.num 0, hint := fun _ => DATA_HINT_NONE }

/-- A reader whose dataset 0 is `d` and whose other datasets are closed, on a
store with `rows` rows and room for 12. -/
def demo_pump (d : data_t fexact) (rows : Nat) : pump_t (Nat × Nat) fexact :=
  { rd := { data := fun dN => if dN = 0 then d else demo_data 0 none,
            files_N := if d.fd = none then 0 else 1, mk_text := mk_default },
    pl := (rows, 12), trace := [] }

/-! ## The count of the rows of a tick -/

/-- The number of marks of a row in a segment of the record of a run: the reads
that returned a row. -/
def rows_read {σ α : Type} (t : List (pump_event σ α)) : Nat :=
  t.countP (fun e => e.kind == 1)

/-- The number of marks of a row of dataset `d` in a segment of the record. -/
def rows_of {σ α : Type} (d : Nat) (t : List (pump_event σ α)) : Nat :=
  t.countP (fun e => e.kind == 1 && e.dataset == d)

/-- The state of the dataset loop of `readUpdate` after whole turns, with the
entries `t` added to the record since the state `m` at the call: `ulN` is the
number of rows read, no format has changed and no file was opened, each dataset
has counted as many lines as rows of it were read, and the entries are about
datasets of the table that were open at the call. -/
def count_inv {σ α : Type} (m : pump_t σ α) (acc : pump_t σ α × List Nat × Int × Int)
    (t : List (pump_event σ α)) : Prop :=
  acc.1.trace = m.trace ++ t
  ∧ acc.2.2.2 = rows_read t
  ∧ (∀ d, (acc.1.rd.data d).format = (m.rd.data d).format
      ∧ ((acc.1.rd.data d).fd ≠ none → (m.rd.data d).fd ≠ none))
  ∧ (∀ d, (acc.1.rd.data d).line_N = (m.rd.data d).line_N + rows_of d t)
  ∧ (∀ e ∈ t, e.dataset < PLOT_DATASET_MAX ∧ (m.rd.data e.dataset).fd ≠ none)

open data_hint format_t async_ret

/-! ## The plot as `read.c` sees it -/

/-- The bound `PLOT_SUBTRACT` of `plot.h`. -/
def PLOT_SUBTRACT : Int := 10

/-- The tag `SUBTRACT_SCALE` of `plot.h`. -/
def SUBTRACT_SCALE : Int := 2

/-- The tag `SUBTRACT_BINARY_SUBTRACTION` of `plot.h`. -/
def SUBTRACT_BINARY_SUBTRACTION : Int := 3

/-- The entry `pl->group[gN]` of `plot.h`, without its label. -/
structure group_t (α : Type) where
  op_time_unwrap : Int
  op_scale : Int
  scale : α
  offset : α

/-- The fields of `plot_t` of `plot.h` that `read.c` reads and writes itself:
`pl->data[dN].column_N`, the table `pl->data[dN].map` (`none` for NULL, indexed
by the logical column), `pl->group[gN]` and `pl->lz4_compress`. The part `rest`
stands for all the other fields, which only `plot.c` works on. -/
structure plot_t (σ α : Type) where
  rest : σ
  column_N : Nat → Int
  map : Nat → Option (Int → Int)
  group : Int → group_t α
  lz4_compress : Int

/-- The assignment `pl->data[dN].map[cN] = gN`; on a NULL table nothing is stored. -/
def plot_t.set_map {σ α : Type} (pl : plot_t σ α) (dN : Nat) (cN gN : Int) : plot_t σ α :=
  { pl with map := Function.update pl.map dN ((pl.map dN).map (fun f => Function.update f cN gN)) }

/-- A request for a derived column, as `read.c` makes it, with the value `ret`
it returned: the column, or -1. -/
inductive sub_call (α : Type) where
  | TimeUnwrap (dN : Nat) (cN : Int) (ret : Int)
  | Scale (dN : Nat) (cN : Int) (scale offset : α) (ret : Int)
  | Binary (dN : Nat) (opSUB cN_1 cN_2 : Int) (ret : Int)

/-- The value a request returned. -/
def sub_call.ret {α : Type} : sub_call α → Int
  | sub_call.TimeUnwrap _ _ ret => ret
  | sub_call.Scale _ _ _ _ ret => ret
  | sub_call.Binary _ _ _ _ ret => ret

/-- The column a request derives from (the first one, for a binary operation). -/
def sub_call.source {α : Type} : sub_call α → Int
  | sub_call.TimeUnwrap _ cN _ => cN
  | sub_call.Scale _ cN _ _ _ => cN
  | sub_call.Binary _ _ cN_1 _ _ => cN_1

/-- Modelled from the spec: the functions of `plot.c`, which is absent (`plot.h`
declares them), that open a dataset and make derived columns. Each request for
a derived column returns the column, or -1 when no slot is left, and the plot
it leaves. -/
structure plot_ext (σ α : Type) where
  plotDataAlloc : plot_t σ α → Nat → Int → Int → plot_t σ α
  plotGetSubtractTimeUnwrap : plot_t σ α → Nat → Int → Int × plot_t σ α
  plotGetSubtractScale : plot_t σ α → Nat → Int → α → α → Int × plot_t σ α
  plotGetSubtractBinary : plot_t σ α → Nat → Int → Int → Int → Int × plot_t σ α

/-- The function `timeDataMap`: the returned column, the plot it leaves, and the
requests for derived columns it made. -/
def timeDataMap {σ α : Type} (X : plot_ext σ α) (pl : plot_t σ α) (dN cN : Int) :
    Int × plot_t σ α × List (sub_call α) :=
  if dN < 0 ∨ dN ≥ PLOT_DATASET_MAX then (cN, pl, [])
  else if cN < -1 ∨ cN ≥ pl.column_N dN.toNat + PLOT_SUBTRACT then (cN, pl, [])
  else
    match pl.map dN.toNat with
    | none => (cN, pl, [])
    | some map =>
      let gN := map cN
      if gN ≠ -1 ∧ (pl.group gN).op_time_unwrap ≠ 0 then
        let r := X.plotGetSubtractTimeUnwrap pl dN.toNat cN
        if r.1 ≠ -1 then (r.1, r.2.set_map dN.toNat r.1 gN, [sub_call.TimeUnwrap dN.toNat cN r.1])
        else (cN, r.2, [sub_call.TimeUnwrap dN.toNat cN r.1])
      else (cN, pl, [])

/-- The fields of `fig_ops_t` that `scaleDataMap` reads. -/
structure fig_ops_t (α : Type) where
  busy : Int
  column_2 : Int
  scale : α
  offset : α

/-- The first part of `scaleDataMap`, after its checks: the scale of the group
`gN` of the column. -/
def scaleDataMap_group {σ α : Type} (X : plot_ext σ α) (pl : plot_t σ α) (dN : Nat) (cN gN : Int) :
    Int × plot_t σ α × List (sub_call α) :=
  if gN ≠ -1 ∧ (pl.group gN).op_scale ≠ 0 then
    let r := X.plotGetSubtractScale pl dN cN (pl.group gN).scale (pl.group gN).offset
    if r.1 ≠ -1 then
      (r.1, r.2.set_map dN r.1 gN,
        [sub_call.Scale dN cN (pl.group gN).scale (pl.group gN).offset r.1])
    else (cN, r.2, [sub_call.Scale dN cN (pl.group gN).scale (pl.group gN).offset r.1])
  else (cN, pl, [])

/-- The second part of `scaleDataMap`: the operation `ops` of the figure. -/
def scaleDataMap_ops {σ α : Type} (X : plot_ext σ α) (pl : plot_t σ α) (dN : Nat) (cN : Int)
    (ops : fig_ops_t α) : Int × plot_t σ α × List (sub_call α) :=
  if ops.busy = SUBTRACT_SCALE then
    let r := X.plotGetSubtractScale pl dN cN ops.scale ops.offset
    (if r.1 ≠ -1 then r.1 else cN, r.2, [sub_call.Scale dN cN ops.scale ops.offset r.1])
  else if ops.busy = SUBTRACT_BINARY_SUBTRACTION then
    let b := X.plotGetSubtractBinary pl dN ops.busy cN ops.column_2
    if b.1 ≠ -1 then
      let r := X.plotGetSubtractScale b.2 dN b.1 ops.scale ops.offset
      (if r.1 ≠ -1 then r.1 else b.1, r.2,
        [sub_call.Binary dN ops.busy cN ops.column_2 b.1,
          sub_call.Scale dN b.1 ops.scale ops.offset r.1])
    else (cN, b.2, [sub_call.Binary dN ops.busy cN ops.column_2 b.1])
  else (cN, pl, [])

/-- The function `scaleDataMap`: the returned column, the plot it leaves, and
the requests for derived columns it made. -/
def scaleDataMap {σ α : Type} (X : plot_ext σ α) (pl : plot_t σ α) (dN cN : Int)
    (ops : fig_ops_t α) : Int × plot_t σ α × List (sub_call α) :=
  if dN < 0 ∨ dN ≥ PLOT_DATASET_MAX then (cN, pl, [])
  else if cN < -1 ∨ cN ≥ pl.column_N dN.toNat + PLOT_SUBTRACT then (cN, pl, [])
  else
    match pl.map dN.toNat with
    | none => (cN, pl, [])
    | some map =>
      let g := scaleDataMap_group X pl dN.toNat cN (map cN)
      let o := scaleDataMap_ops X g.2.1 dN.toNat g.1 ops
      (o.1, o.2.1, g.2.2 ++ o.2.2)

/-- Modelled from the spec: slot exhaustion leaves the existing data intact. A
request for a derived column that returns -1 leaves the tables
`pl->data[dN].map` as they were. -/
def fails_clean {σ α : Type} (X : plot_ext σ α) : Prop :=
  (∀ pl dN cN, (X.plotGetSubtractTimeUnwrap pl dN cN).1 = -1 →
    (X.plotGetSubtractTimeUnwrap pl dN cN).2.map = pl.map)
  ∧ (∀ pl dN cN sc off, (X.plotGetSubtractScale pl dN cN sc off).1 = -1 →
    (X.plotGetSubtractScale pl dN cN sc off).2.map = pl.map)
  ∧ (∀ pl dN op c1 c2, (X.plotGetSubtractBinary pl dN op c1 c2).1 = -1 →
    (X.plotGetSubtractBinary pl dN op c1 c2).2.map = pl.map)

/-- The column at hand after the requests `log`, starting from `cN`: the last
column that was made, or `cN` when every request failed. -/
def last_made {α : Type} (cN : Int) (log : List (sub_call α)) : Int :=
  log.foldl (fun c e => if e.ret ≠ -1 then e.ret else c) cN

/-- Each request of `log` derives from the column at hand when it is made,
starting from `cN`. -/
def derives_in_turn {α : Type} : Int → List (sub_call α) → Prop
  | _, [] => True
  | cN, e :: log => e.source = cN ∧ derives_in_turn (if e.ret ≠ -1 then e.ret else cN) log

/-- A plot store for concrete runs: `rest` counts the derived columns made, and
a request is served while less than `PLOT_SUBTRACT` are made. -/
def demo_ext : plot_ext Nat fexact :=
  { plotDataAlloc := fun pl _ _ _ => pl
    plotGetSubtractTimeUnwrap := fun pl dN _ =>
      if (pl.rest : Int) < PLOT_SUBTRACT then (pl.column_N dN + pl.rest, { pl with rest := pl.rest + 1 })
      else (-1, pl)
    plotGetSubtractScale := fun pl dN _ _ _ =>
      if (pl.rest : Int) < PLOT_SUBTRACT then (pl.column_N dN + pl.rest, { pl with rest := pl.rest + 1 })
      else (-1, pl)
    plotGetSubtractBinary := fun pl dN _ _ _ =>
      if (pl.rest : Int) < PLOT_SUBTRACT then (pl.column_N dN + pl.rest, { pl with rest := pl.rest + 1 })
      else (-1, pl) }

/-- A plot with `made` derived columns made, whose datasets have 3 columns, all
in group 0, which is scaled and unwrapped. -/
def demo_plot (made : Nat) : plot_t Nat fexact :=
  { rest := made
    column_N := fun _ => 3
    map := fun _ => some (fun _ => 0)
    group := fun _ => { op_time_unwrap := 1, op_scale := 1, scale := fexact.num 2, offset := fexact.num 0 }
    lz4_compress := 0 }

open data_hint format_t async_ret

/-! ## The reader beyond the pump: pages, labels and selections -/

/-- Modelled from the spec: the constants of `read.h`, which is absent, that
`read.c` names, and the size of the buffer `rd->data[0].buf`; they are
parameters of the model. -/
structure read_h where
  READ_COLUMN_MAX : Nat
  READ_TOKEN_MAX : Nat
  READ_TEXT_HEADER_MAX : Nat
  READ_PAGE_MAX : Nat
  sizeof_buf : Nat

/-- Modelled from the spec: the entry `rd->page[pN].fig[fN]` of `read.h`, which
is absent, with the fields that `readMakePages` and the `figure` command set. -/
structure fig_t where
  busy : Int
  drawing : Int
  dN : Int
  cX : Int
  cY : Int
  aX : Int
  aY : Int
  label : List Char
deriving DecidableEq

/-- Modelled from the spec: the entry `rd->page[pN]` of `read.h`, which is
absent: the mark `busy` (0 free, 1 from the configuration, 2 made by
`readMakePages`), the title, the figures and the labels of the axes. -/
structure page_t where
  busy : Int
  title : List Char
  fig : Nat → fig_t
  ax_label : Nat → List Char

/-- A call made while a source is opened: `unified_fopen` of a file,
`plotDataAlloc` and `plotDataInsert`. -/
inductive open_call (α : Type) where
  | fopen (file : List Char)
  | plotDataAlloc (dN : Nat) (cN lN : Int)
  | plotDataInsert (dN : Nat) (row : Nat → α)

/-- Modelled from the spec: the fields of `read_t` of `read.h`, which is absent,
beyond those of the pump: the file names and column labels of the datasets, the
markup of the configuration, the settings a source is opened with, the selected
dataset, page and figure, and the table of pages, indexed like the C array.
The plot `rd->pl` is the store of the pump; `opened` is the record of the calls
made while sources were opened. -/
structure reader_t (σ α : Type) where
  pump : pump_t (plot_t σ α) α
  opened : List (open_call α)
  file : Nat → List Char
  label : Nat → Nat → List Char
  mk_config : markup_t
  preload : Int
  chunk : Int
  timeout : Int
  length_N : Int
  timecol : Int
  bind_N : Int
  page_N : Int
  figure_N : Int
  page : Int → page_t

/-- The assignment `rd->page[pN].fig[0].cX = cX`. -/
def page_t.set_cX (pg : page_t) (cX : Int) : page_t :=
  { pg with fig := Function.update pg.fig 0 { pg.fig 0 with cX := cX } }

/-- The values of `pN` at which the body of a loop
`pN = 1; do { ...; pN += 1; if (pN >= READ_PAGE_MAX) break; } while (1);` runs. -/
def page_range (READ_PAGE_MAX : Nat) : List Nat := 1 :: List.range' 2 (READ_PAGE_MAX - 2)

/-- The body of the loop of `readSetTimeColumn` at page `pN`, on `cNP` and the
table of pages. -/
def readSetTimeColumn_page (dN cX : Int) (acc : Int × (Int → page_t)) (pN : Nat) :
    Int × (Int → page_t) :=
  if (acc.2 pN).busy = 2 ∧ ((acc.2 pN).fig 0).dN = dN then
    (if acc.1 = -2 then ((acc.2 pN).fig 0).cX else acc.1,
      Function.update acc.2 pN ((acc.2 pN).set_cX cX))
  else acc

/-- The function `readSetTimeColumn`. -/
def readSetTimeColumn {σ α : Type} (K : read_h) (r : reader_t σ α) (dN cX : Int) : reader_t σ α :=
  if dN < 0 ∨ dN ≥ PLOT_DATASET_MAX then r
  else if cX < -1 ∨ cX ≥ r.pump.pl.column_N dN.toNat + PLOT_SUBTRACT then r
  else
    let lp := (page_range K.READ_PAGE_MAX).foldl (readSetTimeColumn_page dN cX) (-2, r.page)
    let cNP := lp.1
    let r1 := { r with page := lp.2 }
    if cNP ≠ -2 then
      match r1.pump.pl.map dN.toNat with
      | none => r1
      | some map =>
        let gN := map cNP
        if gN ≠ -1 then
          { r1 with pump := { r1.pump with
              pl := (r1.pump.pl.set_map dN.toNat cNP (-1)).set_map dN.toNat cX gN } }
        else r1
    else r1

/-- The texts that `readMakePages` writes, which it makes with `filenameShort`,
`sprintf`, `ansiShort` and `labelGetUnit`, as functions of the file name of the
dataset, the column and its label. -/
structure text_api where
  page_title : List Char → Nat → List Char → List Char
  fig_label : List Char → Nat → List Char → List Char
  unit_label : List Char → List Char

/-- The loop `while (rd->page[pN].busy != 0) { pN++; if (pN >= READ_PAGE_MAX) break; }`
of `readMakePages`; the first argument bounds the number of its turns. -/
def readMakePages_scan (page : Int → page_t) (READ_PAGE_MAX : Int) : Nat → Int → Int
  | 0, pN => pN
  | k + 1, pN =>
    if (page pN).busy ≠ 0 then
      if pN + 1 ≥ READ_PAGE_MAX then pN + 1
      else readMakePages_scan page READ_PAGE_MAX k (pN + 1)
    else pN

/-- The page that `readMakePages` makes for column `N` of dataset `dN`. -/
def readMakePages_page (T : text_api) (file : List Char) (label : List Char) (pg : page_t)
    (dN cX : Int) (N : Nat) : page_t :=
  { busy := 2
    title := T.page_title file N label
    fig := Function.update pg.fig 0
      { busy := 1, drawing := -1, dN := dN, cX := cX, cY := N, aX := 0, aY := 1,
        label := T.fig_label file N label }
    ax_label := Function.update pg.ax_label 1 (T.unit_label label) }

/-- The loop `for (N = 0; N < rd->data[dN].column_N; ++N)` of `readMakePages`
over the columns that are left, on `pN` and the table of pages. -/
def readMakePages_loop (T : text_api) (READ_PAGE_MAX : Nat) (file : List Char)
    (label : Nat → List Char) (dN cX : Int) : List Nat → Int → (Int → page_t) → Int × (Int → page_t)
  | [], pN, page => (pN, page)
  | N :: Ns, pN, page =>
    let pN1 := if pN = -1 then 1 else pN
    let pN2 := readMakePages_scan page READ_PAGE_MAX ((READ_PAGE_MAX : Int) - pN1).toNat.succ pN1
    if pN2 ≥ READ_PAGE_MAX then (pN2, page)
    else
      readMakePages_loop T READ_PAGE_MAX file label dN cX Ns pN2
        (Function.update page pN2 (readMakePages_page T file (label N) (page pN2) dN cX N))

/-- The function `readMakePages`. -/
def readMakePages {σ α : Type} (T : text_api) (K : read_h) (r : reader_t σ α) (dN cX : Int)
    (fromUI : Int) : reader_t σ α :=
  if dN < 0 ∨ dN ≥ PLOT_DATASET_MAX then r
  else
    let cX1 := if cX < -1 then r.timecol else cX
    let lp := readMakePages_loop T K.READ_PAGE_MAX (r.file dN.toNat) (r.label dN.toNat) dN cX1
      (List.range (r.pump.rd.data dN.toNat).column_N.toNat) r.page_N r.page
    let r1 := { r with page := lp.2 }
    if fromUI = 0 then { r1 with page_N := lp.1, figure_N := -1 } else r1

/-- The test of `readSetTimeColumn` for a page made by `readMakePages` for
dataset `dN`: `rd->page[pN].busy == 2` and `fig[0].dN == dN`. -/
def auto_page (page : Int → page_t) (dN : Int) (pN : Nat) : Bool :=
  decide ((page pN).busy = 2 ∧ ((page pN).fig 0).dN = dN)

/-- The previous time column of the pages made for dataset `dN`: `fig[0].cX`
of the first of them, if there is one. -/
def prev_time_column (K : read_h) (page : Int → page_t) (dN : Int) : Option Int :=
  ((page_range K.READ_PAGE_MAX).find? (auto_page page dN)).map
    (fun (pN : Nat) => ((page pN).fig 0).cX)

/-- A free page. -/
def demo_page : page_t :=
  { busy := 0, title := [], ax_label := fun _ => []
    fig := fun _ => { busy := 0, drawing := 0, dN := 0, cX := 0, cY := 0, aX := 0, aY := 0,
                      label := [] } }

/-- A reader as `readAlloc` leaves it, with the pump `m`: no dataset, page or
figure is selected and the pages are free. -/
def demo_reader {σ α : Type} (m : pump_t (plot_t σ α) α) : reader_t σ α :=
  { pump := m, opened := [], file := fun _ => [], label := fun _ _ => [], mk_config := mk_default
    preload := 8388608, chunk := 4096, timeout := 10000, length_N := 10000, timecol := -1
    bind_N := -1, page_N := -1, figure_N := -1, page := fun _ => demo_page }

/-- The constants of `read.h` for concrete runs. -/
def demo_h : read_h :=
  { READ_COLUMN_MAX := 8, READ_TOKEN_MAX := 16, READ_TEXT_HEADER_MAX := 9, READ_PAGE_MAX := 6,
    sizeof_buf := 64 }

/-- A pump whose datasets are closed, on the plot `pl`. -/
def demo_closed (pl : plot_t Nat fexact) : pump_t (plot_t Nat fexact) fexact :=
  { rd := { data := fun _ => demo_data 0 none, files_N := 0, mk_text := mk_default },
    pl := pl, trace := [] }

/-- The texts of the pages for concrete runs. -/
def demo_text : text_api :=
  { page_title := fun file _ label => file ++ label
    fig_label := fun file _ label => file ++ label
    unit_label := fun label => label }

open data_hint format_t async_ret

/-! ## Text sources: `follow_fgets`, `TEXT_GetLabel`, `TEXT_GetCN` -/

/-- A stream `FILE *` open for reading, as the results of its successive calls
of `fgetc`: a byte, or `none` for an `EOF` with the end-of-file or the error
indicator set. A stream that has run out gives such an `EOF` at every call. -/
abbrev stream_t := List (Option Char)

/-- The loop of `follow_fgets` on the stream, the bytes stored so far, `eol`,
`nq` and `waiting`: the bytes stored, `eol` and the stream when the loop is
left. On a stream that has run out the loop waits until `timeout` and breaks. -/
def follow_fgets_loop (len timeout : Int) :
    stream_t → List Char → Int → Int → Int → List Char × Int × stream_t
  | [], s, eol, _, _ => (s, eol, [])
  | none :: fd, s, eol, nq, waiting =>
    if waiting < timeout then follow_fgets_loop len timeout fd s eol nq (waiting + 10)
    else (s, eol, fd)
  | some c :: fd, s, eol, nq, waiting =>
    if c = '\r' ∨ c = '\n' then
      follow_fgets_loop len timeout fd s (if nq > 0 then 1 else 0) nq waiting
    else if eol = 1 then (s, eol, some c :: fd)
    else if nq < len - 1 then follow_fgets_loop len timeout fd (s ++ [c]) eol (nq + 1) waiting
    else follow_fgets_loop len timeout fd s eol nq waiting

/-- The function `follow_fgets`: the line it leaves in the buffer, or `none`
for NULL, and the stream after it. -/
def follow_fgets (len timeout : Int) (fd : stream_t) : Option (List Char) × stream_t :=
  let r := follow_fgets_loop len timeout fd [] 0 0 0
  (if r.2.1 ≠ 0 then some r.1 else none, r.2.2)

/-- The arrays `rd->data[dN].label` and `rd->data[dN].hint` that `TEXT_GetLabel` writes. -/
structure label_t where
  label : Nat → List Char
  hint : Nat → data_hint

/-- The termination `*label = 0` of the label of column `N - 1`, which then
holds the bytes `cur` written through `*label++`. -/
def label_t.close (st : label_t) (N : Nat) (cur : List Char) : label_t :=
  { st with label := Function.update st.label (N - 1) cur }

/-- The loop `while (*s != 0)` of `TEXT_GetLabel` and the termination after it,
with the flag `m`, the count `N` and the bytes `cur` of the label at hand. -/
def TEXT_GetLabel_loop (mk : markup_t) (K : read_h) :
    Nat → Nat → List Char → label_t → List Char → Nat × label_t
  | m, N, cur, st, [] => (N, if m ≠ 0 then st.close N cur else st)
  | m, N, cur, st, c :: s =>
    if c = NUL then (N, if m ≠ 0 then st.close N cur else st)
    else if is_sep mk c then
      if m ≠ 0 then TEXT_GetLabel_loop mk K 0 N cur (st.close N cur) s
      else TEXT_GetLabel_loop mk K m N cur st s
    else if m = 0 then
      let st1 := { st with hint := Function.update st.hint N DATA_HINT_NONE }
      let N1 := N + 1
      if N1 ≥ K.READ_COLUMN_MAX then (N1, st1)
      else if (0 : Int) < (K.READ_TOKEN_MAX : Int) - 1 then
        TEXT_GetLabel_loop mk K 1 N1 [c] st1 s
      else TEXT_GetLabel_loop mk K 0 N1 [] st1 s
    else if (m : Int) < (K.READ_TOKEN_MAX : Int) - 1 then
      TEXT_GetLabel_loop mk K (m + 1) N (cur ++ [c]) st s
    else TEXT_GetLabel_loop mk K m N cur st s

/-- The function `TEXT_GetLabel` on the line buffer `buf`: the returned count
and the arrays it leaves. -/
def TEXT_GetLabel (mk : markup_t) (K : read_h) (st : label_t) (buf : List Char) : Nat × label_t :=
  TEXT_GetLabel_loop mk K 0 0 [] st buf

/-- The locals of `TEXT_GetCN` and what it works on: the buffer, the arrays
`row`, `hint` and `label` and the count `line_N` of the dataset, the stream, and
the three rows `rbuf` of its caller. -/
structure header_t (α : Type) where
  buf : List Char
  row : row_t α
  label : Nat → List Char
  line_N : Int
  fd : stream_t
  rbuf : Nat → α
  label_cN : Int
  fixed_N : Int
  total_N : Int
  cN : Int

/-- The loop `for (N = 0; N < cN; ++N) rbuf[fixed_N * READ_COLUMN_MAX + N] = row[N];`. -/
def rbuf_put {α : Type} (K : read_h) (rbuf : Nat → α) (fixed_N cN : Int) (row : Nat → α) :
    Nat → α :=
  fun i => if fixed_N * K.READ_COLUMN_MAX ≤ i ∧ (i : Int) < fixed_N * K.READ_COLUMN_MAX + cN
    then row ((i : Int) - fixed_N * K.READ_COLUMN_MAX).toNat else rbuf i

/-- The call of `TEXT_GetLabel` in `TEXT_GetCN`. -/
def header_t.get_label {α : Type} (mk : markup_t) (K : read_h) (h : header_t α) : header_t α :=
  let g := TEXT_GetLabel mk K { label := h.label, hint := h.row.hint } h.buf
  { h with label := g.2.label, row := { h.row with hint := g.2.hint }, label_cN := (g.1 : Int) }

/-- The `do { ... } while (1)` loop of `TEXT_GetCN`; the first argument bounds
the number of its turns, which the test on `total_N` keeps below
`READ_TEXT_HEADER_MAX + 1`. A NULL of `follow_fgets` leaves the buffer. -/
def TEXT_GetCN_loop {α : Type} (A : fval_ops α) (mk : markup_t) (K : read_h) (timeout : Int) :
    Nat → header_t α → header_t α
  | 0, h => h
  | k + 1, h =>
    let r := follow_fgets K.sizeof_buf timeout h.fd
    let h1 := { h with fd := r.2, total_N := h.total_N + 1 }
    match r.1 with
    | none => h1
    | some line =>
      let h2 := { h1 with buf := line }
      if h2.label_cN < (1 : Int) then
        let h3 := h2.get_label mk K
        if (K.READ_TEXT_HEADER_MAX : Int) ≤ h3.total_N then { h3 with cN := 0 }
        else TEXT_GetCN_loop A mk K timeout k h3
      else
        let g := TEXT_GetRow A mk K.READ_COLUMN_MAX h2.row h2.buf
        let h3 := { h2 with row := g.2, cN := (g.1 : Int) }
        if h3.cN ≠ 0 then
          if h3.cN ≠ h3.label_cN then
            let h4 := { h3.get_label mk K with fixed_N := 0 }
            if (K.READ_TEXT_HEADER_MAX : Int) ≤ h4.total_N then { h4 with cN := 0 }
            else TEXT_GetCN_loop A mk K timeout k h4
          else
            let h4 := { h3 with rbuf := rbuf_put K h3.rbuf h3.fixed_N h3.cN h3.row.row,
                                fixed_N := h3.fixed_N + 1 }
            if (3 : Int) ≤ h4.fixed_N then { h4 with line_N := h4.total_N + 1 }
            else if (K.READ_TEXT_HEADER_MAX : Int) ≤ h4.total_N then { h4 with cN := 0 }
            else TEXT_GetCN_loop A mk K timeout k h4
        else if (K.READ_TEXT_HEADER_MAX : Int) ≤ h3.total_N then { h3 with cN := 0 }
        else TEXT_GetCN_loop A mk K timeout k h3

/-- The function `TEXT_GetCN` for dataset `dN` on the stream `fd` and the rows
`rbuf`: the state of its locals at the return, of which `cN` is returned. -/
def TEXT_GetCN {σ α : Type} (A : fval_ops α) (K : read_h) (r : reader_t σ α) (dN : Nat)
    (fd : stream_t) (rbuf : Nat → α) : header_t α :=
  let d := r.pump.rd.data dN
  TEXT_GetCN_loop A r.pump.rd.mk_text K (if d.follow ≠ 0 then r.timeout else 0)
    (K.READ_TEXT_HEADER_MAX + 1)
    { buf := d.buf.text, row := { row := d.row, hint := d.hint }, label := r.label dN,
      line_N := d.line_N, fd := fd, rbuf := rbuf, label_cN := 0, fixed_N := 0, total_N := 0,
      cN := 0 }

/-- The state of the reader after `TEXT_GetCN` has returned with the locals `h`. -/
def reader_t.put_header {σ α : Type} (r : reader_t σ α) (dN : Nat) (h : header_t α) :
    reader_t σ α :=
  let d := r.pump.rd.data dN
  { r with
    pump := r.pump.set_data dN
      { d with buf := { d.buf with text := h.buf }, row := h.row.row, hint := h.row.hint,
               line_N := h.line_N }
    label := Function.update r.label dN h.label }

/-! ## Opening a source: `readOpenUnified`, `readOpenStub` -/

/-- Modelled from the spec: the file system and the source of `async.h`, which
is absent, as `readOpenUnified` uses them: `fopen` gives the stream of a file
or `none` for NULL, `fstatsize` the value of `FILE_GetSize`, `stdin` the
standard input, `fseek_end` a stream after `fseek(fd, 0UL, SEEK_END)`,
`length_of sF cN size` the value of `sF / (cN * size)` as C computes it, and
`async_open` the source made on a stream. -/
structure env_t (α : Type) where
  fopen : List Char → Option (file_t × stream_t)
  fstatsize : List Char → Nat
  stdin : stream_t
  fseek_end : stream_t → stream_t
  length_of : Nat → Int → Nat → Int
  async_open : file_t → stream_t → Int → Int → Int → async_t α

/-- The call `plotDataInsert(rd->pl, dN, row)` of `readOpenUnified`. -/
def reader_t.insert {σ α : Type} (P : plot_api (plot_t σ α) α) (r : reader_t σ α) (dN : Nat)
    (row : Nat → α) : reader_t σ α :=
  { r with pump := { r.pump with pl := P.plotDataInsert r.pump.pl dN row },
           opened := r.opened ++ [open_call.plotDataInsert dN row] }

/-- The call `plotDataAlloc(rd->pl, dN, cN, lN)`. -/
def reader_t.alloc {σ α : Type} (X : plot_ext σ α) (r : reader_t σ α) (dN : Nat)
    (cN lN : Int) : reader_t σ α :=
  { r with pump := { r.pump with pl := X.plotDataAlloc r.pump.pl dN cN lN },
           opened := r.opened ++ [open_call.plotDataAlloc dN cN lN] }

/-- The row `rbuf + READ_COLUMN_MAX * k`. -/
def rbuf_row {α : Type} (K : read_h) (rbuf : Nat → α) (k : Nat) : Nat → α :=
  fun N => rbuf (K.READ_COLUMN_MAX * k + N)

/-- The end of `readOpenUnified`, from `plotDataAlloc` on. -/
def readOpenUnified_bind {σ α : Type} (P : plot_api (plot_t σ α) α) (X : plot_ext σ α)
    (E : env_t α) (K : read_h) (r : reader_t σ α) (dN : Nat) (cN lN : Int) (name : List Char)
    (fmt : format_t) (fd : file_t × stream_t) (rbuf : Nat → α) : reader_t σ α :=
  let r1 := r.alloc X dN cN (lN + 1)
  let r2 :=
    if fmt = FORMAT_PLAIN_TEXT then
      ((r1.insert P dN (rbuf_row K rbuf 0)).insert P dN (rbuf_row K rbuf 1)).insert P dN
        (rbuf_row K rbuf 2)
    else r1
  let d := r2.pump.rd.data dN
  let m := r2.pump.set_data dN
    { d with format := fmt, column_N := cN, fd := some fd.1,
             afd := some (E.async_open fd.1 fd.2 r2.preload r2.chunk r2.timeout) }
  { r2 with
    pump := { m with rd := { m.rd with files_N := m.rd.files_N + 1 } }
    file := Function.update r2.file dN name
    bind_N := dN }

/-- The function `readOpenUnified`; `file` is `none` for NULL. The local `fd`
is not initialized when `file` is NULL and the format is not text: `fd0` is the
value it then holds. The rows `rbuf0` are what the array `rbuf` holds at the
call. -/
def readOpenUnified {σ α : Type} (A : fval_ops α) (P : plot_api (plot_t σ α) α)
    (X : plot_ext σ α) (E : env_t α) (K : read_h) (fd0 : Option (file_t × stream_t))
    (rbuf0 : Nat → α) (r : reader_t σ α) (dN : Nat) (cN lN : Int) (file : Option (List Char))
    (fmt : format_t) : reader_t σ α :=
  let r0 := if (r.pump.rd.data dN).fd ≠ none then { r with pump := readClose r.pump dN } else r
  let r1 :=
    match file with
    | some f => { r0 with opened := r0.opened ++ [open_call.fopen f] }
    | none => r0
  let fd :=
    match file with
    | some f => E.fopen f
    | none => if fmt = FORMAT_PLAIN_TEXT then some (file_t.stdin, E.stdin) else fd0
  match fd with
  | none => r1
  | some fd =>
    let sF := match file with
      | some f => E.fstatsize f
      | none => 0
    let fd1 := if (r1.pump.rd.data dN).follow ≠ 0 ∧ sF ≠ 0 then (fd.1, E.fseek_end fd.2) else fd
    let d := r1.pump.rd.data dN
    let r2 := { r1 with pump := r1.pump.set_data dN { d with length_N := lN } }
    let name := match file with
      | some f => f
      | none => "STDIN".toList
    if fmt = FORMAT_PLAIN_TEXT then
      let h := TEXT_GetCN A K r2 dN fd1.2 rbuf0
      let r3 := r2.put_header dN h
      if h.cN < 1 then r3
      else
        let lN1 := if sF ≠ 0 ∧ lN < 1 then 1000 else if lN < 1 then r3.length_N else lN
        readOpenUnified_bind P X E K r3 dN h.cN lN1 name fmt (fd1.1, h.fd) h.rbuf
    else if fmt = FORMAT_BINARY_FLOAT then
      let lN1 := if lN < 1 then E.length_of sF cN 4 else lN
      let d2 := r2.pump.rd.data dN
      let r3 := { r2 with pump := r2.pump.set_data dN { d2 with line_N := 1 } }
      readOpenUnified_bind P X E K r3 dN cN lN1 name fmt fd1 rbuf0
    else if fmt = FORMAT_BINARY_DOUBLE then
      let lN1 := if lN < 1 then E.length_of sF cN 8 else lN
      let d2 := r2.pump.rd.data dN
      let r3 := { r2 with pump := r2.pump.set_data dN { d2 with line_N := 1 } }
      readOpenUnified_bind P X E K r3 dN cN lN1 name fmt fd1 rbuf0
    else readOpenUnified_bind P X E K r2 dN cN lN name fmt fd1 rbuf0

/-- The function `readOpenStub`. -/
def readOpenStub {σ α : Type} (X : plot_ext σ α) (r : reader_t σ α) (dN : Nat) (cN lN : Int)
    (file : List Char) (fmt : format_t) : reader_t σ α :=
  let d := r.pump.rd.data dN
  let r1 := { r with pump := r.pump.set_data dN { d with length_N := lN } }
  let lN1 := if lN < 1 then 10 else lN
  let r2 := r1.alloc X dN cN (lN1 + 1)
  let d2 := r2.pump.rd.data dN
  { r2 with
    pump := r2.pump.set_data dN { d2 with format := fmt, column_N := cN }
    file := Function.update r2.file dN file
    bind_N := dN }

open data_hint format_t async_ret

/-! ## Commands of the configuration -/

/-- The result of one call of `configLexerFSM`, as `configParseFSM` sees it:
-1 at the end of the input, 1 at the end of a line, or 0 with a token in `tbuf`. -/
inductive token_t where
  | END
  | LINE
  | TOKEN (tbuf : List Char)
deriving DecidableEq

/-- The state `parse_t` of the parser, with the input given by the results
that the calls of `configLexerFSM` on it will have. -/
structure parse_t where
  input : List token_t
  tbuf : List Char
  line_N : Int
  newline : Int

/-- One call of `configLexerFSM`: the value it returns and the state it leaves.
At the end of a line it counts the line and sets `newline`; a token goes to
`tbuf`; an input that has run out is at its end. -/
def next_token (pa : parse_t) : Int × parse_t :=
  match pa.input with
  | [] => (-1, pa)
  | token_t.END :: ts => (-1, { pa with input := ts })
  | token_t.LINE :: ts => (1, { pa with input := ts, line_N := pa.line_N + 1, newline := 1 })
  | token_t.TOKEN t :: ts => (0, { pa with input := ts, tbuf := t })

/-- What the commands of `configParseFSM` work with: the functions of `plot.c`,
the file system, the constants of `read.h`, the texts of the pages, and the
values that the locals `fd` and `rbuf` of `readOpenUnified` hold before they
are written. -/
structure world_t (σ α : Type) where
  A : fval_ops α
  P : plot_api (plot_t σ α) α
  X : plot_ext σ α
  E : env_t α
  K : read_h
  T : text_api
  fd0 : Option (file_t × stream_t)
  rbuf0 : Nat → α

/-- The state of `configParseFSM` in a command: the reader, the parser, the
local `argi` and the flag `failed`. -/
structure config_t (σ α : Type) where
  rd : reader_t σ α
  pa : parse_t
  argi : Nat → Int
  failed : Int

/-- The step `r = configLexerFSM(rd, pa); if (r == 0 && stoi(&rd->mk_config,
&argi[i], tbuf) != NULL) ; else break;` of a command: the state after it, as an
error where the command breaks. -/
def lex_int {σ α : Type} (c : config_t σ α) (i : Nat) : Except (config_t σ α) (config_t σ α) :=
  let t := next_token c.pa
  let c1 := { c with pa := t.2 }
  if t.1 = 0 then
    match stoi c1.rd.mk_config c1.pa.tbuf with
    | some v => Except.ok { c1 with argi := Function.update c1.argi i v.1 }
    | none => Except.error c1
  else Except.error c1

/-- The state at the end of a command, after a break or not. -/
def finish {σ α : Type} (x : Except (config_t σ α) (config_t σ α)) : config_t σ α :=
  match x with
  | Except.ok c => c
  | Except.error c => c

/-- The command `lz4_compress` of `configParseFSM`. -/
def config_lz4_compress {σ α : Type} (c : config_t σ α) : config_t σ α :=
  finish (do
    let c1 ← lex_int { c with failed := 1 } 0
    if c1.rd.bind_N ≠ -1 then throw c1
    if c1.argi 0 ≥ 0 ∧ c1.argi 0 < 2 then
      pure { c1 with
        failed := 0
        rd := { c1.rd with pump := { c1.rd.pump with
          pl := { c1.rd.pump.pl with lz4_compress := c1.argi 0 } } } }
    else pure c1)

/-- The format that the commands `load` and `follow` read from a token. -/
def format_of (tbuf : List Char) : Option format_t :=
  if cstr tbuf = "text".toList then some FORMAT_PLAIN_TEXT
  else if cstr tbuf = "float".toList then some FORMAT_BINARY_FLOAT
  else if cstr tbuf = "double".toList then some FORMAT_BINARY_DOUBLE
  else none

/-- The commands `load` and `follow` of `configParseFSM`; `flag_follow` is 1
for `follow`. The format that the code keeps in `argi[2]` is a local here. -/
def config_load {σ α : Type} (W : world_t σ α) (c : config_t σ α) (flag_follow : Int) :
    config_t σ α :=
  finish (do
    let c1 ← lex_int { c with failed := 1 } 0
    if c1.argi 0 < 0 ∨ c1.argi 0 ≥ PLOT_DATASET_MAX then throw c1
    let c2 ← lex_int c1 1
    let t := next_token c2.pa
    let c3 := { c2 with pa := t.2 }
    if t.1 ≠ 0 then throw c3
    match format_of c3.pa.tbuf with
    | none => throw c3
    | some fmt =>
      let binary := decide (fmt = FORMAT_BINARY_FLOAT ∨ fmt = FORMAT_BINARY_DOUBLE)
      let c4 ← if binary then lex_int c3 3 else pure c3
      let flag_stub : Int := if binary then 1 else 0
      let t5 := next_token c4.pa
      let c5 := { c4 with pa := t5.2 }
      if t5.1 ≠ 0 then throw c5
      let dN := (c5.argi 0).toNat
      let d := c5.rd.pump.rd.data dN
      let r1 := { c5.rd with pump := c5.rd.pump.set_data dN { d with follow := flag_follow } }
      let r2 := readOpenUnified W.A W.P W.X W.E W.K W.fd0 W.rbuf0 r1 dN (c5.argi 3) (c5.argi 1)
        (some (cstr c5.pa.tbuf)) fmt
      let r3 :=
        if (r2.pump.rd.data dN).fd = none ∧ flag_stub ≠ 0 then
          readOpenStub W.X r2 dN (c5.argi 3) (c5.argi 1) (cstr c5.pa.tbuf) fmt
        else r2
      pure { c5 with rd := r3, failed := 0 })

/-- The command `page` of `configParseFSM`. -/
def config_page {σ α : Type} (c : config_t σ α) : config_t σ α :=
  let c0 := { c with failed := 1 }
  let t := next_token c0.pa
  let c1 := { c0 with pa := t.2 }
  if t.1 = 0 then
    let page_N := if c1.rd.page_N = -1 then 1 else c1.rd.page_N + 1
    { c1 with
      failed := 0
      rd := { c1.rd with
        page_N := page_N
        figure_N := -1
        page := Function.update c1.rd.page page_N
          { c1.rd.page page_N with busy := 1, title := cstr c1.pa.tbuf } } }
  else c1

/-- The command `mkpages` of `configParseFSM`. -/
def config_mkpages {σ α : Type} (W : world_t σ α) (c : config_t σ α) : config_t σ α :=
  finish (do
    let c1 ← lex_int { c with failed := 1 } 0
    if c1.rd.bind_N = -1 then throw c1
    if c1.argi 0 ≥ -2 ∧ c1.argi 0 < c1.rd.pump.pl.column_N c1.rd.bind_N.toNat then
      pure { c1 with failed := 0, rd := readMakePages W.T W.K c1.rd c1.rd.bind_N (c1.argi 0) 0 }
    else throw c1)

/-- The integer argument that a command reads first: the value of `stoi` on
the next token, if there is a token and it is an integer. -/
def first_int {σ α : Type} (c : config_t σ α) : Option Int :=
  if (next_token c.pa).1 = 0 then
    (stoi c.rd.mk_config (next_token c.pa).2.tbuf).map Prod.fst
  else none

/-- The commands `page t` for the titles `ts` in turn; each is run on the
input that holds its title. -/
def config_pages {σ α : Type} (ts : List (List Char)) (c : config_t σ α) : config_t σ α :=
  ts.foldl (fun c t => config_page { c with pa := { c.pa with input := [token_t.TOKEN t] } }) c

/-- A file system without files, and sources that give nothing. -/
def demo_env : env_t fexact :=
  { fopen := fun _ => none, fstatsize := fun _ => 0, stdin := [], fseek_end := fun _ => []
    length_of := fun _ _ _ => 0, async_open := fun _ _ _ _ _ => [] }

/-- A file system in which every name opens a file with the bytes of `text`. -/
def demo_file (text : String) : env_t fexact :=
  { demo_env with
    fopen := fun _ => some (file_t.file 0, text.toList.map some)
    fstatsize := fun _ => text.length }

/-- The functions of the pump on the plot for concrete runs: the store counts
the rows. -/
def demo_papi : plot_api (plot_t Nat fexact) fexact :=
  { column_N := fun pl dN => pl.column_N dN
    plotDataInsert := fun pl _ _ => { pl with rest := pl.rest + 1 }
    plotDataSpaceLeft := fun _ _ => 100
    plotDataGrowUp := fun pl _ => pl
    plotDataSubtract := fun pl _ _ => pl }

/-- The world of the concrete runs. -/
def demo_world : world_t Nat fexact :=
  { A := exact_ops, P := demo_papi, X := demo_ext, E := demo_env, K := demo_h, T := demo_text
    fd0 := none, rbuf0 := fun _ => fexact.nan }

/-- The state of `configParseFSM` at a command whose arguments are `ts`, on a
reader as `readAlloc` leaves it. -/
def demo_config (ts : List token_t) : config_t Nat fexact :=
  { rd := demo_reader (demo_closed (demo_plot 0))
    pa := { input := ts, tbuf := [], line_N := 1, newline := 0 }
    argi := fun _ => 0, failed := 0 }

open data_hint format_t async_ret

/-! ## The chunked store, the range cache and the cumulative filter, from the specification -/

/-- Modelled from the spec: the summary of a chunk for one column, as a range
cache entry holds it: `none` when the chunk has no finite value, or the minimum
and the maximum of its finite values. -/
abbrev summary_t := Option (ℚ × ℚ)

/-- Modelled from the spec: the fold step of `datasetRange` over two summaries. -/
def summary_merge : summary_t → summary_t → summary_t
  | none, s => s
  | some a, none => some a
  | some a, some b => some (min a.1 b.1, max a.2 b.2)

/-- Modelled from the spec: the scan of the values of a chunk by `summarize`:
the minimum and the maximum over the finite values; a not-a-number is left out. -/
def summary_scan (vs : List fexact) : summary_t :=
  vs.foldl (fun s v =>
    match v with
    | fexact.nan => s
    | fexact.num q => summary_merge s (some (q, q))) none

/-- Modelled from the spec: a dataset of the chunked store with its range
cache: the rows of a chunk, the number of chunks, whether a length bound was
requested at the allocation, the chunks that hold rows, the newest first, each
with the index of its slot and its rows, and the pool of the range cache, the
entry used last first, each with its key (column, chunk) and its summary. -/
structure store_t where
  chunk_cap : Nat
  chunk_max : Nat
  bounded : Bool
  chunks : List (Nat × List (List fexact))
  pool_max : Nat
  pool : List ((Nat × Nat) × summary_t)

/-- Modelled from the spec: `allocate`, which resets the dataset. -/
def allocate (chunk_cap chunk_max pool_max : Nat) (bounded : Bool) : store_t :=
  { chunk_cap := chunk_cap, chunk_max := chunk_max, bounded := bounded, chunks := [],
    pool_max := pool_max, pool := [] }

/-- Modelled from the spec: `invalidateChunk` over all columns: the entries of
a chunk that is written are evicted. -/
def invalidate (pool : List ((Nat × Nat) × summary_t)) (id : Nat) :
    List ((Nat × Nat) × summary_t) :=
  pool.filter (fun e => e.1.2 ≠ id)

/-- Modelled from the spec: the step of `insertRow` when the tail chunk is full
or there is none: a new chunk while a slot is free; else, under a length bound,
the oldest chunk is overwritten; else the insert fails and the data is left. -/
def insertRow_chunk (st : store_t) (row : List fexact) : store_t :=
  if st.chunks.length < st.chunk_max then
    { st with chunks := (st.chunks.length, [row]) :: st.chunks,
              pool := invalidate st.pool st.chunks.length }
  else if st.bounded then
    match st.chunks.getLast? with
    | some old => { st with chunks := (old.1, [row]) :: st.chunks.dropLast,
                            pool := invalidate st.pool old.1 }
    | none => st
  else st

/-- Modelled from the spec: `insertRow`, which appends one row to the tail
chunk. -/
def insertRow (st : store_t) (row : List fexact) : store_t :=
  match st.chunks with
  | (id, rows) :: rest =>
    if rows.length < st.chunk_cap then
      { st with chunks := (id, rows ++ [row]) :: rest, pool := invalidate st.pool id }
    else insertRow_chunk st row
  | [] => insertRow_chunk st row

/-- The values of column `c` in the rows of a chunk; a row without the column
gives a not-a-number. -/
def column_of (c : Nat) (rows : List (List fexact)) : List fexact :=
  rows.map (fun row => row.getD c fexact.nan)

/-- Modelled from the spec: `summarize`, which returns the cached summary if
there is one, and else scans the chunk, stores the result and evicts the entry
used least recently when the pool is full. -/
def summarize (st : store_t) (c id : Nat) : summary_t × store_t :=
  match st.pool.lookup (c, id) with
  | some s => (s, { st with pool := ((c, id), s) :: st.pool.filter (fun e => e.1 ≠ (c, id)) })
  | none =>
    match st.chunks.lookup id with
    | none => (none, st)
    | some rows =>
      (summary_scan (column_of c rows),
        { st with pool := (((c, id), summary_scan (column_of c rows)) :: st.pool).take st.pool_max })

/-- Modelled from the spec: `datasetRange`, which folds `summarize` over all
chunks that hold rows; `none` is the empty result. -/
def datasetRange (st : store_t) (c : Nat) : summary_t × store_t :=
  (st.chunks.map Prod.fst).foldl
    (fun acc id => (summary_merge acc.1 (summarize acc.2 c id).1, (summarize acc.2 c id).2))
    (none, st)

/-- A call on the store: an insert of a row, or a query of the range of a column. -/
inductive store_op where
  | insert (row : List fexact)
  | range (c : Nat)

/-- The store after a sequence of calls. -/
def store_run (st : store_t) (ops : List store_op) : store_t :=
  ops.foldl (fun s op =>
    match op with
    | store_op.insert row => insertRow s row
    | store_op.range c => (datasetRange s c).2) st

/-- The rows that the store holds, in the order of their insertion. -/
def held (st : store_t) : List (List fexact) :=
  (st.chunks.reverse.map Prod.snd).flatten

/-- The range `s` is the true one of the values `vs`: `none` when no value is
finite, else the least and the greatest of the finite values. -/
def is_range (vs : List fexact) (s : summary_t) : Prop :=
  match s with
  | none => ∀ q, fexact.num q ∉ vs
  | some r => fexact.num r.1 ∈ vs ∧ fexact.num r.2 ∈ vs
      ∧ ∀ q, fexact.num q ∈ vs → r.1 ≤ q ∧ q ≤ r.2

/-- The store is well kept: the chunks have distinct slots, below the number of
chunks, and every entry of the range cache is the summary of a chunk that the
store holds, as a scan of the chunk gives it. -/
def store_ok (st : store_t) : Prop :=
  (st.chunks.map Prod.fst).Nodup
  ∧ (∀ id ∈ st.chunks.map Prod.fst, id < st.chunks.length)
  ∧ (∀ e ∈ st.pool, ∃ rows, st.chunks.lookup e.1.2 = some rows
      ∧ e.2 = summary_scan (column_of e.1.1 rows))

/-- An insert finds room: the tail chunk is not full, or a chunk slot is free. -/
def has_room (st : store_t) : Prop :=
  (∃ id rows rest, st.chunks = (id, rows) :: rest ∧ rows.length < st.chunk_cap)
  ∨ st.chunks.length < st.chunk_max

/-- Every insert of the sequence of calls finds room. -/
def all_room : store_t → List store_op → Prop
  | _, [] => True
  | st, store_op.insert row :: ops => has_room st ∧ all_room (insertRow st row) ops
  | st, store_op.range c :: ops => all_room (datasetRange st c).2 ops

/-- The rows of the inserts of a sequence of calls. -/
def inserted : List store_op → List (List fexact)
  | [] => []
  | store_op.insert row :: ops => row :: inserted ops
  | store_op.range _ :: ops => inserted ops

/-- Modelled from the spec: the persisted state of a filter-cumulative column:
the accumulator, the high-water mark (the rows computed) and the values written
to the storage of the column. -/
structure cumulative_t (α : Type) where
  state : α
  rows : Nat
  out : List α

/-- Modelled from the spec: `define` for a filter-cumulative column over a
source without rows. -/
def cumulative_define {α : Type} (A : fval_ops α) : cumulative_t α :=
  { state := A.ofInt 0, rows := 0, out := [] }

/-- Modelled from the spec: the rule `y[i] = y[i-1] + x[i]` for one new row
with the value `v`: the accumulator is advanced once and the value is written. -/
def cumulative_step {α : Type} (A : fval_ops α) (s : cumulative_t α) (v : α) : cumulative_t α :=
  { state := A.add s.state v, rows := s.rows + 1, out := s.out ++ [A.add s.state v] }

/-- Modelled from the spec: `extend` of a filter-cumulative column of the
source `x` up to the row `toRow`, for the rows from the high-water mark on, in
row order; the rows below the mark are not computed again. -/
def cumulative_extend {α : Type} (A : fval_ops α) (x : List α) (st : cumulative_t α)
    (toRow : Nat) : cumulative_t α :=
  ((x.take toRow).drop st.rows).foldl (cumulative_step A) st

/-- The column after successive calls of `extend` up to the rows `marks`, and
a last one up to the end of the source. -/
def cumulative_run {α : Type} (A : fval_ops α) (x : List α) (marks : List Nat) : cumulative_t α :=
  cumulative_extend A x (marks.foldl (cumulative_extend A x) (cumulative_define A)) x.length

/-- The running sums of `x`: at `i` the sum `x[0] + ... + x[i]`, added up from
the left, from 0. -/
def running_sums {α : Type} (A : fval_ops α) (x : List α) : List α :=
  (List.range x.length).map (fun i => (x.take (i + 1)).foldl A.add (A.ofInt 0))

open data_hint format_t async_ret

/-! ## The integer parsers: reference and the values of the accumulators -/

/-- The reference integer parser, from the words of the specification: an
optional `+` or `-`, 1 to 9 decimal digits and a terminator; the signed number
the digits denote and the rest, which starts at the terminator. -/
def stoi_ref (mk : markup_t) (s : List Char) : Option (Int × List Char) :=
  let sign : Int := if peek s = '-' then -1 else 1
  let s1 := if peek s = '-' ∨ peek s = '+' then s.tail else s
  let ds := s1.takeWhile (is_digit_of 10)
  let r := s1.dropWhile (is_digit_of 10)
  if 1 ≤ ds.length ∧ ds.length ≤ 9 ∧ is_term mk (peek r) = true then
    some (sign * (digits_val 10 ds : Int), r)
  else none

/-- The values of `10 * i + (*s++ - '0') * n` that the digit loop of `stoi`
computes, in turn, as mathematical integers of the operands that the `int`
variables hold; the loop is left after the step that makes `k > 9`. -/
def stoi_steps (n : Int) : Int → Nat → List Char → List Int
  | _, _, [] => []
  | i, k, c :: s =>
    if is_dec c then
      (10 * i + dec_val c * n) ::
        (if k + 1 > 9 then [] else stoi_steps n (wrap32 (10 * i + dec_val c * n)) (k + 1) s)
    else []

/-- The values of `16 * h + i` that the digit loop of `htoi` computes, in turn. -/
def htoi_steps : Int → Nat → List Char → List Int
  | _, _, [] => []
  | h, k, c :: s =>
    match hex_val c with
    | some i =>
      (16 * h + i) :: (if k + 1 > 8 then [] else htoi_steps (wrap32 (16 * h + i)) (k + 1) s)
    | none => []

/-- The values of `8 * h + i` that the digit loop of `otoi` computes, in turn. -/
def otoi_steps : Int → Nat → List Char → List Int
  | _, _, [] => []
  | h, k, c :: s =>
    if is_oct c then
      (8 * h + dec_val c) ::
        (if k + 1 > 11 then [] else otoi_steps (wrap32 (8 * h + dec_val c)) (k + 1) s)
    else []

/-- The values that the accumulator of `stoi` is given on the string `s`. -/
def stoi_values (s : List Char) : List Int :=
  stoi_steps (sign_step s).1 0 0 (sign_step s).2

/-- The values that the accumulator of `htoi` is given on the string `s`. -/
def htoi_values (s : List Char) : List Int :=
  htoi_steps 0 0 (if peek s = '0' ∧ peek s.tail = 'x' then s.tail.tail else s)

/-- The values that the accumulator of `otoi` is given on the string `s`. -/
def otoi_values (s : List Char) : List Int :=
  otoi_steps 0 0 s

/-- A value of the signed 32-bit range of `int`. -/
def in_int32 (v : Int) : Prop := -2147483648 ≤ v ∧ v ≤ 2147483647

/-! ## The hint of a column: `readToggleHint` -/

/-- The next hint in the cycle of `readToggleHint`. -/
def next_hint : data_hint → data_hint
  | DATA_HINT_NONE => DATA_HINT_FLOAT
  | DATA_HINT_FLOAT => DATA_HINT_HEX
  | DATA_HINT_HEX => DATA_HINT_OCT
  | DATA_HINT_OCT => DATA_HINT_NONE

/-- The function `readToggleHint`. -/
def readToggleHint {σ α : Type} (m : pump_t σ α) (dN : Nat) (cN : Int) : pump_t σ α :=
  let d := m.rd.data dN
  if d.format = FORMAT_NONE then m
  else if cN < 0 ∨ cN ≥ d.column_N then m
  else
    if d.hint cN.toNat = DATA_HINT_NONE then
      m.set_data dN { d with hint := Function.update d.hint cN.toNat DATA_HINT_FLOAT }
    else if d.hint cN.toNat = DATA_HINT_FLOAT then
      m.set_data dN { d with hint := Function.update d.hint cN.toNat DATA_HINT_HEX }
    else if d.hint cN.toNat = DATA_HINT_HEX then
      m.set_data dN { d with hint := Function.update d.hint cN.toNat DATA_HINT_OCT }
    else if d.hint cN.toNat = DATA_HINT_OCT then
      m.set_data dN { d with hint := Function.update d.hint cN.toNat DATA_HINT_NONE }
    else m

open data_hint format_t async_ret

/-! ## The command `preload` -/

/-- The conversion of an `int` to `size_t`, an unsigned type of `w` bits, that
the comparison of an `int` with a value of `sizeof` makes. -/
def to_size_t (w : Nat) (n : Int) : Nat := (n % 2 ^ w).toNat

/-- The command `preload` of `configParseFSM`, where `size_t` has `w` bits:
`if (argi[0] > sizeof(rd->data[0].buf)) { failed = 0; rd->preload = argi[0]; }`. -/
def config_preload {σ α : Type} (w : Nat) (K : read_h) (c : config_t σ α) : config_t σ α :=
  finish (do
    let c1 ← lex_int { c with failed := 1 } 0
    if to_size_t w (c1.argi 0) > K.sizeof_buf then
      pure { c1 with failed := 0, rd := { c1.rd with preload := c1.argi 0 } }
    else pure c1)

/-- The command `chunk` of `configParseFSM`:
`if (argi[0] > 0) { failed = 0; rd->chunk = argi[0]; }`. -/
def config_chunk {σ α : Type} (c : config_t σ α) : config_t σ α :=
  finish (do
    let c1 ← lex_int { c with failed := 1 } 0
    if c1.argi 0 > 0 then
      pure { c1 with failed := 0, rd := { c1.rd with chunk := c1.argi 0 } }
    else pure c1)

open data_hint format_t async_ret

/-! ## The next row of a stream: reference for `follow_fgets` -/

/-- The test `c == '\r' || c == '\n'` of `follow_fgets`. -/
def is_eol (c : Char) : Bool := decide (c = '\r' ∨ c = '\n')

/-- The next row of a finite stream of bytes, from the words of the
specification: the leading CR and LF bytes are skipped, the row is the bytes up
to the first CR or LF, of which at most `len - 1` are kept, and the CR and LF
bytes that follow are consumed; there is a row when a CR or LF follows at least
one byte of data, otherwise the result is NULL and the stream is exhausted. -/
def follow_fgets_ref (len : Int) (bytes : List Char) : Option (List Char) × List Char :=
  let b := bytes.dropWhile is_eol
  let data := b.takeWhile (fun c => !is_eol c)
  let rest := b.dropWhile (fun c => !is_eol c)
  if data ≠ [] ∧ rest ≠ [] then (some (data.take (len - 1).toNat), rest.dropWhile is_eol)
  else (none, [])

open data_hint format_t async_ret

/-! ## The text of a token -/

/-- The bytes of the token that starts the string `t`: the bytes before the
first terminator. -/
def token_text (mk : markup_t) (t : List Char) : List Char :=
  t.takeWhile (fun c => !is_term mk c)

open data_hint format_t async_ret

/-! ## The lines of a text source and the header among them -/

/-- The number of columns of a line: the number of its tokens, at most
`READ_COLUMN_MAX`. -/
def token_count (mk : markup_t) (K : read_h) (line : List Char) : Nat :=
  min (line_tokens mk line).length K.READ_COLUMN_MAX

/-- The lines that up to `n` successive calls of `follow_fgets` give on the
stream, up to the first NULL. -/
def lines_of (len timeout : Int) : Nat → stream_t → List (List Char)
  | 0, _ => []
  | n + 1, fd =>
    match (follow_fgets len timeout fd).1 with
    | none => []
    | some line => line :: lines_of len timeout n (follow_fgets len timeout fd).2

/-- A label line followed by three consecutive non-empty rows with its token
count, from the words of the specification: some line with a token is followed
by a run of lines, each without a token or with the token count of that line,
of which at least three have tokens. -/
def header_found (mk : markup_t) (K : read_h) (lines : List (List Char)) : Bool :=
  lines.tails.any (fun t =>
    match t with
    | [] => false
    | lab :: rest =>
      decide (1 ≤ token_count mk K lab) &&
        decide (3 ≤ ((rest.takeWhile (fun l => decide (token_count mk K l = 0
            ∨ token_count mk K l = token_count mk K lab))).filter
          (fun l => decide (token_count mk K l ≠ 0))).length))

/-- The state of the search of `TEXT_GetCN` after the lines `P`: no label
(`label_cN` and `fixed_N` are 0), or the last label line, with `label_cN`
tokens, is followed only by lines without a token or with `label_cN` tokens, of
which `fixed_N`, less than three, have tokens. -/
def header_inv (mk : markup_t) (K : read_h) (P : List (List Char)) (label_cN fixed_N : Int) :
    Prop :=
  (label_cN = 0 ∧ fixed_N = 0)
  ∨ (1 ≤ label_cN ∧ fixed_N < 3
      ∧ ∃ pre lab rows, P = pre ++ lab :: rows ∧ (token_count mk K lab : Int) = label_cN
        ∧ (((rows.filter (fun l => decide (token_count mk K l ≠ 0))).length : Nat) : Int) = fixed_N
        ∧ ∀ l ∈ rows, token_count mk K l = 0 ∨ token_count mk K l = token_count mk K lab)

/-- A message that `readOpenUnified` reports through `ERROR`. -/
inductive open_error where
  | fopen (file : Option (List Char))
  | no_correct_data (name : List Char)
deriving DecidableEq

/-- The locals of `TEXT_GetCN` at its return in a call of `readOpenUnified` on
a text source that opens, `none` when `TEXT_GetCN` is not called. -/
def readOpenUnified_header {σ α : Type} (A : fval_ops α) (E : env_t α) (K : read_h)
    (rbuf0 : Nat → α) (r : reader_t σ α) (dN : Nat) (lN : Int) (file : Option (List Char))
    (fmt : format_t) : Option (header_t α) :=
  let r0 := if (r.pump.rd.data dN).fd ≠ none then { r with pump := readClose r.pump dN } else r
  let r1 :=
    match file with
    | some f => { r0 with opened := r0.opened ++ [open_call.fopen f] }
    | none => r0
  let fd :=
    match file with
    | some f => E.fopen f
    | none => if fmt = FORMAT_PLAIN_TEXT then some (file_t.stdin, E.stdin) else none
  match fd with
  | none => none
  | some fd =>
    let sF := match file with
      | some f => E.fstatsize f
      | none => 0
    let fd1 := if (r1.pump.rd.data dN).follow ≠ 0 ∧ sF ≠ 0 then (fd.1, E.fseek_end fd.2) else fd
    let d := r1.pump.rd.data dN
    let r2 := { r1 with pump := r1.pump.set_data dN { d with length_N := lN } }
    if fmt = FORMAT_PLAIN_TEXT then some (TEXT_GetCN A K r2 dN fd1.2 rbuf0) else none

/-- The message that a call of `readOpenUnified` with a file name reports
through `ERROR`, if any: `fopen(...)` when the file does not open, and
`No correct data in file ...` when `TEXT_GetCN` returns less than 1. -/
def readOpenUnified_error {σ α : Type} (A : fval_ops α) (E : env_t α) (K : read_h)
    (rbuf0 : Nat → α) (r : reader_t σ α) (dN : Nat) (lN : Int) (file : List Char)
    (fmt : format_t) : Option open_error :=
  match E.fopen file with
  | none => some (open_error.fopen (some file))
  | some _ =>
    match readOpenUnified_header A E K rbuf0 r dN lN (some file) fmt with
    | some h => if h.cN < 1 then some (open_error.no_correct_data file) else none
    | none => none

open data_hint format_t async_ret

/-! ## The lexer of the configuration: `configLexerFSM` -/

/-- Modelled from the spec: the fields of `parse_t` of `read.h`, which is
absent, that the lexer works on: the stream `fd`, the byte `unchar` that was put
back (`none` for -1), the token buffer `tbuf` up to its NUL, and the line count
with the flag `newline`. -/
structure lexer_t where
  fd : stream_t
  unchar : Option Char
  tbuf : List Char
  line_N : Int
  newline : Int
deriving DecidableEq

/-- The `char` that `strchr` compares when it is given the `int` that
`config_getc` returned: the byte itself, and the byte 255 for -1. -/
def int_chr (c : Option Char) : Char :=
  match c with
  | some x => x
  | none => Char.ofNat 255

/-- The loop `do { c = config_getc(pa); } while (strchr(rd->mk_config.space, c)
!= NULL);` on the stream, once `unchar` is used up: the `int` it leaves in `c`
and the stream, or `none` where the loop does not end (at the end of the
stream, when the byte 255 is a space character). -/
def lexer_skip (mk : markup_t) : stream_t → Option (Option Char × stream_t)
  | [] => if strchr mk.space (int_chr none) then none else some (none, [])
  | c :: fd => if strchr mk.space (int_chr c) then lexer_skip mk fd else some (c, fd)

/-- The loop of a quoted token, from a call of `config_getc` on:
`while (c != -1 && c != '"' && strchr(rd->mk_config.lend, c) == NULL)
{ if (n < READ_TOKEN_MAX - 1) { *p++ = c; n++; } c = config_getc(pa); }`,
with the bytes `acc` stored so far; it gives the last `c`, the stream and the
bytes stored. -/
def lexer_quoted (mk : markup_t) (K : read_h) :
    stream_t → List Char → Option Char × stream_t × List Char
  | [], acc => (none, [], acc)
  | none :: fd, acc => (none, fd, acc)
  | some x :: fd, acc =>
    if x = '"' ∨ strchr mk.lend x = true then (some x, fd, acc)
    else lexer_quoted mk K fd (if (acc.length : Int) < (K.READ_TOKEN_MAX : Int) - 1
      then acc ++ [x] else acc)

/-- The loop of a token without quotes, from the call of `config_getc` on:
`do { if (n < READ_TOKEN_MAX) { *p++ = c; n++; } c = config_getc(pa); }
while (c != -1 && strchr(rd->mk_config.space, c) == NULL
&& strchr(rd->mk_config.lend, c) == NULL);`, with the bytes `acc` stored so
far. -/
def lexer_plain (mk : markup_t) (K : read_h) :
    stream_t → List Char → Option Char × stream_t × List Char
  | [], acc => (none, [], acc)
  | none :: fd, acc => (none, fd, acc)
  | some x :: fd, acc =>
    if strchr mk.space x = true ∨ strchr mk.lend x = true then (some x, fd, acc)
    else lexer_plain mk K fd (if acc.length < K.READ_TOKEN_MAX then acc ++ [x] else acc)

/-- The step `if (strchr(rd->mk_config.lend, c) != NULL) config_ungetc(pa, c);`. -/
def lexer_unget (mk : markup_t) (c : Option Char) : Option Char :=
  if strchr mk.lend (int_chr c) then c else none

/-- The function `configLexerFSM` with the markup `rd->mk_config`: the value it
returns and the state it leaves, or `none` where it does not return. -/
def configLexerFSM (mk : markup_t) (K : read_h) (pa : lexer_t) : Option (Int × lexer_t) :=
  let first :=
    match pa.unchar with
    | some u => if strchr mk.space u then lexer_skip mk pa.fd else some (some u, pa.fd)
    | none => lexer_skip mk pa.fd
  match first with
  | none => none
  | some (none, fd) => some (-1, { pa with fd := fd, unchar := none })
  | some (some c, fd) =>
    if c = '"' then
      let q := lexer_quoted mk K fd []
      some (0, { pa with fd := q.2.1, unchar := lexer_unget mk q.1, tbuf := q.2.2 })
    else if strchr mk.lend c then
      some (1, { pa with fd := fd, unchar := none, line_N := pa.line_N + 1, newline := 1 })
    else
      let q := lexer_plain mk K fd (if 0 < K.READ_TOKEN_MAX then [c] else [])
      some (0, { pa with fd := q.2.1, unchar := lexer_unget mk q.1, tbuf := q.2.2 })

open data_hint format_t async_ret

/-! ## A free axis for a combined page: `combineGetFreeAxis` -/

/-- The bound `PLOT_AXES_MAX` of `plot.h`. -/
def PLOT_AXES_MAX : Nat := 9

/-- The value `AXIS_FREE` of `plot.h`. -/
def AXIS_FREE : Int := 0

/-- The loop `for (J = 0; J < PLOT_AXES_MAX; ++J) { if (map[J] == N) { sF = 1;
break; } }` of `combineGetFreeAxis` from `J` on, with `left` turns to go: the
value of `sF` after it. -/
def combineGetFreeAxis_sF (map : Nat → Int) (N : Nat) : Nat → Nat → Int
  | 0, _ => 0
  | left + 1, J => if map J = N then 1 else combineGetFreeAxis_sF map N left (J + 1)

/-- The loop `for (N = 0; N < PLOT_AXES_MAX; ++N)` of `combineGetFreeAxis` from
`N` on, with `left` turns to go: the value of `aN` after it. The plot is read
through `busy N`, which is `pl->axis[N].busy`. -/
def combineGetFreeAxis_loop (busy : Nat → Int) (map : Nat → Int) : Nat → Nat → Int
  | 0, _ => -1
  | left + 1, N =>
    if busy N = AXIS_FREE then
      if combineGetFreeAxis_sF map N PLOT_AXES_MAX 0 = 0 then (N : Int)
      else combineGetFreeAxis_loop busy map left (N + 1)
    else combineGetFreeAxis_loop busy map left (N + 1)

/-- The function `combineGetFreeAxis`; it reads the plot and the map and
writes neither. -/
def combineGetFreeAxis (busy : Nat → Int) (map : Nat → Int) : Int :=
  combineGetFreeAxis_loop busy map PLOT_AXES_MAX 0

/-- An axis that is free and that no entry of the map names. -/
def axis_unused (busy : Nat → Int) (map : Nat → Int) (N : Nat) : Prop :=
  busy N = AXIS_FREE ∧ ∀ J, J < PLOT_AXES_MAX → map J ≠ (N : Int)

open data_hint format_t async_ret

/-! ## The time column of a dataset: `readGetTimeColumn` -/

open data_hint format_t async_ret

/-! ## The command `figure` -/

/-- The bound `PLOT_FIGURE_MAX` of `plot.h`. -/
def PLOT_FIGURE_MAX : Int := 8

/-- The figure that the command `figure` writes. -/
def figure_entry (dN cX cY : Int) (label : List Char) : fig_t :=
  { busy := 1, drawing := -1, dN := dN, cX := cX, cY := cY, aX := 0, aY := 1, label := label }

/-- The command `figure` of `configParseFSM`. The third call of the lexer is
made before the tests, and its result is tested after them. -/
def config_figure {σ α : Type} (c : config_t σ α) : config_t σ α :=
  finish (do
    let c1 ← lex_int { c with failed := 1 } 0
    let c2 ← lex_int c1 1
    let t := next_token c2.pa
    let c3 := { c2 with pa := t.2 }
    if c3.rd.page_N = -1 then throw c3
    if c3.rd.bind_N = -1 then throw c3
    let cN := c3.rd.pump.pl.column_N c3.rd.bind_N.toNat
    if c3.argi 0 < -1 ∨ c3.argi 0 ≥ cN ∨ c3.argi 1 < -1 ∨ c3.argi 1 ≥ cN then throw c3
    if t.1 = 0 then
      if c3.rd.figure_N < PLOT_FIGURE_MAX - 1 then
        let fN := c3.rd.figure_N + 1
        let pg := c3.rd.page c3.rd.page_N
        let fg := figure_entry c3.rd.bind_N (c3.argi 0) (c3.argi 1) (cstr c3.pa.tbuf)
        let pg1 := { pg with fig := Function.update pg.fig fN.toNat fg }
        let rd1 := { c3.rd with figure_N := fN, page := Function.update c3.rd.page c3.rd.page_N pg1 }
        pure { c3 with failed := 0, rd := rd1 }
      else pure c3
    else pure c3)

/-- The arguments that a command `figure` reads: the next three results of the
lexer are an integer, an integer and a token, the label. -/
def figure_args {σ α : Type} (c : config_t σ α) : Option (Int × Int × List Char) :=
  match first_int c with
  | none => none
  | some a =>
    match first_int { c with pa := (next_token c.pa).2 } with
    | none => none
    | some b =>
      if (next_token (next_token (next_token c.pa).2).2).1 = 0 then
        some (a, b, cstr (next_token (next_token (next_token c.pa).2).2).2.tbuf)
      else none

/-- The conditions under which the command `figure` adds the figure with the
columns `a` and `b`: a page and a dataset are selected, both columns are in
`[-1, column_N)` of the dataset, and the page holds fewer than
`PLOT_FIGURE_MAX` figures by the count `figure_N`. -/
def figure_allowed {σ α : Type} (r : reader_t σ α) (a b : Int) : Prop :=
  r.page_N ≠ -1 ∧ r.bind_N ≠ -1
  ∧ -1 ≤ a ∧ a < r.pump.pl.column_N r.bind_N.toNat
  ∧ -1 ≤ b ∧ b < r.pump.pl.column_N r.bind_N.toNat
  ∧ r.figure_N < PLOT_FIGURE_MAX - 1

instance figure_allowed_dec {σ α : Type} (r : reader_t σ α) (a b : Int) :
    Decidable (figure_allowed r a b) := by
  unfold figure_allowed; infer_instance

open data_hint format_t async_ret

/-! ## The free pages that `readMakePages` fills -/

/-- The free pages from index `s` on, in ascending order: the indices `p` with
`s <= p < READ_PAGE_MAX` and `rd->page[p].busy == 0`. -/
def free_pages (page : Int → page_t) (READ_PAGE_MAX : Nat) (s : Nat) : List Nat :=
  (List.range' s (READ_PAGE_MAX - s)).filter (fun p => decide ((page p).busy = 0))

/-- The index at which `readMakePages` starts to look for a free page:
`rd->page_N`, or 1 when it is -1. -/
def readMakePages_start {σ α : Type} (r : reader_t σ α) : Nat :=
  (if r.page_N = -1 then 1 else r.page_N).toNat

/-- The number of columns of dataset `dN` that `readMakePages` goes through. -/
def readMakePages_columns {σ α : Type} (r : reader_t σ α) (dN : Int) : Nat :=
  (r.pump.rd.data dN.toNat).column_N.toNat

open data_hint format_t async_ret

/-! ## The texts of the interface: `langFill` of `lang.c` -/

/-- Modelled from the spec: the language codes of `lang.h`, which is absent;
`LANG_OTHER` stands for every value that is neither `LANG_EN` nor `LANG_RU`. -/
inductive lang_code where
  | LANG_EN
  | LANG_RU
  | LANG_OTHER
deriving DecidableEq

/-- Modelled from the spec: the fields of `lang_t` of `lang.h`, which is absent,
that `langFill` assigns; `dataset_menu` is an array of four strings. -/
inductive lang_field where
  | global_menu
  | global_zoom_menu
  | global_appearance_menu
  | global_data_menu
  | dataset_menu (i : Nat)
  | axis_menu
  | axis_zoom_menu
  | figure_menu
  | figure_edit_menu
  | figure_edit_drawing_menu
  | figure_operation_menu
  | legend_menu
  | cancel_menu
  | page_title_edit
  | figure_label_edit
  | axis_label_edit
  | scale_offset_edit
  | file_name_edit
  | bit_number_edit
  | low_pass_edit
  | length_edit
  | figure_thickness_edit
  | font_size_edit
  | figure_edit_color_menu
  | global_lang_menu
deriving DecidableEq

/-- The assignments of `langFill` under `lang == LANG_EN`, in turn: the field and
the string literals that the compiler joins into its value. -/
def langFill_en : List (lang_field × List String) :=
  [(lang_field.global_menu,
     ["    Zoom ...\x00",
      "P   Take a screenshot\x00",
      "F   Fullscreen mode toggle\x00",
      "    Appearance ...\x00",
      "    Data management ...\x00",
      "En  Go to the page ...\x00",
      "C   Combine with page ...\x00",
      "B   No remap combine ...\x00",
      "R   Create subtraction\x00",
      "M   Place figure markers\x00",
      "T   Data slice (on X)\x00",
      "K   Compact axes mode\x00",
      "E   Exponential mode\x00",
      "Y   Yank to clipboard\x00",
      "    Language ...\x00",
      "    Page title ...\x00",
      "    Quit\x00",
      "\x00"]),
   (lang_field.global_zoom_menu,
     ["A   Auto fit to page\x00",
      "Q   Equal scales\x00",
      "G   Grid align\x00",
      "W   Staked (on Y)\x00",
      "\x00"]),
   (lang_field.global_appearance_menu,
     ["L   Change a colorscheme  [ %s ]     \x00",
      "    Change a font         [ %s ]\x00",
      "    Drawing antialiasing  [ %s ]\x00",
      "    Line thickness        [ %s ]\x00",
      "    Hinting mode          [ %s ]\x00",
      "    Font size             [ %s ]\x00",
      "\x00"]),
   (lang_field.global_data_menu,
     ["U   Reload all data files\x00",
      "O   Open data file ...\x00",
      "    Dataset customization ...\x00",
      "    Edit configuration ...\x00",
      "    Default configuration\x00",
      "\x00"]),
   (lang_field.dataset_menu 0,
     [" Time column  [%3i]"]),
   (lang_field.dataset_menu 1,
     [" Time unwrap  [ %s ]"]),
   (lang_field.dataset_menu 2,
     [" Time scale   [%s]"]),
   (lang_field.dataset_menu 3,
     [" Length       [%3i]  %iM"]),
   (lang_field.axis_menu,
     ["    Zoom ...\x00",
      "S   Slave mode\x00",
      "X   Remove the axis\x00",
      "T   Data slice\x00",
      "K   Compact mode      [ %s ]\x00",
      "E   Exponential mode  [ %s ]\x00",
      "    Label ...\x00",
      "\x00"]),
   (lang_field.axis_zoom_menu,
     ["A   Auto fit to page\x00",
      "    Selective auto fit\x00",
      "    Copy scale from active\x00",
      "    Edit ...\x00",
      "\x00"]),
   (lang_field.figure_menu,
     ["    Move to active axes\x00",
      "    Create individual axes\x00",
      "X   Remove the figure\x00",
      "    Subtract operation ...\x00",
      "    Edit the figure ...\x00",
      "\x00"]),
   (lang_field.figure_edit_menu,
     ["    Drawing ...\x00",
      "    Thickness ...\x00",
      "    Color ...\x00",
      "    Data X ...\x00",
      "    Data Y ...\x00",
      "    Label ...\x00",
      "\x00"]),
   (lang_field.figure_edit_drawing_menu,
     ["    Line  1p\x00",
      "    Line  2p\x00",
      "    Line  4p\x00",
      "    Line  6p\x00",
      "    Dash  1p\x00",
      "    Dash  2p\x00",
      "    Dash  4p\x00",
      "    Dash  6p\x00",
      "    Dot   1p\x00",
      "    Dot   2p\x00",
      "    Dot   4p\x00",
      "    Dot   6p\x00",
      "\x00"]),
   (lang_field.figure_operation_menu,
     ["    Duplicate figure\x00",
      "    Time unwrap\x00",
      "    Scale (on X) ...\x00",
      "    Scale (on Y) ...\x00",
      "R   Add B subtraction\x00",
      "    Add B addition\x00",
      "    Add B multiplication\x00",
      "    Add B hypotenuse\x00",
      "    Add F sequential difference\x00",
      "    Add F cumulative sum\x00",
      "    Add F bit field ...\x00",
      "    Add F low pass ...\x00",
      "\x00"]),
   (lang_field.legend_menu,
     ["    Drawing primitive ...\x00",
      "    Transparency mode   [ %s ]\x00",
      "\x00"]),
   (lang_field.cancel_menu,
     ["    Cancel\x00",
      "    OK\x00",
      "\x00"]),
   (lang_field.page_title_edit,
     ["Page Title"]),
   (lang_field.figure_label_edit,
     ["Figure Label"]),
   (lang_field.axis_label_edit,
     ["Axis Label"]),
   (lang_field.scale_offset_edit,
     ["Scale and offset"]),
   (lang_field.file_name_edit,
     ["File Name"]),
   (lang_field.bit_number_edit,
     ["Bit Range"]),
   (lang_field.low_pass_edit,
     ["Low Pass Gain"]),
   (lang_field.length_edit,
     ["Length"]),
   (lang_field.figure_thickness_edit,
     ["Thickness"]),
   (lang_field.font_size_edit,
     ["Font size"])]

/-- The assignments of `langFill` under `lang == LANG_RU`. -/
def langFill_ru : List (lang_field × List String) :=
  [(lang_field.global_menu,
     ["    Масштаб ...\x00",
      "P   Сделать снимок\x00",
      "F   Режим полного экрана\x00",
      "    Внешний вид ...\x00",
      "    Управление данными ...\x00",
      "En  Перейти к странице ...\x00",
      "C   Комбинировать страницы ...\x00",
      "B   Без переназначения ...\x00",
      "R   Создать вычитание\x00",
      "M   Разместить маркеры фигур\x00",
      "T   Нарезка данных (по X)\x00",
      "K   Режим компактных осей\x00",
      "E   Экспонентный режим\x00",
      "Y   Копировать в буфер\x00",
      "    Язык ...\x00",
      "    Текст заголовка ...\x00",
      "    Выход\x00",
      "\x00"]),
   (lang_field.global_zoom_menu,
     ["A   Автоматически на всю страницу\x00",
      "Q   Одинаковый масштаб по осям\x00",
      "G   Выравнивание сетки\x00",
      "W   Укладка (по Y)\x00",
      "\x00"]),
   (lang_field.global_appearance_menu,
     ["L   Сменить цветовую схему  [ %s ]     \x00",
      "    Переключение шрифтов    [ %s ]\x00",
      "    Сглаживание рисования   [ %s ]\x00",
      "    Толщина линий           [ %s ]\x00",
      "    Хинтинг шрифта          [ %s ]\x00",
      "    Размер шрифта           [ %s ]\x00",
      "\x00"]),
   (lang_field.global_data_menu,
     ["U   Перезагрузить все данные\x00",
      "O   Открыть файл данных ...\x00",
      "    Настройка наборов данных ...\x00",
      "    Редактировать конфигурацию ...\x00",
      "    Сбросить конфигурацию\x00",
      "\x00"]),
   (lang_field.dataset_menu 0,
     [" Столбец времени   [%3i]"]),
   (lang_field.dataset_menu 1,
     [" Развернуть время  [ %s ]"]),
   (lang_field.dataset_menu 2,
     [" Масштаб времени   [%s]"]),
   (lang_field.dataset_menu 3,
     [" Длина             [%3i]  %iM"]),
   (lang_field.axis_menu,
     ["    Масштаб ...\x00",
      "S   Подчиненный режим\x00",
      "X   Удалить эту ось\x00",
      "T   Нарезка данных\x00",
      "K   Компактный режим    [ %s ]\x00",
      "E   Экспонентный режим  [ %s ]\x00",
      "    Текст ...\x00",
      "\x00"]),
   (lang_field.axis_zoom_menu,
     ["A   Автоматически на всю страницу\x00",
      "    Выборочный масштаб\x00",
      "    Копировать с активной оси\x00",
      "    Редактировать ...\x00",
      "\x00"]),
   (lang_field.figure_menu,
     ["    Переместить на активные оси\x00",
      "    Создать индивидуальные оси\x00",
      "X   Удалить фигуру\x00",
      "    Операции вычитания ...\x00",
      "    Редактировать фигуру ...\x00",
      "\x00"]),
   (lang_field.figure_edit_menu,
     ["    Рисование ...\x00",
      "    Толщина ...\x00",
      "    Цвет ...\x00",
      "    Данные X ...\x00",
      "    Данные Y ...\x00",
      "    Текст ...\x00",
      "\x00"]),
   (lang_field.figure_edit_drawing_menu,
     ["    Линия  1п\x00",
      "    Линия  2п\x00",
      "    Линия  4п\x00",
      "    Линия  6п\x00",
      "    Черта  1п\x00",
      "    Черта  2п\x00",
      "    Черта  4п\x00",
      "    Черта  6п\x00",
      "    Точка  1п\x00",
      "    Точка  2п\x00",
      "    Точка  4п\x00",
      "    Точка  6п\x00",
      "\x00"]),
   (lang_field.figure_operation_menu,
     ["    Дублировать фигуру\x00",
      "    Развернуть время\x00",
      "    Масштаб (по X) ...\x00",
      "    Масштаб (по Y) ...\x00",
      "R   Добавить B вычитание\x00",
      "    Добавить B сложение\x00",
      "    Добавить B умножение\x00",
      "    Добавить B гипотенузу\x00",
      "    Добавить F последовательные разности\x00",
      "    Добавить F накопленные суммы\x00",
      "    Добавить F битовое поле ...\x00",
      "    Добавить F фильтр НЧ ...\x00",
      "\x00"]),
   (lang_field.legend_menu,
     ["    Примитив рисования ...\x00",
      "    Режим прозрачности   [ %s ]\x00",
      "\x00"]),
   (lang_field.cancel_menu,
     ["    Отмена\x00",
      "    OK\x00",
      "\x00"]),
   (lang_field.page_title_edit,
     ["Текст Заголовка"]),
   (lang_field.figure_label_edit,
     ["Текст Фигуры"]),
   (lang_field.axis_label_edit,
     ["Текст Оси"]),
   (lang_field.scale_offset_edit,
     ["Масштаб и смещение"]),
   (lang_field.file_name_edit,
     ["Имя Файла"]),
   (lang_field.bit_number_edit,
     ["Дипазон Разрядов"]),
   (lang_field.low_pass_edit,
     ["Коэффициент НЧ фильтра"]),
   (lang_field.length_edit,
     ["Длина"]),
   (lang_field.figure_thickness_edit,
     ["Толщина"]),
   (lang_field.font_size_edit,
     ["Размер шрифта"])]

/-- The assignments of `langFill` that are made for every language. -/
def langFill_all : List (lang_field × List String) :=
  [(lang_field.figure_edit_color_menu,
     ["          \x00",
      "          \x00",
      "          \x00",
      "          \x00",
      "          \x00",
      "          \x00",
      "          \x00",
      "          \x00",
      "\x00"]),
   (lang_field.global_lang_menu,
     ["    English\x00",
      "    Russian (Русский)\x00",
      "\x00"])]

/-- The assignments that `langFill(la, lang)` makes, in turn. -/
def langFill_assign (lang : lang_code) : List (lang_field × List String) :=
  (match lang with
    | lang_code.LANG_EN => langFill_en
    | lang_code.LANG_RU => langFill_ru
    | lang_code.LANG_OTHER => []) ++ langFill_all

/-- The characters of the array that adjacent string literals make, before the
NUL that ends it. -/
def lang_value (pieces : List String) : List Char := (String.join pieces).toList

/-- The value that `langFill(la, lang)` leaves in a field: the last one it
assigns to it, `none` when it assigns none. -/
def langFill_value (lang : lang_code) (f : lang_field) : Option (List Char) :=
  ((langFill_assign lang).reverse.find? (fun a => decide (a.1 = f))).map
    (fun a => lang_value a.2)

/-- The function `langFill` on the fields of `la`. -/
def langFill (la : lang_field → List Char) (lang : lang_code) : lang_field → List Char :=
  fun f => (langFill_value lang f).getD (la f)

/-- Modelled from the spec: the items of a menu, as the menu code, which is
absent, reads the string: the items are ended by NUL each, and the list is
ended by an empty item. -/
def menu_items_from : List Char → List Char → List (List Char)
  | [], item => if item = [] then [] else [item]
  | c :: s, item =>
    if c = NUL then (if item = [] then [] else item :: menu_items_from s [])
    else menu_items_from s (item ++ [c])

/-- The items of a menu string. -/
def menu_items (s : List Char) : List (List Char) := menu_items_from s []

/-- A menu string: a value with a NUL in it. -/
def is_menu (s : List Char) : Bool := s.contains NUL

/-- The hotkey prefix of a menu item: its first four characters. -/
def hotkey (item : List Char) : List Char := item.take 4

/-- The two values of a field give the same menu structure: both are menus or
neither is, and as menus they have the same number of items, with the same
hotkey prefix at each place, the prefix being four characters of one byte. -/
def same_menu (en ru : List Char) : Bool :=
  is_menu en == is_menu ru
    && (!is_menu en
      || (decide ((menu_items en).length = (menu_items ru).length)
        && decide ((menu_items en).map hotkey = (menu_items ru).map hotkey)
        && (menu_items en).all (fun i => decide ((hotkey i).length = 4)
              && (hotkey i).all (fun c => decide (c.toNat < 128)))))

open data_hint format_t async_ret

/-! ## Removing a dataset: `readDatasetClean` -/

/-- A figure after `memset(..., 0, ...)`. -/
def fig_zero : fig_t :=
  { busy := 0, drawing := 0, dN := 0, cX := 0, cY := 0, aX := 0, aY := 0, label := [] }

/-- The page `rd->page[pN]` after `memset(&rd->page[pN], 0, sizeof(rd->page[0]))`. -/
def page_zero : page_t :=
  { busy := 0, title := [], fig := fun _ => fig_zero, ax_label := fun _ => [] }

/-- The entry `rd->data[dN]` after `memset(&rd->data[dN], 0, sizeof(rd->data[0]))`;
`FORMAT_NONE` and `DATA_HINT_NONE` are the zero values of their types, and the
`fval_t` of all bits zero is the number 0. -/
def data_zero {α : Type} (A : fval_ops α) : data_t α :=
  { format := FORMAT_NONE, column_N := 0, length_N := 0, line_N := 0, follow := 0, fd := none,
    afd := none, buf := { text := [], f32 := fun _ => A.ofInt 0, f64 := fun _ => A.ofInt 0 },
    row := fun _ => A.ofInt 0, hint := fun _ => DATA_HINT_NONE }

/-- Modelled from the spec: the functions of `plot.c`, which is absent, that
`readDatasetClean` calls at its end. -/
structure plot_clean_t (σ α : Type) where
  plotFigureGarbage : plot_t σ α → Int → plot_t σ α
  plotDataRangeCacheClean : plot_t σ α → Int → plot_t σ α
  plotDataClean : plot_t σ α → Int → plot_t σ α

/-- The body of the loop `for (fN = 0; fN < PLOT_FIGURE_MAX; ++fN)
{ if (pg->fig[fN].dN == dN) pg->fig[fN].busy = 0; }`. -/
def readDatasetClean_fig (dN : Int) (fig : Nat → fig_t) (fN : Nat) : Nat → fig_t :=
  if (fig fN).dN = dN then Function.update fig fN { fig fN with busy := 0 } else fig

/-- The page `rd->page[pN]`, which is busy, after the first loop of
`readDatasetClean` has gone through it: the figures of dataset `dN` are not
busy, and the page is zeroed when no busy figure is left. -/
def readDatasetClean_clear (dN : Int) (pg : page_t) : page_t :=
  let fig1 := (List.range PLOT_FIGURE_MAX.toNat).foldl (readDatasetClean_fig dN) pg.fig
  let N := ((List.range PLOT_FIGURE_MAX.toNat).filter (fun fN => decide ((fig1 fN).busy ≠ 0))).length
  if N = 0 then page_zero else { pg with fig := fig1 }

/-- The body of the first `do` loop of `readDatasetClean` at page `pN`. -/
def readDatasetClean_page (dN : Int) (page : Int → page_t) (pN : Nat) : Int → page_t :=
  if (page pN).busy ≠ 0 then Function.update page pN (readDatasetClean_clear dN (page pN))
  else page

/-- The body of the second `do` loop of `readDatasetClean` at page `pN`, on `pW`
and the table of pages: a busy page is moved down to `pW`. -/
def readDatasetClean_move (acc : Nat × (Int → page_t)) (pN : Nat) : Nat × (Int → page_t) :=
  if (acc.2 pN).busy ≠ 0 then
    (acc.1 + 1,
      if pN ≠ acc.1 then
        Function.update (Function.update acc.2 acc.1 (acc.2 pN)) pN page_zero
      else acc.2)
  else acc

/-- The function `readDatasetClean`. -/
def readDatasetClean {σ α : Type} (A : fval_ops α) (C : plot_clean_t σ α) (K : read_h)
    (r : reader_t σ α) (dN : Int) : reader_t σ α :=
  if dN < 0 ∨ dN ≥ PLOT_DATASET_MAX then r
  else
    let page1 := (page_range K.READ_PAGE_MAX).foldl (readDatasetClean_page dN) r.page
    let page2 := ((page_range K.READ_PAGE_MAX).foldl readDatasetClean_move (1, page1)).2
    let m1 := if (r.pump.rd.data dN.toNat).fd ≠ none then readClose r.pump dN.toNat else r.pump
    let m2 := m1.set_data dN.toNat (data_zero A)
    let pl1 := C.plotFigureGarbage m2.pl dN
    let pl2 := C.plotDataClean (C.plotDataRangeCacheClean pl1 dN) dN
    { r with
      page := page2
      pump := { m2 with pl := pl2 }
      file := Function.update r.file dN.toNat []
      label := Function.update r.label dN.toNat (fun _ => []) }

/-- The functions of `plot.c` for concrete runs: the plot is left as it is. -/
def demo_clean : plot_clean_t Nat fexact :=
  { plotFigureGarbage := fun pl _ => pl
    plotDataRangeCacheClean := fun pl _ => pl
    plotDataClean := fun pl _ => pl }

open data_hint format_t async_ret

/-! ## The count of open files `rd->files_N` -/

/-- The reader that `readAlloc` returns for the plot `pl`: the structure is
zeroed by `calloc`, then the settings are installed. -/
def readAlloc {σ α : Type} (A : fval_ops α) (pl : plot_t σ α) : reader_t σ α :=
  { pump := { rd := { data := fun _ => data_zero A, files_N := 0, mk_text := mk_default },
              pl := pl, trace := [] }
    opened := [], file := fun _ => [], label := fun _ _ => [], mk_config := mk_default
    preload := 8388608, chunk := 4096, timeout := 10000, length_N := 10000, timecol := -1
    bind_N := -1, page_N := -1, figure_N := -1, page := fun _ => page_zero }

/-- The body of the loop of `readDataReload` at dataset `dN`. -/
def readDataReload_dataset {σ α : Type} (A : fval_ops α) (P : plot_api (plot_t σ α) α)
    (X : plot_ext σ α) (E : env_t α) (K : read_h) (fd0 : Option (file_t × stream_t))
    (rbuf0 : Nat → α) (r : reader_t σ α) (dN : Nat) : reader_t σ α :=
  if (r.pump.rd.data dN).format ≠ FORMAT_NONE ∧ peek (r.file dN) ≠ NUL then
    readOpenUnified A P X E K fd0 rbuf0 r dN (r.pump.rd.data dN).column_N
      (r.pump.rd.data dN).length_N (some (r.file dN)) (r.pump.rd.data dN).format
  else r

/-- The function `readDataReload`. -/
def readDataReload {σ α : Type} (A : fval_ops α) (P : plot_api (plot_t σ α) α)
    (X : plot_ext σ α) (E : env_t α) (K : read_h) (fd0 : Option (file_t × stream_t))
    (rbuf0 : Nat → α) (r : reader_t σ α) : reader_t σ α :=
  (List.range PLOT_DATASET_MAX).foldl (readDataReload_dataset A P X E K fd0 rbuf0) r

/-- The table of the streams `rd->data[dN].fd`. -/
def fd_table {σ α : Type} (m : pump_t σ α) : Nat → Option file_t :=
  fun dN => (m.rd.data dN).fd

/-- The number of datasets of the table whose `rd->data[dN].fd` is not NULL. -/
def open_count {σ α : Type} (m : pump_t σ α) : Nat :=
  (List.range PLOT_DATASET_MAX).countP (fun dN => (fd_table m dN).isSome)

/-- The count `rd->files_N` is the number of open datasets. -/
def files_inv {σ α : Type} (m : pump_t σ α) : Prop :=
  m.rd.files_N = (open_count m : Int)

instance files_inv_dec {σ α : Type} (m : pump_t σ α) : Decidable (files_inv m) := by
  unfold files_inv
  exact inferInstance

/-- A reader with dataset 0 open on a text source that is at its end, and
dataset 1 open on a source with nothing to give for now. -/
def demo_open : reader_t Nat fexact :=
  { demo_reader (demo_closed (demo_plot 0)) with
    pump :=
      { rd := { data := fun dN =>
                  if dN = 0 then demo_data 0 (some [ASYNC_END_OF_FILE])
                  else if dN = 1 then demo_data 0 (some [])
                  else demo_data 0 none,
                files_N := 2, mk_text := mk_default },
        pl := demo_plot 0, trace := [] } }

/-- A step from `m` to `m1` that leaves the streams of the datasets other than
`dN`, and either leaves the stream of `dN` and the count of open files, or
closes the stream of `dN`, which was open, and takes one from the count. -/
def fd_step {σ α : Type} (m m1 : pump_t σ α) (dN : Nat) : Prop :=
  (∀ j, j ≠ dN → fd_table m1 j = fd_table m j)
  ∧ ((fd_table m1 dN = fd_table m dN ∧ m1.rd.files_N = m.rd.files_N)
    ∨ (fd_table m dN ≠ none ∧ fd_table m1 dN = none ∧ m1.rd.files_N = m.rd.files_N - 1))

open data_hint format_t async_ret

/-! ## A run of commands that fills a page and resets the count of figures -/

/-- The state of `configParseFSM` at a command whose arguments are the tokens `ts`. -/
def config_t.at_command {σ α : Type} (c : config_t σ α) (ts : List String) : config_t σ α :=
  { c with pa := { c.pa with input := ts.map (fun s => token_t.TOKEN s.toList) } }

/-- The state before the run: a reader as `readAlloc` leaves it, on a plot whose
datasets have no columns, with no file to open. -/
def demo_start : config_t Nat fexact :=
  { demo_config [] with
    rd := demo_reader (demo_closed { demo_plot 0 with column_N := fun _ => 0 }) }

/-- The state after `load 0 0 float 0 x`, where the file `x` does not open and
the dataset is made as a stub without columns, `page t`, and `figure -1 -1 u`
eight times: page 1 holds `PLOT_FIGURE_MAX` figures. -/
def demo_full_page : config_t Nat fexact :=
  (List.range 8).foldl (fun c _ => config_figure (c.at_command ["-1", "-1", "u"]))
    (config_page ((config_load demo_world (demo_start.at_command ["0", "0", "float", "0", "x"])
      0).at_command ["t"]))

/-- The state after `mkpages -1` on the full page: the dataset has no column,
so no page is made, and `readMakePages` leaves `page_N` and sets `figure_N = -1`. -/
def demo_count_reset : config_t Nat fexact :=
  config_mkpages demo_world (demo_full_page.at_command ["-1"])

/-! # Theorems -/

theorem char_of_toNat (c : Char) (n : Nat) (h : c.toNat = n) : c = Char.ofNat n := by
  rw [← h]; exact (Char.ofNat_toNat c).symm

theorem digit_val_dec (c : Char) (h1 : 48 ≤ c.toNat) (h2 : c.toNat ≤ 57) :
    digit_val c = some (c.toNat - 48) := by
  generalize hn : c.toNat = n at h1 h2
  have hc := char_of_toNat c n hn
  subst hc
  interval_cases n <;> rfl

theorem digit_val_upper (c : Char) (h1 : 65 ≤ c.toNat) (h2 : c.toNat ≤ 70) :
    digit_val c = some (c.toNat - 55) := by
  generalize hn : c.toNat = n at h1 h2
  have hc := char_of_toNat c n hn
  subst hc
  interval_cases n <;> rfl

theorem digit_val_lower (c : Char) (h1 : 97 ≤ c.toNat) (h2 : c.toNat ≤ 102) :
    digit_val c = some (c.toNat - 87) := by
  generalize hn : c.toNat = n at h1 h2
  have hc := char_of_toNat c n hn
  subst hc
  interval_cases n <;> rfl

theorem digit_val_other (c : Char)
    (h1 : ¬ (48 ≤ c.toNat ∧ c.toNat ≤ 57)) (h2 : ¬ (65 ≤ c.toNat ∧ c.toNat ≤ 70))
    (h3 : ¬ (97 ≤ c.toNat ∧ c.toNat ≤ 102)) : digit_val c = none := by
  have hl : ¬ "0123456789abcdef".toList.indexOf c < 16 := by
    intro h
    have hm : c ∈ "0123456789abcdef".toList := List.indexOf_lt_length.mp h
    simp only [String.toList, List.mem_cons, List.mem_singleton, List.not_mem_nil,
      or_false] at hm
    rcases hm with rfl | rfl | rfl | rfl | rfl | rfl | rfl | rfl | rfl | rfl | rfl | rfl |
      rfl | rfl | rfl | rfl
    all_goals (revert h1 h2 h3; decide)
  have hu : ¬ "0123456789ABCDEF".toList.indexOf c < 16 := by
    intro h
    have hm : c ∈ "0123456789ABCDEF".toList := List.indexOf_lt_length.mp h
    simp only [String.toList, List.mem_cons, List.mem_singleton, List.not_mem_nil,
      or_false] at hm
    rcases hm with rfl | rfl | rfl | rfl | rfl | rfl | rfl | rfl | rfl | rfl | rfl | rfl |
      rfl | rfl | rfl | rfl
    all_goals (revert h1 h2 h3; decide)
  unfold digit_val
  rw [if_neg hl, if_neg hu]

/-- The hexadecimal digit test of `htoi` is the digit table, as integers. -/
theorem hex_val_eq (c : Char) :
    hex_val c = if is_digit_of 16 c then some (((digit_val c).getD 0 : Nat) : Int) else none := by
  unfold hex_val is_digit_of
  by_cases h1 : 48 ≤ c.toNat ∧ c.toNat ≤ 57
  · rw [if_pos h1, digit_val_dec c h1.1 h1.2]
    have : c.toNat - 48 < 16 := by omega
    simp [this]; omega
  · rw [if_neg h1]
    by_cases h2 : 65 ≤ c.toNat ∧ c.toNat ≤ 70
    · rw [if_pos h2, digit_val_upper c h2.1 h2.2]
      have : c.toNat - 55 < 16 := by omega
      simp [this]; omega
    · rw [if_neg h2]
      by_cases h3 : 97 ≤ c.toNat ∧ c.toNat ≤ 102
      · rw [if_pos h3, digit_val_lower c h3.1 h3.2]
        have : c.toNat - 87 < 16 := by omega
        simp [this]; omega
      · rw [if_neg h3, digit_val_other c h1 h2 h3]
        simp

/-- The decimal digit test of the parsers is the digit table below 10. -/
theorem is_dec_eq (c : Char) : is_dec c = is_digit_of 10 c := by
  unfold is_dec is_digit_of
  by_cases h1 : 48 ≤ c.toNat ∧ c.toNat ≤ 57
  · rw [digit_val_dec c h1.1 h1.2]
    have : c.toNat - 48 < 10 := by omega
    simp [this, h1.1, h1.2]
  · by_cases h2 : 65 ≤ c.toNat ∧ c.toNat ≤ 70
    · rw [digit_val_upper c h2.1 h2.2]
      have : ¬ c.toNat - 55 < 10 := by omega
      have h4 : ¬ c.toNat ≤ 57 := by omega
      simp [this, h4]
    · by_cases h3 : 97 ≤ c.toNat ∧ c.toNat ≤ 102
      · rw [digit_val_lower c h3.1 h3.2]
        have : ¬ c.toNat - 87 < 10 := by omega
        have h4 : ¬ c.toNat ≤ 57 := by omega
        simp [this, h4]
      · rw [digit_val_other c h1 h2 h3]
        simp only [Bool.and_eq_false_imp, decide_eq_true_eq, decide_eq_false_iff_not]
        intro h; exact fun h5 => h1 ⟨h, h5⟩

theorem dec_val_eq (c : Char) (h : is_dec c = true) :
    dec_val c = (((digit_val c).getD 0 : Nat) : Int) := by
  unfold is_dec at h
  simp only [Bool.and_eq_true, decide_eq_true_eq] at h
  rw [digit_val_dec c h.1 h.2]
  unfold dec_val
  simp; omega

/-- The octal digit test of `otoi` is the digit table below 8. -/
theorem is_oct_eq (c : Char) : is_oct c = is_digit_of 8 c := by
  unfold is_oct is_digit_of
  by_cases h1 : 48 ≤ c.toNat ∧ c.toNat ≤ 57
  · rw [digit_val_dec c h1.1 h1.2]
    by_cases h5 : c.toNat ≤ 55
    · have : c.toNat - 48 < 8 := by omega
      simp [this, h1.1, h5]
    · have : ¬ c.toNat - 48 < 8 := by omega
      simp [this, h5]
  · by_cases h2 : 65 ≤ c.toNat ∧ c.toNat ≤ 70
    · rw [digit_val_upper c h2.1 h2.2]
      have : ¬ c.toNat - 55 < 8 := by omega
      have h4 : ¬ c.toNat ≤ 55 := by omega
      simp [this, h4]
    · by_cases h3 : 97 ≤ c.toNat ∧ c.toNat ≤ 102
      · rw [digit_val_lower c h3.1 h3.2]
        have : ¬ c.toNat - 87 < 8 := by omega
        have h4 : ¬ c.toNat ≤ 55 := by omega
        simp [this, h4]
      · rw [digit_val_other c h1 h2 h3]
        simp only [Bool.and_eq_false_imp, decide_eq_true_eq, decide_eq_false_iff_not]
        intro h h5; exact h1 ⟨h, by omega⟩

theorem oct_val_eq (c : Char) (h : is_oct c = true) :
    dec_val c = (((digit_val c).getD 0 : Nat) : Int) := by
  unfold is_oct at h
  simp only [Bool.and_eq_true, decide_eq_true_eq] at h
  rw [digit_val_dec c h.1 (by omega)]
  unfold dec_val
  simp; omega

theorem wrap32_step (b x d : Int) : wrap32 (b * wrap32 x + d) = wrap32 (b * x + d) := by
  unfold wrap32
  have h : (b * ((x + 2147483648) % 4294967296 - 2147483648) + d + 2147483648) % 4294967296
      = (b * x + d + 2147483648) % 4294967296 := by
    have e : b * ((x + 2147483648) % 4294967296 - 2147483648) + d + 2147483648
        = (b * x + d + 2147483648) + 4294967296 * (- (b * ((x + 2147483648) / 4294967296))) := by
      have := Int.emod_add_ediv (x + 2147483648) 4294967296
      linear_combination b * this
    rw [e, Int.add_mul_emod_self_left]
  rw [h]

theorem wrap32_small (x : Int) (h0 : -2147483648 ≤ x) (h1 : x < 2147483648) : wrap32 x = x := by
  unfold wrap32; omega

/-- Horner accumulation of digits from an accumulator. -/
theorem digits_val_eq_foldl (b : Nat) (ds : List Char) :
    digits_val b ds = ds.foldl (fun a c => b * a + (digit_val c).getD 0) 0 := rfl

theorem htoi_loop_eq (H : Nat) (k : Nat) (s : List Char) (hk8 : k ≤ 8) :
    htoi_loop (wrap32 H) k s =
      if k + (s.takeWhile (is_digit_of 16)).length ≤ 8 then
        some (wrap32 (((s.takeWhile (is_digit_of 16)).foldl
            (fun a c => 16 * a + (digit_val c).getD 0) H : Nat) : Int),
          k + (s.takeWhile (is_digit_of 16)).length, s.dropWhile (is_digit_of 16))
      else none := by
  induction s generalizing H k with
  | nil => simp [htoi_loop, hk8]
  | cons c s ih =>
    rw [htoi_loop, hex_val_eq]
    by_cases hc : is_digit_of 16 c = true
    · simp only [hc, if_true, List.takeWhile_cons_of_pos, List.dropWhile_cons_of_pos,
        List.length_cons, List.foldl_cons]
      by_cases hk : k + 1 > 8
      · have : ¬ (k + ((s.takeWhile (is_digit_of 16)).length + 1) ≤ 8) := by omega
        simp [hk, this]
      · rw [if_neg hk, wrap32_step]
        have e : (16 : Int) * (H : Int) + (((digit_val c).getD 0 : Nat) : Int)
            = ((16 * H + (digit_val c).getD 0 : Nat) : Int) := by push_cast; ring
        rw [e, ih _ _ (by omega)]
        have e2 : k + 1 + (s.takeWhile (is_digit_of 16)).length
            = k + ((s.takeWhile (is_digit_of 16)).length + 1) := by omega
        rw [e2]
    · have hc' : is_digit_of 16 c = false := by simpa using hc
      simp [hc', hk8]

theorem otoi_loop_eq (H : Nat) (k : Nat) (s : List Char) (hk8 : k ≤ 11) :
    otoi_loop (wrap32 H) k s =
      if k + (s.takeWhile (is_digit_of 8)).length ≤ 11 then
        some (wrap32 (((s.takeWhile (is_digit_of 8)).foldl
            (fun a c => 8 * a + (digit_val c).getD 0) H : Nat) : Int),
          k + (s.takeWhile (is_digit_of 8)).length, s.dropWhile (is_digit_of 8))
      else none := by
  induction s generalizing H k with
  | nil => simp [otoi_loop, hk8]
  | cons c s ih =>
    rw [otoi_loop, is_oct_eq]
    by_cases hc : is_digit_of 8 c = true
    · have hv := oct_val_eq c (by rw [is_oct_eq]; exact hc)
      simp only [hc, if_true, List.takeWhile_cons_of_pos, List.dropWhile_cons_of_pos,
        List.length_cons, List.foldl_cons]
      by_cases hk : k + 1 > 11
      · have : ¬ (k + ((s.takeWhile (is_digit_of 8)).length + 1) ≤ 11) := by omega
        simp [hk, this]
      · rw [if_neg hk, wrap32_step, hv]
        have e : (8 : Int) * (H : Int) + (((digit_val c).getD 0 : Nat) : Int)
            = ((8 * H + (digit_val c).getD 0 : Nat) : Int) := by push_cast; ring
        rw [e, ih _ _ (by omega)]
        have e2 : k + 1 + (s.takeWhile (is_digit_of 8)).length
            = k + ((s.takeWhile (is_digit_of 8)).length + 1) := by omega
        rw [e2]
    · have hc' : is_digit_of 8 c = false := by simpa using hc
      simp [hc', hk8]

theorem wrap32_zero : wrap32 ((0 : Nat) : Int) = 0 := by unfold wrap32; norm_num

theorem htoi_strip (s : List Char) :
    (if peek s = '0' ∧ peek s.tail = 'x' then s.tail.tail else s)
      = (if s.take 2 = ['0', 'x'] then s.drop 2 else s) := by
  match s with
  | [] => simp [peek, NUL]
  | [a] => simp [peek, NUL]
  | a :: b :: t => simp [peek]

/-- The function `htoi` is the reference parser with the number reduced to `int`. -/
theorem htoi_eq_ref (mk : markup_t) (s : List Char) :
    htoi mk s = (htoi_ref mk s).map (fun p => (wrap32 (p.1 : Int), p.2)) := by
  unfold htoi htoi_ref
  rw [htoi_strip]
  generalize (if s.take 2 = ['0', 'x'] then s.drop 2 else s) = t
  have h := htoi_loop_eq 0 0 t (by omega)
  rw [wrap32_zero] at h
  simp only [h, Nat.zero_add]
  by_cases h8 : (t.takeWhile (is_digit_of 16)).length ≤ 8
  · simp only [h8, if_true]
    by_cases h0 : (t.takeWhile (is_digit_of 16)).length = 0
    · have : ¬ 1 ≤ (t.takeWhile (is_digit_of 16)).length := by omega
      simp [h0]
    · have h1 : 1 ≤ (t.takeWhile (is_digit_of 16)).length := by omega
      by_cases ht : is_term mk (peek (t.dropWhile (is_digit_of 16))) = true
      · simp [h0, h1, ht, digits_val]
      · simp [h0, h1, ht]
  · simp [h8]

/-- The function `otoi` is the reference parser with the number reduced to `int`. -/
theorem otoi_eq_ref (mk : markup_t) (s : List Char) :
    otoi mk s = (otoi_ref mk s).map (fun p => (wrap32 (p.1 : Int), p.2)) := by
  unfold otoi otoi_ref
  have h := otoi_loop_eq 0 0 s (by omega)
  rw [wrap32_zero] at h
  simp only [h, Nat.zero_add]
  by_cases h8 : (s.takeWhile (is_digit_of 8)).length ≤ 11
  · simp only [h8, if_true]
    by_cases h0 : (s.takeWhile (is_digit_of 8)).length = 0
    · have : ¬ 1 ≤ (s.takeWhile (is_digit_of 8)).length := by omega
      simp [h0]
    · have h1 : 1 ≤ (s.takeWhile (is_digit_of 8)).length := by omega
      by_cases ht : is_term mk (peek (s.dropWhile (is_digit_of 8))) = true
      · simp [h0, h1, ht, digits_val]
      · simp [h0, h1, ht]
  · simp [h8]

theorem digits_bound (b : Nat) (ds : List Char) (H : Nat)
    (h : ∀ c ∈ ds, is_digit_of b c = true) :
    ds.foldl (fun a c => b * a + (digit_val c).getD 0) H < (H + 1) * b ^ ds.length := by
  induction ds generalizing H with
  | nil => simp
  | cons c ds ih =>
    have hc := h c (List.mem_cons_self _ _)
    have hd : (digit_val c).getD 0 < b := by
      unfold is_digit_of at hc
      cases hv : digit_val c with
      | none => rw [hv] at hc; simp at hc
      | some d => rw [hv] at hc; simpa using hc
    have := ih (b * H + (digit_val c).getD 0) (fun x hx => h x (List.mem_cons_of_mem _ hx))
    simp only [List.foldl_cons, List.length_cons]
    calc _ < (b * H + (digit_val c).getD 0 + 1) * b ^ ds.length := this
      _ ≤ (b * H + b) * b ^ ds.length := Nat.mul_le_mul_right _ (by omega)
      _ = (H + 1) * b ^ (ds.length + 1) := by ring

theorem htoi_ref_bound (mk : markup_t) (s : List Char) (v : Nat) (r : List Char)
    (h : htoi_ref mk s = some (v, r)) : v < 4294967296 := by
  unfold htoi_ref at h
  generalize (if s.take 2 = ['0', 'x'] then s.drop 2 else s) = t at h
  by_cases hc : 1 ≤ (t.takeWhile (is_digit_of 16)).length ∧
      (t.takeWhile (is_digit_of 16)).length ≤ 8 ∧
      is_term mk (peek (t.dropWhile (is_digit_of 16))) = true
  · simp only [hc, and_self, if_true, Option.some.injEq, Prod.mk.injEq] at h
    rw [← h.1]
    have := digits_bound 16 (t.takeWhile (is_digit_of 16)) 0
      (fun c hc => (List.mem_takeWhile_imp hc))
    unfold digits_val
    calc _ < (0 + 1) * 16 ^ _ := this
      _ ≤ (0 + 1) * 16 ^ 8 := Nat.mul_le_mul_left _ (Nat.pow_le_pow_right (by norm_num) hc.2.1)
      _ = 4294967296 := by norm_num
  · simp only [hc, if_false] at h
    exact absurd h (by simp)

theorem wrap32_nat (v : Nat) (h : v < 4294967296) :
    wrap32 (v : Int) = if v < 2147483648 then (v : Int) else (v : Int) - 4294967296 := by
  unfold wrap32
  by_cases hv : v < 2147483648
  · rw [if_pos hv]; omega
  · rw [if_neg hv]; omega

/-- C5 (amended): `htoi` accepts exactly an optional `0x`, 1 to 8 hexadecimal
digits of either case and a terminator, and returns the number `N` the digits
denote in base 16 as a signed 32-bit `int`: `N` below `2^31`, and `N - 2^32`
from there on; `TEXT_GetRow` stores that `int` under `DATA_HINT_HEX`. -/
theorem htoi_parses_hex {α : Type} (A : fval_ops α) (mk : markup_t) (s : List Char) :
    htoi mk s = (htoi_ref mk s).map
      (fun p => (if p.1 < 2147483648 then (p.1 : Int) else (p.1 : Int) - 4294967296, p.2))
    ∧ TEXT_GetRow_cell A mk data_hint.DATA_HINT_HEX s =
      (match htoi_ref mk s with
        | some (v, _) => A.ofInt (if v < 2147483648 then (v : Int) else (v : Int) - 4294967296)
        | none => A.nan, data_hint.DATA_HINT_HEX) := by
  have key : htoi mk s = (htoi_ref mk s).map
      (fun p => (if p.1 < 2147483648 then (p.1 : Int) else (p.1 : Int) - 4294967296, p.2)) := by
    rw [htoi_eq_ref]
    cases h : htoi_ref mk s with
    | none => simp only [Option.map_none']
    | some p =>
      obtain ⟨v, r⟩ := p
      have hb := htoi_ref_bound mk s v r h
      simp only [Option.map_some']
      rw [wrap32_nat v hb]
  refine ⟨key, ?_⟩
  unfold TEXT_GetRow_cell
  rw [key]
  cases h : htoi_ref mk s with
  | none => simp
  | some p => obtain ⟨v, r⟩ := p; simp

/-- C5, the claim as written fails: `FFFFFFFF` is accepted and denotes
4294967295, and `htoi` returns -1. -/
theorem htoi_negative_on_FFFFFFFF :
    htoi mk_default "FFFFFFFF".toList = some (-1, [])
    ∧ htoi_ref mk_default "FFFFFFFF".toList = some (4294967295, []) := by
  constructor <;> decide

/-- C6 (amended): `otoi` accepts exactly 1 to 11 octal digits and a terminator,
and returns the number the digits denote in base 8 reduced to the signed
32-bit range, which is the number itself when it is below `2^31`;
`TEXT_GetRow` stores that `int` under `DATA_HINT_OCT`. -/
theorem otoi_parses_octal {α : Type} (A : fval_ops α) (mk : markup_t) (s : List Char) :
    otoi mk s = (otoi_ref mk s).map (fun p => (wrap32 (p.1 : Int), p.2))
    ∧ (∀ v r, otoi_ref mk s = some (v, r) → v < 2147483648 → otoi mk s = some ((v : Int), r))
    ∧ TEXT_GetRow_cell A mk data_hint.DATA_HINT_OCT s =
      (match otoi_ref mk s with
        | some (v, _) => A.ofInt (wrap32 (v : Int))
        | none => A.nan, data_hint.DATA_HINT_OCT) := by
  refine ⟨otoi_eq_ref mk s, ?_, ?_⟩
  · intro v r h hv
    rw [otoi_eq_ref, h]
    simp only [Option.map_some']
    rw [wrap32_small _ (by omega) (by omega)]
  · unfold TEXT_GetRow_cell
    rw [otoi_eq_ref]
    cases h : otoi_ref mk s with
    | none => simp
    | some p => obtain ⟨v, r⟩ := p; simp

/-- C6, the claim as written fails: `37777777777` is accepted and denotes
4294967295, and `otoi` returns -1. -/
theorem otoi_negative_on_37777777777 :
    otoi mk_default "37777777777".toList = some (-1, [])
    ∧ otoi_ref mk_default "37777777777".toList = some (4294967295, []) := by
  constructor <;> decide

theorem exact_acc (n : Int) (a : Nat) (d : Int) :
    exact_ops.add (exact_ops.mul (exact_ops.ofInt 10) (fexact.num ((n : ℚ) * a)))
      (exact_ops.ofInt (d * n)) = fexact.num ((n : ℚ) * ((10 * a : Nat) : ℚ) + (n : ℚ) * (d : ℚ)) := by
  simp only [exact_ops, fexact.add, fexact.mul]
  congr 1
  push_cast
  ring

theorem stod_int_exact (n : Int) (a k : Nat) (s : List Char) :
    stod_int exact_ops n (fexact.num ((n : ℚ) * a)) k s =
      (fexact.num ((n : ℚ) * (((s.takeWhile (is_digit_of 10)).foldl
          (fun a c => 10 * a + (digit_val c).getD 0) a : Nat) : ℚ)),
        k + (s.takeWhile (is_digit_of 10)).length, s.dropWhile (is_digit_of 10)) := by
  induction s generalizing a k with
  | nil => simp [stod_int]
  | cons c s ih =>
    rw [stod_int, is_dec_eq]
    by_cases hc : is_digit_of 10 c = true
    · have hv := dec_val_eq c (by rw [is_dec_eq]; exact hc)
      simp only [hc, if_true, List.takeWhile_cons_of_pos, List.dropWhile_cons_of_pos,
        List.length_cons, List.foldl_cons]
      rw [exact_acc, hv]
      have e : (n : ℚ) * ((10 * a : Nat) : ℚ) + (n : ℚ) * ((((digit_val c).getD 0 : Nat) : Int) : ℚ)
          = (n : ℚ) * ((10 * a + (digit_val c).getD 0 : Nat) : ℚ) := by push_cast; ring
      rw [e, ih]
      have e2 : k + 1 + (s.takeWhile (is_digit_of 10)).length
          = k + ((s.takeWhile (is_digit_of 10)).length + 1) := by omega
      rw [e2]
    · have hc' : is_digit_of 10 c = false := by simpa using hc
      simp [hc']

theorem stod_frac_exact (n : Int) (a k : Nat) (v : Int) (s : List Char) :
    stod_frac exact_ops n (fexact.num ((n : ℚ) * a)) k v s =
      (fexact.num ((n : ℚ) * (((s.takeWhile (is_digit_of 10)).foldl
          (fun a c => 10 * a + (digit_val c).getD 0) a : Nat) : ℚ)),
        k + (s.takeWhile (is_digit_of 10)).length,
        v - ((s.takeWhile (is_digit_of 10)).length : Int), s.dropWhile (is_digit_of 10)) := by
  induction s generalizing a k v with
  | nil => simp [stod_frac]
  | cons c s ih =>
    rw [stod_frac, is_dec_eq]
    by_cases hc : is_digit_of 10 c = true
    · have hv := dec_val_eq c (by rw [is_dec_eq]; exact hc)
      simp only [hc, if_true, List.takeWhile_cons_of_pos, List.dropWhile_cons_of_pos,
        List.length_cons, List.foldl_cons]
      rw [exact_acc, hv]
      have e : (n : ℚ) * ((10 * a : Nat) : ℚ) + (n : ℚ) * ((((digit_val c).getD 0 : Nat) : Int) : ℚ)
          = (n : ℚ) * ((10 * a + (digit_val c).getD 0 : Nat) : ℚ) := by push_cast; ring
      rw [e, ih]
      have e2 : k + 1 + (s.takeWhile (is_digit_of 10)).length
          = k + ((s.takeWhile (is_digit_of 10)).length + 1) := by omega
      have e3 : v - 1 - ((s.takeWhile (is_digit_of 10)).length : Int)
          = v - (((s.takeWhile (is_digit_of 10)).length + 1 : Nat) : Int) := by push_cast; ring
      rw [e2, e3]
    · have hc' : is_digit_of 10 c = false := by simpa using hc
      simp [hc']

theorem stod_down_exact (m : Nat) (q : ℚ) :
    stod_down exact_ops m (fexact.num q) = fexact.num (q / 10 ^ m) := by
  induction m generalizing q with
  | zero => simp [stod_down]
  | succ m ih =>
    rw [stod_down]
    have : exact_ops.div (fexact.num q) (exact_ops.ofInt 10) = fexact.num (q / 10) := by
      simp [exact_ops, fexact.div]
    rw [this, ih]
    congr 1
    rw [pow_succ, div_div, mul_comm]

theorem stod_up_exact (m : Nat) (q : ℚ) :
    stod_up exact_ops m (fexact.num q) = fexact.num (q * 10 ^ m) := by
  induction m generalizing q with
  | zero => simp [stod_up]
  | succ m ih =>
    rw [stod_up]
    have : exact_ops.mul (fexact.num q) (exact_ops.ofInt 10) = fexact.num (q * 10) := by
      simp [exact_ops, fexact.mul]
    rw [this, ih]
    congr 1
    rw [pow_succ]
    ring

theorem stod_scale_exact (v : Int) (q : ℚ) :
    stod_scale exact_ops v (fexact.num q) = fexact.num (q * (10 : ℚ) ^ v) := by
  unfold stod_scale
  rw [stod_down_exact, stod_up_exact]
  congr 1
  rcases le_total 0 v with h | h
  · have h1 : (-v).toNat = 0 := by omega
    obtain ⟨m, rfl⟩ := Int.eq_ofNat_of_zero_le h
    simp [h1]
  · have h1 : v.toNat = 0 := by omega
    obtain ⟨m, hm⟩ := Int.eq_ofNat_of_zero_le (show 0 ≤ -v by omega)
    have hv : v = -(m : Int) := by omega
    subst hv
    simp [h1, div_eq_mul_inv]

theorem stod_suffix_eq (mk : markup_t) (v : Int) (s : List Char) :
    stod_suffix mk v s = (suffix_ref mk s).map (fun p => (v + p.1, p.2)) := by
  unfold stod_suffix suffix_ref
  by_cases h1 : peek s = 'n'
  · simp [h1, si_exponent]
  by_cases h2 : peek s = 'u'
  · simp [h2, si_exponent]
  by_cases h3 : peek s = 'm'
  · simp [h3, si_exponent]
  by_cases h4 : peek s = 'K'
  · simp [h4, si_exponent]
  by_cases h5 : peek s = 'M'
  · simp [h5, si_exponent]
  by_cases h6 : peek s = 'G'
  · simp [h6, si_exponent]
  have hn : si_exponent (peek s) = none := by
    unfold si_exponent
    split <;> simp_all
  simp only [h1, h2, h3, h4, h5, h6, if_false, hn]
  by_cases h7 : peek s = 'e' ∨ peek s = 'E'
  · simp only [h7, if_true]
    cases stoi mk s.tail with
    | none => rfl
    | some p => rfl
  · simp [h7]

/-- The part of `stod` after the sign, in exact arithmetic. -/
theorem stod_body_exact (mk : markup_t) (n : Int) (s1 : List Char) :
    stod_body exact_ops mk n s1
    = Option.map (fun p : ℚ × List Char => (fexact.num p.1, p.2))
      (let ip := s1.takeWhile (is_digit_of 10)
       let s2 := s1.dropWhile (is_digit_of 10)
       let fp := if peek s2 = mk.delim then s2.tail.takeWhile (is_digit_of 10) else []
       let s3 := if peek s2 = mk.delim then s2.tail.dropWhile (is_digit_of 10) else s2
       if ip.length + fp.length = 0 then none
       else
         match suffix_ref mk s3 with
         | none => none
         | some (e, r) =>
           if is_term mk (peek r) then
             some ((n : ℚ) * (digits_val 10 (ip ++ fp) : ℚ)
               * (10 : ℚ) ^ (e - (fp.length : Int)), r)
           else none) := by
  have h0 : exact_ops.ofInt 0 = fexact.num ((n : ℚ) * ((0 : Nat) : ℚ)) := by
    simp [exact_ops]
  unfold stod_body
  simp only [h0, stod_int_exact, Nat.zero_add]
  by_cases hd : peek (s1.dropWhile (is_digit_of 10)) = mk.delim
  · simp only [hd, if_true, stod_frac_exact, stod_suffix_eq]
    by_cases hk : (s1.takeWhile (is_digit_of 10)).length +
        ((s1.dropWhile (is_digit_of 10)).tail.takeWhile (is_digit_of 10)).length = 0
    · simp [hk]
    · simp only [hk, if_false]
      cases hs : suffix_ref mk ((s1.dropWhile (is_digit_of 10)).tail.dropWhile (is_digit_of 10)) with
      | none => simp
      | some p =>
        obtain ⟨e, r⟩ := p
        simp only [Option.map_some', stod_scale_exact, digits_val, List.foldl_append]
        have e1 : (0 : Int) - (((s1.dropWhile (is_digit_of 10)).tail.takeWhile
            (is_digit_of 10)).length : Int) + e
            = e - (((s1.dropWhile (is_digit_of 10)).tail.takeWhile
            (is_digit_of 10)).length : Int) := by ring
        rw [e1]
        by_cases ht : is_term mk (peek r) = true
        · simp [ht]
        · simp [ht]
  · simp only [hd, if_false, stod_suffix_eq]
    by_cases hk : (s1.takeWhile (is_digit_of 10)).length = 0
    · simp [hk]
    · simp only [hk, List.length_nil, Nat.add_zero, if_false]
      cases hs : suffix_ref mk (s1.dropWhile (is_digit_of 10)) with
      | none => simp
      | some p =>
        obtain ⟨e, r⟩ := p
        simp only [Option.map_some', stod_scale_exact, digits_val, List.append_nil]
        by_cases ht : is_term mk (peek r) = true
        · simp [ht]
        · simp [ht]

theorem stod_eq_ref (mk : markup_t) (s : List Char) :
    stod exact_ops mk s = (stod_ref mk s).map (fun p => (fexact.num p.1, p.2)) := by
  unfold stod
  rw [stod_body_exact]
  unfold stod_ref sign_step
  by_cases hm : peek s = '-'
  · simp only [hm, if_true, true_or, Int.cast_neg, Int.cast_one]
    try rfl
  · by_cases hp : peek s = '+'
    · simp only [hm, hp, if_true, if_false, or_true, Int.cast_one]
      try rfl
    · simp only [hm, hp, if_false, or_self, Int.cast_one]
      try rfl

/-- C3: in exact arithmetic `stod` is the reference decimal parser: it accepts
the same tokens, leaves the same rest, and returns
`sign * (mantissa digits) * 10 ^ (exponent - fraction digits)`; `1.5K` gives
1500 and `-25e-2` gives -0.25. -/
theorem stod_eq_reference (mk : markup_t) (s : List Char) :
    stod exact_ops mk s = (stod_ref mk s).map (fun p => (fexact.num p.1, p.2))
    ∧ stod exact_ops mk_default "1.5K".toList = some (fexact.num 1500, [])
    ∧ stod exact_ops mk_default "-25e-2".toList = some (fexact.num (-1 / 4), []) := by
  refine ⟨stod_eq_ref mk s, ?_, ?_⟩
  · rw [stod_eq_ref]
    simp [stod_ref, suffix_ref, si_exponent, peek, digits_val, digit_val, is_digit_of, is_term,
      strchr, mk_default, NUL, stoi, stoi_loop, sign_step, is_dec, dec_val, wrap32] <;> norm_num
  · rw [stod_eq_ref]
    simp [stod_ref, suffix_ref, si_exponent, peek, digits_val, digit_val, is_digit_of, is_term,
      strchr, mk_default, NUL, stoi, stoi_loop, sign_step, is_dec, dec_val, wrap32] <;> norm_num

theorem peek_append_cons (c : Char) (m z : List Char) : peek ((c :: m) ++ z) = c := rfl

theorem inert_ne_nil (mk : markup_t) (z : List Char) (hz : inert mk z) : z ≠ [] := by
  intro h
  subst h
  have := hz.2.2.2.1
  simp [peek, is_term] at this

theorem stod_int_stop {α : Type} (A : fval_ops α) (n : Int) (f : α) (k : Nat) (z : List Char)
    (h : is_dec (peek z) = false) : stod_int A n f k z = (f, k, z) := by
  cases z with
  | nil => rfl
  | cons c z => simp only [peek] at h; simp [stod_int, h]

theorem stod_frac_stop {α : Type} (A : fval_ops α) (n : Int) (f : α) (k : Nat) (v : Int)
    (z : List Char) (h : is_dec (peek z) = false) : stod_frac A n f k v z = (f, k, v, z) := by
  cases z with
  | nil => rfl
  | cons c z => simp only [peek] at h; simp [stod_frac, h]

theorem stoi_loop_stop (n i : Int) (k : Nat) (z : List Char)
    (h : is_dec (peek z) = false) : stoi_loop n i k z = some (i, k, z) := by
  cases z with
  | nil => rfl
  | cons c z => simp only [peek] at h; simp [stoi_loop, h]

/-- The integer-part loop over a prefix `m` does not depend on an inert continuation. -/
theorem stod_int_uniform {α : Type} (A : fval_ops α) (n : Int) (m : List Char) (f : α) (k : Nat) :
    ∃ f1 k1 m1, k ≤ k1 ∧ ∀ z, is_dec (peek z) = false →
      stod_int A n f k (m ++ z) = (f1, k1, m1 ++ z) := by
  induction m generalizing f k with
  | nil => exact ⟨f, k, [], le_refl _, fun z hz => by simpa using stod_int_stop A n f k z hz⟩
  | cons c m ih =>
    by_cases hc : is_dec c = true
    · obtain ⟨f1, k1, m1, hk, h⟩ := ih (A.add (A.mul (A.ofInt 10) f) (A.ofInt (dec_val c * n))) (k + 1)
      exact ⟨f1, k1, m1, by omega, fun z hz => by
        rw [List.cons_append, stod_int, if_pos hc]; exact h z hz⟩
    · exact ⟨f, k, c :: m, le_refl _, fun z _ => by
        rw [List.cons_append, stod_int, if_neg hc]⟩

theorem stod_frac_uniform {α : Type} (A : fval_ops α) (n : Int) (m : List Char) (f : α) (k : Nat)
    (v : Int) :
    ∃ f1 k1 v1 m1, k ≤ k1 ∧ ∀ z, is_dec (peek z) = false →
      stod_frac A n f k v (m ++ z) = (f1, k1, v1, m1 ++ z) := by
  induction m generalizing f k v with
  | nil => exact ⟨f, k, v, [], le_refl _, fun z hz => by simpa using stod_frac_stop A n f k v z hz⟩
  | cons c m ih =>
    by_cases hc : is_dec c = true
    · obtain ⟨f1, k1, v1, m1, hk, h⟩ :=
        ih (A.add (A.mul (A.ofInt 10) f) (A.ofInt (dec_val c * n))) (k + 1) (v - 1)
      exact ⟨f1, k1, v1, m1, by omega, fun z hz => by
        rw [List.cons_append, stod_frac, if_pos hc]; exact h z hz⟩
    · exact ⟨f, k, v, c :: m, le_refl _, fun z _ => by
        rw [List.cons_append, stod_frac, if_neg hc]⟩

theorem stoi_loop_uniform (n : Int) (m : List Char) (i : Int) (k : Nat) :
    (∀ z, stoi_loop n i k (m ++ z) = none) ∨
    ∃ i1 k1 m1, k ≤ k1 ∧ ∀ z, is_dec (peek z) = false →
      stoi_loop n i k (m ++ z) = some (i1, k1, m1 ++ z) := by
  induction m generalizing i k with
  | nil => exact Or.inr ⟨i, k, [], le_refl _, fun z hz => by simpa using stoi_loop_stop n i k z hz⟩
  | cons c m ih =>
    by_cases hc : is_dec c = true
    · by_cases hk : k + 1 > 9
      · exact Or.inl (fun z => by simp [stoi_loop, hc, hk])
      · rcases ih (wrap32 (10 * i + dec_val c * n)) (k + 1) with h | ⟨i1, k1, m1, hk1, h⟩
        · exact Or.inl (fun z => by
            rw [List.cons_append, stoi_loop, if_pos hc]; simp only [hk, if_false]; exact h z)
        · exact Or.inr ⟨i1, k1, m1, by omega, fun z hz => by
            rw [List.cons_append, stoi_loop, if_pos hc]; simp only [hk, if_false]; exact h z hz⟩
    · exact Or.inr ⟨i, k, c :: m, le_refl _, fun z _ => by
        rw [List.cons_append, stoi_loop, if_neg hc]⟩

theorem sign_step_uniform (mk : markup_t) (m : List Char) :
    ∃ n m1, ∀ z, inert mk z → sign_step (m ++ z) = (n, m1 ++ z) := by
  cases m with
  | nil =>
    refine ⟨1, [], fun z hz => ?_⟩
    simp [sign_step, hz.1, hz.2.1]
  | cons c m =>
    by_cases h1 : c = '-'
    · exact ⟨-1, m, fun z _ => by simp [sign_step, peek, h1]⟩
    · by_cases h2 : c = '+'
      · exact ⟨1, m, fun z _ => by simp [sign_step, peek, h2]⟩
      · exact ⟨1, c :: m, fun z _ => by simp [sign_step, peek, h1, h2]⟩

/-- The terminator test after a prefix does not depend on an inert continuation. -/
theorem is_term_uniform (mk : markup_t) (m : List Char) :
    ∃ b, ∀ z, inert mk z → is_term mk (peek (m ++ z)) = b := by
  cases m with
  | nil => exact ⟨false, fun z hz => by simpa using hz.2.2.2.1⟩
  | cons c m => exact ⟨is_term mk c, fun z _ => rfl⟩

/-- Over a prefix `stoi` does not depend on an inert continuation. -/
theorem stoi_uniform (mk : markup_t) (m : List Char) :
    ∃ o : Option (Int × List Char), ∀ z, inert mk z →
      stoi mk (m ++ z) = o.map (fun p => (p.1, p.2 ++ z)) := by
  obtain ⟨n, m1, hs⟩ := sign_step_uniform mk m
  rcases stoi_loop_uniform n m1 0 0 with h | ⟨i1, k1, m2, _, h⟩
  · exact ⟨none, fun z hz => by simp [stoi, hs z hz, h z]⟩
  · obtain ⟨b, hb⟩ := is_term_uniform mk m2
    by_cases hk : k1 = 0
    · exact ⟨none, fun z hz => by simp [stoi, hs z hz, h z hz.2.2.1, hk]⟩
    · cases b with
      | true => exact ⟨some (i1, m2), fun z hz => by simp [stoi, hs z hz, h z hz.2.2.1, hk, hb z hz]⟩
      | false => exact ⟨none, fun z hz => by simp [stoi, hs z hz, h z hz.2.2.1, hk, hb z hz]⟩

/-- The last step of `stod`: the terminator test and the scaling. -/
theorem stod_finish_uniform {α : Type} (A : fval_ops α) (mk : markup_t) (v : Int) (f : α)
    (m : List Char) :
    ∃ o : Option α, ∀ z, inert mk z →
      (if is_term mk (peek (m ++ z)) = true then some (stod_scale A v f, m ++ z) else none :
        Option (α × List Char)).map Prod.fst = o := by
  obtain ⟨b, hb⟩ := is_term_uniform mk m
  cases b with
  | true => exact ⟨some (stod_scale A v f), fun z hz => by simp [hb z hz]⟩
  | false => exact ⟨none, fun z hz => by simp [hb z hz]⟩

/-- The suffix step and what follows it, when the suffix step looks at a byte of the prefix. -/
theorem stod_suffix_uniform {α : Type} (A : fval_ops α) (mk : markup_t) (v : Int) (f : α)
    (c : Char) (m : List Char) :
    ∃ o : Option α, ∀ z, inert mk z →
      (match stod_suffix mk v ((c :: m) ++ z) with
        | none => none
        | some (v1, r) =>
          if is_term mk (peek r) = true then some (stod_scale A v1 f, r) else none :
        Option (α × List Char)).map Prod.fst = o := by
  unfold stod_suffix
  simp only [List.cons_append, peek, List.tail_cons]
  by_cases h1 : c = 'n'
  · obtain ⟨o, ho⟩ := stod_finish_uniform A mk (v + (-9)) f m
    exact ⟨o, fun z hz => by simp only [h1, if_true]; exact ho z hz⟩
  by_cases h2 : c = 'u'
  · obtain ⟨o, ho⟩ := stod_finish_uniform A mk (v + (-6)) f m
    exact ⟨o, fun z hz => by simp only [h1, h2, if_true, if_false]; exact ho z hz⟩
  by_cases h3 : c = 'm'
  · obtain ⟨o, ho⟩ := stod_finish_uniform A mk (v + (-3)) f m
    exact ⟨o, fun z hz => by simp only [h1, h2, h3, if_true, if_false]; exact ho z hz⟩
  by_cases h4 : c = 'K'
  · obtain ⟨o, ho⟩ := stod_finish_uniform A mk (v + 3) f m
    exact ⟨o, fun z hz => by simp only [h1, h2, h3, h4, if_true, if_false]; exact ho z hz⟩
  by_cases h5 : c = 'M'
  · obtain ⟨o, ho⟩ := stod_finish_uniform A mk (v + 6) f m
    exact ⟨o, fun z hz => by simp only [h1, h2, h3, h4, h5, if_true, if_false]; exact ho z hz⟩
  by_cases h6 : c = 'G'
  · obtain ⟨o, ho⟩ := stod_finish_uniform A mk (v + 9) f m
    exact ⟨o, fun z hz => by
      simp only [h1, h2, h3, h4, h5, h6, if_true, if_false]; exact ho z hz⟩
  by_cases h7 : c = 'e' ∨ c = 'E'
  · obtain ⟨o, ho⟩ := stoi_uniform mk m
    cases o with
    | none =>
      exact ⟨none, fun z hz => by
        simp only [h1, h2, h3, h4, h5, h6, h7, if_true, if_false, ho z hz, Option.map_none']⟩
    | some p =>
      obtain ⟨e, m1⟩ := p
      obtain ⟨o2, ho2⟩ := stod_finish_uniform A mk (v + e) f m1
      exact ⟨o2, fun z hz => by
        simp only [h1, h2, h3, h4, h5, h6, h7, if_true, if_false, ho z hz, Option.map_some']
        exact ho2 z hz⟩
  · obtain ⟨o, ho⟩ := stod_finish_uniform A mk v f (c :: m)
    exact ⟨o, fun z hz => by
      simp only [h1, h2, h3, h4, h5, h6, h7, if_false]; exact ho z hz⟩

/-- Over a prefix `m`, `stod` after its sign either gives a value that does not
depend on an inert continuation `z`, or it reaches `z` at its suffix step with
a mantissa `f` and an exponent `v` that do not depend on `z`. -/
theorem stod_body_uniform {α : Type} (A : fval_ops α) (mk : markup_t) (n : Int) (m : List Char) :
    (∃ o : Option α, ∀ z, inert mk z → (stod_body A mk n (m ++ z)).map Prod.fst = o) ∨
    (∃ (f : α) (v : Int), ∀ z, inert mk z →
      stod_body A mk n (m ++ z) =
        match stod_suffix mk v z with
        | none => none
        | some (v1, r) =>
          if is_term mk (peek r) = true then some (stod_scale A v1 f, r) else none) := by
  obtain ⟨f1, k1, m1, _, hi⟩ := stod_int_uniform A n m (A.ofInt 0) 0
  cases m1 with
  | nil =>
    by_cases hk : k1 = 0
    · refine Or.inl ⟨none, fun z hz => ?_⟩
      have := hi z hz.2.2.1
      simp only [List.nil_append] at this
      simp [stod_body, this, hz.2.2.2.2, hk] <;> rfl
    · refine Or.inr ⟨f1, 0, fun z hz => ?_⟩
      have := hi z hz.2.2.1
      simp only [List.nil_append] at this
      simp [stod_body, this, hz.2.2.2.2, hk] <;> rfl
  | cons d m2 =>
    by_cases hd : d = mk.delim
    · obtain ⟨f2, k2, v2, m3, _, hf⟩ := stod_frac_uniform A n m2 f1 k1 0
      by_cases hk : k2 = 0
      · refine Or.inl ⟨none, fun z hz => ?_⟩
        simp [stod_body, hi z hz.2.2.1, peek, hd, hf z hz.2.2.1, hk] <;> rfl <;> rfl
      · cases m3 with
        | nil =>
          refine Or.inr ⟨f2, v2, fun z hz => ?_⟩
          have := hf z hz.2.2.1
          simp only [List.nil_append] at this
          simp [stod_body, hi z hz.2.2.1, peek, hd, this, hk] <;> rfl <;> rfl <;> rfl
        | cons e m4 =>
          obtain ⟨o, ho⟩ := stod_suffix_uniform A mk v2 f2 e m4
          refine Or.inl ⟨o, fun z hz => ?_⟩
          rw [← ho z hz]
          simp [stod_body, hi z hz.2.2.1, peek, hd, hf z hz.2.2.1, hk] <;> rfl <;> rfl <;> rfl
    · by_cases hk : k1 = 0
      · refine Or.inl ⟨none, fun z hz => ?_⟩
        simp [stod_body, hi z hz.2.2.1, peek, hd, hk] <;> rfl <;> rfl
      · obtain ⟨o, ho⟩ := stod_suffix_uniform A mk 0 f1 d m2
        refine Or.inl ⟨o, fun z hz => ?_⟩
        rw [← ho z hz]
        simp [stod_body, hi z hz.2.2.1, peek, hd, hk] <;> rfl <;> rfl

/-- Two inert continuations on which the suffix step of `stod` agrees give the same value
after every prefix. -/
theorem stod_continuations {α : Type} (A : fval_ops α) (mk : markup_t) (m x y : List Char)
    (hx : inert mk x) (hy : inert mk y)
    (hxy : ∀ v, stod_suffix mk v x = stod_suffix mk v y) :
    (stod A mk (m ++ x)).map Prod.fst = (stod A mk (m ++ y)).map Prod.fst := by
  obtain ⟨n, m1, hs⟩ := sign_step_uniform mk m
  unfold stod
  rw [hs x hx, hs y hy]
  rcases stod_body_uniform A mk n m1 with ⟨o, ho⟩ | ⟨f, v, h⟩
  · rw [ho x hx, ho y hy]
  · rw [h x hx, h y hy, hxy v]

theorem peek_cons (c : Char) (s : List Char) : peek (c :: s) = c := rfl

theorem mk_plain_spec (mk : markup_t) (hmk : mk_plain mk = true) (c : Char)
    (hc : c ∈ "0123456789numKMGe".toList) :
    is_term mk c = false ∧ c ≠ mk.delim := by
  unfold mk_plain at hmk
  rw [List.all_eq_true] at hmk
  have := hmk c hc
  simpa using this

theorem is_dec_mem (c : Char) (h : is_dec c = true) :
    c ∈ "0123456789numKMGe".toList := by
  unfold is_dec at h
  simp only [Bool.and_eq_true, decide_eq_true_eq] at h
  obtain ⟨h1, h2⟩ := h
  generalize hn : c.toNat = n at h1 h2
  have hc := char_of_toNat c n hn
  subst hc
  interval_cases n <;> decide

theorem term_not_dec (mk : markup_t) (hmk : mk_plain mk = true) (c : Char)
    (ht : is_term mk c = true) : is_dec c = false := by
  by_contra h
  have h1 : is_dec c = true := by simpa using h
  have := (mk_plain_spec mk hmk c (is_dec_mem c h1)).1
  rw [ht] at this
  exact absurd this (by simp)

/-- The exponent `stoi` reads from one digit with an optional minus sign. -/
theorem stoi_short (mk : markup_t) (hmk : mk_plain mk = true) (rest : List Char)
    (ht : is_term mk (peek rest) = true) :
    stoi mk ('-' :: '9' :: rest) = some (-9, rest) ∧ stoi mk ('-' :: '6' :: rest) = some (-6, rest)
    ∧ stoi mk ('-' :: '3' :: rest) = some (-3, rest) ∧ stoi mk ('3' :: rest) = some (3, rest)
    ∧ stoi mk ('6' :: rest) = some (6, rest) ∧ stoi mk ('9' :: rest) = some (9, rest) := by
  have hnd := term_not_dec mk hmk _ ht
  refine ⟨?_, ?_, ?_, ?_, ?_, ?_⟩ <;>
    simp [stoi, sign_step, peek_cons, stoi_loop, is_dec, dec_val, wrap32,
      stoi_loop_stop _ _ _ rest hnd, ht]

/-- C4: an SI suffix is shorthand for its exponent: in a markup whose delimiter
and terminators are not digits, SI letters or `e`, for every mantissa string
`m`, every arithmetic and every terminator that follows, `stod` accepts
`m ++ suffix` exactly when it accepts `m ++ exponent notation`, with the same value. -/
theorem si_suffix_is_exponent {α : Type} (A : fval_ops α) (mk : markup_t)
    (hmk : mk_plain mk = true) (m rest : List Char) (ht : is_term mk (peek rest) = true)
    (p : Char × List Char) (hp : p ∈ si_table) :
    (stod A mk (m ++ p.1 :: rest)).map Prod.fst
      = (stod A mk (m ++ (p.2 ++ rest))).map Prod.fst := by
  have he := mk_plain_spec mk hmk 'e' (by decide)
  have hy : ∀ t, inert mk ('e' :: t) :=
    fun t => ⟨by simp [peek_cons], by simp [peek_cons], by simp [peek_cons, is_dec], he.1, he.2⟩
  obtain ⟨s1, s2, s3, s4, s5, s6⟩ := stoi_short mk hmk rest ht
  simp only [si_table, List.mem_cons, List.mem_singleton, List.not_mem_nil, or_false] at hp
  rcases hp with rfl | rfl | rfl | rfl | rfl | rfl
  · have hc := mk_plain_spec mk hmk 'n' (by decide)
    exact stod_continuations A mk m _ _
      ⟨by simp [peek_cons], by simp [peek_cons], by simp [peek_cons, is_dec], hc.1, hc.2⟩ (hy _)
      (fun v => by simp [stod_suffix, peek_cons, s1])
  · have hc := mk_plain_spec mk hmk 'u' (by decide)
    exact stod_continuations A mk m _ _
      ⟨by simp [peek_cons], by simp [peek_cons], by simp [peek_cons, is_dec], hc.1, hc.2⟩ (hy _)
      (fun v => by simp [stod_suffix, peek_cons, s2])
  · have hc := mk_plain_spec mk hmk 'm' (by decide)
    exact stod_continuations A mk m _ _
      ⟨by simp [peek_cons], by simp [peek_cons], by simp [peek_cons, is_dec], hc.1, hc.2⟩ (hy _)
      (fun v => by simp [stod_suffix, peek_cons, s3])
  · have hc := mk_plain_spec mk hmk 'K' (by decide)
    exact stod_continuations A mk m _ _
      ⟨by simp [peek_cons], by simp [peek_cons], by simp [peek_cons, is_dec], hc.1, hc.2⟩ (hy _)
      (fun v => by simp [stod_suffix, peek_cons, s4])
  · have hc := mk_plain_spec mk hmk 'M' (by decide)
    exact stod_continuations A mk m _ _
      ⟨by simp [peek_cons], by simp [peek_cons], by simp [peek_cons, is_dec], hc.1, hc.2⟩ (hy _)
      (fun v => by simp [stod_suffix, peek_cons, s5])
  · have hc := mk_plain_spec mk hmk 'G' (by decide)
    exact stod_continuations A mk m _ _
      ⟨by simp [peek_cons], by simp [peek_cons], by simp [peek_cons, is_dec], hc.1, hc.2⟩ (hy _)
      (fun v => by simp [stod_suffix, peek_cons, s6])

/-- C4 at the default markup: `1.5K` and `1.5e3` before a line end. -/
theorem si_suffix_is_exponent_witness :
    mk_plain mk_default = true ∧ is_term mk_default (peek ['\n']) = true ∧
    (stod exact_ops mk_default ("1.5".toList ++ 'K' :: ['\n'])).map Prod.fst
      = (stod exact_ops mk_default ("1.5".toList ++ (['e', '3'] ++ ['\n']))).map Prod.fst :=
  ⟨by decide, by decide,
    si_suffix_is_exponent exact_ops mk_default (by decide) "1.5".toList ['\n'] (by decide)
      ('K', ['e', '3']) (by decide)⟩

theorem is_term_NUL (mk : markup_t) : is_term mk NUL = true := by simp [is_term]

theorem is_term_of_ne_NUL (mk : markup_t) (c : Char) (h : c ≠ NUL) :
    is_term mk c = is_sep mk c := by
  have hb : (c == NUL) = false := by simpa using h
  simp [is_term, is_sep, hb]

theorem tokens_from_nil (mk : markup_t) (prev : Bool) : tokens_from mk prev [] = [] := by
  simp [tokens_from, cstr, peek, is_term_NUL]

theorem tokens_from_NUL (mk : markup_t) (prev : Bool) (s : List Char) :
    tokens_from mk prev (NUL :: s) = [] := by
  simp [tokens_from, cstr, peek, is_term_NUL]

theorem tokens_from_cons (mk : markup_t) (prev : Bool) (c : Char) (s : List Char) (h : c ≠ NUL) :
    tokens_from mk prev (c :: s) =
      (if prev && !is_term mk c then [c :: s] else []) ++ tokens_from mk (is_term mk c) s := by
  unfold tokens_from cstr
  have e : List.takeWhile (fun c => c != NUL) (c :: s)
      = c :: List.takeWhile (fun c => c != NUL) s := by
    simp [List.takeWhile_cons, h]
  rw [e, List.map_cons, List.tails, List.zip_cons_cons, List.filter_cons]
  by_cases hp : (prev && !is_term mk c) = true
  · simp [peek, hp]
  · simp [peek, hp]

/-- The row loop of `TEXT_GetRow` walks the tokens of the buffer: count. -/
theorem TEXT_GetRow_loop_spec {α : Type} (A : fval_ops α) (mk : markup_t) (cmax : Nat)
    (s : List Char) (m N : Nat) (st : row_t α) (hN : N < cmax) :
    (TEXT_GetRow_loop A mk cmax m N st s).1
        = min (N + (tokens_from mk (decide (m = 0)) s).length) cmax
    ∧ (∀ j t, N + j < cmax → (tokens_from mk (decide (m = 0)) s)[j]? = some t →
        (TEXT_GetRow_loop A mk cmax m N st s).2.row (N + j)
            = (TEXT_GetRow_cell A mk (st.hint (N + j)) t).1
        ∧ (TEXT_GetRow_loop A mk cmax m N st s).2.hint (N + j)
            = (TEXT_GetRow_cell A mk (st.hint (N + j)) t).2)
    ∧ (∀ i, (i < N ∨ cmax ≤ i ∨ N + (tokens_from mk (decide (m = 0)) s).length ≤ i) →
        (TEXT_GetRow_loop A mk cmax m N st s).2.row i = st.row i
        ∧ (TEXT_GetRow_loop A mk cmax m N st s).2.hint i = st.hint i) := by
  induction s generalizing m N st with
  | nil =>
    simp only [TEXT_GetRow_loop, tokens_from_nil]
    refine ⟨by simp; omega, ?_, ?_⟩
    · intro j t _ h; simp at h
    · intro i _; simp
  | cons c s ih =>
    by_cases hc : c = NUL
    · subst hc
      simp only [TEXT_GetRow_loop, tokens_from_NUL, if_true]
      refine ⟨by simp; omega, ?_, ?_⟩
      · intro j t _ h; simp at h
      · intro i _; simp
    · rw [tokens_from_cons mk _ c s hc, is_term_of_ne_NUL mk c hc]
      by_cases hs : is_sep mk c = true
      · have e : TEXT_GetRow_loop A mk cmax m N st (c :: s)
            = TEXT_GetRow_loop A mk cmax 0 N st s := by
          simp [TEXT_GetRow_loop, hc, hs]
        rw [e]
        have := ih 0 N st hN
        simpa [hs] using this
      · have hs' : is_sep mk c = false := by simpa using hs
        by_cases hm : m = 0
        · subst hm
          by_cases hfull : N + 1 ≥ cmax
          · have e : TEXT_GetRow_loop A mk cmax 0 N st (c :: s)
                = (N + 1, st.put N (TEXT_GetRow_cell A mk (st.hint N) (c :: s))) := by
              simp [TEXT_GetRow_loop, hc, hs', hfull]
            rw [e]
            simp only [hs', decide_True, Bool.not_false, Bool.and_self, if_true,
              List.singleton_append, List.length_cons]
            refine ⟨by omega, ?_, ?_⟩
            · intro j t hj ht
              have hj0 : j = 0 := by omega
              subst hj0
              simp only [List.getElem?_cons_zero, Option.some.injEq] at ht
              subst ht
              simp [row_t.put]
            · intro i hi
              have hiN : i ≠ N := by omega
              simp [row_t.put, Function.update_noteq hiN]
          · have hN1 : N + 1 < cmax := by omega
            have e : TEXT_GetRow_loop A mk cmax 0 N st (c :: s)
                = TEXT_GetRow_loop A mk cmax 1 (N + 1)
                    (st.put N (TEXT_GetRow_cell A mk (st.hint N) (c :: s))) s := by
              simp [TEXT_GetRow_loop, hc, hs', hfull]
            rw [e]
            obtain ⟨h1, h2, h3⟩ := ih 1 (N + 1)
              (st.put N (TEXT_GetRow_cell A mk (st.hint N) (c :: s))) hN1
            simp only [hs', decide_True, Bool.not_false, Bool.and_self, if_true,
              List.singleton_append, List.length_cons]
            simp only [Nat.succ_ne_zero, decide_False, show (1 : Nat) ≠ 0 by decide] at h1 h2 h3
            refine ⟨by rw [h1]; congr 1; omega, ?_, ?_⟩
            · intro j t hj ht
              cases j with
              | zero =>
                simp only [List.getElem?_cons_zero, Option.some.injEq] at ht
                subst ht
                have := h3 N (Or.inl (by omega))
                simp only [Nat.add_zero]
                rw [this.1, this.2]
                simp [row_t.put]
              | succ j =>
                simp only [List.getElem?_cons_succ] at ht
                have := h2 j t (by omega) ht
                have e1 : N + (j + 1) = N + 1 + j := by omega
                have hne : N + 1 + j ≠ N := by omega
                rw [e1, this.1, this.2]
                simp [row_t.put, Function.update_noteq hne]
            · intro i hi
              have := h3 i (by omega)
              rw [this.1, this.2]
              have hne : i ≠ N := by omega
              simp [row_t.put, Function.update_noteq hne]
        · have e : TEXT_GetRow_loop A mk cmax m N st (c :: s)
              = TEXT_GetRow_loop A mk cmax m N st s := by
            simp [TEXT_GetRow_loop, hc, hs', hm]
          rw [e]
          have := ih m N st hN
          simpa [hs', hm] using this

open data_hint

/-- The function `TEXT_GetRow` walks the tokens of the line. -/
theorem TEXT_GetRow_spec {α : Type} (A : fval_ops α) (mk : markup_t) (cmax : Nat)
    (hmax : 0 < cmax) (st : row_t α) (line : List Char) :
    (TEXT_GetRow A mk cmax st line).1 = min (line_tokens mk line).length cmax
    ∧ (∀ i t, i < cmax → (line_tokens mk line)[i]? = some t →
        (TEXT_GetRow A mk cmax st line).2.row i = (TEXT_GetRow_cell A mk (st.hint i) t).1
        ∧ (TEXT_GetRow A mk cmax st line).2.hint i = (TEXT_GetRow_cell A mk (st.hint i) t).2)
    ∧ (∀ i, (cmax ≤ i ∨ (line_tokens mk line).length ≤ i) →
        (TEXT_GetRow A mk cmax st line).2.row i = st.row i
        ∧ (TEXT_GetRow A mk cmax st line).2.hint i = st.hint i) := by
  obtain ⟨h1, h2, h3⟩ := TEXT_GetRow_loop_spec A mk cmax line 0 0 st hmax
  unfold line_tokens
  simp only [Nat.zero_add, decide_True] at h1 h2 h3
  exact ⟨h1, fun i t hi ht => h2 i t hi ht, fun i hi => h3 i (by omega)⟩

/-- The value a cell of `TEXT_GetRow` stores is the value of the token under the hint. -/
theorem TEXT_GetRow_cell_value {α : Type} (A : fval_ops α) (mk : markup_t) (h : data_hint)
    (t : List Char) : (TEXT_GetRow_cell A mk h t).1 = parse_under A mk h t := by
  cases h <;> simp only [TEXT_GetRow_cell, parse_under, reduceCtorEq, if_true, if_false]
  · cases stod A mk t with
    | none => cases htoi mk t <;> rfl
    | some p => rfl
  · cases stod A mk t <;> rfl
  · cases htoi mk t <;> rfl
  · cases otoi mk t <;> rfl

/-- The hint a cell of `TEXT_GetRow` leaves: HEX for a column without a hint
whose token is rejected as decimal and accepted in base 16, the old hint otherwise. -/
theorem TEXT_GetRow_cell_hint {α : Type} (A : fval_ops α) (mk : markup_t) (h : data_hint)
    (t : List Char) :
    (TEXT_GetRow_cell A mk h t).2
      = if h = DATA_HINT_NONE ∧ (stod A mk t).isNone = true ∧ (htoi mk t).isSome = true
        then DATA_HINT_HEX else h := by
  cases h <;> simp only [TEXT_GetRow_cell, reduceCtorEq, if_true, if_false, false_and, true_and]
  · cases stod A mk t with
    | none => cases htoi mk t <;> simp
    | some p => simp
  · cases stod A mk t <;> rfl
  · cases htoi mk t <;> rfl
  · cases otoi mk t <;> rfl

/-- C1 (amended): `TEXT_GetRow` returns the number of tokens of the line, at
most `READ_COLUMN_MAX`; each of these columns holds the value its own token
parses to under its own hint, whatever the other tokens are; a token that is
no decimal number leaves not-a-number in a column whose hint is FLOAT. -/
theorem TEXT_GetRow_malformed_is_nan {α : Type} (A : fval_ops α) (mk : markup_t)
    (READ_COLUMN_MAX : Nat) (hmax : 0 < READ_COLUMN_MAX) (st : row_t α) (line : List Char) :
    (TEXT_GetRow A mk READ_COLUMN_MAX st line).1
        = min (line_tokens mk line).length READ_COLUMN_MAX
    ∧ (∀ i t, i < READ_COLUMN_MAX → (line_tokens mk line)[i]? = some t →
        (TEXT_GetRow A mk READ_COLUMN_MAX st line).2.row i = parse_under A mk (st.hint i) t)
    ∧ (∀ i t, i < READ_COLUMN_MAX → (line_tokens mk line)[i]? = some t →
        st.hint i = DATA_HINT_FLOAT → (stod A mk t).isNone = true →
        (TEXT_GetRow A mk READ_COLUMN_MAX st line).2.row i = A.nan) := by
  obtain ⟨h1, h2, _⟩ := TEXT_GetRow_spec A mk READ_COLUMN_MAX hmax st line
  refine ⟨h1, ?_, ?_⟩
  · intro i t hi ht
    rw [(h2 i t hi ht).1, TEXT_GetRow_cell_value]
  · intro i t hi ht hf hn
    rw [(h2 i t hi ht).1, TEXT_GetRow_cell_value, hf]
    simp only [parse_under]
    rw [Option.isNone_iff_eq_none] at hn
    simp [hn]

theorem is_term_default_one : is_term mk_default '1' = false ∧ is_term mk_default ' ' = true
    ∧ '1' ≠ NUL ∧ ' ' ≠ NUL := by decide

theorem tokens_ones_line (n : Nat) : (line_tokens mk_default (ones_line n)).length = n := by
  unfold line_tokens
  induction n with
  | zero => simp [ones_line, tokens_from_nil]
  | succ n ih =>
    obtain ⟨h1, h2, h3, h4⟩ := is_term_default_one
    rw [ones_line, tokens_from_cons _ _ _ _ h3, tokens_from_cons _ _ _ _ h4]
    simp [h1, h2, ih] <;> omega

/-- C1, the claim as written fails: with room for 2 columns a line of 3 tokens
gives the count 2; and whatever `READ_COLUMN_MAX` is, the line of
`READ_COLUMN_MAX + 1` tokens gives the count `READ_COLUMN_MAX`. -/
theorem TEXT_GetRow_count_is_capped :
    (TEXT_GetRow exact_ops mk_default 2
        { row := fun _ => fexact.nan, hint := fun _ => DATA_HINT_FLOAT } "1 2 3".toList).1 = 2
    ∧ (line_tokens mk_default "1 2 3".toList).length = 3
    ∧ (∀ n : Nat, 0 < n →
        (TEXT_GetRow exact_ops mk_default n
          { row := fun _ => fexact.nan, hint := fun _ => DATA_HINT_FLOAT } (ones_line (n + 1))).1 = n
        ∧ (line_tokens mk_default (ones_line (n + 1))).length = n + 1) := by
  refine ⟨by decide, by decide, ?_⟩
  intro n hn
  refine ⟨?_, tokens_ones_line (n + 1)⟩
  rw [(TEXT_GetRow_spec exact_ops mk_default n hn _ _).1, tokens_ones_line]
  omega

/-- C1 at a concrete line: `12x4` under the hint FLOAT leaves not-a-number, and
the token after it is still parsed. -/
theorem TEXT_GetRow_malformed_is_nan_witness :
    0 < 8
    ∧ (TEXT_GetRow exact_ops mk_default 8
        { row := fun _ => fexact.num 0, hint := fun _ => DATA_HINT_FLOAT }
        "5 12x4 7".toList).1 = 3
    ∧ (TEXT_GetRow exact_ops mk_default 8
        { row := fun _ => fexact.num 0, hint := fun _ => DATA_HINT_FLOAT }
        "5 12x4 7".toList).2.row 1 = fexact.nan
    ∧ (TEXT_GetRow exact_ops mk_default 8
        { row := fun _ => fexact.num 0, hint := fun _ => DATA_HINT_FLOAT }
        "5 12x4 7".toList).2.row 2
        = parse_under exact_ops mk_default DATA_HINT_FLOAT "7".toList := by
  have h := TEXT_GetRow_malformed_is_nan exact_ops mk_default 8 (by decide)
    { row := fun _ => fexact.num 0, hint := fun _ => DATA_HINT_FLOAT } "5 12x4 7".toList
  refine ⟨by decide, ?_, ?_, ?_⟩
  · rw [h.1]; decide
  · exact h.2.2 1 "12x4 7".toList (by decide) (by decide) rfl (by decide)
  · exact h.2.1 2 "7".toList (by decide) (by decide)

open data_hint

/-- C7: column auto-typing of `TEXT_GetRow`. For the token `t` of column `i`: a
hint FLOAT, HEX or OCT has the column parsed by `stod`, `htoi` or `otoi` alone
and stays; a column without a hint is parsed as decimal and, only if that
fails, in base 16, and its hint becomes HEX exactly when that base 16 parse
succeeds; no hint of any column changes except from NONE to HEX. -/
theorem TEXT_GetRow_hint_typing {α : Type} (A : fval_ops α) (mk : markup_t)
    (READ_COLUMN_MAX : Nat) (hmax : 0 < READ_COLUMN_MAX) (st : row_t α) (line : List Char)
    (i : Nat) (t : List Char) (hi : i < READ_COLUMN_MAX)
    (ht : (line_tokens mk line)[i]? = some t) :
    (st.hint i = DATA_HINT_FLOAT →
      (TEXT_GetRow A mk READ_COLUMN_MAX st line).2.row i
          = ((stod A mk t).map Prod.fst).getD A.nan
      ∧ (TEXT_GetRow A mk READ_COLUMN_MAX st line).2.hint i = DATA_HINT_FLOAT)
    ∧ (st.hint i = DATA_HINT_HEX →
      (TEXT_GetRow A mk READ_COLUMN_MAX st line).2.row i
          = ((htoi mk t).map (fun p => A.ofInt p.1)).getD A.nan
      ∧ (TEXT_GetRow A mk READ_COLUMN_MAX st line).2.hint i = DATA_HINT_HEX)
    ∧ (st.hint i = DATA_HINT_OCT →
      (TEXT_GetRow A mk READ_COLUMN_MAX st line).2.row i
          = ((otoi mk t).map (fun p => A.ofInt p.1)).getD A.nan
      ∧ (TEXT_GetRow A mk READ_COLUMN_MAX st line).2.hint i = DATA_HINT_OCT)
    ∧ (st.hint i = DATA_HINT_NONE →
      (TEXT_GetRow A mk READ_COLUMN_MAX st line).2.row i
          = (match stod A mk t with
            | some p => p.1
            | none => ((htoi mk t).map (fun p => A.ofInt p.1)).getD A.nan)
      ∧ ((TEXT_GetRow A mk READ_COLUMN_MAX st line).2.hint i = DATA_HINT_HEX
          ↔ ((stod A mk t).isNone = true ∧ (htoi mk t).isSome = true))
      ∧ ((TEXT_GetRow A mk READ_COLUMN_MAX st line).2.hint i = DATA_HINT_HEX
          ∨ (TEXT_GetRow A mk READ_COLUMN_MAX st line).2.hint i = DATA_HINT_NONE))
    ∧ (∀ j, (TEXT_GetRow A mk READ_COLUMN_MAX st line).2.hint j = st.hint j
        ∨ (st.hint j = DATA_HINT_NONE
          ∧ (TEXT_GetRow A mk READ_COLUMN_MAX st line).2.hint j = DATA_HINT_HEX)) := by
  obtain ⟨_, h2, h3⟩ := TEXT_GetRow_spec A mk READ_COLUMN_MAX hmax st line
  obtain ⟨hr, hh⟩ := h2 i t hi ht
  rw [TEXT_GetRow_cell_value] at hr
  rw [TEXT_GetRow_cell_hint] at hh
  refine ⟨?_, ?_, ?_, ?_, ?_⟩
  · intro h
    rw [hr, hh, h]
    simp [parse_under]
  · intro h
    rw [hr, hh, h]
    simp [parse_under]
  · intro h
    rw [hr, hh, h]
    simp [parse_under]
  · intro h
    rw [hr, hh, h]
    refine ⟨rfl, ?_, ?_⟩
    · by_cases hc : (stod A mk t).isNone = true ∧ (htoi mk t).isSome = true
      · simp [hc]
      · simp only [true_and, hc, if_false, reduceCtorEq]
    · by_cases hc : (stod A mk t).isNone = true ∧ (htoi mk t).isSome = true
      · simp [hc]
      · simp only [true_and, hc, if_false, reduceCtorEq, or_true]
  · intro j
    by_cases hj : j < READ_COLUMN_MAX ∧ j < (line_tokens mk line).length
    · cases hg : (line_tokens mk line)[j]? with
      | none =>
        rw [List.getElem?_eq_none_iff] at hg
        omega
      | some u =>
        have := (h2 j u hj.1 hg).2
        rw [TEXT_GetRow_cell_hint] at this
        rw [this]
        by_cases hc : st.hint j = DATA_HINT_NONE ∧ (stod A mk u).isNone = true ∧
            (htoi mk u).isSome = true
        · rw [if_pos hc]; exact Or.inr ⟨hc.1, rfl⟩
        · rw [if_neg hc]; exact Or.inl rfl
    · exact Or.inl (h3 j (by omega)).2

/-- C7 at a concrete line: the token `1A` of a column without a hint is read
in base 16 and the hint of the column becomes HEX. -/
theorem TEXT_GetRow_hint_typing_witness :
    0 < 8 ∧ (line_tokens mk_default "1A 7".toList)[0]? = some "1A 7".toList
    ∧ (TEXT_GetRow exact_ops mk_default 8
        { row := fun _ => fexact.num 0, hint := fun _ => DATA_HINT_NONE }
        "1A 7".toList).2.hint 0 = DATA_HINT_HEX :=
  ⟨by decide, by decide,
    ((TEXT_GetRow_hint_typing exact_ops mk_default 8 (by decide)
      { row := fun _ => fexact.num 0, hint := fun _ => DATA_HINT_NONE } "1A 7".toList
      0 "1A 7".toList (by decide) (by decide)).2.2.2.1 rfl).2.1.mpr ⟨by decide, by decide⟩⟩

open data_hint format_t async_ret

theorem set_data_same {σ α : Type} (m : pump_t σ α) (dN : Nat) (d : data_t α) :
    (m.set_data dN d).rd.data dN = d := by
  simp [pump_t.set_data]

theorem set_data_other {σ α : Type} (m : pump_t σ α) (dN j : Nat) (d : data_t α) (h : j ≠ dN) :
    (m.set_data dN d).rd.data j = m.rd.data j := by
  simp [pump_t.set_data, Function.update_noteq h]

theorem async_read_ok {α : Type} (b : buf_t α) (es : async_t α) (buf : buf_t α) :
    async_read (some (ASYNC_OK b :: es)) buf = (ASYNC_OK b, some es, b) := rfl

theorem async_read_eof {α : Type} (es : async_t α) (buf : buf_t α) :
    async_read (some (ASYNC_END_OF_FILE :: es)) buf = (ASYNC_END_OF_FILE, some es, buf) := rfl

/-- A read that gives nothing for now takes one step of the script and leaves the buffer. -/
theorem async_read_pending {α : Type} (es : async_t α) (buf : buf_t α)
    (h : (async_read (some es) buf).1 = ASYNC_PENDING) :
    async_read (some es) buf = (ASYNC_PENDING, some es.tail, buf) := by
  cases es with
  | nil => rfl
  | cons e es =>
    cases e with
    | ASYNC_OK b => simp [async_read] at h
    | ASYNC_END_OF_FILE => simp [async_read] at h
    | ASYNC_PENDING => rfl

/-- C2: a line that is read is never a hard failure. When the source of dataset
`dN` gives a line, `TEXT_Read` returns 1, leaves `fd` as it was and the source
open on the rest of its script, and `files_N` as it was; the row goes to
`plotDataInsert` exactly when the count of `TEXT_GetRow` is
`pl->data[dN].column_N`, and otherwise the store and the record of calls are
left unchanged; in `readUpdate` the loop goes on after the read. -/
theorem TEXT_Read_consumes_row {σ α : Type} (A : fval_ops α) (P : plot_api σ α)
    (READ_COLUMN_MAX : Nat) (m : pump_t σ α) (dN : Nat) (b : buf_t α) (es : async_t α)
    (h : (m.rd.data dN).afd = some (ASYNC_OK b :: es)) :
    (TEXT_Read A P READ_COLUMN_MAX m dN).1 = 1
    ∧ ((TEXT_Read A P READ_COLUMN_MAX m dN).2.rd.data dN).fd = (m.rd.data dN).fd
    ∧ ((TEXT_Read A P READ_COLUMN_MAX m dN).2.rd.data dN).afd = some es
    ∧ (TEXT_Read A P READ_COLUMN_MAX m dN).2.rd.files_N = m.rd.files_N
    ∧ (((TEXT_GetRow A m.rd.mk_text READ_COLUMN_MAX
            { row := (m.rd.data dN).row, hint := (m.rd.data dN).hint } b.text).1 : Int)
          = P.column_N m.pl dN →
        (TEXT_Read A P READ_COLUMN_MAX m dN).2.pl = P.plotDataInsert m.pl dN
            (TEXT_GetRow A m.rd.mk_text READ_COLUMN_MAX
              { row := (m.rd.data dN).row, hint := (m.rd.data dN).hint } b.text).2.row
        ∧ (TEXT_Read A P READ_COLUMN_MAX m dN).2.trace = m.trace ++ [pump_event.insert dN
            (TEXT_GetRow A m.rd.mk_text READ_COLUMN_MAX
              { row := (m.rd.data dN).row, hint := (m.rd.data dN).hint } b.text).2.row])
    ∧ (((TEXT_GetRow A m.rd.mk_text READ_COLUMN_MAX
            { row := (m.rd.data dN).row, hint := (m.rd.data dN).hint } b.text).1 : Int)
          ≠ P.column_N m.pl dN →
        (TEXT_Read A P READ_COLUMN_MAX m dN).2.pl = m.pl
        ∧ (TEXT_Read A P READ_COLUMN_MAX m dN).2.trace = m.trace)
    ∧ ((m.rd.data dN).format = FORMAT_PLAIN_TEXT → ∀ ulN,
        (readUpdate_read A P READ_COLUMN_MAX m dN ulN).2 = some (ulN + 1)) := by
  refine ⟨?_, ?_, ?_, ?_, ?_, ?_, ?_⟩
  · unfold TEXT_Read
    simp only [h, async_read_ok, set_data_same]
  · unfold TEXT_Read
    simp only [h, async_read_ok, set_data_same]
    split <;> simp [pump_t.insert, set_data_same]
  · unfold TEXT_Read
    simp only [h, async_read_ok, set_data_same]
    split <;> simp [pump_t.insert, set_data_same]
  · unfold TEXT_Read
    simp only [h, async_read_ok, set_data_same]
    split <;> simp [pump_t.insert, pump_t.set_data]
  · intro hc
    unfold TEXT_Read
    simp only [h, async_read_ok, set_data_same]
    simp [pump_t.insert, pump_t.set_data, hc]
  · intro hc
    unfold TEXT_Read
    simp only [h, async_read_ok, set_data_same]
    simp [pump_t.insert, pump_t.set_data, hc]
  · intro hf ulN
    unfold readUpdate_read
    rw [if_pos hf]
    have h1 : (TEXT_Read A P READ_COLUMN_MAX m dN).1 = 1 := by
      unfold TEXT_Read
      simp only [h, async_read_ok, set_data_same]
    simp [readUpdate_count, h1]

open data_hint format_t async_ret

theorem effect_refl {σ α : Type} (m : pump_t σ α) (dN : Nat) : effect_on m m dN [] := by
  simp [effect_on]

theorem effect_trans {σ α : Type} (m m1 m2 : pump_t σ α) (dN : Nat)
    (t t1 : List (pump_event σ α)) (h : effect_on m m1 dN t) (h1 : effect_on m1 m2 dN t1) :
    effect_on m m2 dN (t ++ t1) := by
  obtain ⟨a1, a2, a3, a4, a5, a6, a7⟩ := h
  obtain ⟨b1, b2, b3, b4, b5, b6, b7⟩ := h1
  refine ⟨by rw [b1, a1, List.append_assoc], fun j hj => by rw [b2 j hj, a2 j hj],
    by rw [b3, a3], by rw [b4, a4], by rw [b5, a5], ?_, ?_⟩
  · intro e he
    rcases List.mem_append.mp he with h | h
    · exact a6 e h
    · exact b6 e h
  · rcases b7 with b7 | b7
    · rw [b7]; exact a7
    · exact Or.inr b7

/-- An assignment to `rd->data[dN]` that keeps the length bound and the format. -/
theorem effect_set_data {σ α : Type} (m : pump_t σ α) (dN : Nat) (d : data_t α)
    (hl : d.length_N = (m.rd.data dN).length_N) (hf : d.format = (m.rd.data dN).format)
    (hd : d.fd = (m.rd.data dN).fd ∨ d.fd = none) :
    effect_on m (m.set_data dN d) dN [] := by
  refine ⟨by simp [pump_t.set_data], fun j hj => set_data_other m dN j d hj, ?_, ?_, rfl, ?_, ?_⟩
  · rw [set_data_same]; exact hl
  · rw [set_data_same]; exact hf
  · simp
  · rw [set_data_same]; exact hd

theorem effect_insert {σ α : Type} (P : plot_api σ α) (m : pump_t σ α) (dN : Nat)
    (row : Nat → α) : effect_on m (m.insert P dN row) dN [pump_event.insert dN row] := by
  simp [effect_on, pump_t.insert, pump_event.dataset]

theorem effect_readClose {σ α : Type} (m : pump_t σ α) (dN : Nat) :
    effect_on m (readClose m dN) dN [] := by
  unfold readClose
  have := effect_set_data m dN { m.rd.data dN with fd := none, afd := none } rfl rfl (Or.inr rfl)
  obtain ⟨a1, a2, a3, a4, a5, a6, a7⟩ := this
  exact ⟨a1, a2, a3, a4, a5, a6, a7⟩

/-- The three cases of a read of a source. -/
theorem async_read_cases {α : Type} (afd : Option (async_t α)) (buf : buf_t α) :
    (∃ b es, afd = some (ASYNC_OK b :: es))
    ∨ (∃ es, afd = some (ASYNC_END_OF_FILE :: es))
    ∨ async_read afd buf = (ASYNC_PENDING, afd.map List.tail, buf) := by
  cases afd with
  | none => exact Or.inr (Or.inr rfl)
  | some es =>
    cases es with
    | nil => exact Or.inr (Or.inr rfl)
    | cons e es =>
      cases e with
      | ASYNC_OK b => exact Or.inl ⟨b, es, rfl⟩
      | ASYNC_END_OF_FILE => exact Or.inr (Or.inl ⟨es, rfl⟩)
      | ASYNC_PENDING => exact Or.inr (Or.inr rfl)

/-- What `TEXT_Read` does to the reader: it works on `dN` alone, returns 1 with
at most one call of `plotDataInsert`, or returns 0 with no call and the store left. -/
theorem TEXT_Read_effect {σ α : Type} (A : fval_ops α) (P : plot_api σ α)
    (READ_COLUMN_MAX : Nat) (m : pump_t σ α) (dN : Nat) :
    ∃ t, effect_on m (TEXT_Read A P READ_COLUMN_MAX m dN).2 dN t
      ∧ (((TEXT_Read A P READ_COLUMN_MAX m dN).1 = 1
          ∧ (t = [] ∨ ∃ row, t = [pump_event.insert dN row]))
        ∨ ((TEXT_Read A P READ_COLUMN_MAX m dN).1 = 0 ∧ t = []
          ∧ (TEXT_Read A P READ_COLUMN_MAX m dN).2.pl = m.pl)) := by
  rcases async_read_cases (m.rd.data dN).afd (m.rd.data dN).buf with ⟨b, es, h⟩ | ⟨es, h⟩ | h
  · unfold TEXT_Read
    simp only [h, async_read_ok, set_data_same]
    have e1 := effect_set_data m dN { m.rd.data dN with afd := some es, buf := b } rfl rfl (Or.inl rfl)
    have e2 := effect_set_data (m.set_data dN { m.rd.data dN with afd := some es, buf := b }) dN
      { m.rd.data dN with
        afd := some es
        buf := b
        row := (TEXT_GetRow A (m.set_data dN
          { m.rd.data dN with afd := some es, buf := b }).rd.mk_text READ_COLUMN_MAX
          { row := (m.rd.data dN).row, hint := (m.rd.data dN).hint } b.text).2.row
        hint := (TEXT_GetRow A (m.set_data dN
          { m.rd.data dN with afd := some es, buf := b }).rd.mk_text READ_COLUMN_MAX
          { row := (m.rd.data dN).row, hint := (m.rd.data dN).hint } b.text).2.hint }
      (by rw [set_data_same]) (by rw [set_data_same]) (Or.inl (by rw [set_data_same]))
    have e12 := effect_trans _ _ _ _ _ _ e1 e2
    split
    · exact ⟨_, effect_trans _ _ _ _ _ _ e12 (effect_insert P _ dN _), by simp⟩
    · exact ⟨_, e12, by simp⟩
  · unfold TEXT_Read
    simp only [h, async_read_eof]
    have e1 := effect_set_data m dN { m.rd.data dN with afd := some es, buf := (m.rd.data dN).buf } rfl rfl (Or.inl rfl)
    exact ⟨_, effect_trans _ _ _ _ _ _ e1 (effect_readClose _ dN), by simp [readClose, pump_t.set_data]⟩
  · unfold TEXT_Read
    simp only [h]
    have e1 := effect_set_data m dN { m.rd.data dN with afd := (m.rd.data dN).afd.map List.tail, buf := (m.rd.data dN).buf } rfl rfl (Or.inl rfl)
    exact ⟨_, e1, by simp [pump_t.set_data]⟩

open data_hint format_t async_ret

theorem FLOAT_Read_effect {σ α : Type} (P : plot_api σ α) (m : pump_t σ α) (dN : Nat) :
    ∃ t, effect_on m (FLOAT_Read P m dN).2 dN t
      ∧ (((FLOAT_Read P m dN).1 = 1 ∧ (t = [] ∨ ∃ row, t = [pump_event.insert dN row]))
        ∨ ((FLOAT_Read P m dN).1 = 0 ∧ t = [] ∧ (FLOAT_Read P m dN).2.pl = m.pl)) := by
  rcases async_read_cases (m.rd.data dN).afd (m.rd.data dN).buf with ⟨b, es, h⟩ | ⟨es, h⟩ | h
  · unfold FLOAT_Read
    simp only [h, async_read_ok, set_data_same]
    have e1 := effect_set_data m dN { m.rd.data dN with afd := some es, buf := b } rfl rfl (Or.inl rfl)
    have e2 := effect_set_data (m.set_data dN { m.rd.data dN with afd := some es, buf := b }) dN
      { m.rd.data dN with
        afd := some es
        buf := b
        row := row_fill (P.column_N m.pl dN) b.f32 (m.rd.data dN).row }
      (by rw [set_data_same]) (by rw [set_data_same]) (Or.inl (by rw [set_data_same]))
    have e12 := effect_trans _ _ _ _ _ _ e1 e2
    exact ⟨_, effect_trans _ _ _ _ _ _ e12 (effect_insert P _ dN _), by simp⟩
  · unfold FLOAT_Read
    simp only [h, async_read_eof]
    have e1 := effect_set_data m dN { m.rd.data dN with afd := some es, buf := (m.rd.data dN).buf } rfl rfl (Or.inl rfl)
    exact ⟨_, effect_trans _ _ _ _ _ _ e1 (effect_readClose _ dN), by simp [readClose, pump_t.set_data]⟩
  · unfold FLOAT_Read
    simp only [h]
    have e1 := effect_set_data m dN { m.rd.data dN with afd := (m.rd.data dN).afd.map List.tail, buf := (m.rd.data dN).buf } rfl rfl (Or.inl rfl)
    exact ⟨_, e1, by simp [pump_t.set_data]⟩

theorem DOUBLE_Read_effect {σ α : Type} (P : plot_api σ α) (m : pump_t σ α) (dN : Nat) :
    ∃ t, effect_on m (DOUBLE_Read P m dN).2 dN t
      ∧ (((DOUBLE_Read P m dN).1 = 1 ∧ (t = [] ∨ ∃ row, t = [pump_event.insert dN row]))
        ∨ ((DOUBLE_Read P m dN).1 = 0 ∧ t = [] ∧ (DOUBLE_Read P m dN).2.pl = m.pl)) := by
  rcases async_read_cases (m.rd.data dN).afd (m.rd.data dN).buf with ⟨b, es, h⟩ | ⟨es, h⟩ | h
  · unfold DOUBLE_Read
    simp only [h, async_read_ok, set_data_same]
    have e1 := effect_set_data m dN { m.rd.data dN with afd := some es, buf := b } rfl rfl (Or.inl rfl)
    have e2 := effect_set_data (m.set_data dN { m.rd.data dN with afd := some es, buf := b }) dN
      { m.rd.data dN with
        afd := some es
        buf := b
        row := row_fill (P.column_N m.pl dN) b.f64 (m.rd.data dN).row }
      (by rw [set_data_same]) (by rw [set_data_same]) (Or.inl (by rw [set_data_same]))
    have e12 := effect_trans _ _ _ _ _ _ e1 e2
    exact ⟨_, effect_trans _ _ _ _ _ _ e12 (effect_insert P _ dN _), by simp⟩
  · unfold DOUBLE_Read
    simp only [h, async_read_eof]
    have e1 := effect_set_data m dN { m.rd.data dN with afd := some es, buf := (m.rd.data dN).buf } rfl rfl (Or.inl rfl)
    exact ⟨_, effect_trans _ _ _ _ _ _ e1 (effect_readClose _ dN), by simp [readClose, pump_t.set_data]⟩
  · unfold DOUBLE_Read
    simp only [h]
    have e1 := effect_set_data m dN { m.rd.data dN with afd := (m.rd.data dN).afd.map List.tail, buf := (m.rd.data dN).buf } rfl rfl (Or.inl rfl)
    exact ⟨_, e1, by simp [pump_t.set_data]⟩

/-- Adding the mark `row dN s` to the record. -/
theorem effect_mark {σ α : Type} (m : pump_t σ α) (dN : Nat) (s : σ) :
    effect_on m { m with trace := m.trace ++ [pump_event.row dN s] } dN [pump_event.row dN s] := by
  simp [effect_on, pump_event.dataset]

/-- The test on the result of a read: a break with nothing added to the record,
or the mark of the row after at most one insert. -/
theorem readUpdate_count_effect {σ α : Type} (m : pump_t σ α) (dN : Nat) (ulN : Int)
    (r : Int × pump_t σ α)
    (hr : ∃ t, effect_on m r.2 dN t
        ∧ ((r.1 = 1 ∧ (t = [] ∨ ∃ row, t = [pump_event.insert dN row]))
          ∨ (r.1 = 0 ∧ t = [] ∧ r.2.pl = m.pl))) :
    ∃ t, effect_on m (readUpdate_count r dN ulN).1 dN t
      ∧ (((readUpdate_count r dN ulN).2 = none ∧ t = []
          ∧ (readUpdate_count r dN ulN).1.pl = m.pl)
        ∨ ((readUpdate_count r dN ulN).2 = some (ulN + 1)
          ∧ ∃ ins, (ins = [] ∨ ∃ row, ins = [pump_event.insert dN row])
            ∧ t = ins ++ [pump_event.row dN (readUpdate_count r dN ulN).1.pl])) := by
  obtain ⟨t, he, h | h⟩ := hr
  · have h1 : r.1 ≠ 0 := by rw [h.1]; decide
    unfold readUpdate_count
    rw [if_pos h1]
    exact ⟨t ++ [pump_event.row dN r.2.pl], effect_trans _ _ _ _ _ _ he (effect_mark r.2 dN r.2.pl),
      Or.inr ⟨rfl, t, h.2, rfl⟩⟩
  · have h1 : ¬ (r.1 ≠ 0) := by rw [h.1]; decide
    unfold readUpdate_count
    rw [if_neg h1]
    exact ⟨t, he, Or.inl ⟨rfl, h.2.1, h.2.2⟩⟩

/-- The read step of the loop of `readUpdate`: it breaks with nothing added to
the record and the store left, or goes on after a row with at most one insert
and the mark of the row, or, for a format without a branch, does nothing. -/
theorem readUpdate_read_effect {σ α : Type} (A : fval_ops α) (P : plot_api σ α)
    (READ_COLUMN_MAX : Nat) (m : pump_t σ α) (dN : Nat) (ulN : Int) :
    ∃ t, effect_on m (readUpdate_read A P READ_COLUMN_MAX m dN ulN).1 dN t
      ∧ (((readUpdate_read A P READ_COLUMN_MAX m dN ulN).2 = none ∧ t = []
          ∧ (readUpdate_read A P READ_COLUMN_MAX m dN ulN).1.pl = m.pl)
        ∨ ((readUpdate_read A P READ_COLUMN_MAX m dN ulN).2 = some (ulN + 1)
          ∧ ∃ ins, (ins = [] ∨ ∃ row, ins = [pump_event.insert dN row])
            ∧ t = ins ++ [pump_event.row dN (readUpdate_read A P READ_COLUMN_MAX m dN ulN).1.pl])
        ∨ (¬ format_read (m.rd.data dN).format
          ∧ (readUpdate_read A P READ_COLUMN_MAX m dN ulN).2 = some ulN ∧ t = []
          ∧ (readUpdate_read A P READ_COLUMN_MAX m dN ulN).1.pl = m.pl)) := by
  unfold readUpdate_read
  by_cases h1 : (m.rd.data dN).format = FORMAT_PLAIN_TEXT
  · rw [if_pos h1]
    obtain ⟨t, he, h | h⟩ := readUpdate_count_effect m dN ulN _ (TEXT_Read_effect A P READ_COLUMN_MAX m dN)
    · exact ⟨t, he, Or.inl h⟩
    · exact ⟨t, he, Or.inr (Or.inl h)⟩
  · rw [if_neg h1]
    by_cases h2 : (m.rd.data dN).format = FORMAT_BINARY_FLOAT
    · rw [if_pos h2]
      obtain ⟨t, he, h | h⟩ := readUpdate_count_effect m dN ulN _ (FLOAT_Read_effect P m dN)
      · exact ⟨t, he, Or.inl h⟩
      · exact ⟨t, he, Or.inr (Or.inl h)⟩
    · rw [if_neg h2]
      by_cases h3 : (m.rd.data dN).format = FORMAT_BINARY_DOUBLE
      · rw [if_pos h3]
        obtain ⟨t, he, h | h⟩ := readUpdate_count_effect m dN ulN _ (DOUBLE_Read_effect P m dN)
        · exact ⟨t, he, Or.inl h⟩
        · exact ⟨t, he, Or.inr (Or.inl h)⟩
      · rw [if_neg h3]
        refine ⟨[], effect_refl m dN, Or.inr (Or.inr ⟨?_, rfl, rfl, rfl⟩)⟩
        unfold format_read
        simp [h1, h2, h3]

/-- The growth step of the loop of `readUpdate`: it counts the line, and calls
`plotDataGrowUp` when the dataset has no length bound and less than 10 rows of
space are left. -/
theorem readUpdate_grow_effect {σ α : Type} (P : plot_api σ α) (m : pump_t σ α) (dN : Nat) :
    effect_on m (readUpdate_grow P m dN) dN
      (if (m.rd.data dN).length_N < 1 ∧ P.plotDataSpaceLeft m.pl dN < 10
        then [pump_event.grow dN] else []) := by
  unfold readUpdate_grow
  have e1 := effect_set_data m dN { m.rd.data dN with line_N := (m.rd.data dN).line_N + 1 } rfl rfl (Or.inl rfl)
  simp only [set_data_same]
  have hpl : (m.set_data dN { m.rd.data dN with line_N := (m.rd.data dN).line_N + 1 }).pl = m.pl := rfl
  rw [hpl]
  by_cases hc : (m.rd.data dN).length_N < 1 ∧ P.plotDataSpaceLeft m.pl dN < 10
  · rw [if_pos hc, if_pos hc]
    have e2 : effect_on (m.set_data dN { m.rd.data dN with line_N := (m.rd.data dN).line_N + 1 })
        { (m.set_data dN { m.rd.data dN with line_N := (m.rd.data dN).line_N + 1 }) with
          pl := P.plotDataGrowUp m.pl dN
          trace := (m.set_data dN { m.rd.data dN with line_N := (m.rd.data dN).line_N + 1 }).trace ++ [pump_event.grow dN] }
        dN [pump_event.grow dN] := by
      simp [effect_on, pump_event.dataset]
    have := effect_trans _ _ _ _ _ _ e1 e2
    simpa using this
  · rw [if_neg hc, if_neg hc]
    exact e1

open data_hint format_t async_ret

theorem policy_insert {σ α : Type} (P : plot_api σ α) (len : Nat → Int) (d : Nat) (r : Nat → α)
    (t : List (pump_event σ α)) :
    growth_policy P len (pump_event.insert d r :: t) = growth_policy P len t := by
  cases t <;> rfl

theorem policy_subtract {σ α : Type} (P : plot_api σ α) (len : Nat → Int) (d : Nat) (x : Int)
    (t : List (pump_event σ α)) :
    growth_policy P len (pump_event.subtract d x :: t) = growth_policy P len t := by
  cases t <;> rfl

theorem policy_grow {σ α : Type} (P : plot_api σ α) (len : Nat → Int) (d : Nat)
    (t : List (pump_event σ α)) :
    growth_policy P len (pump_event.grow d :: t) = False := by
  cases t <;> rfl

theorem policy_row_grow {σ α : Type} (P : plot_api σ α) (len : Nat → Int) (d d1 : Nat) (s : σ)
    (t : List (pump_event σ α)) :
    growth_policy P len (pump_event.row d s :: pump_event.grow d1 :: t)
      = (d1 = d ∧ (len d < 1 ∧ P.plotDataSpaceLeft s d < 10) ∧ growth_policy P len t) := rfl

theorem policy_row_nil {σ α : Type} (P : plot_api σ α) (len : Nat → Int) (d : Nat) (s : σ) :
    growth_policy P len [pump_event.row d s]
      = ¬ (len d < 1 ∧ P.plotDataSpaceLeft s d < 10) := rfl

theorem policy_row_other {σ α : Type} (P : plot_api σ α) (len : Nat → Int) (d : Nat) (s : σ)
    (e : pump_event σ α) (t : List (pump_event σ α)) (he : ∀ d1, e ≠ pump_event.grow d1) :
    growth_policy P len (pump_event.row d s :: e :: t)
      = (¬ (len d < 1 ∧ P.plotDataSpaceLeft s d < 10) ∧ growth_policy P len (e :: t)) := by
  cases e with
  | grow d1 => exact absurd rfl (he d1)
  | insert _ _ => rfl
  | row _ _ => rfl
  | subtract _ _ => rfl

/-- The growth policy of two segments carries to their concatenation when the
second does not start with a growth. -/
theorem policy_append {σ α : Type} (P : plot_api σ α) (len : Nat → Int)
    (t2 : List (pump_event σ α)) (h2 : growth_policy P len t2)
    (hh : ∀ d, t2.head? ≠ some (pump_event.grow d)) :
    ∀ (n : Nat) (t1 : List (pump_event σ α)), t1.length ≤ n → growth_policy P len t1 →
      growth_policy P len (t1 ++ t2) := by
  intro n
  induction n with
  | zero =>
    intro t1 hl _
    have : t1 = [] := List.length_eq_zero.mp (by omega)
    subst this
    exact h2
  | succ n ih =>
    intro t1 hl h1
    cases t1 with
    | nil => exact h2
    | cons e t =>
      simp only [List.length_cons] at hl
      cases e with
      | insert d r =>
        rw [List.cons_append, policy_insert]
        rw [policy_insert] at h1
        exact ih t (by omega) h1
      | subtract d x =>
        rw [List.cons_append, policy_subtract]
        rw [policy_subtract] at h1
        exact ih t (by omega) h1
      | grow d =>
        rw [policy_grow] at h1
        exact absurd h1 id
      | row d s =>
        cases t with
        | nil =>
          rw [policy_row_nil] at h1
          cases t2 with
          | nil => simpa [policy_row_nil] using h1
          | cons e2 t2 =>
            have he2 : ∀ d1, e2 ≠ pump_event.grow d1 := fun d1 hd => hh d1 (by simp [hd])
            show growth_policy P len (pump_event.row d s :: e2 :: t2)
            rw [policy_row_other P len d s e2 t2 he2]
            exact ⟨h1, h2⟩
        | cons e1 t =>
          by_cases hg : ∃ d1, e1 = pump_event.grow d1
          · obtain ⟨d1, rfl⟩ := hg
            rw [policy_row_grow] at h1
            show growth_policy P len (pump_event.row d s :: pump_event.grow d1 :: (t ++ t2))
            rw [policy_row_grow]
            simp only [List.length_cons] at hl
            exact ⟨h1.1, h1.2.1, ih t (by omega) h1.2.2⟩
          · have he1 : ∀ d1, e1 ≠ pump_event.grow d1 := fun d1 hd => hg ⟨d1, hd⟩
            rw [policy_row_other P len d s e1 t he1] at h1
            show growth_policy P len (pump_event.row d s :: e1 :: (t ++ t2))
            rw [policy_row_other P len d s e1 (t ++ t2) he1]
            exact ⟨h1.1, ih (e1 :: t) (by simp only [List.length_cons] at hl ⊢; omega) h1.2⟩

theorem segment_nil {σ α : Type} (P : plot_api σ α) (len : Nat → Int) :
    segment_ok P len ([] : List (pump_event σ α)) := by
  refine ⟨trivial, ?_, ?_⟩ <;> simp

theorem segment_append {σ α : Type} (P : plot_api σ α) (len : Nat → Int)
    (t1 t2 : List (pump_event σ α)) (h1 : segment_ok P len t1) (h2 : segment_ok P len t2) :
    segment_ok P len (t1 ++ t2) := by
  refine ⟨policy_append P len t2 h2.1 h2.2.1 t1.length t1 (le_refl _) h1.1, ?_, ?_⟩
  · intro d
    cases t1 with
    | nil => exact h2.2.1 d
    | cons e t => exact h1.2.1 d
  · intro d hd
    rcases List.mem_append.mp hd with h | h
    · exact h1.2.2 d h
    · exact h2.2.2 d h

/-- The entries one turn of the loop of `readUpdate` adds keep the growth policy. -/
theorem segment_turn {σ α : Type} (P : plot_api σ α) (len : Nat → Int) (d : Nat) (s : σ)
    (ins : List (pump_event σ α)) (hins : ins = [] ∨ ∃ row, ins = [pump_event.insert d row]) :
    segment_ok P len ((ins ++ [pump_event.row d s])
      ++ (if len d < 1 ∧ P.plotDataSpaceLeft s d < 10 then [pump_event.grow d] else [])) := by
  by_cases hc : len d < 1 ∧ P.plotDataSpaceLeft s d < 10
  · rw [if_pos hc]
    rcases hins with rfl | ⟨row, rfl⟩
    · refine ⟨?_, ?_, ?_⟩
      · show growth_policy P len (pump_event.row d s :: pump_event.grow d :: [])
        rw [policy_row_grow]
        exact ⟨rfl, hc, trivial⟩
      · intro d1; simp
      · intro d1 hd
        simp at hd
        rw [hd]; exact hc.1
    · refine ⟨?_, ?_, ?_⟩
      · show growth_policy P len
          (pump_event.insert d row :: pump_event.row d s :: pump_event.grow d :: [])
        rw [policy_insert, policy_row_grow]
        exact ⟨rfl, hc, trivial⟩
      · intro d1; simp
      · intro d1 hd
        simp at hd
        rw [hd]; exact hc.1
  · rw [if_neg hc]
    rcases hins with rfl | ⟨row, rfl⟩
    · refine ⟨?_, ?_, ?_⟩
      · show growth_policy P len [pump_event.row d s]
        rw [policy_row_nil]; exact hc
      · intro d1; simp
      · intro d1 hd; simp at hd
    · refine ⟨?_, ?_, ?_⟩
      · show growth_policy P len [pump_event.insert d row, pump_event.row d s]
        rw [policy_insert, policy_row_nil]; exact hc
      · intro d1; simp
      · intro d1 hd; simp at hd

theorem segment_subtract {σ α : Type} (P : plot_api σ α) (len : Nat → Int) (d : Nat) (x : Int) :
    segment_ok P len [(pump_event.subtract d x : pump_event σ α)] := by
  refine ⟨?_, ?_, ?_⟩
  · rw [policy_subtract]; trivial
  · intro d1; simp
  · intro d1 hd; simp at hd

open data_hint format_t async_ret

/-- One turn of the loop of `readUpdate` that does not break. -/
theorem readUpdate_turn_effect {σ α : Type} (A : fval_ops α) (P : plot_api σ α)
    (READ_COLUMN_MAX : Nat) (dN : Nat) (len : Nat → Int) (m m1 : pump_t σ α) (ulN u : Int)
    (hlen : (m.rd.data dN).length_N = len dN)
    (hrd : readUpdate_read A P READ_COLUMN_MAX m dN ulN = (m1, some u)) :
    ∃ t, effect_on m (readUpdate_grow P m1 dN) dN t
      ∧ (∀ d, pump_event.grow d ∈ t → len d < 1)
      ∧ (format_read (m.rd.data dN).format → segment_ok P len t) := by
  obtain ⟨t, he, h⟩ := readUpdate_read_effect A P READ_COLUMN_MAX m dN ulN
  rw [hrd] at he h
  simp only at he h
  have hg := readUpdate_grow_effect P m1 dN
  have hl1 : (m1.rd.data dN).length_N = len dN := by rw [he.2.2.1, hlen]
  rw [hl1] at hg
  refine ⟨_, effect_trans _ _ _ _ _ _ he hg, ?_, ?_⟩
  · intro d hd
    rcases h with h | h | h
    · exact absurd h.1 (by simp)
    · obtain ⟨_, ins, hins, rfl⟩ := h
      exact (segment_turn P len dN m1.pl ins hins).2.2 d hd
    · obtain ⟨_, _, rfl, _⟩ := h
      simp only [List.nil_append] at hd
      split at hd
      · rename_i hc
        simp at hd
        rw [hd]; exact hc.1
      · simp at hd
  · intro hf
    rcases h with h | h | h
    · exact absurd h.1 (by simp)
    · obtain ⟨_, ins, hins, rfl⟩ := h
      exact segment_turn P len dN m1.pl ins hins
    · exact absurd hf h.1

/-- The loop of `readUpdate` for dataset `dN` works on `dN` alone, grows only a
dataset without a length bound, and for a format that is read it adds a
segment that keeps the growth policy. -/
theorem readUpdate_loop_effect {σ α : Type} (A : fval_ops α) (P : plot_api σ α)
    (READ_COLUMN_MAX : Nat) (dN tTOP : Nat) (len : Nat → Int) (ticks : List Nat) :
    ∀ (m : pump_t σ α) (ulN : Int), (m.rd.data dN).length_N = len dN →
    ∃ t, effect_on m (readUpdate_loop A P READ_COLUMN_MAX dN tTOP ticks m ulN).1 dN t
      ∧ (∀ d, pump_event.grow d ∈ t → len d < 1)
      ∧ (format_read (m.rd.data dN).format → segment_ok P len t) := by
  induction ticks with
  | nil =>
    intro m ulN hlen
    rcases hrd : readUpdate_read A P READ_COLUMN_MAX m dN ulN with ⟨m1, _ | u⟩
    · obtain ⟨t, he, h⟩ := readUpdate_read_effect A P READ_COLUMN_MAX m dN ulN
      rw [hrd] at he h
      simp only at he h
      have ht : t = [] := by
        rcases h with h | h | h
        · exact h.2.1
        · exact absurd h.1 (by simp)
        · exact h.2.2.1
      subst ht
      simp only [readUpdate_loop, hrd]
      exact ⟨[], he, by simp, fun _ => segment_nil P len⟩
    · simp only [readUpdate_loop, hrd]
      exact readUpdate_turn_effect A P READ_COLUMN_MAX dN len m m1 ulN u hlen hrd
  | cons tk ticks ih =>
    intro m ulN hlen
    rcases hrd : readUpdate_read A P READ_COLUMN_MAX m dN ulN with ⟨m1, _ | u⟩
    · obtain ⟨t, he, h⟩ := readUpdate_read_effect A P READ_COLUMN_MAX m dN ulN
      rw [hrd] at he h
      simp only at he h
      have ht : t = [] := by
        rcases h with h | h | h
        · exact h.2.1
        · exact absurd h.1 (by simp)
        · exact h.2.2.1
      subst ht
      simp only [readUpdate_loop, hrd]
      exact ⟨[], he, by simp, fun _ => segment_nil P len⟩
    · obtain ⟨t, he, hgrow, hseg⟩ :=
        readUpdate_turn_effect A P READ_COLUMN_MAX dN len m m1 ulN u hlen hrd
      simp only [readUpdate_loop, hrd]
      by_cases htk : tk % 4294967296 < tTOP
      · rw [if_pos htk]
        have hl2 : ((readUpdate_grow P m1 dN).rd.data dN).length_N = len dN := by
          rw [he.2.2.1, hlen]
        obtain ⟨t2, he2, hgrow2, hseg2⟩ := ih (readUpdate_grow P m1 dN) u hl2
        refine ⟨t ++ t2, effect_trans _ _ _ _ _ _ he he2, ?_, ?_⟩
        · intro d hd
          rcases List.mem_append.mp hd with h | h
          · exact hgrow d h
          · exact hgrow2 d h
        · intro hf
          exact segment_append P len t t2 (hseg hf) (hseg2 (by rw [he.2.2.2.1]; exact hf))
      · rw [if_neg htk]
        exact ⟨t, he, hgrow, hseg⟩

open data_hint format_t async_ret

theorem run_inv_refl {σ α : Type} (P : plot_api σ α) (m : pump_t σ α) : run_inv P m m [] := by
  refine ⟨by simp, fun d => ⟨rfl, rfl, id⟩, by simp, fun _ => segment_nil P _, ?_⟩
  intro d _
  exact ⟨rfl, by simp⟩

/-- One turn of the dataset loop of `readUpdate` keeps the invariant of the run. -/
theorem readUpdate_dataset_inv {σ α : Type} (A : fval_ops α) (P : plot_api σ α)
    (READ_COLUMN_MAX : Nat) (m : pump_t σ α) (acc : pump_t σ α × List Nat × Int × Int)
    (d : Nat) (t : List (pump_event σ α)) (h : run_inv P m acc.1 t) :
    ∃ t1, run_inv P m (readUpdate_dataset A P READ_COLUMN_MAX acc d).1 t1 := by
  unfold readUpdate_dataset
  by_cases hfd : (acc.1.rd.data d).fd ≠ none
  · simp only [hfd, ne_eq, not_false_eq_true, if_true]
    obtain ⟨h1, h2, h3, h4, h5⟩ := h
    obtain ⟨t1, he, hg, hs⟩ := readUpdate_loop_effect A P READ_COLUMN_MAX d
      ((acc.2.1.headD 0 + 20) % 4294967296) (fun d => (m.rd.data d).length_N) acc.2.1.tail
      acc.1 acc.2.2.2 (h2 d).1
    obtain ⟨e1, e2, e3, e4, e5, e6, e7⟩ := he
    refine ⟨t ++ t1 ++ [pump_event.subtract d (-1)], ?_, ?_, ?_, ?_, ?_⟩
    · simp only [e1, h1, List.append_assoc]
    · intro d1
      by_cases hd : d1 = d
      · subst hd
        refine ⟨by simp only [e3]; exact (h2 d1).1, by simp only [e4]; exact (h2 d1).2.1, ?_⟩
        intro hne
        apply (h2 d1).2.2
        rcases e7 with e7 | e7
        · simp only at hne; rw [e7] at hne; exact hne
        · simp only at hne; exact absurd e7 hne
      · simp only [e2 d1 hd]
        exact h2 d1
    · intro d1 hd1
      simp only [List.mem_append, List.mem_singleton, reduceCtorEq, or_false] at hd1
      rcases hd1 with hd1 | hd1
      · exact h3 d1 hd1
      · exact hg d1 hd1
    · intro hfmt
      have hfr : format_read (acc.1.rd.data d).format := by
        rw [(h2 d).2.1]
        exact hfmt d ((h2 d).2.2 hfd)
      exact segment_append P _ _ _ (segment_append P _ _ _ (h4 hfmt) (hs hfr))
        (segment_subtract P _ d (-1))
    · intro d0 hd0
      have hne : d0 ≠ d := by
        intro hd
        subst hd
        exact (h2 d0).2.2 hfd hd0
      refine ⟨by simp only [e2 d0 hne]; exact (h5 d0 hd0).1, ?_⟩
      intro e he
      simp only [List.mem_append, List.mem_singleton] at he
      rcases he with (he | he) | he
      · exact (h5 d0 hd0).2 e he
      · rw [e6 e he]; exact fun hh => hne hh.symm
      · rw [he]; exact fun hh => hne hh.symm
  · simp only [hfd, if_false]
    exact ⟨t, h⟩

theorem readUpdate_fold_inv {σ α : Type} (A : fval_ops α) (P : plot_api σ α)
    (READ_COLUMN_MAX : Nat) (m : pump_t σ α) (ds : List Nat) :
    ∀ (acc : pump_t σ α × List Nat × Int × Int), (∃ t, run_inv P m acc.1 t) →
      ∃ t1, run_inv P m (ds.foldl (readUpdate_dataset A P READ_COLUMN_MAX) acc).1 t1 := by
  induction ds with
  | nil => intro acc h; exact h
  | cons d ds ih =>
    intro acc h
    obtain ⟨t, ht⟩ := h
    rw [List.foldl_cons]
    exact ih _ (readUpdate_dataset_inv A P READ_COLUMN_MAX m acc d t ht)

/-- The function `readUpdate` keeps the invariant of the run. -/
theorem readUpdate_inv {σ α : Type} (A : fval_ops α) (P : plot_api σ α)
    (READ_COLUMN_MAX : Nat) (ticks : List Nat) (m : pump_t σ α) :
    ∃ t, run_inv P m (readUpdate A P READ_COLUMN_MAX ticks m).2 t := by
  obtain ⟨t, h⟩ := readUpdate_fold_inv A P READ_COLUMN_MAX m (List.range PLOT_DATASET_MAX)
    (m, ticks, 0, 0) ⟨[], run_inv_refl P m⟩
  exact ⟨t, h⟩

open data_hint format_t async_ret

theorem demo_formats (src : Option (async_t fexact)) (len : Int) (rows : Nat) :
    ∀ d, ((demo_pump (demo_data len src) rows).rd.data d).fd ≠ none →
      format_read ((demo_pump (demo_data len src) rows).rd.data d).format := by
  intro d _
  unfold demo_pump demo_data format_read
  by_cases h : d = 0 <;> simp [h]

/-- Later calls of `readUpdate` leave a closed dataset and add no entry about it. -/
theorem readUpdate_skips_closed {σ α : Type} (A : fval_ops α) (P : plot_api σ α)
    (READ_COLUMN_MAX : Nat) (dN : Nat) (runs : List (List Nat)) :
    ∀ (m : pump_t σ α), (m.rd.data dN).fd = none →
    ∃ t, (runs.foldl (fun x tk => (readUpdate A P READ_COLUMN_MAX tk x).2) m).trace
          = m.trace ++ t
      ∧ (∀ e ∈ t, e.dataset ≠ dN)
      ∧ (runs.foldl (fun x tk => (readUpdate A P READ_COLUMN_MAX tk x).2) m).rd.data dN
          = m.rd.data dN := by
  induction runs with
  | nil => intro m _; exact ⟨[], by simp, by simp, rfl⟩
  | cons tk runs ih =>
    intro m hm
    obtain ⟨t, h1, _, _, _, h5⟩ := readUpdate_inv A P READ_COLUMN_MAX tk m
    obtain ⟨hd, he⟩ := h5 dN hm
    obtain ⟨t2, g1, g2, g3⟩ := ih (readUpdate A P READ_COLUMN_MAX tk m).2 (by rw [hd]; exact hm)
    refine ⟨t ++ t2, ?_, ?_, ?_⟩
    · rw [List.foldl_cons, g1, h1, List.append_assoc]
    · intro e hmem
      rcases List.mem_append.mp hmem with h | h
      · exact he e h
      · exact g2 e h
    · rw [List.foldl_cons, g3, hd]

/-- C9: end of stream closes the dataset. When the source of `dN` reports the
end of the stream, each of `TEXT_Read`, `FLOAT_Read` and `DOUBLE_Read` returns
0 with no row inserted and the store left, the loop of `readUpdate` breaks,
`fd` and `afd` are NULL and `files_N` is one less; every later call of
`readUpdate` leaves the entry of `dN` as it is and does nothing about `dN`. -/
theorem end_of_stream_closes {σ α : Type} (A : fval_ops α) (P : plot_api σ α)
    (READ_COLUMN_MAX : Nat) (m : pump_t σ α) (dN : Nat) (es : async_t α)
    (h : (m.rd.data dN).afd = some (ASYNC_END_OF_FILE :: es))
    (r : Int × pump_t σ α)
    (hr : r = TEXT_Read A P READ_COLUMN_MAX m dN ∨ r = FLOAT_Read P m dN
      ∨ r = DOUBLE_Read P m dN) :
    r.1 = 0 ∧ r.2.pl = m.pl ∧ r.2.trace = m.trace
    ∧ (∀ ulN, (readUpdate_count r dN ulN).2 = none)
    ∧ (r.2.rd.data dN).fd = none ∧ (r.2.rd.data dN).afd = none
    ∧ r.2.rd.files_N = m.rd.files_N - 1
    ∧ ∀ runs : List (List Nat),
      ∃ t, (runs.foldl (fun x tk => (readUpdate A P READ_COLUMN_MAX tk x).2) r.2).trace
            = r.2.trace ++ t
        ∧ (∀ e ∈ t, e.dataset ≠ dN)
        ∧ (runs.foldl (fun x tk => (readUpdate A P READ_COLUMN_MAX tk x).2) r.2).rd.data dN
            = r.2.rd.data dN := by
  have key : r = (0, readClose (m.set_data dN
      { m.rd.data dN with afd := some es, buf := (m.rd.data dN).buf }) dN) := by
    rcases hr with hr | hr | hr
    · rw [hr]; unfold TEXT_Read; simp only [h, async_read_eof]
    · rw [hr]; unfold FLOAT_Read; simp only [h, async_read_eof]
    · rw [hr]; unfold DOUBLE_Read; simp only [h, async_read_eof]
  have hfd : (r.2.rd.data dN).fd = none := by
    rw [key]; simp [readClose, set_data_same]
  refine ⟨by rw [key], by rw [key]; rfl, by rw [key]; rfl, ?_, hfd, ?_, ?_, ?_⟩
  · intro ulN
    rw [key]; simp [readUpdate_count]
  · rw [key]; simp [readClose, set_data_same]
  · rw [key]; simp [readClose, pump_t.set_data]
  · intro runs
    exact readUpdate_skips_closed A P READ_COLUMN_MAX dN runs r.2 hfd

/-- C9 on a concrete source at its end. -/
theorem end_of_stream_closes_witness :
    ((demo_pump (demo_data 0 (some [ASYNC_END_OF_FILE])) 1).rd.data 0).afd
        = some [ASYNC_END_OF_FILE]
    ∧ (TEXT_Read exact_ops demo_api 8 (demo_pump (demo_data 0 (some [ASYNC_END_OF_FILE])) 1) 0).1
        = 0
    ∧ (TEXT_Read exact_ops demo_api 8
        (demo_pump (demo_data 0 (some [ASYNC_END_OF_FILE])) 1) 0).2.rd.files_N = 1 - 1 :=
  ⟨rfl,
    (end_of_stream_closes exact_ops demo_api 8 (demo_pump (demo_data 0
      (some [ASYNC_END_OF_FILE])) 1) 0 [] rfl _ (Or.inl rfl)).1,
    (end_of_stream_closes exact_ops demo_api 8 (demo_pump (demo_data 0
      (some [ASYNC_END_OF_FILE])) 1) 0 [] rfl _ (Or.inl rfl)).2.2.2.2.2.2.1⟩

open data_hint format_t async_ret

/-- C2 on a concrete line of three tokens read into a dataset of two columns:
the row is consumed, the store is left and nothing is inserted. -/
theorem TEXT_Read_consumes_row_witness :
    ((demo_pump (demo_data 0 (some [ASYNC_OK (demo_buf "3 4 5".toList)])) 1).rd.data 0).afd
        = some [ASYNC_OK (demo_buf "3 4 5".toList)]
    ∧ (TEXT_Read exact_ops demo_api 8
        (demo_pump (demo_data 0 (some [ASYNC_OK (demo_buf "3 4 5".toList)])) 1) 0).1 = 1
    ∧ (TEXT_Read exact_ops demo_api 8
        (demo_pump (demo_data 0 (some [ASYNC_OK (demo_buf "3 4 5".toList)])) 1) 0).2.pl
        = (1, 12) :=
  ⟨rfl,
    (TEXT_Read_consumes_row exact_ops demo_api 8
      (demo_pump (demo_data 0 (some [ASYNC_OK (demo_buf "3 4 5".toList)])) 1) 0
      (demo_buf "3 4 5".toList) [] rfl).1,
    ((TEXT_Read_consumes_row exact_ops demo_api 8
      (demo_pump (demo_data 0 (some [ASYNC_OK (demo_buf "3 4 5".toList)])) 1) 0
      (demo_buf "3 4 5".toList) [] rfl).2.2.2.2.2.1 (by decide)).1⟩

/-- C10: a read that gives neither a row nor the end of the stream is no
error. Each of `TEXT_Read`, `FLOAT_Read` and `DOUBLE_Read` returns 0 and only
steps the source: `fd` is as it was, `afd` is still open, `files_N`, `line_N`,
the store and the record of calls are untouched; and the loop of `readUpdate`
for that dataset ends at once, with `ulN` and the clock as they were. -/
theorem pending_read_leaves_state {σ α : Type} (A : fval_ops α) (P : plot_api σ α)
    (READ_COLUMN_MAX : Nat) (m : pump_t σ α) (dN : Nat) (es : async_t α)
    (hs : (m.rd.data dN).afd = some es)
    (hp : (async_read (some es) (m.rd.data dN).buf).1 = ASYNC_PENDING)
    (r : Int × pump_t σ α)
    (hr : r = TEXT_Read A P READ_COLUMN_MAX m dN ∨ r = FLOAT_Read P m dN
      ∨ r = DOUBLE_Read P m dN) :
    r = (0, m.set_data dN { m.rd.data dN with afd := some es.tail })
    ∧ (r.2.rd.data dN).fd = (m.rd.data dN).fd
    ∧ (r.2.rd.data dN).afd = some es.tail
    ∧ (r.2.rd.data dN).line_N = (m.rd.data dN).line_N
    ∧ r.2.rd.files_N = m.rd.files_N
    ∧ r.2.pl = m.pl
    ∧ r.2.trace = m.trace
    ∧ (format_read (m.rd.data dN).format → ∀ (tTOP : Nat) (ticks : List Nat) (ulN : Int),
        readUpdate_loop A P READ_COLUMN_MAX dN tTOP ticks m ulN
          = (m.set_data dN { m.rd.data dN with afd := some es.tail }, ulN, ticks)) := by
  have hread := async_read_pending es (m.rd.data dN).buf hp
  have kt : TEXT_Read A P READ_COLUMN_MAX m dN
      = (0, m.set_data dN { m.rd.data dN with afd := some es.tail }) := by
    unfold TEXT_Read; simp only [hs, hread]
  have kf : FLOAT_Read P m dN
      = (0, m.set_data dN { m.rd.data dN with afd := some es.tail }) := by
    unfold FLOAT_Read; simp only [hs, hread]
  have kd : DOUBLE_Read P m dN
      = (0, m.set_data dN { m.rd.data dN with afd := some es.tail }) := by
    unfold DOUBLE_Read; simp only [hs, hread]
  have key : r = (0, m.set_data dN { m.rd.data dN with afd := some es.tail }) := by
    rcases hr with hr | hr | hr
    · rw [hr, kt]
    · rw [hr, kf]
    · rw [hr, kd]
  refine ⟨key, by rw [key]; simp [set_data_same], by rw [key]; simp [set_data_same],
    by rw [key]; simp [set_data_same], by rw [key]; rfl, by rw [key]; rfl, by rw [key]; rfl, ?_⟩
  intro hf tTOP ticks ulN
  have hrd : readUpdate_read A P READ_COLUMN_MAX m dN ulN
      = (m.set_data dN { m.rd.data dN with afd := some es.tail }, none) := by
    unfold readUpdate_read
    rcases hf with hf | hf | hf
    · rw [if_pos hf, kt]; simp [readUpdate_count]
    · rw [hf]; simp only [reduceCtorEq, if_false, if_true]; rw [kf]; simp [readUpdate_count]
    · rw [hf]; simp only [reduceCtorEq, if_false, if_true]; rw [kd]; simp [readUpdate_count]
  cases ticks with
  | nil => simp only [readUpdate_loop, hrd]
  | cons tk ticks => simp only [readUpdate_loop, hrd]

/-- C10 on a concrete source that has nothing for now. -/
theorem pending_read_leaves_state_witness :
    ((demo_pump (demo_data 0 (some [ASYNC_PENDING])) 1).rd.data 0).afd = some [ASYNC_PENDING]
    ∧ (TEXT_Read exact_ops demo_api 8 (demo_pump (demo_data 0 (some [ASYNC_PENDING])) 1) 0).1 = 0
    ∧ (TEXT_Read exact_ops demo_api 8
        (demo_pump (demo_data 0 (some [ASYNC_PENDING])) 1) 0).2.rd.files_N = 1 :=
  ⟨rfl,
    congrArg Prod.fst (pending_read_leaves_state exact_ops demo_api 8
      (demo_pump (demo_data 0 (some [ASYNC_PENDING])) 1) 0 [ASYNC_PENDING] rfl rfl _
      (Or.inl rfl)).1,
    (pending_read_leaves_state exact_ops demo_api 8
      (demo_pump (demo_data 0 (some [ASYNC_PENDING])) 1) 0 [ASYNC_PENDING] rfl rfl _
      (Or.inl rfl)).2.2.2.2.1⟩

open data_hint format_t async_ret

theorem rows_read_append {σ α : Type} (t t1 : List (pump_event σ α)) :
    rows_read (t ++ t1) = rows_read t + rows_read t1 := by
  simp [rows_read, List.countP_append]

theorem rows_of_append {σ α : Type} (d : Nat) (t t1 : List (pump_event σ α)) :
    rows_of d (t ++ t1) = rows_of d t + rows_of d t1 := by
  simp [rows_of, List.countP_append]

/-- In a segment about dataset `dN` alone the marks of a row are those of `dN`. -/
theorem rows_of_segment {σ α : Type} (dN d : Nat) (t : List (pump_event σ α))
    (h : ∀ e ∈ t, e.dataset = dN) : rows_of d t = if d = dN then rows_read t else 0 := by
  induction t with
  | nil => simp [rows_of, rows_read]
  | cons e t ih =>
    have he : e.dataset = dN := h e (List.mem_cons_self _ _)
    have ih1 := ih (fun x hx => h x (List.mem_cons_of_mem _ hx))
    unfold rows_of rows_read at *
    rw [List.countP_cons, List.countP_cons, ih1]
    by_cases hd : d = dN
    · subst hd
      simp [he]
    · have : ¬ (dN = d) := fun hh => hd hh.symm
      simp [he, hd, this]

/-- The reads leave the count of the lines of the dataset. -/
theorem TEXT_Read_line_N {σ α : Type} (A : fval_ops α) (P : plot_api σ α)
    (READ_COLUMN_MAX : Nat) (m : pump_t σ α) (dN : Nat) :
    ((TEXT_Read A P READ_COLUMN_MAX m dN).2.rd.data dN).line_N = (m.rd.data dN).line_N := by
  rcases async_read_cases (m.rd.data dN).afd (m.rd.data dN).buf with ⟨b, es, h⟩ | ⟨es, h⟩ | h
  · unfold TEXT_Read
    simp only [h, async_read_ok, set_data_same]
    split <;> simp [pump_t.insert, set_data_same]
  · unfold TEXT_Read
    simp only [h, async_read_eof]
    simp [readClose, pump_t.set_data]
  · unfold TEXT_Read
    simp only [h]
    simp [pump_t.set_data]

theorem FLOAT_Read_line_N {σ α : Type} (P : plot_api σ α) (m : pump_t σ α) (dN : Nat) :
    ((FLOAT_Read P m dN).2.rd.data dN).line_N = (m.rd.data dN).line_N := by
  rcases async_read_cases (m.rd.data dN).afd (m.rd.data dN).buf with ⟨b, es, h⟩ | ⟨es, h⟩ | h
  · unfold FLOAT_Read
    simp only [h, async_read_ok, set_data_same]
    simp [pump_t.insert, set_data_same]
  · unfold FLOAT_Read
    simp only [h, async_read_eof]
    simp [readClose, pump_t.set_data]
  · unfold FLOAT_Read
    simp only [h]
    simp [pump_t.set_data]

theorem DOUBLE_Read_line_N {σ α : Type} (P : plot_api σ α) (m : pump_t σ α) (dN : Nat) :
    ((DOUBLE_Read P m dN).2.rd.data dN).line_N = (m.rd.data dN).line_N := by
  rcases async_read_cases (m.rd.data dN).afd (m.rd.data dN).buf with ⟨b, es, h⟩ | ⟨es, h⟩ | h
  · unfold DOUBLE_Read
    simp only [h, async_read_ok, set_data_same]
    simp [pump_t.insert, set_data_same]
  · unfold DOUBLE_Read
    simp only [h, async_read_eof]
    simp [readClose, pump_t.set_data]
  · unfold DOUBLE_Read
    simp only [h]
    simp [pump_t.set_data]

theorem readUpdate_count_line_N {σ α : Type} (r : Int × pump_t σ α) (dN : Nat) (ulN : Int) :
    ((readUpdate_count r dN ulN).1.rd.data dN).line_N = (r.2.rd.data dN).line_N := by
  unfold readUpdate_count
  split <;> rfl

theorem readUpdate_read_line_N {σ α : Type} (A : fval_ops α) (P : plot_api σ α)
    (READ_COLUMN_MAX : Nat) (m : pump_t σ α) (dN : Nat) (ulN : Int) :
    ((readUpdate_read A P READ_COLUMN_MAX m dN ulN).1.rd.data dN).line_N
      = (m.rd.data dN).line_N := by
  unfold readUpdate_read
  split
  · rw [readUpdate_count_line_N, TEXT_Read_line_N]
  · split
    · rw [readUpdate_count_line_N, FLOAT_Read_line_N]
    · split
      · rw [readUpdate_count_line_N, DOUBLE_Read_line_N]
      · rfl

theorem readUpdate_grow_line_N {σ α : Type} (P : plot_api σ α) (m : pump_t σ α) (dN : Nat) :
    ((readUpdate_grow P m dN).rd.data dN).line_N = (m.rd.data dN).line_N + 1 := by
  unfold readUpdate_grow
  simp only [set_data_same]
  split <;> simp [pump_t.set_data]

/-- One turn of the loop of `readUpdate` that does not break, for a format that
is read: one row is counted and one line. -/
theorem readUpdate_turn_count {σ α : Type} (A : fval_ops α) (P : plot_api σ α)
    (READ_COLUMN_MAX : Nat) (dN : Nat) (m m1 : pump_t σ α) (ulN u : Int)
    (hrd : readUpdate_read A P READ_COLUMN_MAX m dN ulN = (m1, some u)) :
    ∃ t, effect_on m (readUpdate_grow P m1 dN) dN t
      ∧ u = ulN + rows_read t
      ∧ (format_read (m.rd.data dN).format →
          ((readUpdate_grow P m1 dN).rd.data dN).line_N = (m.rd.data dN).line_N + rows_read t) := by
  obtain ⟨t, he, h⟩ := readUpdate_read_effect A P READ_COLUMN_MAX m dN ulN
  have hl := readUpdate_read_line_N A P READ_COLUMN_MAX m dN ulN
  rw [hrd] at he h hl
  simp only at he h hl
  have hg := readUpdate_grow_effect P m1 dN
  have hgl := readUpdate_grow_line_N P m1 dN
  refine ⟨_, effect_trans _ _ _ _ _ _ he hg, ?_, ?_⟩
  · rcases h with h | h | h
    · exact absurd h.1 (by simp)
    · obtain ⟨hu, ins, hins, rfl⟩ := h
      have hu1 : u = ulN + 1 := by simpa using hu
      rw [hu1]
      rcases hins with rfl | ⟨row, rfl⟩ <;>
        split <;> simp [rows_read, pump_event.kind]
    · obtain ⟨_, hu, rfl, _⟩ := h
      have hu1 : u = ulN := by simpa using hu
      rw [hu1]
      split <;> simp [rows_read, pump_event.kind]
  · intro hf
    rw [hgl, hl]
    rcases h with h | h | h
    · exact absurd h.1 (by simp)
    · obtain ⟨hu, ins, hins, rfl⟩ := h
      rcases hins with rfl | ⟨row, rfl⟩ <;>
        split <;> simp [rows_read, pump_event.kind]
    · exact absurd hf h.1

/-- The loop of `readUpdate` for dataset `dN` counts in `ulN` the rows it reads,
and for a format that is read it counts the same number of lines. -/
theorem readUpdate_loop_count {σ α : Type} (A : fval_ops α) (P : plot_api σ α)
    (READ_COLUMN_MAX : Nat) (dN tTOP : Nat) (ticks : List Nat) :
    ∀ (m : pump_t σ α) (ulN : Int),
    ∃ t, effect_on m (readUpdate_loop A P READ_COLUMN_MAX dN tTOP ticks m ulN).1 dN t
      ∧ (readUpdate_loop A P READ_COLUMN_MAX dN tTOP ticks m ulN).2.1 = ulN + rows_read t
      ∧ (format_read (m.rd.data dN).format →
          ((readUpdate_loop A P READ_COLUMN_MAX dN tTOP ticks m ulN).1.rd.data dN).line_N
            = (m.rd.data dN).line_N + rows_read t) := by
  induction ticks with
  | nil =>
    intro m ulN
    rcases hrd : readUpdate_read A P READ_COLUMN_MAX m dN ulN with ⟨m1, _ | u⟩
    · obtain ⟨t, he, h⟩ := readUpdate_read_effect A P READ_COLUMN_MAX m dN ulN
      have hl := readUpdate_read_line_N A P READ_COLUMN_MAX m dN ulN
      rw [hrd] at he h hl
      simp only at he h hl
      have ht : t = [] := by
        rcases h with h | h | h
        · exact h.2.1
        · exact absurd h.1 (by simp)
        · exact h.2.2.1
      subst ht
      simp only [readUpdate_loop, hrd]
      exact ⟨[], he, by simp [rows_read], fun _ => by simp [rows_read, hl]⟩
    · simp only [readUpdate_loop, hrd]
      exact readUpdate_turn_count A P READ_COLUMN_MAX dN m m1 ulN u hrd
  | cons tk ticks ih =>
    intro m ulN
    rcases hrd : readUpdate_read A P READ_COLUMN_MAX m dN ulN with ⟨m1, _ | u⟩
    · obtain ⟨t, he, h⟩ := readUpdate_read_effect A P READ_COLUMN_MAX m dN ulN
      have hl := readUpdate_read_line_N A P READ_COLUMN_MAX m dN ulN
      rw [hrd] at he h hl
      simp only at he h hl
      have ht : t = [] := by
        rcases h with h | h | h
        · exact h.2.1
        · exact absurd h.1 (by simp)
        · exact h.2.2.1
      subst ht
      simp only [readUpdate_loop, hrd]
      exact ⟨[], he, by simp [rows_read], fun _ => by simp [rows_read, hl]⟩
    · obtain ⟨t, he, hu, hline⟩ := readUpdate_turn_count A P READ_COLUMN_MAX dN m m1 ulN u hrd
      simp only [readUpdate_loop, hrd]
      by_cases htk : tk % 4294967296 < tTOP
      · rw [if_pos htk]
        obtain ⟨t2, he2, hu2, hline2⟩ := ih (readUpdate_grow P m1 dN) u
        refine ⟨t ++ t2, effect_trans _ _ _ _ _ _ he he2, ?_, ?_⟩
        · rw [hu2, hu, rows_read_append]; push_cast; ring
        · intro hf
          rw [hline2 (by rw [he.2.2.2.1]; exact hf), hline hf, rows_read_append]
          push_cast; ring
      · rw [if_neg htk]
        exact ⟨t, he, hu, hline⟩

open data_hint format_t async_ret

/-- One turn of the dataset loop of `readUpdate` keeps the count of the rows. -/
theorem readUpdate_dataset_count {σ α : Type} (A : fval_ops α) (P : plot_api σ α)
    (READ_COLUMN_MAX : Nat) (m : pump_t σ α)
    (hfmt : ∀ d, d < PLOT_DATASET_MAX → (m.rd.data d).fd ≠ none → format_read (m.rd.data d).format)
    (acc : pump_t σ α × List Nat × Int × Int) (d : Nat) (hd : d < PLOT_DATASET_MAX)
    (t : List (pump_event σ α)) (h : count_inv m acc t) :
    ∃ t1, count_inv m (readUpdate_dataset A P READ_COLUMN_MAX acc d) t1 := by
  unfold readUpdate_dataset
  by_cases hfd : (acc.1.rd.data d).fd ≠ none
  · simp only [hfd, ne_eq, not_false_eq_true, if_true]
    obtain ⟨h1, h2, h3, h4, h5⟩ := h
    obtain ⟨t1, he, hu, hline⟩ := readUpdate_loop_count A P READ_COLUMN_MAX d
      ((acc.2.1.headD 0 + 20) % 4294967296) acc.2.1.tail acc.1 acc.2.2.2
    obtain ⟨e1, e2, e3, e4, e5, e6, e7⟩ := he
    have hopen : (m.rd.data d).fd ≠ none := (h3 d).2 hfd
    have hfr : format_read (acc.1.rd.data d).format := by
      rw [(h3 d).1]; exact hfmt d hd hopen
    refine ⟨t ++ t1 ++ [pump_event.subtract d (-1)], ?_, ?_, ?_, ?_, ?_⟩
    · simp only [e1, h1, List.append_assoc]
    · have hz : rows_read [(pump_event.subtract d (-1) : pump_event σ α)] = 0 := by
        simp [rows_read, pump_event.kind]
      rw [rows_read_append, rows_read_append, hz]
      show (readUpdate_loop A P READ_COLUMN_MAX d ((acc.2.1.headD 0 + 20) % 4294967296)
        acc.2.1.tail acc.1 acc.2.2.2).2.1 = _
      rw [hu, h2]
      push_cast; ring
    · intro d1
      by_cases hd1 : d1 = d
      · subst hd1
        refine ⟨by simp only [e4]; exact (h3 d1).1, ?_⟩
        intro hne
        apply (h3 d1).2
        rcases e7 with e7 | e7
        · simp only at hne; rw [e7] at hne; exact hne
        · simp only at hne; exact absurd e7 hne
      · simp only [e2 d1 hd1]
        exact h3 d1
    · intro d1
      simp only [rows_of_append]
      have hz : rows_of d1 [(pump_event.subtract d (-1) : pump_event σ α)] = 0 := by
        simp [rows_of, pump_event.kind]
      rw [hz, rows_of_segment d d1 t1 e6]
      by_cases hd1 : d1 = d
      · subst hd1
        simp only [if_true]
        rw [hline hfr, h4 d1]
        push_cast; ring
      · simp only [e2 d1 hd1, if_neg hd1]
        rw [h4 d1]
        push_cast; ring
    · intro e he
      simp only [List.mem_append, List.mem_singleton] at he
      rcases he with (he | he) | he
      · exact h5 e he
      · rw [e6 e he]; exact ⟨hd, hopen⟩
      · rw [he]; exact ⟨hd, hopen⟩
  · simp only [hfd, if_false]
    exact ⟨t, h⟩

theorem readUpdate_fold_count {σ α : Type} (A : fval_ops α) (P : plot_api σ α)
    (READ_COLUMN_MAX : Nat) (m : pump_t σ α)
    (hfmt : ∀ d, d < PLOT_DATASET_MAX → (m.rd.data d).fd ≠ none → format_read (m.rd.data d).format)
    (ds : List Nat) (hds : ∀ d ∈ ds, d < PLOT_DATASET_MAX) :
    ∀ (acc : pump_t σ α × List Nat × Int × Int), (∃ t, count_inv m acc t) →
      ∃ t1, count_inv m (ds.foldl (readUpdate_dataset A P READ_COLUMN_MAX) acc) t1 := by
  induction ds with
  | nil => intro acc h; exact h
  | cons d ds ih =>
    intro acc h
    obtain ⟨t, ht⟩ := h
    rw [List.foldl_cons]
    exact ih (fun x hx => hds x (List.mem_cons_of_mem _ hx)) _
      (readUpdate_dataset_count A P READ_COLUMN_MAX m hfmt acc d
        (hds d (List.mem_cons_self _ _)) t ht)

/-- The marks of a row of a segment about the datasets below `n`, counted by dataset. -/
theorem rows_read_sum {σ α : Type} (n : Nat) (t : List (pump_event σ α))
    (h : ∀ e ∈ t, e.dataset < n) :
    (rows_read t : Int) = (Finset.range n).sum (fun d => (rows_of d t : Int)) := by
  induction t with
  | nil => simp [rows_read, rows_of]
  | cons e t ih =>
    have he : e.dataset < n := h e (List.mem_cons_self _ _)
    have ih1 := ih (fun x hx => h x (List.mem_cons_of_mem _ hx))
    have hc : ∀ d, (rows_of d (e :: t) : Int)
        = rows_of d t + (if e.dataset = d then (if e.kind = 1 then 1 else 0) else 0) := by
      intro d
      unfold rows_of
      rw [List.countP_cons]
      by_cases h1 : e.kind = 1 <;> by_cases h2 : e.dataset = d <;> simp [h1, h2]
    simp only [hc, Finset.sum_add_distrib, Finset.sum_ite_eq, Finset.mem_range, he, if_true]
    rw [← ih1]
    unfold rows_read
    rw [List.countP_cons]
    by_cases h1 : e.kind = 1 <;> simp [h1]

open data_hint format_t async_ret

/-- C11: the result of `readUpdate` is the count of the rows of the tick. When
every open dataset of the table has a format that `readUpdate` reads, the
returned `ulN` is the number of reads that returned a row, over the datasets
that were open at the call; each dataset has counted in `line_N` as many lines
as rows of it were read, so the result is the sum over the open datasets of the
increase of `line_N`; and it is 0 when no dataset of the table is open. -/
theorem readUpdate_counts_rows {σ α : Type} (A : fval_ops α) (P : plot_api σ α)
    (READ_COLUMN_MAX : Nat) (ticks : List Nat) (m : pump_t σ α)
    (hfmt : ∀ d, d < PLOT_DATASET_MAX → (m.rd.data d).fd ≠ none →
      format_read (m.rd.data d).format) :
    ∃ t, (readUpdate A P READ_COLUMN_MAX ticks m).2.trace = m.trace ++ t
      ∧ (readUpdate A P READ_COLUMN_MAX ticks m).1 = rows_read t
      ∧ (∀ e ∈ t, e.dataset < PLOT_DATASET_MAX ∧ (m.rd.data e.dataset).fd ≠ none)
      ∧ (∀ d, ((readUpdate A P READ_COLUMN_MAX ticks m).2.rd.data d).line_N
          = (m.rd.data d).line_N + rows_of d t)
      ∧ (readUpdate A P READ_COLUMN_MAX ticks m).1
          = ((Finset.range PLOT_DATASET_MAX).filter (fun d => (m.rd.data d).fd.isSome)).sum
              (fun d => ((readUpdate A P READ_COLUMN_MAX ticks m).2.rd.data d).line_N
                - (m.rd.data d).line_N)
      ∧ ((∀ d, d < PLOT_DATASET_MAX → (m.rd.data d).fd = none) →
          (readUpdate A P READ_COLUMN_MAX ticks m).1 = 0) := by
  obtain ⟨t, h1, h2, _, h4, h5⟩ := readUpdate_fold_count A P READ_COLUMN_MAX m hfmt
    (List.range PLOT_DATASET_MAX) (fun d hd => List.mem_range.mp hd) (m, ticks, 0, 0)
    ⟨[], by simp [count_inv, rows_read, rows_of]⟩
  have hres : (readUpdate A P READ_COLUMN_MAX ticks m).1 = rows_read t := h2
  have hline : ∀ d, ((readUpdate A P READ_COLUMN_MAX ticks m).2.rd.data d).line_N
      = (m.rd.data d).line_N + rows_of d t := h4
  refine ⟨t, h1, hres, h5, hline, ?_, ?_⟩
  · rw [hres, rows_read_sum PLOT_DATASET_MAX t (fun e he => (h5 e he).1), Finset.sum_filter]
    apply Finset.sum_congr rfl
    intro d _
    rw [hline d]
    by_cases ho : (m.rd.data d).fd.isSome
    · simp [ho]
    · simp only [ho, Bool.false_eq_true, if_false]
      have hz : rows_of d t = 0 := by
        unfold rows_of
        rw [List.countP_eq_zero]
        intro e he
        have := (h5 e he).2
        by_cases hk : e.dataset = d
        · rw [hk] at this
          exact absurd (Option.isSome_iff_ne_none.mpr this) ho
        · simp [hk]
      simp [hz]
  · intro hclosed
    rw [hres]
    have ht : t = [] := by
      cases t with
      | nil => rfl
      | cons e t =>
        have := h5 e (List.mem_cons_self _ _)
        exact absurd (hclosed _ this.1) this.2
    simp [ht, rows_read]

/-- C11 on a concrete run: three lines are read from the one open dataset, the
result is 3 and the dataset has counted three lines more. -/
theorem readUpdate_counts_rows_witness :
    (readUpdate exact_ops demo_api 8 [0, 1, 2, 3, 4, 5]
        (demo_pump (demo_data 0 (some [ASYNC_OK (demo_buf "1 2".toList),
          ASYNC_OK (demo_buf "3 4 5".toList), ASYNC_OK (demo_buf "3 4".toList),
          ASYNC_END_OF_FILE])) 1)).1 = 3
    ∧ ((readUpdate exact_ops demo_api 8 [0, 1, 2, 3, 4, 5]
        (demo_pump (demo_data 0 (some [ASYNC_OK (demo_buf "1 2".toList),
          ASYNC_OK (demo_buf "3 4 5".toList), ASYNC_OK (demo_buf "3 4".toList),
          ASYNC_END_OF_FILE])) 1)).2.rd.data 0).line_N = 4
    ∧ ∃ t : List (pump_event (Nat × Nat) fexact),
        (readUpdate exact_ops demo_api 8 [0, 1, 2, 3, 4, 5]
        (demo_pump (demo_data 0 (some [ASYNC_OK (demo_buf "1 2".toList),
          ASYNC_OK (demo_buf "3 4 5".toList), ASYNC_OK (demo_buf "3 4".toList),
          ASYNC_END_OF_FILE])) 1)).1 = rows_read t :=
  ⟨by decide, by decide,
    (readUpdate_counts_rows exact_ops demo_api 8 [0, 1, 2, 3, 4, 5]
      (demo_pump (demo_data 0 (some [ASYNC_OK (demo_buf "1 2".toList),
          ASYNC_OK (demo_buf "3 4 5".toList), ASYNC_OK (demo_buf "3 4".toList),
          ASYNC_END_OF_FILE])) 1) (fun d _ => demo_formats _ 0 1 d)).elim
      (fun t h => ⟨t, h.2.1⟩)⟩

open data_hint format_t async_ret

/-- C12: a source that cannot be opened affects only its own dataset. When
`unified_fopen` fails in `readOpenUnified(rd, dN, ...)`, the entries
`rd->data[j]`, the file names and the labels of the other datasets, `rd->bind_N`
and the format, `column_N`, length bound and file name of `dN` are left, `dN`
ends with `fd == NULL`, and neither `plotDataAlloc` nor `plotDataInsert` is
called: the record holds the call of `unified_fopen` alone, and the plot and
the pages are left. A source of `dN` that was open is closed first, which
takes one from `files_N`. -/
theorem readOpenUnified_fopen_fails {σ α : Type} (A : fval_ops α)
    (P : plot_api (plot_t σ α) α) (X : plot_ext σ α) (E : env_t α) (K : read_h)
    (fd0 : Option (file_t × stream_t)) (rbuf0 : Nat → α) (r : reader_t σ α) (dN : Nat)
    (cN lN : Int) (file : List Char) (fmt : format_t) (hfail : E.fopen file = none) :
    (∀ j, j ≠ dN →
      (readOpenUnified A P X E K fd0 rbuf0 r dN cN lN (some file) fmt).pump.rd.data j
          = r.pump.rd.data j
      ∧ (readOpenUnified A P X E K fd0 rbuf0 r dN cN lN (some file) fmt).file j = r.file j
      ∧ (readOpenUnified A P X E K fd0 rbuf0 r dN cN lN (some file) fmt).label j = r.label j)
    ∧ (readOpenUnified A P X E K fd0 rbuf0 r dN cN lN (some file) fmt).bind_N = r.bind_N
    ∧ ((readOpenUnified A P X E K fd0 rbuf0 r dN cN lN (some file) fmt).pump.rd.data dN).format
        = (r.pump.rd.data dN).format
    ∧ ((readOpenUnified A P X E K fd0 rbuf0 r dN cN lN (some file) fmt).pump.rd.data dN).column_N
        = (r.pump.rd.data dN).column_N
    ∧ ((readOpenUnified A P X E K fd0 rbuf0 r dN cN lN (some file) fmt).pump.rd.data dN).length_N
        = (r.pump.rd.data dN).length_N
    ∧ (readOpenUnified A P X E K fd0 rbuf0 r dN cN lN (some file) fmt).file dN = r.file dN
    ∧ ((readOpenUnified A P X E K fd0 rbuf0 r dN cN lN (some file) fmt).pump.rd.data dN).fd = none
    ∧ (readOpenUnified A P X E K fd0 rbuf0 r dN cN lN (some file) fmt).opened
        = r.opened ++ [open_call.fopen file]
    ∧ (readOpenUnified A P X E K fd0 rbuf0 r dN cN lN (some file) fmt).pump.pl = r.pump.pl
    ∧ (readOpenUnified A P X E K fd0 rbuf0 r dN cN lN (some file) fmt).page = r.page
    ∧ (readOpenUnified A P X E K fd0 rbuf0 r dN cN lN (some file) fmt).pump.rd.files_N
        = r.pump.rd.files_N - (if (r.pump.rd.data dN).fd ≠ none then 1 else 0) := by
  unfold readOpenUnified
  simp only [hfail]
  by_cases hfd : (r.pump.rd.data dN).fd ≠ none
  · simp only [hfd, ne_eq, not_false_eq_true, if_true]
    refine ⟨fun j hj => ⟨?_, ?_, ?_⟩, ?_, ?_, ?_, ?_, ?_, ?_, ?_, ?_, ?_, ?_⟩ <;>
      first
      | trivial
      | rfl
      | (simp [readClose, pump_t.set_data, Function.update_noteq hj]; done)
      | (simp [readClose, pump_t.set_data]; done)
  · have hnone : (r.pump.rd.data dN).fd = none := by
      by_contra hh; exact hfd hh
    simp only [hfd, if_false]
    refine ⟨fun j hj => ⟨?_, ?_, ?_⟩, ?_, ?_, ?_, ?_, ?_, ?_, ?_, ?_, ?_, ?_⟩ <;>
      first
      | trivial
      | rfl
      | exact hnone
      | simp

/-- C12 on a concrete run: a file that is missing, for dataset 3 of a fresh reader. -/
theorem readOpenUnified_fopen_fails_witness :
    demo_env.fopen "a.txt".toList = none
    ∧ (readOpenUnified exact_ops demo_papi demo_ext demo_env demo_h none (fun _ => fexact.nan)
        (demo_reader (demo_closed (demo_plot 0))) 3 0 0 (some "a.txt".toList)
        FORMAT_PLAIN_TEXT).bind_N = -1
    ∧ ((readOpenUnified exact_ops demo_papi demo_ext demo_env demo_h none (fun _ => fexact.nan)
        (demo_reader (demo_closed (demo_plot 0))) 3 0 0 (some "a.txt".toList)
        FORMAT_PLAIN_TEXT).pump.rd.data 3).fd = none
    ∧ (readOpenUnified exact_ops demo_papi demo_ext demo_env demo_h none (fun _ => fexact.nan)
        (demo_reader (demo_closed (demo_plot 0))) 3 0 0 (some "a.txt".toList)
        FORMAT_PLAIN_TEXT).opened = [] ++ [open_call.fopen "a.txt".toList] :=
  ⟨rfl,
    (readOpenUnified_fopen_fails exact_ops demo_papi demo_ext demo_env demo_h none
      (fun _ => fexact.nan) (demo_reader (demo_closed (demo_plot 0))) 3 0 0 "a.txt".toList
      FORMAT_PLAIN_TEXT rfl).2.1,
    (readOpenUnified_fopen_fails exact_ops demo_papi demo_ext demo_env demo_h none
      (fun _ => fexact.nan) (demo_reader (demo_closed (demo_plot 0))) 3 0 0 "a.txt".toList
      FORMAT_PLAIN_TEXT rfl).2.2.2.2.2.2.1,
    (readOpenUnified_fopen_fails exact_ops demo_papi demo_ext demo_env demo_h none
      (fun _ => fexact.nan) (demo_reader (demo_closed (demo_plot 0))) 3 0 0 "a.txt".toList
      FORMAT_PLAIN_TEXT rfl).2.2.2.2.2.2.2.1⟩

open data_hint format_t async_ret

/-- The first step of a command in terms of its integer argument. -/
theorem lex_int_some {σ α : Type} (c : config_t σ α) (i : Nat) (n : Int)
    (h : first_int c = some n) :
    lex_int c i = Except.ok { c with pa := (next_token c.pa).2,
                                     argi := Function.update c.argi i n } := by
  unfold first_int at h
  unfold lex_int
  by_cases h0 : (next_token c.pa).1 = 0
  · rw [if_pos h0] at h
    simp only [h0, if_true]
    cases hs : stoi c.rd.mk_config (next_token c.pa).2.tbuf with
    | none => rw [hs] at h; simp at h
    | some v =>
      rw [hs] at h
      simp only [Option.map_some', Option.some.injEq] at h
      simp [h]
  · rw [if_neg h0] at h
    simp at h

theorem lex_int_none {σ α : Type} (c : config_t σ α) (i : Nat) (h : first_int c = none) :
    lex_int c i = Except.error { c with pa := (next_token c.pa).2 } := by
  unfold first_int at h
  unfold lex_int
  by_cases h0 : (next_token c.pa).1 = 0
  · rw [if_pos h0] at h
    simp only [h0, if_true]
    cases hs : stoi c.rd.mk_config (next_token c.pa).2.tbuf with
    | none => rfl
    | some v => rw [hs] at h; simp at h
  · simp only [h0, if_false]

/-- C13: the compression mode can only be set before data flows. The command
`lz4_compress n` sets `pl->lz4_compress` exactly when no dataset has been opened
or bound (`rd->bind_N == -1`) and its argument is an integer `n` that is 0 or
1: then it stores `n`, reports no failure and leaves the rest of the plot; in
every other case it is reported as failed and the reader and its plot are left
unchanged. -/
theorem lz4_compress_before_data {σ α : Type} (c : config_t σ α) :
    (∀ n, first_int c = some n → c.rd.bind_N = -1 → 0 ≤ n → n < 2 →
      (config_lz4_compress c).failed = 0
      ∧ (config_lz4_compress c).rd.pump.pl = { c.rd.pump.pl with lz4_compress := n }
      ∧ (config_lz4_compress c).rd.pump.pl.lz4_compress = n)
    ∧ (¬ (∃ n, first_int c = some n ∧ c.rd.bind_N = -1 ∧ 0 ≤ n ∧ n < 2) →
      (config_lz4_compress c).failed = 1 ∧ (config_lz4_compress c).rd = c.rd) := by
  have hf : first_int { c with failed := 1 } = first_int c := rfl
  refine ⟨?_, ?_⟩
  · intro n hn hb h0 h2
    unfold config_lz4_compress
    rw [lex_int_some { c with failed := 1 } 0 n (by rw [hf]; exact hn)]
    simp [finish, hb, h0, h2, bind, Except.bind, pure, Except.pure]
  · intro hnot
    unfold config_lz4_compress
    cases hn : first_int c with
    | none =>
      rw [lex_int_none { c with failed := 1 } 0 (by rw [hf]; exact hn)]
      simp [finish, bind, Except.bind]
    | some n =>
      rw [lex_int_some { c with failed := 1 } 0 n (by rw [hf]; exact hn)]
      by_cases hb : c.rd.bind_N = -1
      · have hr : ¬ (0 ≤ n ∧ n < 2) := fun h => hnot ⟨n, hn, hb, h.1, h.2⟩
        simp [finish, hb, bind, Except.bind, pure, Except.pure, hr] <;>
          (intro h0 h2; exact absurd ⟨h0, h2⟩ hr)
      · simp [finish, hb, bind, Except.bind, throw, throwThe, MonadExceptOf.throw]

/-- C13 on concrete commands: `lz4_compress 1` on a fresh reader sets the mode;
`lz4_compress 2` fails and leaves it. -/
theorem lz4_compress_before_data_witness :
    (config_lz4_compress (demo_config [token_t.TOKEN "1".toList])).failed = 0
    ∧ (config_lz4_compress (demo_config [token_t.TOKEN "1".toList])).rd.pump.pl.lz4_compress = 1
    ∧ (config_lz4_compress (demo_config [token_t.TOKEN "2".toList])).failed = 1
    ∧ (config_lz4_compress (demo_config [token_t.TOKEN "2".toList])).rd
        = (demo_config [token_t.TOKEN "2".toList]).rd :=
  ⟨((lz4_compress_before_data (demo_config [token_t.TOKEN "1".toList])).1 1 (by decide)
      (by decide) (by decide) (by decide)).1,
    ((lz4_compress_before_data (demo_config [token_t.TOKEN "1".toList])).1 1 (by decide)
      (by decide) (by decide) (by decide)).2.2,
    ((lz4_compress_before_data (demo_config [token_t.TOKEN "2".toList])).2 (by
      intro h
      obtain ⟨n, hn, _, _, h2⟩ := h
      have : first_int (demo_config [token_t.TOKEN "2".toList]) = some 2 := by decide
      rw [this] at hn
      simp only [Option.some.injEq] at hn
      omega)).1,
    ((lz4_compress_before_data (demo_config [token_t.TOKEN "2".toList])).2 (by
      intro h
      obtain ⟨n, hn, _, _, h2⟩ := h
      have : first_int (demo_config [token_t.TOKEN "2".toList]) = some 2 := by decide
      rw [this] at hn
      simp only [Option.some.injEq] at hn
      omega)).2⟩

open data_hint format_t async_ret

/-- The assignment of a map entry leaves the other fields of the plot. -/
theorem set_map_map {σ α : Type} (pl : plot_t σ α) (dN : Nat) (cN gN : Int) (f : Int → Int)
    (h : pl.map dN = some f) :
    (pl.set_map dN cN gN).map dN = some (Function.update f cN gN) := by
  simp [plot_t.set_map, h]

/-- What `timeDataMap` does: the column it returns is the one that was made, or
`cN`; a request that failed is followed by no write to the plot. -/
theorem timeDataMap_spec {σ α : Type} (X : plot_ext σ α) (pl : plot_t σ α) (dN cN : Int) :
    (timeDataMap X pl dN cN).1 = last_made cN (timeDataMap X pl dN cN).2.2
    ∧ derives_in_turn cN (timeDataMap X pl dN cN).2.2
    ∧ ((∀ e ∈ (timeDataMap X pl dN cN).2.2, e.ret = -1) →
        (timeDataMap X pl dN cN).1 = cN
        ∧ (fails_clean X → (timeDataMap X pl dN cN).2.1.map = pl.map)) := by
  unfold timeDataMap
  split
  · simp [last_made, derives_in_turn]
  · split
    · simp [last_made, derives_in_turn]
    · split
      · simp [last_made, derives_in_turn]
      · rename_i map hmap
        simp only
        split
        · split
          · rename_i hr
            simp [last_made, derives_in_turn, sub_call.ret, sub_call.source, hr]
          · rename_i hr
            have hr1 : (X.plotGetSubtractTimeUnwrap pl dN.toNat cN).1 = -1 := by
              by_contra hh; exact hr hh
            simp only [last_made, derives_in_turn, sub_call.ret, sub_call.source, hr1,
              List.foldl_cons, List.foldl_nil, ne_eq, not_true_eq_false, if_false, and_self,
              List.mem_singleton, forall_eq, true_and, forall_const]
            intro hX
            exact hX.1 pl dN.toNat cN hr1
        · simp [last_made, derives_in_turn]

/-- The first part of `scaleDataMap`. -/
theorem scaleDataMap_group_spec {σ α : Type} (X : plot_ext σ α) (pl : plot_t σ α) (dN : Nat)
    (cN gN : Int) :
    (scaleDataMap_group X pl dN cN gN).1 = last_made cN (scaleDataMap_group X pl dN cN gN).2.2
    ∧ derives_in_turn cN (scaleDataMap_group X pl dN cN gN).2.2
    ∧ ((∀ e ∈ (scaleDataMap_group X pl dN cN gN).2.2, e.ret = -1) →
        (scaleDataMap_group X pl dN cN gN).1 = cN
        ∧ (fails_clean X → (scaleDataMap_group X pl dN cN gN).2.1.map = pl.map)) := by
  unfold scaleDataMap_group
  split
  · simp only
    split
    · rename_i hr
      simp [last_made, derives_in_turn, sub_call.ret, sub_call.source, hr]
    · rename_i hr
      have hr1 : (X.plotGetSubtractScale pl dN cN (pl.group gN).scale (pl.group gN).offset).1
          = -1 := by
        by_contra hh; exact hr hh
      simp only [last_made, derives_in_turn, sub_call.ret, sub_call.source, hr1,
        List.foldl_cons, List.foldl_nil, ne_eq, not_true_eq_false, if_false, and_self,
        List.mem_singleton, forall_eq, true_and, forall_const]
      intro hX
      exact hX.2.1 pl dN cN _ _ hr1
  · simp [last_made, derives_in_turn]

/-- The second part of `scaleDataMap`: it writes nothing to the plot itself, and
asks for no scale on top of a binary operation that failed. -/
theorem scaleDataMap_ops_spec {σ α : Type} (X : plot_ext σ α) (pl : plot_t σ α) (dN : Nat)
    (cN : Int) (ops : fig_ops_t α) :
    (scaleDataMap_ops X pl dN cN ops).1 = last_made cN (scaleDataMap_ops X pl dN cN ops).2.2
    ∧ derives_in_turn cN (scaleDataMap_ops X pl dN cN ops).2.2
    ∧ ((∀ e ∈ (scaleDataMap_ops X pl dN cN ops).2.2, e.ret = -1) →
        (scaleDataMap_ops X pl dN cN ops).1 = cN
        ∧ (fails_clean X → (scaleDataMap_ops X pl dN cN ops).2.1.map = pl.map))
    ∧ (∀ l1 l2 d op c1 c2, (scaleDataMap_ops X pl dN cN ops).2.2
          = l1 ++ sub_call.Binary d op c1 c2 (-1) :: l2 → l2 = []) := by
  unfold scaleDataMap_ops
  split
  · simp only
    by_cases hr : (X.plotGetSubtractScale pl dN cN ops.scale ops.offset).1 = -1
    · refine ⟨by simp [last_made, sub_call.ret, hr], by simp [derives_in_turn, sub_call.source],
        ?_, ?_⟩
      · intro _
        exact ⟨by simp [hr], fun hX => hX.2.1 pl dN cN _ _ hr⟩
      · intro l1 l2 d op c1 c2 h
        cases l1 with
        | nil => simp at h
        | cons a l1 => cases l1 <;> simp at h
    · refine ⟨by simp [last_made, sub_call.ret, hr], by simp [derives_in_turn, sub_call.source],
        ?_, ?_⟩
      · intro h
        exact absurd (h _ (List.mem_singleton.mpr rfl)) (by simpa [sub_call.ret] using hr)
      · intro l1 l2 d op c1 c2 h
        cases l1 with
        | nil => simp at h
        | cons a l1 => cases l1 <;> simp at h
  · split
    · simp only
      split
      · rename_i hb
        by_cases hr : (X.plotGetSubtractScale (X.plotGetSubtractBinary pl dN ops.busy cN
            ops.column_2).2 dN (X.plotGetSubtractBinary pl dN ops.busy cN ops.column_2).1
            ops.scale ops.offset).1 = -1
        · refine ⟨by simp [last_made, sub_call.ret, hr, hb],
            by simp [derives_in_turn, sub_call.source, sub_call.ret, hb], ?_, ?_⟩
          · intro h
            exact absurd (h _ (List.mem_cons_self _ _)) (by simpa [sub_call.ret] using hb)
          · intro l1 l2 d op c1 c2 h
            cases l1 with
            | nil =>
              simp only [List.nil_append, List.cons.injEq, sub_call.Binary.injEq] at h
              exact absurd h.1.2.2.2.2 hb
            | cons a l1 =>
              cases l1 with
              | nil => simp at h
              | cons a1 l1 => cases l1 <;> simp at h
        · refine ⟨by simp [last_made, sub_call.ret, hr, hb],
            by simp [derives_in_turn, sub_call.source, sub_call.ret, hb], ?_, ?_⟩
          · intro h
            exact absurd (h _ (List.mem_cons_self _ _)) (by simpa [sub_call.ret] using hb)
          · intro l1 l2 d op c1 c2 h
            cases l1 with
            | nil =>
              simp only [List.nil_append, List.cons.injEq, sub_call.Binary.injEq] at h
              exact absurd h.1.2.2.2.2 hb
            | cons a l1 =>
              cases l1 with
              | nil => simp at h
              | cons a1 l1 => cases l1 <;> simp at h
      · rename_i hb
        have hb1 : (X.plotGetSubtractBinary pl dN ops.busy cN ops.column_2).1 = -1 := by
          by_contra hh; exact hb hh
        refine ⟨by simp [last_made, sub_call.ret, hb1],
          by simp [derives_in_turn, sub_call.source], ?_, ?_⟩
        · intro _
          exact ⟨rfl, fun hX => hX.2.2 pl dN _ cN _ hb1⟩
        · intro l1 l2 d op c1 c2 h
          cases l1 with
          | nil => simp at h; exact h.2
          | cons a l1 => cases l1 <;> simp at h
    · simp [last_made, derives_in_turn]

open data_hint format_t async_ret

theorem last_made_append {α : Type} (cN : Int) (l1 l2 : List (sub_call α)) :
    last_made cN (l1 ++ l2) = last_made (last_made cN l1) l2 := by
  simp [last_made, List.foldl_append]

theorem derives_in_turn_append {α : Type} (l1 l2 : List (sub_call α)) :
    ∀ cN, derives_in_turn cN l1 → derives_in_turn (last_made cN l1) l2 →
      derives_in_turn cN (l1 ++ l2) := by
  induction l1 with
  | nil => intro cN _ h; simpa [last_made] using h
  | cons e l1 ih =>
    intro cN h1 h2
    simp only [derives_in_turn, List.cons_append] at h1 ⊢
    refine ⟨h1.1, ih _ h1.2 ?_⟩
    simpa [last_made] using h2

/-- The requests of the first part of `scaleDataMap` are for a scale. -/
theorem scaleDataMap_group_calls {σ α : Type} (X : plot_ext σ α) (pl : plot_t σ α) (dN : Nat)
    (cN gN : Int) :
    (scaleDataMap_group X pl dN cN gN).2.2 = []
    ∨ ∃ d c sc off r, (scaleDataMap_group X pl dN cN gN).2.2 = [sub_call.Scale d c sc off r] := by
  unfold scaleDataMap_group
  split
  · simp only
    split
    · exact Or.inr ⟨_, _, _, _, _, rfl⟩
    · exact Or.inr ⟨_, _, _, _, _, rfl⟩
  · exact Or.inl rfl

/-- What `scaleDataMap` does. -/
theorem scaleDataMap_spec {σ α : Type} (X : plot_ext σ α) (pl : plot_t σ α) (dN cN : Int)
    (ops : fig_ops_t α) :
    (scaleDataMap X pl dN cN ops).1 = last_made cN (scaleDataMap X pl dN cN ops).2.2
    ∧ derives_in_turn cN (scaleDataMap X pl dN cN ops).2.2
    ∧ ((∀ e ∈ (scaleDataMap X pl dN cN ops).2.2, e.ret = -1) →
        (scaleDataMap X pl dN cN ops).1 = cN
        ∧ (fails_clean X → (scaleDataMap X pl dN cN ops).2.1.map = pl.map))
    ∧ (∀ l1 l2 d op c1 c2, (scaleDataMap X pl dN cN ops).2.2
          = l1 ++ sub_call.Binary d op c1 c2 (-1) :: l2 → l2 = []) := by
  unfold scaleDataMap
  split
  · simp [last_made, derives_in_turn]
  · split
    · simp [last_made, derives_in_turn]
    · split
      · simp [last_made, derives_in_turn]
      · rename_i map hmap
        simp only
        obtain ⟨g1, g2, g3⟩ := scaleDataMap_group_spec X pl dN.toNat cN (map cN)
        obtain ⟨o1, o2, o3, o4⟩ := scaleDataMap_ops_spec X
          (scaleDataMap_group X pl dN.toNat cN (map cN)).2.1 dN.toNat
          (scaleDataMap_group X pl dN.toNat cN (map cN)).1 ops
        refine ⟨?_, ?_, ?_, ?_⟩
        · rw [last_made_append, ← g1, ← o1]
        · exact derives_in_turn_append _ _ cN g2 (by rw [← g1]; exact o2)
        · intro h
          have hg := g3 (fun e he => h e (List.mem_append_left _ he))
          have ho := o3 (fun e he => h e (List.mem_append_right _ he))
          refine ⟨by rw [ho.1, hg.1], fun hX => by rw [ho.2 hX, hg.2 hX]⟩
        · intro l1 l2 d op c1 c2 h
          rcases scaleDataMap_group_calls X pl dN.toNat cN (map cN) with hc | ⟨d0, c0, s0, f0, r0, hc⟩
          · rw [hc, List.nil_append] at h
            exact o4 l1 l2 d op c1 c2 h
          · rw [hc] at h
            cases l1 with
            | nil => simp at h
            | cons a l1 =>
              simp only [List.singleton_append, List.cons_append, List.cons.injEq] at h
              exact o4 l1 l2 d op c1 c2 h.2

/-- C14: a derived column that cannot be made leaves the reader side as it was.
`timeDataMap` and `scaleDataMap` return the last column that was made, or the
column `cN` they were called with when every request failed, and each request
derives from the column at hand; when every request fails and a failed request
leaves the tables `pl->data[dN].map`, they are left as they were, since the
functions write a map entry only after a request that succeeded; the requests of
the figure write no map entry at all; and after a binary subtraction that
failed, `scaleDataMap` makes no further request. -/
theorem subtract_failure_keeps_map {σ α : Type} (X : plot_ext σ α) (pl : plot_t σ α)
    (dN cN : Int) (ops : fig_ops_t α) :
    ((timeDataMap X pl dN cN).1 = last_made cN (timeDataMap X pl dN cN).2.2
      ∧ derives_in_turn cN (timeDataMap X pl dN cN).2.2
      ∧ ((∀ e ∈ (timeDataMap X pl dN cN).2.2, e.ret = -1) →
          (timeDataMap X pl dN cN).1 = cN
          ∧ (fails_clean X → (timeDataMap X pl dN cN).2.1.map = pl.map)))
    ∧ ((scaleDataMap X pl dN cN ops).1 = last_made cN (scaleDataMap X pl dN cN ops).2.2
      ∧ derives_in_turn cN (scaleDataMap X pl dN cN ops).2.2
      ∧ ((∀ e ∈ (scaleDataMap X pl dN cN ops).2.2, e.ret = -1) →
          (scaleDataMap X pl dN cN ops).1 = cN
          ∧ (fails_clean X → (scaleDataMap X pl dN cN ops).2.1.map = pl.map)))
    ∧ (∀ (d : Nat) (c : Int), (∀ e ∈ (scaleDataMap_ops X pl d c ops).2.2, e.ret = -1) →
        fails_clean X → (scaleDataMap_ops X pl d c ops).2.1.map = pl.map)
    ∧ (∀ l1 l2 d op c1 c2, (scaleDataMap X pl dN cN ops).2.2
          = l1 ++ sub_call.Binary d op c1 c2 (-1) :: l2 → l2 = []) := by
  obtain ⟨s1, s2, s3, s4⟩ := scaleDataMap_spec X pl dN cN ops
  refine ⟨timeDataMap_spec X pl dN cN, ⟨s1, s2, s3⟩, ?_, s4⟩
  intro d c h hX
  exact ((scaleDataMap_ops_spec X pl d c ops).2.2.1 h).2 hX

theorem demo_ext_clean : fails_clean demo_ext := by
  refine ⟨?_, ?_, ?_⟩
  · intro pl dN cN h
    simp only [demo_ext] at h ⊢
    split at h
    · rename_i hh; simp [hh]
    · rename_i hh; simp [hh]
  · intro pl dN cN sc off h
    simp only [demo_ext] at h ⊢
    split at h
    · rename_i hh; simp [hh]
    · rename_i hh; simp [hh]
  · intro pl dN op c1 c2 h
    simp only [demo_ext] at h ⊢
    split at h
    · rename_i hh; simp [hh]
    · rename_i hh; simp [hh]

/-- C14 on a concrete run: with all ten slots taken, the binary subtraction of
a figure on column 1 fails after the scale of the group has failed; column 1 is
returned, the map is left, and no scale is requested after the subtraction. -/
theorem subtract_failure_keeps_map_witness :
    (scaleDataMap demo_ext (demo_plot 10) 0 1
        { busy := SUBTRACT_BINARY_SUBTRACTION, column_2 := 2, scale := fexact.num 3,
          offset := fexact.num 0 }).2.2.map sub_call.ret = [-1, -1]
    ∧ (scaleDataMap demo_ext (demo_plot 10) 0 1
        { busy := SUBTRACT_BINARY_SUBTRACTION, column_2 := 2, scale := fexact.num 3,
          offset := fexact.num 0 }).1 = 1
    ∧ (scaleDataMap demo_ext (demo_plot 10) 0 1
        { busy := SUBTRACT_BINARY_SUBTRACTION, column_2 := 2, scale := fexact.num 3,
          offset := fexact.num 0 }).2.1.map = (demo_plot 10).map :=
  ⟨by decide,
    ((subtract_failure_keeps_map demo_ext (demo_plot 10) 0 1
      { busy := SUBTRACT_BINARY_SUBTRACTION, column_2 := 2, scale := fexact.num 3,
        offset := fexact.num 0 }).2.1.2.2 (by decide)).1,
    ((subtract_failure_keeps_map demo_ext (demo_plot 10) 0 1
      { busy := SUBTRACT_BINARY_SUBTRACTION, column_2 := 2, scale := fexact.num 3,
        offset := fexact.num 0 }).2.1.2.2 (by decide)).2 demo_ext_clean⟩

open data_hint format_t async_ret

/-- Once `cNP` is set the loop of `readSetTimeColumn` keeps it. -/
theorem readSetTimeColumn_fold_keeps (dN cX : Int) (l : List Nat) :
    ∀ (c : Int) (pg : Int → page_t), c ≠ -2 →
      (l.foldl (readSetTimeColumn_page dN cX) (c, pg)).1 = c := by
  induction l with
  | nil => intro c pg _; rfl
  | cons p l ih =>
    intro c pg hc
    rw [List.foldl_cons]
    unfold readSetTimeColumn_page
    split
    · simp only [hc, if_false]
      exact ih c _ hc
    · exact ih c pg hc

/-- Pages that are not made for `dN` are passed by the loop of `readSetTimeColumn`. -/
theorem readSetTimeColumn_fold_skip (dN cX : Int) (l : List Nat) :
    ∀ (c : Int) (pg : Int → page_t), (∀ p ∈ l, auto_page pg dN p = false) →
      l.foldl (readSetTimeColumn_page dN cX) (c, pg) = (c, pg) := by
  induction l with
  | nil => intro c pg _; rfl
  | cons p l ih =>
    intro c pg h
    rw [List.foldl_cons]
    have hp := h p (List.mem_cons_self _ _)
    have hstep : readSetTimeColumn_page dN cX (c, pg) p = (c, pg) := by
      unfold readSetTimeColumn_page
      unfold auto_page at hp
      simp only [decide_eq_false_iff_not] at hp
      rw [if_neg hp]
    rw [hstep]
    exact ih c pg (fun q hq => h q (List.mem_cons_of_mem _ hq))

/-- The `cNP` of `readSetTimeColumn` is the previous time column. -/
theorem readSetTimeColumn_cNP (K : read_h) (page : Int → page_t) (dN cX cNP : Int)
    (h : prev_time_column K page dN = some cNP) (hc : cNP ≠ -2) :
    ((page_range K.READ_PAGE_MAX).foldl (readSetTimeColumn_page dN cX) (-2, page)).1 = cNP := by
  unfold prev_time_column at h
  cases hf : (page_range K.READ_PAGE_MAX).find? (auto_page page dN) with
  | none => rw [hf] at h; simp at h
  | some p0 =>
    rw [hf] at h
    simp only [Option.map_some', Option.some.injEq] at h
    obtain ⟨hp0, l1, l2, hl, hno⟩ := List.find?_eq_some.mp hf
    rw [hl, List.foldl_append, List.foldl_cons]
    rw [readSetTimeColumn_fold_skip dN cX l1 (-2) page (fun p hp => by simpa using hno p hp)]
    have hstep : (readSetTimeColumn_page dN cX (-2, page) p0).1 = cNP := by
      unfold readSetTimeColumn_page
      unfold auto_page at hp0
      simp only [decide_eq_true_eq] at hp0
      rw [if_pos hp0]
      simp [h]
    have := readSetTimeColumn_fold_keeps dN cX l2 (readSetTimeColumn_page dN cX (-2, page) p0).1
      (readSetTimeColumn_page dN cX (-2, page) p0).2 (by rw [hstep]; exact hc)
    rw [← hstep]
    exact this

/-- Without a page made for `dN` the `cNP` of `readSetTimeColumn` stays -2. -/
theorem readSetTimeColumn_none (K : read_h) (page : Int → page_t) (dN cX : Int)
    (h : prev_time_column K page dN = none) :
    ((page_range K.READ_PAGE_MAX).foldl (readSetTimeColumn_page dN cX) (-2, page)).1 = -2 := by
  unfold prev_time_column at h
  simp only [Option.map_eq_none'] at h
  rw [readSetTimeColumn_fold_skip dN cX _ (-2) page
    (fun p hp => by simpa using (List.find?_eq_none.mp h) p hp)]

/-- C15: `readSetTimeColumn` keeps the map from columns to groups consistent.
A dataset number outside `[0, PLOT_DATASET_MAX)` or a column outside
`[-1, column_N + PLOT_SUBTRACT)` is rejected with the reader left as it was.
Otherwise, for a dataset with a map table: when the previous time column `cNP`
of the pages made for the dataset is a column (`-1 <= cNP`) with a group
`gN != -1`, then afterwards `map[cX] == gN`, and `map[cNP] == -1` when
`cX != cNP`, and no other entry of the map of the dataset and no map of
another dataset has changed; when that group is -1, or no page was made for the
dataset, the maps are left as they were. -/
theorem readSetTimeColumn_moves_group {σ α : Type} (K : read_h) (r : reader_t σ α)
    (dN cX : Int) :
    ((dN < 0 ∨ dN ≥ PLOT_DATASET_MAX ∨ cX < -1
        ∨ cX ≥ r.pump.pl.column_N dN.toNat + PLOT_SUBTRACT) →
      readSetTimeColumn K r dN cX = r)
    ∧ (0 ≤ dN → dN < PLOT_DATASET_MAX → -1 ≤ cX →
        cX < r.pump.pl.column_N dN.toNat + PLOT_SUBTRACT →
        (∀ j, j ≠ dN.toNat →
          (readSetTimeColumn K r dN cX).pump.pl.map j = r.pump.pl.map j)
        ∧ (prev_time_column K r.page dN = none →
            (readSetTimeColumn K r dN cX).pump.pl.map = r.pump.pl.map)
        ∧ ∀ cNP f, prev_time_column K r.page dN = some cNP → -1 ≤ cNP →
            r.pump.pl.map dN.toNat = some f →
            (f cNP = -1 → (readSetTimeColumn K r dN cX).pump.pl.map = r.pump.pl.map)
            ∧ (f cNP ≠ -1 →
                ∃ f1, (readSetTimeColumn K r dN cX).pump.pl.map dN.toNat = some f1
                  ∧ f1 cX = f cNP
                  ∧ (cX ≠ cNP → f1 cNP = -1)
                  ∧ ∀ c, c ≠ cX → c ≠ cNP → f1 c = f c)) := by
  refine ⟨?_, ?_⟩
  · intro h
    unfold readSetTimeColumn
    by_cases h1 : dN < 0 ∨ dN ≥ PLOT_DATASET_MAX
    · rw [if_pos h1]
    · rw [if_neg h1]
      have h2 : cX < -1 ∨ cX ≥ r.pump.pl.column_N dN.toNat + PLOT_SUBTRACT := by
        rcases h with h | h | h | h
        · exact absurd (Or.inl h) h1
        · exact absurd (Or.inr h) h1
        · exact Or.inl h
        · exact Or.inr h
      rw [if_pos h2]
  · intro hd0 hd1 hc0 hc1
    have h1 : ¬ (dN < 0 ∨ dN ≥ PLOT_DATASET_MAX) := by
      intro h; rcases h with h | h <;> omega
    have h2 : ¬ (cX < -1 ∨ cX ≥ r.pump.pl.column_N dN.toNat + PLOT_SUBTRACT) := by
      intro h; rcases h with h | h <;> omega
    refine ⟨?_, ?_, ?_⟩
    · intro j hj
      unfold readSetTimeColumn
      rw [if_neg h1, if_neg h2]
      simp only
      split
      · split
        · rfl
        · split
          · simp [plot_t.set_map, Function.update_noteq hj]
          · rfl
      · rfl
    · intro hnone
      unfold readSetTimeColumn
      rw [if_neg h1, if_neg h2]
      simp only
      rw [readSetTimeColumn_none K r.page dN cX hnone]
      simp
    · intro cNP f hprev hcnp hmap
      have hne : cNP ≠ -2 := by omega
      have hfold := readSetTimeColumn_cNP K r.page dN cX cNP hprev hne
      refine ⟨?_, ?_⟩
      · intro hg
        unfold readSetTimeColumn
        rw [if_neg h1, if_neg h2]
        simp only
        rw [hfold]
        simp only [ne_eq, hne, not_false_eq_true, if_true, hmap, hg, not_true_eq_false, if_false]
      · intro hg
        unfold readSetTimeColumn
        rw [if_neg h1, if_neg h2]
        simp only
        rw [hfold]
        simp only [ne_eq, hne, not_false_eq_true, if_true, hmap, hg]
        refine ⟨Function.update (Function.update f cNP (-1)) cX (f cNP), ?_, ?_, ?_, ?_⟩
        · simp [plot_t.set_map, hmap]
        · simp
        · intro hx
          rw [Function.update_noteq (fun h => hx h.symm), Function.update_same]
        · intro c hc1 hc2
          rw [Function.update_noteq hc1, Function.update_noteq hc2]

/-- C15 on a concrete run: the two pages made for dataset 0 have the time
column 0, whose group is 0; setting the time column to 1 moves the group. -/
theorem readSetTimeColumn_moves_group_witness :
    prev_time_column demo_h
        (readMakePages demo_text demo_h (demo_reader (demo_closed (demo_plot 0))) 0 0 0).page 0
      = some 0
    ∧ ∃ f1, (readSetTimeColumn demo_h
          (readMakePages demo_text demo_h (demo_reader (demo_closed (demo_plot 0))) 0 0 0)
          0 1).pump.pl.map (0 : Int).toNat = some f1
        ∧ f1 1 = (fun _ => 0) (0 : Int)
        ∧ ((1 : Int) ≠ 0 → f1 0 = -1)
        ∧ ∀ c, c ≠ 1 → c ≠ 0 → f1 c = (fun _ => 0) c :=
  ⟨by decide,
    (((readSetTimeColumn_moves_group demo_h
      (readMakePages demo_text demo_h (demo_reader (demo_closed (demo_plot 0))) 0 0 0) 0 1).2
      (by decide) (by decide) (by decide) (by decide)).2.2 0 (fun _ => 0) (by decide) (by decide)
      rfl).2 (by decide)⟩

open data_hint format_t async_ret

/-- C16: the bound of the dataset table is enforced by `load` and `follow`. A
command whose dataset number `n` is outside `[0, PLOT_DATASET_MAX)` is reported
as failed and leaves the reader as it was: no file is opened and no
`plotDataAlloc` is made (the record of these calls is left), and no entry of
`rd->data[]`, no `follow` flag, and neither `files_N` nor `bind_N` is changed. -/
theorem load_rejects_dataset_number {σ α : Type} (W : world_t σ α) (c : config_t σ α)
    (flag_follow : Int) (n : Int) (hn : first_int c = some n)
    (hr : n < 0 ∨ n ≥ PLOT_DATASET_MAX) :
    (config_load W c flag_follow).failed = 1
    ∧ (config_load W c flag_follow).rd = c.rd
    ∧ (config_load W c flag_follow).rd.opened = c.rd.opened
    ∧ (∀ d, (config_load W c flag_follow).rd.pump.rd.data d = c.rd.pump.rd.data d)
    ∧ (config_load W c flag_follow).rd.pump.rd.files_N = c.rd.pump.rd.files_N
    ∧ (config_load W c flag_follow).rd.bind_N = c.rd.bind_N
    ∧ (config_load W c flag_follow).rd.pump.pl = c.rd.pump.pl := by
  have hf : first_int { c with failed := 1 } = first_int c := rfl
  have hrd : (config_load W c flag_follow).failed = 1
      ∧ (config_load W c flag_follow).rd = c.rd := by
    unfold config_load
    rw [lex_int_some { c with failed := 1 } 0 n (by rw [hf]; exact hn)]
    simp [finish, bind, Except.bind, hr, throw, throwThe, MonadExceptOf.throw]
  refine ⟨hrd.1, hrd.2, ?_, ?_, ?_, ?_, ?_⟩ <;> simp [hrd.2]

/-- C16 on a concrete command: `load 10 0 text "a.txt"` on a fresh reader. -/
theorem load_rejects_dataset_number_witness :
    first_int (demo_config [token_t.TOKEN "10".toList, token_t.TOKEN "0".toList,
        token_t.TOKEN "text".toList, token_t.TOKEN "a.txt".toList]) = some 10
    ∧ (config_load demo_world (demo_config [token_t.TOKEN "10".toList,
        token_t.TOKEN "0".toList, token_t.TOKEN "text".toList,
        token_t.TOKEN "a.txt".toList]) 0).failed = 1
    ∧ (config_load demo_world (demo_config [token_t.TOKEN "10".toList,
        token_t.TOKEN "0".toList, token_t.TOKEN "text".toList,
        token_t.TOKEN "a.txt".toList]) 0).rd.opened = [] :=
  ⟨by decide,
    (load_rejects_dataset_number demo_world (demo_config [token_t.TOKEN "10".toList,
        token_t.TOKEN "0".toList, token_t.TOKEN "text".toList, token_t.TOKEN "a.txt".toList])
      0 10 (by decide) (by decide)).1,
    (load_rejects_dataset_number demo_world (demo_config [token_t.TOKEN "10".toList,
        token_t.TOKEN "0".toList, token_t.TOKEN "text".toList, token_t.TOKEN "a.txt".toList])
      0 10 (by decide) (by decide)).2.2.1⟩

/-- A `load` command with a dataset number of the table goes on to open the
file: here the file is missing, and the call of `unified_fopen` is recorded. -/
theorem load_opens_in_range :
    (config_load demo_world (demo_config [token_t.TOKEN "9".toList,
        token_t.TOKEN "0".toList, token_t.TOKEN "text".toList,
        token_t.TOKEN "a.txt".toList]) 0).rd.opened.length = 1 := by
  decide

open data_hint format_t async_ret

theorem is_range_merge (v1 v2 : List fexact) (s1 s2 : summary_t)
    (h1 : is_range v1 s1) (h2 : is_range v2 s2) :
    is_range (v1 ++ v2) (summary_merge s1 s2) := by
  cases s1 with
  | none =>
    cases s2 with
    | none =>
      simp only [summary_merge, is_range] at *
      intro q hq
      rcases List.mem_append.mp hq with h | h
      · exact h1 q h
      · exact h2 q h
    | some b =>
      simp only [summary_merge, is_range] at *
      refine ⟨List.mem_append_right _ h2.1, List.mem_append_right _ h2.2.1, ?_⟩
      intro q hq
      rcases List.mem_append.mp hq with h | h
      · exact absurd h (h1 q)
      · exact h2.2.2 q h
  | some a =>
    cases s2 with
    | none =>
      simp only [summary_merge, is_range] at *
      refine ⟨List.mem_append_left _ h1.1, List.mem_append_left _ h1.2.1, ?_⟩
      intro q hq
      rcases List.mem_append.mp hq with h | h
      · exact h1.2.2 q h
      · exact absurd h (h2 q)
    | some b =>
      simp only [summary_merge, is_range] at *
      obtain ⟨a1, a2, a3⟩ := h1
      obtain ⟨b1, b2, b3⟩ := h2
      refine ⟨?_, ?_, ?_⟩
      · rcases min_choice a.1 b.1 with h | h
        · rw [h]; exact List.mem_append_left _ a1
        · rw [h]; exact List.mem_append_right _ b1
      · rcases max_choice a.2 b.2 with h | h
        · rw [h]; exact List.mem_append_left _ a2
        · rw [h]; exact List.mem_append_right _ b2
      · intro q hq
        rcases List.mem_append.mp hq with h | h
        · exact ⟨le_trans (min_le_left _ _) (a3 q h).1, le_trans (a3 q h).2 (le_max_left _ _)⟩
        · exact ⟨le_trans (min_le_right _ _) (b3 q h).1, le_trans (b3 q h).2 (le_max_right _ _)⟩

/-- The range of a list of values depends on its finite members alone. -/
theorem is_range_congr (v1 v2 : List fexact) (s : summary_t)
    (h : ∀ q, fexact.num q ∈ v1 ↔ fexact.num q ∈ v2) (h1 : is_range v1 s) : is_range v2 s := by
  cases s with
  | none =>
    simp only [is_range] at *
    intro q hq
    exact h1 q ((h _).mpr hq)
  | some a =>
    simp only [is_range] at *
    exact ⟨(h _).mp h1.1, (h _).mp h1.2.1, fun q hq => h1.2.2 q ((h _).mpr hq)⟩

theorem is_range_scan_from (vs : List fexact) :
    ∀ (v0 : List fexact) (s : summary_t), is_range v0 s →
      is_range (v0 ++ vs) (vs.foldl (fun s v =>
        match v with
        | fexact.nan => s
        | fexact.num q => summary_merge s (some (q, q))) s) := by
  induction vs with
  | nil => intro v0 s h; simpa using h
  | cons v vs ih =>
    intro v0 s h
    rw [List.foldl_cons]
    have hstep : is_range (v0 ++ [v]) (match v with
        | fexact.nan => s
        | fexact.num q => summary_merge s (some (q, q))) := by
      cases v with
      | nan =>
        apply is_range_congr v0 _ s _ h
        intro w
        simp
      | num q =>
        apply is_range_merge v0 [fexact.num q] s (some (q, q)) h
        simp [is_range]
    have := ih (v0 ++ [v]) _ hstep
    simpa using this

open data_hint format_t async_ret

theorem is_range_scan (vs : List fexact) : is_range vs (summary_scan vs) := by
  have := is_range_scan_from vs [] none (by simp [is_range])
  simpa [summary_scan] using this

theorem lookup_cons_ne {β : Type} (k a : Nat) (b : β) (l : List (Nat × β)) (h : k ≠ a) :
    List.lookup k ((a, b) :: l) = List.lookup k l := by
  have : (k == a) = false := by simpa using h
  simp [List.lookup, this]

theorem lookup_cons_eq {β : Type} (k : Nat) (b : β) (l : List (Nat × β)) :
    List.lookup k ((k, b) :: l) = some b := by
  simp [List.lookup]

/-- The rows of a chunk that the store holds are found under its slot. -/
theorem lookup_of_mem {β : Type} (l : List (Nat × β)) (hn : (l.map Prod.fst).Nodup)
    (k : Nat) (b : β) (h : (k, b) ∈ l) : List.lookup k l = some b := by
  induction l with
  | nil => simp at h
  | cons x l ih =>
    obtain ⟨a, b1⟩ := x
    simp only [List.map_cons, List.nodup_cons] at hn
    rcases List.mem_cons.mp h with hh | hh
    · injection hh with h1 h2
      subst h1; subst h2
      exact lookup_cons_eq k b l
    · have hne : k ≠ a := by
        intro hk
        subst hk
        exact hn.1 (List.mem_map.mpr ⟨(k, b), hh, rfl⟩)
      rw [lookup_cons_ne k a b1 l hne]
      exact ih hn.2 hh

theorem lookup_append_ne {β : Type} (l : List (Nat × β)) (k a : Nat) (b : β) (h : k ≠ a) :
    List.lookup k (l ++ [(a, b)]) = List.lookup k l := by
  induction l with
  | nil => simp [lookup_cons_ne k a b [] h]
  | cons x l ih =>
    obtain ⟨a1, b1⟩ := x
    by_cases hk : k = a1
    · subst hk
      simp [lookup_cons_eq]
    · rw [List.cons_append, lookup_cons_ne k a1 b1 _ hk, lookup_cons_ne k a1 b1 _ hk, ih]

/-- A hit in the pool of the range cache is an entry of the pool. -/
theorem pool_lookup_mem (pool : List ((Nat × Nat) × summary_t)) (k : Nat × Nat) (s : summary_t)
    (h : pool.lookup k = some s) : (k, s) ∈ pool := by
  induction pool with
  | nil => simp [List.lookup] at h
  | cons x pool ih =>
    obtain ⟨a, b⟩ := x
    by_cases hk : k = a
    · subst hk
      simp [List.lookup] at h
      subst h
      exact List.mem_cons_self _ _
    · have : (k == a) = false := by simpa using hk
      simp only [List.lookup, this] at h
      exact List.mem_cons_of_mem _ (ih h)

theorem invalidate_mem (pool : List ((Nat × Nat) × summary_t)) (id : Nat)
    (e : (Nat × Nat) × summary_t) (h : e ∈ invalidate pool id) : e ∈ pool ∧ e.1.2 ≠ id := by
  unfold invalidate at h
  simpa using List.mem_filter.mp h

/-- The step of `insertRow` for a new chunk keeps the store well. -/
theorem insertRow_chunk_ok (st : store_t) (row : List fexact) (h : store_ok st) :
    store_ok (insertRow_chunk st row) := by
  obtain ⟨h1, h2, h3⟩ := h
  unfold insertRow_chunk
  split
  · refine ⟨?_, ?_, ?_⟩
    · simp only [List.map_cons, List.nodup_cons]
      exact ⟨fun hm => absurd (h2 _ hm) (lt_irrefl _), h1⟩
    · intro id hid
      simp only [List.map_cons, List.mem_cons, List.length_cons] at hid ⊢
      rcases hid with hid | hid
      · omega
      · have := h2 id hid
        omega
    · intro e he
      obtain ⟨hep, hne⟩ := invalidate_mem _ _ e he
      obtain ⟨rows, hr1, hr2⟩ := h3 e hep
      exact ⟨rows, by simp only []; rw [lookup_cons_ne _ _ _ _ hne]; exact hr1, hr2⟩
  · split
    · cases hl : st.chunks.getLast? with
      | none => simp only []; exact ⟨h1, h2, h3⟩
      | some old =>
        simp only []
        have hsplit : st.chunks = st.chunks.dropLast ++ [old] := by
          have hne : st.chunks ≠ [] := by
            intro hnil; rw [hnil] at hl; simp at hl
          have := List.dropLast_append_getLast hne
          rw [List.getLast?_eq_getLast _ hne] at hl
          simp only [Option.some.injEq] at hl
          rw [hl] at this
          exact this.symm
        have hkeys : st.chunks.map Prod.fst = st.chunks.dropLast.map Prod.fst ++ [old.1] := by
          conv_lhs => rw [hsplit]
          simp
        have hnd : (st.chunks.dropLast.map Prod.fst ++ [old.1]).Nodup := by
          rw [← hkeys]; exact h1
        have hlen : st.chunks.length = st.chunks.dropLast.length + 1 := by
          conv_lhs => rw [hsplit]
          simp
        refine ⟨?_, ?_, ?_⟩
        · simp only [List.map_cons, List.nodup_cons]
          rw [List.nodup_append] at hnd
          refine ⟨fun hm => ?_, hnd.1⟩
          exact hnd.2.2 hm (List.mem_singleton.mpr rfl)
        · intro id hid
          simp only [List.map_cons, List.mem_cons, List.length_cons] at hid ⊢
          rw [← hlen]
          apply h2
          rw [hkeys]
          rcases hid with hid | hid
          · rw [hid]; simp
          · exact List.mem_append_left _ hid
        · intro e he
          obtain ⟨hep, hne⟩ := invalidate_mem _ _ e he
          obtain ⟨rows, hr1, hr2⟩ := h3 e hep
          refine ⟨rows, ?_, hr2⟩
          simp only []
          rw [lookup_cons_ne _ _ _ _ hne]
          rw [hsplit] at hr1
          obtain ⟨o1, o2⟩ := old
          rw [lookup_append_ne _ _ _ _ hne] at hr1
          exact hr1
    · exact ⟨h1, h2, h3⟩

/-- The function `insertRow` keeps the store well. -/
theorem insertRow_ok (st : store_t) (row : List fexact) (h : store_ok st) :
    store_ok (insertRow st row) := by
  unfold insertRow
  split
  · rename_i id rows rest hch
    split
    · obtain ⟨h1, h2, h3⟩ := h
      rw [hch] at h1 h2 h3
      refine ⟨by simpa using h1, by simpa using h2, ?_⟩
      intro e he
      obtain ⟨hep, hne⟩ := invalidate_mem _ _ e he
      obtain ⟨rows1, hr1, hr2⟩ := h3 e hep
      refine ⟨rows1, ?_, hr2⟩
      simp only []
      rw [lookup_cons_ne _ _ _ _ hne] at hr1 ⊢
      exact hr1
    · exact insertRow_chunk_ok st row h
  · exact insertRow_chunk_ok st row h

/-- An insert that finds room adds its row to the rows that the store holds. -/
theorem insertRow_held (st : store_t) (row : List fexact) (h : has_room st) :
    held (insertRow st row) = held st ++ [row] := by
  unfold insertRow
  split
  · rename_i id rows rest hch
    split
    · simp [held, hch]
    · rename_i hfull
      have hfree : st.chunks.length < st.chunk_max := by
        rcases h with ⟨id1, rows1, rest1, he, hl⟩ | h
        · rw [hch] at he
          injection he with e1 e2
          injection e1 with e3 e4
          subst e4
          exact absurd hl hfull
        · exact h
      unfold insertRow_chunk
      rw [if_pos hfree]
      simp [held]
  · rename_i hch
    have hfree : st.chunks.length < st.chunk_max := by
      rcases h with ⟨id1, rows1, rest1, he, hl⟩ | h
      · rw [hch] at he; simp at he
      · exact h
    unfold insertRow_chunk
    rw [if_pos hfree]
    simp [held]

open data_hint format_t async_ret

/-- On a store that is well kept `summarize` gives the summary that a scan of
the chunk gives, and it leaves the chunks and keeps the store well. -/
theorem summarize_ok (st : store_t) (c id : Nat) (rows : List (List fexact)) (h : store_ok st)
    (hl : st.chunks.lookup id = some rows) :
    (summarize st c id).1 = summary_scan (column_of c rows)
    ∧ store_ok (summarize st c id).2
    ∧ (summarize st c id).2.chunks = st.chunks := by
  obtain ⟨h1, h2, h3⟩ := h
  unfold summarize
  cases hp : st.pool.lookup (c, id) with
  | some s =>
    simp only []
    have hmem := pool_lookup_mem st.pool (c, id) s hp
    obtain ⟨rows1, hr1, hr2⟩ := h3 _ hmem
    simp only [] at hr1 hr2
    rw [hl] at hr1
    simp only [Option.some.injEq] at hr1
    subst hr1
    refine ⟨hr2, ⟨h1, h2, ?_⟩, by first | rfl | trivial⟩
    intro e he
    simp only [List.mem_cons] at he
    rcases he with he | he
    · rw [he]; exact ⟨rows, hl, hr2⟩
    · exact h3 e (List.mem_filter.mp he).1
  | none =>
    simp only [hl]
    refine ⟨by first | rfl | trivial, ⟨h1, h2, ?_⟩, by first | rfl | trivial⟩
    intro e he
    have he1 := List.mem_of_mem_take he
    simp only [List.mem_cons] at he1
    rcases he1 with he1 | he1
    · rw [he1]; exact ⟨rows, hl, rfl⟩
    · exact h3 e he1

/-- The fold of `datasetRange` over chunks that the store holds. -/
theorem datasetRange_fold (c : Nat) (ids : List Nat) :
    ∀ (acc : summary_t) (st : store_t), store_ok st →
      (∀ id ∈ ids, ∃ rows, st.chunks.lookup id = some rows) →
      store_ok (ids.foldl (fun acc id => (summary_merge acc.1 (summarize acc.2 c id).1,
          (summarize acc.2 c id).2)) (acc, st)).2
      ∧ (ids.foldl (fun acc id => (summary_merge acc.1 (summarize acc.2 c id).1,
          (summarize acc.2 c id).2)) (acc, st)).2.chunks = st.chunks
      ∧ (ids.foldl (fun acc id => (summary_merge acc.1 (summarize acc.2 c id).1,
          (summarize acc.2 c id).2)) (acc, st)).1
        = (ids.map (fun id => summary_scan (column_of c ((st.chunks.lookup id).getD [])))).foldl
            summary_merge acc := by
  induction ids with
  | nil => intro acc st h _; exact ⟨h, rfl, rfl⟩
  | cons id ids ih =>
    intro acc st h hids
    obtain ⟨rows, hrows⟩ := hids id (List.mem_cons_self _ _)
    obtain ⟨s1, s2, s3⟩ := summarize_ok st c id rows h hrows
    rw [List.foldl_cons]
    have := ih (summary_merge acc (summarize st c id).1) (summarize st c id).2 s2
      (fun j hj => by rw [s3]; exact hids j (List.mem_cons_of_mem _ hj))
    obtain ⟨g1, g2, g3⟩ := this
    refine ⟨g1, by rw [g2, s3], ?_⟩
    rw [g3, s3, List.map_cons, List.foldl_cons, s1, hrows]
    rfl

theorem fold_merge_range (chs : List (List fexact)) :
    ∀ (acc : summary_t) (v0 : List fexact), is_range v0 acc →
      is_range (v0 ++ chs.flatten) ((chs.map summary_scan).foldl summary_merge acc) := by
  induction chs with
  | nil => intro acc v0 h; simpa using h
  | cons ch chs ih =>
    intro acc v0 h
    rw [List.map_cons, List.foldl_cons, List.flatten_cons, ← List.append_assoc]
    exact ih _ _ (is_range_merge v0 ch acc _ h (is_range_scan ch))

theorem held_values (chunks : List (Nat × List (List fexact))) (c : Nat) (v : fexact) :
    v ∈ (chunks.map (fun ch => column_of c ch.2)).flatten
      ↔ v ∈ column_of c ((chunks.reverse.map Prod.snd).flatten) := by
  simp only [column_of, List.mem_flatten, List.mem_map, List.mem_reverse]
  constructor
  · rintro ⟨l, ⟨ch, hch, rfl⟩, hv⟩
    obtain ⟨row, hrow, hq⟩ := List.mem_map.mp hv
    exact ⟨row, ⟨ch.2, ⟨ch, hch, rfl⟩, hrow⟩, hq⟩
  · rintro ⟨row, ⟨rows, ⟨ch, hch, rfl⟩, hrow⟩, hq⟩
    exact ⟨_, ⟨ch, hch, rfl⟩, List.mem_map.mpr ⟨row, hrow, hq⟩⟩

/-- On a store that is well kept `datasetRange` gives the true range of the
values of the column in the rows that the store holds. -/
theorem datasetRange_ok (st : store_t) (c : Nat) (h : store_ok st) :
    is_range (column_of c (held st)) (datasetRange st c).1
    ∧ store_ok (datasetRange st c).2
    ∧ (datasetRange st c).2.chunks = st.chunks := by
  have hl : ∀ ch ∈ st.chunks, st.chunks.lookup ch.1 = some ch.2 := by
    intro ch hch
    exact lookup_of_mem st.chunks h.1 ch.1 ch.2 hch
  have hids : ∀ id ∈ st.chunks.map Prod.fst, ∃ rows, st.chunks.lookup id = some rows := by
    intro id hid
    obtain ⟨ch, hch, rfl⟩ := List.mem_map.mp hid
    exact ⟨ch.2, hl ch hch⟩
  obtain ⟨g1, g2, g3⟩ := datasetRange_fold c (st.chunks.map Prod.fst) none st h hids
  refine ⟨?_, g1, g2⟩
  unfold datasetRange
  rw [g3]
  have hmap : (st.chunks.map Prod.fst).map
      (fun id => summary_scan (column_of c ((st.chunks.lookup id).getD [])))
      = (st.chunks.map (fun ch => column_of c ch.2)).map summary_scan := by
    rw [List.map_map, List.map_map]
    apply List.map_congr_left
    intro ch hch
    simp [hl ch hch]
  rw [hmap]
  have := fold_merge_range (st.chunks.map (fun ch => column_of c ch.2)) none [] (by simp [is_range])
  apply is_range_congr _ _ _ _ this
  intro q
  rw [List.nil_append]
  exact held_values st.chunks c (fexact.num q)

theorem allocate_ok (chunk_cap chunk_max pool_max : Nat) (bounded : Bool) :
    store_ok (allocate chunk_cap chunk_max pool_max bounded) := by
  simp [store_ok, allocate]

/-- Calls on the store keep it well. -/
theorem store_run_ok (ops : List store_op) :
    ∀ st, store_ok st → store_ok (store_run st ops) := by
  induction ops with
  | nil => intro st h; exact h
  | cons op ops ih =>
    intro st h
    unfold store_run
    rw [List.foldl_cons]
    cases op with
    | insert row => exact ih _ (insertRow_ok st row h)
    | range c => exact ih _ (datasetRange_ok st c h).2.1

/-- While every insert finds room the store holds the rows inserted. -/
theorem store_run_held (ops : List store_op) :
    ∀ st, store_ok st → all_room st ops → held (store_run st ops) = held st ++ inserted ops := by
  induction ops with
  | nil => intro st _ _; simp [store_run, inserted]
  | cons op ops ih =>
    intro st h hr
    unfold store_run
    rw [List.foldl_cons]
    cases op with
    | insert row =>
      simp only [all_room] at hr
      have := ih _ (insertRow_ok st row h) hr.2
      unfold store_run at this
      rw [this, insertRow_held st row hr.1]
      simp [inserted]
    | range c =>
      simp only [all_room] at hr
      obtain ⟨_, g2, g3⟩ := datasetRange_ok st c h
      have := ih _ g2 hr
      unfold store_run at this
      rw [this]
      simp [inserted, held, g3]

/-- C17, amended: the range cache tracks the rows that the store holds. After
every sequence of inserts, with queries of ranges in between, `datasetRange`
over a raw column gives the true minimum and maximum of the finite values of
the column in the rows that the store holds; and while every insert has found
room (the tail chunk not full, or a free chunk slot), these are all the rows
inserted so far. -/
theorem datasetRange_tracks_held (chunk_cap chunk_max pool_max : Nat) (bounded : Bool)
    (ops : List store_op) (c : Nat) :
    is_range (column_of c (held (store_run (allocate chunk_cap chunk_max pool_max bounded) ops)))
      (datasetRange (store_run (allocate chunk_cap chunk_max pool_max bounded) ops) c).1
    ∧ (all_room (allocate chunk_cap chunk_max pool_max bounded) ops →
        held (store_run (allocate chunk_cap chunk_max pool_max bounded) ops) = inserted ops
        ∧ is_range (column_of c (inserted ops))
            (datasetRange (store_run (allocate chunk_cap chunk_max pool_max bounded) ops) c).1) := by
  have hok := store_run_ok ops _ (allocate_ok chunk_cap chunk_max pool_max bounded)
  have h1 := (datasetRange_ok _ c hok).1
  refine ⟨h1, fun hr => ?_⟩
  have hh := store_run_held ops _ (allocate_ok chunk_cap chunk_max pool_max bounded) hr
  have he : held (allocate chunk_cap chunk_max pool_max bounded) = [] := by
    simp [held, allocate]
  rw [he, List.nil_append] at hh
  refine ⟨hh, ?_⟩
  rw [← hh]
  exact h1

open data_hint format_t async_ret

/-- C17 as stated fails under a length bound: with one chunk of one row, the
insert of 2 overwrites the chunk that holds 1, and `datasetRange` gives the
range from 2 to 2, which is not the range of the values 1 and 2 inserted. -/
theorem datasetRange_forgets_overwritten :
    (datasetRange (store_run (allocate 1 1 4 true)
        [store_op.insert [fexact.num 1], store_op.insert [fexact.num 2]]) 0).1 = some (2, 2)
    ∧ ¬ is_range (column_of 0 (inserted
        [store_op.insert [fexact.num 1], store_op.insert [fexact.num 2]])) (some (2, 2)) := by
  refine ⟨?_, ?_⟩
  · simp [datasetRange, store_run, allocate, insertRow, insertRow_chunk, summarize, invalidate,
      summary_scan, summary_merge, column_of, List.lookup]
  · intro h
    have := h.2.2 1 (by simp [column_of, inserted])
    norm_num at this

/-- Without a length bound, and with room, the range is the one of the values
inserted: here 1 and 2 in two chunks of one row. -/
theorem datasetRange_two_chunks :
    (datasetRange (store_run (allocate 1 2 4 false)
        [store_op.insert [fexact.num 1], store_op.range 0, store_op.insert [fexact.num 2]]) 0).1
      = some (1, 2) := by
  have e1 : ((0, 1) == ((0, 0) : Nat × Nat)) = false := by decide
  have e2 : (((0, 0) : Nat × Nat) == (0, 1)) = false := by decide
  simp [datasetRange, store_run, allocate, insertRow, insertRow_chunk, summarize, invalidate,
    summary_scan, summary_merge, column_of, List.lookup, e1, e2, ← Prod.mk_zero_zero]

open data_hint format_t async_ret

theorem running_sums_snoc {α : Type} (A : fval_ops α) (p : List α) (v : α) :
    running_sums A (p ++ [v]) = running_sums A p ++ [(p ++ [v]).foldl A.add (A.ofInt 0)] := by
  unfold running_sums
  rw [List.length_append, List.length_singleton, List.range_succ, List.map_append]
  congr 1
  · apply List.map_congr_left
    intro i hi
    have hi' : i + 1 ≤ p.length := by
      have := List.mem_range.mp hi
      omega
    rw [List.take_append_of_le_length hi']
  · have ht : List.take (p.length + 1) (p ++ [v]) = p ++ [v] :=
      List.take_of_length_le (by simp)
    simp [ht]

/-- The state of a filter-cumulative column that has computed the rows `p`. -/
theorem cumulative_fold {α : Type} (A : fval_ops α) (l : List α) :
    ∀ (p : List α) (s : cumulative_t α),
      s.state = p.foldl A.add (A.ofInt 0) → s.rows = p.length → s.out = running_sums A p →
      (l.foldl (cumulative_step A) s).state = (p ++ l).foldl A.add (A.ofInt 0)
      ∧ (l.foldl (cumulative_step A) s).rows = (p ++ l).length
      ∧ (l.foldl (cumulative_step A) s).out = running_sums A (p ++ l) := by
  induction l with
  | nil => intro p s h1 h2 h3; simp [h1, h2, h3]
  | cons v l ih =>
    intro p s h1 h2 h3
    rw [List.foldl_cons]
    have := ih (p ++ [v]) (cumulative_step A s v)
      (by simp [cumulative_step, h1]) (by simp [cumulative_step, h2])
      (by rw [running_sums_snoc, ← h3]; simp [cumulative_step, h1])
    simpa using this

theorem take_append_drop_take {α : Type} (x : List α) (r m : Nat) :
    x.take r ++ (x.take m).drop r = x.take (max r m) := by
  by_cases h : m ≤ r
  · have : (x.take m).drop r = [] := by
      apply List.drop_eq_nil_of_le
      rw [List.length_take]
      omega
    rw [this, List.append_nil, max_eq_left h]
  · have hrm : r ≤ m := by omega
    rw [max_eq_right hrm]
    have h1 : x.take r = (x.take m).take r := by
      rw [List.take_take, min_eq_left hrm]
    rw [h1, List.take_append_drop]

/-- A call of `extend` leaves the column with the running sums of the rows
computed so far. -/
theorem cumulative_extend_inv {α : Type} (A : fval_ops α) (x : List α) (s : cumulative_t α)
    (m r : Nat) (h1 : s.state = (x.take r).foldl A.add (A.ofInt 0))
    (h2 : s.rows = (x.take r).length) (h3 : s.out = running_sums A (x.take r)) (hr : r ≤ x.length) :
    (cumulative_extend A x s m).state = (x.take (max r m)).foldl A.add (A.ofInt 0)
    ∧ (cumulative_extend A x s m).rows = (x.take (max r m)).length
    ∧ (cumulative_extend A x s m).out = running_sums A (x.take (max r m)) := by
  unfold cumulative_extend
  have hrows : s.rows = r := by
    rw [h2, List.length_take]; omega
  rw [hrows]
  have := cumulative_fold A ((x.take m).drop r) (x.take r) s h1 h2 h3
  rw [take_append_drop_take] at this
  exact this

theorem cumulative_marks_inv {α : Type} (A : fval_ops α) (x : List α) (marks : List Nat) :
    ∀ (s : cumulative_t α) (r : Nat), s.state = (x.take r).foldl A.add (A.ofInt 0) →
      s.rows = (x.take r).length → s.out = running_sums A (x.take r) → r ≤ x.length →
      ∃ r1, r1 ≤ x.length
        ∧ (marks.foldl (cumulative_extend A x) s).state = (x.take r1).foldl A.add (A.ofInt 0)
        ∧ (marks.foldl (cumulative_extend A x) s).rows = (x.take r1).length
        ∧ (marks.foldl (cumulative_extend A x) s).out = running_sums A (x.take r1) := by
  induction marks with
  | nil => intro s r h1 h2 h3 hr; exact ⟨r, hr, h1, h2, h3⟩
  | cons m marks ih =>
    intro s r h1 h2 h3 hr
    rw [List.foldl_cons]
    obtain ⟨g1, g2, g3⟩ := cumulative_extend_inv A x s m r h1 h2 h3 hr
    have hmin : x.take (max r m) = x.take (min (max r m) x.length) := by
      by_cases hh : max r m ≤ x.length
      · rw [min_eq_left hh]
      · rw [min_eq_right (by omega), List.take_length]
        exact List.take_of_length_le (by omega)
    rw [hmin] at g1 g2 g3
    exact ih _ (min (max r m) x.length) g1 g2 g3 (min_le_right _ _)

theorem exact_sum (qs : List ℚ) (a : ℚ) :
    (qs.map fexact.num).foldl exact_ops.add (fexact.num a) = fexact.num (a + qs.sum) := by
  induction qs generalizing a with
  | nil => simp
  | cons q qs ih =>
    simp only [List.map_cons, List.foldl_cons, List.sum_cons]
    have : exact_ops.add (fexact.num a) (fexact.num q) = fexact.num (a + q) := rfl
    rw [this, ih]
    congr 1
    ring

/-- C18: the filter-cumulative column is the running sum of its source. For
every source `x` and every way `marks` of calling `extend` up to successive
rows before the call up to the end, the column holds one value a row of the
source, and at row `i` the sum `x[0] + ... + x[i]`; for finite values it is
their sum as numbers; the source 1, 2, 3, 4 gives 1, 3, 6, 10. -/
theorem cumulative_running_sum {α : Type} (A : fval_ops α) (x : List α) (marks : List Nat) :
    (cumulative_run A x marks).out = running_sums A x
    ∧ (cumulative_run A x marks).rows = x.length
    ∧ (cumulative_run A x marks).out = (cumulative_run A x []).out
    ∧ (∀ qs : List ℚ, (cumulative_run exact_ops (qs.map fexact.num) marks).out
        = (List.range qs.length).map (fun i => fexact.num ((qs.take (i + 1)).sum)))
    ∧ (cumulative_run exact_ops [fexact.num 1, fexact.num 2, fexact.num 3, fexact.num 4] marks).out
        = [fexact.num 1, fexact.num 3, fexact.num 6, fexact.num 10] := by
  have main : ∀ {β : Type} (B : fval_ops β) (y : List β) (mk : List Nat),
      (cumulative_run B y mk).out = running_sums B y
      ∧ (cumulative_run B y mk).rows = y.length := by
    intro β B y mk
    unfold cumulative_run
    obtain ⟨r1, hr1, g1, g2, g3⟩ := cumulative_marks_inv B y mk (cumulative_define B) 0
      (by simp [cumulative_define]) (by simp [cumulative_define])
      (by simp [cumulative_define, running_sums]) (Nat.zero_le _)
    obtain ⟨_, f2, f3⟩ := cumulative_extend_inv B y _ y.length r1 g1 g2 g3 hr1
    rw [max_eq_right hr1, List.take_length] at f2 f3
    exact ⟨f3, f2⟩
  have hq : ∀ qs : List ℚ, (cumulative_run exact_ops (qs.map fexact.num) marks).out
      = (List.range qs.length).map (fun i => fexact.num ((qs.take (i + 1)).sum)) := by
    intro qs
    rw [(main exact_ops (qs.map fexact.num) marks).1]
    unfold running_sums
    rw [List.length_map]
    apply List.map_congr_left
    intro i _
    rw [← List.map_take]
    have h0 : exact_ops.ofInt 0 = fexact.num 0 := by
      simp [exact_ops]
    rw [h0, exact_sum]
    simp
  refine ⟨(main A x marks).1, (main A x marks).2, ?_, hq, ?_⟩
  · rw [(main A x marks).1, (main A x []).1]
  · have := hq [1, 2, 3, 4]
    simp only [List.map_cons, List.map_nil] at this
    rw [this]
    simp [List.range_succ]
    norm_num

open data_hint format_t async_ret

/-- C19, the code on a source of two lines: a line of two labels and one row of
two values, then the end of the file. `TEXT_GetCN` returns 2 with one row stored
(`fixed_N` is 1): rows 1 and 2 of `rbuf` hold what they held at the call,
whatever that is, and `readOpenUnified` goes on to `plotDataAlloc` and inserts
the three rows of `rbuf`, two of which were never written. -/
theorem TEXT_GetCN_short_source (rbuf0 : Nat → fexact) :
    (TEXT_GetCN exact_ops demo_h (demo_reader (demo_closed (demo_plot 0))) 0
        ("a b\n1 2\n".toList.map some) rbuf0).cN = 2
    ∧ (TEXT_GetCN exact_ops demo_h (demo_reader (demo_closed (demo_plot 0))) 0
        ("a b\n1 2\n".toList.map some) rbuf0).fixed_N = 1
    ∧ (∀ N, rbuf_row demo_h (TEXT_GetCN exact_ops demo_h
          (demo_reader (demo_closed (demo_plot 0))) 0
          ("a b\n1 2\n".toList.map some) rbuf0).rbuf 1 N = rbuf_row demo_h rbuf0 1 N)
    ∧ (∀ N, rbuf_row demo_h (TEXT_GetCN exact_ops demo_h
          (demo_reader (demo_closed (demo_plot 0))) 0
          ("a b\n1 2\n".toList.map some) rbuf0).rbuf 2 N = rbuf_row demo_h rbuf0 2 N)
    ∧ ∃ r0 r1 r2,
        (readOpenUnified exact_ops demo_papi demo_ext (demo_file "a b\n1 2\n") demo_h none rbuf0
          (demo_reader (demo_closed (demo_plot 0))) 0 0 0 (some "a.txt".toList)
          FORMAT_PLAIN_TEXT).opened
          = [open_call.fopen "a.txt".toList, open_call.plotDataAlloc 0 2 1001,
              open_call.plotDataInsert 0 r0, open_call.plotDataInsert 0 r1,
              open_call.plotDataInsert 0 r2]
        ∧ (∀ N, r1 N = rbuf_row demo_h rbuf0 1 N)
        ∧ (∀ N, r2 N = rbuf_row demo_h rbuf0 2 N) := by
  have hr : ∃ row, (TEXT_GetCN exact_ops demo_h (demo_reader (demo_closed (demo_plot 0))) 0
      ("a b\n1 2\n".toList.map some) rbuf0).rbuf = rbuf_put demo_h rbuf0 0 2 row := ⟨_, rfl⟩
  obtain ⟨row, hrow⟩ := hr
  have h1 : ∀ N, rbuf_row demo_h (rbuf_put demo_h rbuf0 0 2 row) 1 N
      = rbuf_row demo_h rbuf0 1 N := by
    intro N
    simp only [rbuf_row, rbuf_put, demo_h]
    rw [if_neg]
    intro h
    omega
  have h2 : ∀ N, rbuf_row demo_h (rbuf_put demo_h rbuf0 0 2 row) 2 N
      = rbuf_row demo_h rbuf0 2 N := by
    intro N
    simp only [rbuf_row, rbuf_put, demo_h]
    rw [if_neg]
    intro h
    omega
  refine ⟨rfl, rfl, ?_, ?_, ?_⟩
  · rw [hrow]; exact h1
  · rw [hrow]; exact h2
  · refine ⟨rbuf_row demo_h (rbuf_put demo_h rbuf0 0 2 row) 0,
      rbuf_row demo_h (rbuf_put demo_h rbuf0 0 2 row) 1,
      rbuf_row demo_h (rbuf_put demo_h rbuf0 0 2 row) 2, ?_, h1, h2⟩
    rw [← hrow]
    rfl

open data_hint format_t async_ret

/-- A `page` command with a title selects the next page, whatever its index:
there is no test against `READ_PAGE_MAX`. -/
theorem config_page_next {σ α : Type} (c : config_t σ α) (t : List Char) :
    (config_page { c with pa := { c.pa with input := [token_t.TOKEN t] } }).rd.page_N
        = (if c.rd.page_N = -1 then 1 else c.rd.page_N + 1)
    ∧ ((config_page { c with pa := { c.pa with input := [token_t.TOKEN t] } }).rd.page
        (if c.rd.page_N = -1 then 1 else c.rd.page_N + 1)).busy = 1
    ∧ (config_page { c with pa := { c.pa with input := [token_t.TOKEN t] } }).failed = 0 := by
  simp [config_page, next_token]

theorem config_pages_cons {σ α : Type} (c : config_t σ α) (t : List Char) (ts : List (List Char)) :
    config_pages (t :: ts) c
      = config_pages ts (config_page { c with pa := { c.pa with input := [token_t.TOKEN t] } }) :=
  rfl

/-- A run of `page` commands from a selected page `p + 1`. -/
theorem config_pages_from {σ α : Type} (t : List Char) (k : Nat) :
    ∀ (c : config_t σ α) (p : Nat), c.rd.page_N = p + 1 →
      (config_pages (List.replicate k t) c).rd.page_N = p + 1 + k
      ∧ (1 ≤ k → ((config_pages (List.replicate k t) c).rd.page (p + 1 + k)).busy = 1) := by
  induction k with
  | zero => intro c p hp; simp [config_pages, hp]
  | succ k ih =>
    intro c p hp
    rw [List.replicate_succ, config_pages_cons]
    have h1 := config_page_next c t
    have hne : c.rd.page_N ≠ -1 := by rw [hp]; omega
    rw [if_neg hne, hp] at h1
    have := ih (config_page { c with pa := { c.pa with input := [token_t.TOKEN t] } }) (p + 1)
      (by rw [h1.1]; push_cast; ring)
    have e : ((p + 1 : Nat) : Int) + 1 + (k : Int) = (p : Int) + 1 + ((k + 1 : Nat) : Int) := by
      push_cast; ring
    rw [e] at this
    refine ⟨this.1, fun _ => ?_⟩
    by_cases hk : 1 ≤ k
    · exact this.2 hk
    · have hk0 : k = 0 := by omega
      subst hk0
      simp only [List.replicate_zero, config_pages, List.foldl_nil]
      simpa using h1.2.1

/-- A run of `page` commands from a reader with no page selected. -/
theorem config_pages_start {σ α : Type} (c : config_t σ α) (hc : c.rd.page_N = -1)
    (t : List Char) (n : Nat) :
    (config_pages (List.replicate (n + 1) t) c).rd.page_N = n + 1
    ∧ ((config_pages (List.replicate (n + 1) t) c).rd.page (n + 1)).busy = 1 := by
  rw [List.replicate_succ, config_pages_cons]
  have hfirst := config_page_next c t
  rw [if_pos hc] at hfirst
  have hk := config_pages_from t n
    (config_page { c with pa := { c.pa with input := [token_t.TOKEN t] } }) 0
    (by simpa using hfirst.1)
  have e : ((0 : Nat) : Int) + 1 + (n : Int) = (n : Int) + 1 := by push_cast; ring
  rw [e] at hk
  refine ⟨hk.1, ?_⟩
  by_cases hn : 1 ≤ n
  · exact hk.2 hn
  · have hn0 : n = 0 := by omega
    subst hn0
    simpa [config_pages] using hfirst.2.1

/-- The code on `mkpages` with a full page table: with every page busy and
dataset 0 selected, the command `mkpages 0` is accepted and leaves
`rd->page_N == READ_PAGE_MAX`. -/
theorem mkpages_past_table :
    (config_mkpages demo_world
      { demo_config [token_t.TOKEN "0".toList] with
        rd := { demo_reader (demo_closed (demo_plot 0)) with
                bind_N := 0, page_N := 1, page := fun _ => { demo_page with busy := 1 } } }).failed = 0
    ∧ (config_mkpages demo_world
      { demo_config [token_t.TOKEN "0".toList] with
        rd := { demo_reader (demo_closed (demo_plot 0)) with
                bind_N := 0, page_N := 1, page := fun _ => { demo_page with busy := 1 } } }).rd.page_N
      = demo_h.READ_PAGE_MAX := by
  decide

/-- C20, the code on a run of `page` commands: from a reader with no page
selected, `n + 1` commands `page t` are all accepted and leave
`rd->page_N == n + 1`, and the last of them marks `rd->page[n + 1]` busy,
whatever `READ_PAGE_MAX` is; with `n + 1 = READ_PAGE_MAX` the index is outside
the page table. -/
theorem page_N_unbounded {σ α : Type} (c : config_t σ α) (t : List Char) (n : Nat) :
    (config_pages (List.replicate (n + 1) t)
        { c with rd := { c.rd with page_N := -1 } }).rd.page_N = n + 1
    ∧ ((config_pages (List.replicate (n + 1) t)
        { c with rd := { c.rd with page_N := -1 } }).rd.page (n + 1)).busy = 1
    ∧ (∀ K : read_h, K.READ_PAGE_MAX = n + 1 →
        ¬ ((config_pages (List.replicate (n + 1) t)
            { c with rd := { c.rd with page_N := -1 } }).rd.page_N = -1
          ∨ (1 ≤ (config_pages (List.replicate (n + 1) t)
                { c with rd := { c.rd with page_N := -1 } }).rd.page_N
              ∧ (config_pages (List.replicate (n + 1) t)
                { c with rd := { c.rd with page_N := -1 } }).rd.page_N < K.READ_PAGE_MAX))) := by
  obtain ⟨hN, hB⟩ := config_pages_start { c with rd := { c.rd with page_N := -1 } } rfl t n
  refine ⟨hN, hB, ?_⟩
  intro K hK h
  rw [hN, hK] at h
  rcases h with h | h
  · omega
  · push_cast at h; omega

open data_hint format_t async_ret

theorem stoi_zero (mk : markup_t) : stoi mk "0".toList = some (0, []) := by
  rfl

/-- The function `readOpenUnified` on a file of floats that opens, for a
dataset that is closed and no length: the calls made and the dataset. -/
theorem readOpenUnified_float {σ α : Type} (A : fval_ops α) (P : plot_api (plot_t σ α) α)
    (X : plot_ext σ α) (E : env_t α) (K : read_h) (fd0 : Option (file_t × stream_t))
    (rbuf0 : Nat → α) (r : reader_t σ α) (dN : Nat) (cN lN : Int) (f : List Char)
    (fd : file_t × stream_t) (hfd : (r.pump.rd.data dN).fd = none)
    (hopen : E.fopen f = some fd) (hl : lN < 1) :
    (readOpenUnified A P X E K fd0 rbuf0 r dN cN lN (some f) FORMAT_BINARY_FLOAT).opened
        = r.opened ++ [open_call.fopen f,
            open_call.plotDataAlloc dN cN (E.length_of (E.fstatsize f) cN 4 + 1)]
    ∧ ((readOpenUnified A P X E K fd0 rbuf0 r dN cN lN (some f)
          FORMAT_BINARY_FLOAT).pump.rd.data dN).column_N = cN
    ∧ ((readOpenUnified A P X E K fd0 rbuf0 r dN cN lN (some f)
          FORMAT_BINARY_FLOAT).pump.rd.data dN).format = FORMAT_BINARY_FLOAT
    ∧ ((readOpenUnified A P X E K fd0 rbuf0 r dN cN lN (some f)
          FORMAT_BINARY_FLOAT).pump.rd.data dN).fd = some fd.1 := by
  have hne : FORMAT_BINARY_FLOAT ≠ FORMAT_PLAIN_TEXT := by decide
  unfold readOpenUnified
  simp only [hfd, hopen, ne_eq, not_true_eq_false, if_false, hne, if_true, hl]
  unfold readOpenUnified_bind
  simp only [hne, if_false, reader_t.alloc, pump_t.set_data, Function.update_same]
  refine ⟨?_, ?_, ?_, ?_⟩
  · simp
  · trivial
  · trivial
  · split <;> rfl

/-- C21: the commands `load` and `follow` pass the column count of a binary
format to `readOpenUnified` as the token denotes it, with no test: for every
integer `v` that the token of the column count denotes, 0 and the negative ones
included, a command `load 0 0 float v file` whose file opens is not reported as
failed, `plotDataAlloc` is called with `v` columns and with the length that the
division `sF / (v * sizeof(float))` gives, and `v` is stored as the column
count of the dataset. -/
theorem load_passes_any_column_count {σ α : Type} (W : world_t σ α) (c : config_t σ α)
    (flag_follow : Int) (tn f : List Char) (rest : List token_t) (v : Int) (r : List Char)
    (fd : file_t × stream_t)
    (hin : c.pa.input = token_t.TOKEN "0".toList :: token_t.TOKEN "0".toList
      :: token_t.TOKEN "float".toList :: token_t.TOKEN tn :: token_t.TOKEN f :: rest)
    (hv : stoi c.rd.mk_config tn = some (v, r))
    (hfd : (c.rd.pump.rd.data 0).fd = none)
    (hopen : W.E.fopen (cstr f) = some fd) :
    (config_load W c flag_follow).failed = 0
    ∧ (config_load W c flag_follow).rd.opened = c.rd.opened ++
        [open_call.fopen (cstr f),
         open_call.plotDataAlloc 0 v (W.E.length_of (W.E.fstatsize (cstr f)) v 4 + 1)]
    ∧ ((config_load W c flag_follow).rd.pump.rd.data 0).column_N = v
    ∧ ((config_load W c flag_follow).rd.pump.rd.data 0).format = FORMAT_BINARY_FLOAT := by
  have hfmt : format_of "float".toList = some FORMAT_BINARY_FLOAT := by decide
  have hD : ¬ ((0 : Int) ≥ PLOT_DATASET_MAX) := by decide
  have h0 := stoi_zero c.rd.mk_config
  unfold config_load lex_int next_token
  simp only [hin, h0, hv, hfmt, finish, bind, Except.bind, pure, Except.pure, Function.update_same,
    lt_self_iff_false, hD, or_self, if_false, if_true, ne_eq, not_true_eq_false]
  simp only [true_or, decide_True, if_true, Function.update_apply]
  norm_num
  have key := readOpenUnified_float W.A W.P W.X W.E W.K W.fd0 W.rbuf0
    { c.rd with pump := c.rd.pump.set_data 0 { c.rd.pump.rd.data 0 with follow := flag_follow } }
    0 v 0 (cstr f) fd (by simp [pump_t.set_data, hfd]) hopen (by decide)
  obtain ⟨k1, k2, k3, k4⟩ := key
  simp only [k4] at *
  simp only [reduceCtorEq, if_false]
  exact ⟨k1, k2, k3⟩

/-- C21 on a concrete command: `load 0 0 float 0 "a.bin"` where the file holds
four bytes. -/
theorem load_passes_any_column_count_witness :
    (config_load { demo_world with E := demo_file "abcd" }
      (demo_config [token_t.TOKEN "0".toList, token_t.TOKEN "0".toList,
        token_t.TOKEN "float".toList, token_t.TOKEN "0".toList,
        token_t.TOKEN "a.bin".toList]) 0).failed = 0
    ∧ ((config_load { demo_world with E := demo_file "abcd" }
      (demo_config [token_t.TOKEN "0".toList, token_t.TOKEN "0".toList,
        token_t.TOKEN "float".toList, token_t.TOKEN "0".toList,
        token_t.TOKEN "a.bin".toList]) 0).rd.pump.rd.data 0).column_N = 0 :=
  ⟨(load_passes_any_column_count { demo_world with E := demo_file "abcd" }
      (demo_config [token_t.TOKEN "0".toList, token_t.TOKEN "0".toList,
        token_t.TOKEN "float".toList, token_t.TOKEN "0".toList,
        token_t.TOKEN "a.bin".toList]) 0 "0".toList "a.bin".toList [] 0 []
      (file_t.file 0, "abcd".toList.map some) rfl (by decide) rfl (by decide)).1,
    (load_passes_any_column_count { demo_world with E := demo_file "abcd" }
      (demo_config [token_t.TOKEN "0".toList, token_t.TOKEN "0".toList,
        token_t.TOKEN "float".toList, token_t.TOKEN "0".toList,
        token_t.TOKEN "a.bin".toList]) 0 "0".toList "a.bin".toList [] 0 []
      (file_t.file 0, "abcd".toList.map some) rfl (by decide) rfl (by decide)).2.2.1⟩

open data_hint format_t async_ret

theorem to_size_t_nonneg (w : Nat) (n : Int) (h0 : 0 ≤ n) (h1 : n < 2 ^ w) :
    to_size_t w n = n.toNat := by
  unfold to_size_t
  rw [Int.emod_eq_of_lt h0 h1]

theorem to_size_t_neg (w : Nat) (n : Int) (h0 : n < 0) (h1 : -(2 ^ w) ≤ n) :
    ((to_size_t w n : Nat) : Int) = n + 2 ^ w := by
  unfold to_size_t
  have e : n % 2 ^ w = n + 2 ^ w := by
    rw [← Int.add_emod_self]
    exact Int.emod_eq_of_lt (by omega) (by omega)
  rw [e, Int.toNat_of_nonneg (by omega)]

/-- C22: the comparison `argi[0] > sizeof(rd->data[0].buf)` of the command
`preload` is made in `size_t`, so a negative `n` is converted to a large
unsigned number and passes: for an `int` `n` the command stores `n` into
`rd->preload` and reports no failure exactly when `n` is negative or exceeds the
size of the buffer; only `n` from 0 to the size of the buffer is rejected with
`rd` unchanged. The command `chunk` beside it rejects every negative `n`. -/
theorem preload_accepts_negative {σ α : Type} (w : Nat) (K : read_h) (c : config_t σ α)
    (n : Int) (hK : (K.sizeof_buf : Int) + 2147483648 < 2 ^ w)
    (hn : first_int c = some n) (h0 : -2147483648 ≤ n) (h1 : n ≤ 2147483647) :
    ((config_preload w K c).failed = 0 ↔ (n < 0 ∨ (K.sizeof_buf : Int) < n))
    ∧ (n < 0 ∨ (K.sizeof_buf : Int) < n → (config_preload w K c).rd.preload = n)
    ∧ (0 ≤ n → n ≤ (K.sizeof_buf : Int) →
        (config_preload w K c).failed = 1 ∧ (config_preload w K c).rd = c.rd)
    ∧ (n < 0 → (config_chunk c).failed = 1 ∧ (config_chunk c).rd = c.rd) := by
  have hl := lex_int_some { c with failed := 1 } 0 n hn
  have hcmp : to_size_t w n > K.sizeof_buf ↔ (n < 0 ∨ (K.sizeof_buf : Int) < n) := by
    by_cases hneg : n < 0
    · have := to_size_t_neg w n hneg (by omega)
      constructor
      · intro _; exact Or.inl hneg
      · intro _; omega
    · have := to_size_t_nonneg w n (by omega) (by omega)
      rw [this]
      constructor
      · intro h; right; omega
      · intro h; omega
  by_cases hc : to_size_t w n > K.sizeof_buf
  · have e : config_preload w K c =
        { c with pa := (next_token c.pa).2, argi := Function.update c.argi 0 n, failed := 0
                 rd := { c.rd with preload := n } } := by
      unfold config_preload
      rw [hl]
      simp [finish, hc, bind, Except.bind, pure, Except.pure]
    have hc2 := hcmp.mp hc
    refine ⟨?_, ?_, ?_, ?_⟩
    · rw [e]; simp [hc2]
    · intro _; rw [e]
    · intro a b; omega
    · intro hneg
      unfold config_chunk
      rw [hl]
      have : ¬ (n > 0) := by omega
      simp [finish, this, bind, Except.bind, pure, Except.pure]
  · have e : config_preload w K c =
        { c with pa := (next_token c.pa).2, argi := Function.update c.argi 0 n, failed := 1 } := by
      unfold config_preload
      rw [hl]
      simp [finish, hc, bind, Except.bind, pure, Except.pure]
    have hc2 : ¬ (n < 0 ∨ (K.sizeof_buf : Int) < n) := fun h => hc (hcmp.mpr h)
    refine ⟨?_, ?_, ?_, ?_⟩
    · rw [e]; simp [hc2]
    · intro h; exact absurd h hc2
    · intro _ _; rw [e]; simp
    · intro hneg; exact absurd (Or.inl hneg) hc2

theorem preload_accepts_negative_witness :
    (config_preload 64 demo_h (demo_config [token_t.TOKEN "-1".toList])).failed = 0
    ∧ (config_preload 64 demo_h (demo_config [token_t.TOKEN "-1".toList])).rd.preload = -1
    ∧ (config_chunk (demo_config [token_t.TOKEN "-1".toList])).failed = 1 := by
  have h := preload_accepts_negative 64 demo_h (demo_config [token_t.TOKEN "-1".toList]) (-1)
    (by decide) (by decide) (by decide) (by decide)
  exact ⟨h.1.mpr (Or.inl (by decide)), h.2.1 (Or.inl (by decide)), (h.2.2.2 (by decide)).1⟩

open data_hint format_t async_ret

/-- A value below `10^9` in absolute value is an `int`. -/
theorem wrap32_signed (n : Int) (D : Nat) (hn : n = 1 ∨ n = -1) (hD : D < 1000000000) :
    wrap32 (n * (D : Int)) = n * (D : Int) := by
  apply wrap32_small
  · rcases hn with h | h <;> subst h <;> omega
  · rcases hn with h | h <;> subst h <;> omega

/-- The digit loop of `stoi` from the accumulator `n * H` after `k` digits. -/
theorem stoi_loop_eq (n : Int) (H : Nat) (k : Nat) (s : List Char) (hk : k ≤ 9) :
    stoi_loop n (wrap32 (n * (H : Int))) k s =
      if k + (s.takeWhile (is_digit_of 10)).length ≤ 9 then
        some (wrap32 (n * (((s.takeWhile (is_digit_of 10)).foldl
            (fun a c => 10 * a + (digit_val c).getD 0) H : Nat) : Int)),
          k + (s.takeWhile (is_digit_of 10)).length, s.dropWhile (is_digit_of 10))
      else none := by
  induction s generalizing H k with
  | nil => simp [stoi_loop, hk]
  | cons c s ih =>
    rw [stoi_loop, is_dec_eq]
    by_cases hc : is_digit_of 10 c = true
    · have hv := dec_val_eq c (by rw [is_dec_eq]; exact hc)
      simp only [hc, if_true, List.takeWhile_cons_of_pos, List.dropWhile_cons_of_pos,
        List.length_cons, List.foldl_cons]
      have e : wrap32 (10 * wrap32 (n * (H : Int)) + dec_val c * n)
          = wrap32 (n * ((10 * H + (digit_val c).getD 0 : Nat) : Int)) := by
        rw [wrap32_step, hv]
        congr 1
        push_cast
        ring
      rw [e]
      by_cases hk1 : k + 1 > 9
      · have : ¬ (k + ((s.takeWhile (is_digit_of 10)).length + 1) ≤ 9) := by omega
        simp [hk1, this]
      · simp only [hk1, if_false]
        rw [ih _ (k + 1) (by omega)]
        have ea : k + 1 + (s.takeWhile (is_digit_of 10)).length
            = k + ((s.takeWhile (is_digit_of 10)).length + 1) := by omega
        simp only [ea]
    · have hc' : is_digit_of 10 c = false := by simpa using hc
      simp [hc', hk]

theorem takeWhile_digits (b : Nat) (s : List Char) :
    ∀ c ∈ s.takeWhile (is_digit_of b), is_digit_of b c = true := by
  intro c hc
  exact List.mem_takeWhile_imp hc

/-- The sign step in the words of the reference parser. -/
theorem sign_step_eq (s : List Char) :
    sign_step s = (if peek s = '-' then -1 else 1,
      if peek s = '-' ∨ peek s = '+' then s.tail else s) := by
  unfold sign_step
  by_cases h1 : peek s = '-'
  · simp [h1]
  · by_cases h2 : peek s = '+'
    · simp [h1, h2]
    · simp [h1, h2]

/-- The function `stoi` is the reference parser. -/
theorem stoi_eq_ref (mk : markup_t) (s : List Char) : stoi mk s = stoi_ref mk s := by
  unfold stoi stoi_ref
  rw [sign_step_eq]
  simp only
  generalize hn : (if peek s = '-' then (-1 : Int) else 1) = n
  have hn1 : n = 1 ∨ n = -1 := by
    by_cases h : peek s = '-'
    · rw [if_pos h] at hn; exact Or.inr hn.symm
    · rw [if_neg h] at hn; exact Or.inl hn.symm
  generalize (if peek s = '-' ∨ peek s = '+' then s.tail else s) = t
  have h := stoi_loop_eq n 0 0 t (by omega)
  have hz : wrap32 (n * ((0 : Nat) : Int)) = 0 := by simp [wrap32]
  rw [hz] at h
  simp only [h, Nat.zero_add]
  by_cases h9 : (t.takeWhile (is_digit_of 10)).length ≤ 9
  · simp only [h9, if_true]
    by_cases h0 : (t.takeWhile (is_digit_of 10)).length = 0
    · have : ¬ 1 ≤ (t.takeWhile (is_digit_of 10)).length := by omega
      simp [h0]
    · have h1 : 1 ≤ (t.takeWhile (is_digit_of 10)).length := by omega
      have hb := digits_bound 10 (t.takeWhile (is_digit_of 10)) 0 (takeWhile_digits 10 t)
      have hb9 : (t.takeWhile (is_digit_of 10)).foldl
          (fun a c => 10 * a + (digit_val c).getD 0) 0 < 1000000000 := by
        have hp : 10 ^ (t.takeWhile (is_digit_of 10)).length ≤ 10 ^ 9 :=
          Nat.pow_le_pow_right (by omega) h9
        have : (0 + 1) * 10 ^ (t.takeWhile (is_digit_of 10)).length ≤ 1000000000 := by
          simpa using hp
        omega
      rw [wrap32_signed n _ hn1 hb9]
      by_cases ht : is_term mk (peek (t.dropWhile (is_digit_of 10))) = true
      · simp [h0, h1, ht, digits_val]
      · simp [h0, h1, ht]
  · simp [h9]

theorem peek_ne_of_digit (c : Char) (s : List Char) (h : is_digit_of 10 c = true) :
    peek (c :: s) ≠ '-' ∧ peek (c :: s) ≠ '+' := by
  rw [peek_cons]
  constructor
  · intro hc; subst hc; simp [is_digit_of, digit_val] at h
  · intro hc; subst hc; simp [is_digit_of, digit_val] at h

theorem takeWhile_stop (p : Char → Bool) (r : List Char) (h : p (peek r) = false) :
    r.takeWhile p = [] ∧ r.dropWhile p = r := by
  cases r with
  | nil => simp
  | cons c r => rw [peek_cons] at h; simp [h]

/-- C23: `stoi` accepts a token exactly when it is an optional `+` or `-`, 1 to
9 decimal digits and a terminator (NUL, a space character or a line-end
character, and no digit itself); the result is then the signed decimal integer
denoted, which lies in `[-999999999, 999999999]`, and the returned pointer
addresses the terminator. A token that is rejected gives NULL without a store
to the output: the step of a command that reads an integer leaves `argi`. -/
theorem stoi_parses_decimal (mk : markup_t) (s : List Char) :
    stoi mk s = stoi_ref mk s
    ∧ (∀ v r, stoi mk s = some (v, r) →
        -999999999 ≤ v ∧ v ≤ 999999999 ∧ is_term mk (peek r) = true
        ∧ ∃ sg ds, (sg = [] ∨ sg = ['+'] ∨ sg = ['-']) ∧ 1 ≤ ds.length ∧ ds.length ≤ 9
          ∧ (∀ c ∈ ds, is_digit_of 10 c = true) ∧ s = sg ++ ds ++ r
          ∧ v = (if sg = ['-'] then -1 else 1) * (digits_val 10 ds : Int))
    ∧ (∀ sg ds r, (sg = [] ∨ sg = ['+'] ∨ sg = ['-']) → 1 ≤ ds.length → ds.length ≤ 9 →
        (∀ c ∈ ds, is_digit_of 10 c = true) → is_term mk (peek r) = true →
        is_digit_of 10 (peek r) = false → s = sg ++ ds ++ r →
        stoi mk s = some ((if sg = ['-'] then -1 else 1) * (digits_val 10 ds : Int), r))
    ∧ (∀ (σ α : Type) (c : config_t σ α) (i : Nat),
        stoi c.rd.mk_config (next_token c.pa).2.tbuf = none →
        (finish (lex_int c i)).argi = c.argi) := by
  refine ⟨stoi_eq_ref mk s, ?_, ?_, ?_⟩
  · intro v r h
    rw [stoi_eq_ref] at h
    have key : ∀ (sign : Int) (s1 : List Char), (sign = 1 ∨ sign = -1) →
        (if 1 ≤ (s1.takeWhile (is_digit_of 10)).length
            ∧ (s1.takeWhile (is_digit_of 10)).length ≤ 9
            ∧ is_term mk (peek (s1.dropWhile (is_digit_of 10))) = true then
          some (sign * (digits_val 10 (s1.takeWhile (is_digit_of 10)) : Int),
            s1.dropWhile (is_digit_of 10))
         else none) = some (v, r) →
        -999999999 ≤ v ∧ v ≤ 999999999 ∧ is_term mk (peek r) = true
        ∧ 1 ≤ (s1.takeWhile (is_digit_of 10)).length
        ∧ (s1.takeWhile (is_digit_of 10)).length ≤ 9
        ∧ s1 = s1.takeWhile (is_digit_of 10) ++ r
        ∧ v = sign * (digits_val 10 (s1.takeWhile (is_digit_of 10)) : Int) := by
      intro sign s1 hsign hh
      split at hh
      · rename_i hc
        obtain ⟨h1, h9, ht⟩ := hc
        simp only [Option.some.injEq, Prod.mk.injEq] at hh
        obtain ⟨hv, hr⟩ := hh
        have hb := digits_bound 10 (s1.takeWhile (is_digit_of 10)) 0 (takeWhile_digits 10 _)
        have hp : 10 ^ (s1.takeWhile (is_digit_of 10)).length ≤ 10 ^ 9 :=
          Nat.pow_le_pow_right (by omega) h9
        have hD : digits_val 10 (s1.takeWhile (is_digit_of 10)) < 1000000000 := by
          rw [digits_val_eq_foldl]
          have : (0 + 1) * 10 ^ (s1.takeWhile (is_digit_of 10)).length ≤ 1000000000 := by
            simpa using hp
          omega
        rw [hr] at ht
        have hsplit := List.takeWhile_append_dropWhile (is_digit_of 10) s1
        rw [hr] at hsplit
        refine ⟨?_, ?_, ht, h1, h9, hsplit.symm, hv.symm⟩
        · rcases hsign with e | e <;> subst e <;> rw [← hv] <;> omega
        · rcases hsign with e | e <;> subst e <;> rw [← hv] <;> omega
      · simp at hh
    unfold stoi_ref at h
    simp only at h
    by_cases hm : peek s = '-'
    · have hs : s = '-' :: s.tail := by
        cases s with
        | nil => simp [peek, NUL] at hm
        | cons c s => rw [peek_cons] at hm; rw [hm]; rfl
      simp only [hm, true_or, if_true] at h
      obtain ⟨b1, b2, ht, h1, h9, hsp, hv⟩ := key (-1) s.tail (Or.inr rfl) h
      refine ⟨b1, b2, ht, ['-'], _, Or.inr (Or.inr rfl), h1, h9, takeWhile_digits 10 _, ?_, ?_⟩
      · rw [List.append_assoc, ← hsp]; exact hs
      · simpa using hv
    · by_cases hpl : peek s = '+'
      · have hs : s = '+' :: s.tail := by
          cases s with
          | nil => simp [peek, NUL] at hpl
          | cons c s => rw [peek_cons] at hpl; rw [hpl]; rfl
        simp only [hm, hpl, or_true, if_true, if_false] at h
        obtain ⟨b1, b2, ht, h1, h9, hsp, hv⟩ := key 1 s.tail (Or.inl rfl) h
        refine ⟨b1, b2, ht, ['+'], _, Or.inr (Or.inl rfl), h1, h9, takeWhile_digits 10 _, ?_, ?_⟩
        · rw [List.append_assoc, ← hsp]; exact hs
        · simpa using hv
      · simp only [hm, hpl, or_self, if_false] at h
        obtain ⟨b1, b2, ht, h1, h9, hsp, hv⟩ := key 1 s (Or.inl rfl) h
        refine ⟨b1, b2, ht, [], _, Or.inl rfl, h1, h9, takeWhile_digits 10 _, ?_, ?_⟩
        · rw [List.nil_append]; exact hsp
        · simpa using hv
  · intro sg ds r hsg h1 h9 hds ht hnd hs
    rw [stoi_eq_ref]
    subst hs
    obtain ⟨e1, e2⟩ := takeWhile_stop (is_digit_of 10) r hnd
    have htk : (ds ++ r).takeWhile (is_digit_of 10) = ds := by
      rw [List.takeWhile_append_of_pos hds, e1, List.append_nil]
    have hdr : (ds ++ r).dropWhile (is_digit_of 10) = r := by
      rw [List.dropWhile_append_of_pos hds, e2]
    unfold stoi_ref
    rcases hsg with h | h | h
    · subst h
      cases ds with
      | nil => simp at h1
      | cons d ds =>
        have hd := peek_ne_of_digit d (ds ++ r) (hds d (List.mem_cons_self _ _))
        simp only [List.nil_append, List.cons_append] at hd htk hdr ⊢
        have h9b : ds.length ≤ 8 := by simpa using h9
        simp [hd.1, hd.2, htk, hdr, ht, h9b]
    · subst h
      simp only [List.singleton_append, List.cons_append, peek_cons, List.tail_cons]
      have hpm : ('+' : Char) ≠ '-' := by decide
      simp [hpm, htk, hdr, ht, h1, h9]
    · subst h
      simp only [List.singleton_append, List.cons_append, peek_cons, List.tail_cons]
      simp [htk, hdr, ht, h1, h9]
  · intro σ α c i hnone
    unfold lex_int
    simp only [hnone]
    split <;> rfl

open data_hint format_t async_ret

theorem horner_room (b A r M : Nat) (hb0 : 0 < b) (h : (A + 1) * b ^ (r + 1) ≤ M) :
    (b * A + (b - 1) + 1) * b ^ r ≤ M ∧ b * A + (b - 1) + 1 ≤ M := by
  have e : (A + 1) * b ^ (r + 1) = (b * (A + 1)) * b ^ r := by rw [pow_succ]; ring
  rw [e] at h
  have hb : b * A + (b - 1) + 1 ≤ b * (A + 1) := by
    rw [Nat.mul_add]; omega
  have h1 : (b * A + (b - 1) + 1) * b ^ r ≤ M :=
    le_trans (Nat.mul_le_mul_right _ hb) h
  refine ⟨h1, ?_⟩
  have hp : 1 ≤ b ^ r := Nat.one_le_pow _ _ hb0
  calc b * A + (b - 1) + 1 = (b * A + (b - 1) + 1) * 1 := by ring
    _ ≤ (b * A + (b - 1) + 1) * b ^ r := Nat.mul_le_mul_left _ hp
    _ ≤ M := h1

theorem dec_val_range (c : Char) (h : is_dec c = true) : 0 ≤ dec_val c ∧ dec_val c ≤ 9 := by
  unfold is_dec at h
  simp only [Bool.and_eq_true, decide_eq_true_eq] at h
  unfold dec_val
  omega

theorem oct_val_range (c : Char) (h : is_oct c = true) : 0 ≤ dec_val c ∧ dec_val c ≤ 7 := by
  unfold is_oct at h
  simp only [Bool.and_eq_true, decide_eq_true_eq] at h
  unfold dec_val
  omega

theorem hex_val_range (c : Char) (i : Int) (h : hex_val c = some i) : 0 ≤ i ∧ i ≤ 15 := by
  unfold hex_val at h
  split at h
  · simp only [Option.some.injEq] at h; omega
  · split at h
    · simp only [Option.some.injEq] at h; omega
    · split at h
      · simp only [Option.some.injEq] at h; omega
      · simp at h

/-- Through the ninth digit the accumulator of `stoi` is below `10^9` in
absolute value. -/
theorem stoi_steps_bound (n : Int) (hn : n = 1 ∨ n = -1) (s : List Char) :
    ∀ (i : Int) (A k r : Nat), -(A : Int) ≤ i → i ≤ A → (A + 1) * 10 ^ r ≤ 1000000000 →
      ∀ v ∈ (stoi_steps n i k s).take r, -999999999 ≤ v ∧ v ≤ 999999999 := by
  induction s with
  | nil => intro i A k r _ _ _ v hv; simp [stoi_steps] at hv
  | cons c s ih =>
    intro i A k r h1 h2 hA v hv
    rw [stoi_steps] at hv
    by_cases hc : is_dec c = true
    · simp only [hc, if_true] at hv
      cases r with
      | zero => simp at hv
      | succ r =>
        rw [List.take_succ_cons] at hv
        have hd := dec_val_range c hc
        obtain ⟨hA1, hA3⟩ := horner_room 10 A r 1000000000 (by omega) hA
        simp only [Nat.add_one_sub_one] at hA1 hA3
        have hv0 : -((10 * A + 9 : Nat) : Int) ≤ 10 * i + dec_val c * n
            ∧ 10 * i + dec_val c * n ≤ ((10 * A + 9 : Nat) : Int) := by
          rcases hn with e | e <;> subst e <;> push_cast <;> omega
        rcases List.mem_cons.mp hv with e | e
        · subst e; omega
        · by_cases hk : k + 1 > 9
          · simp [hk] at e
          · simp only [hk, if_false] at e
            rw [wrap32_small _ (by omega) (by omega)] at e
            exact ih _ (10 * A + 9) (k + 1) r hv0.1 hv0.2 hA1 v e
    · simp [hc] at hv

/-- Through the seventh digit the accumulator of `htoi` is below `16^7`. -/
theorem htoi_steps_bound (s : List Char) :
    ∀ (h : Int) (A k r : Nat), 0 ≤ h → h ≤ A → (A + 1) * 16 ^ r ≤ 268435456 →
      ∀ v ∈ (htoi_steps h k s).take r, 0 ≤ v ∧ v ≤ 268435455 := by
  induction s with
  | nil => intro h A k r _ _ _ v hv; simp [htoi_steps] at hv
  | cons c s ih =>
    intro h A k r h1 h2 hA v hv
    rw [htoi_steps] at hv
    cases hc : hex_val c with
    | none => simp [hc] at hv
    | some i =>
      simp only [hc] at hv
      cases r with
      | zero => simp at hv
      | succ r =>
        rw [List.take_succ_cons] at hv
        have hd := hex_val_range c i hc
        obtain ⟨hA1, hA3⟩ := horner_room 16 A r 268435456 (by omega) hA
        simp only [Nat.add_one_sub_one] at hA1 hA3
        have hv0 : 0 ≤ 16 * h + i ∧ 16 * h + i ≤ ((16 * A + 15 : Nat) : Int) := by
          push_cast; omega
        rcases List.mem_cons.mp hv with e | e
        · subst e; omega
        · by_cases hk : k + 1 > 8
          · simp [hk] at e
          · simp only [hk, if_false] at e
            rw [wrap32_small _ (by omega) (by omega)] at e
            exact ih _ (16 * A + 15) (k + 1) r hv0.1 hv0.2 hA1 v e

/-- Through the tenth digit the accumulator of `otoi` is below `8^10`. -/
theorem otoi_steps_bound (s : List Char) :
    ∀ (h : Int) (A k r : Nat), 0 ≤ h → h ≤ A → (A + 1) * 8 ^ r ≤ 1073741824 →
      ∀ v ∈ (otoi_steps h k s).take r, 0 ≤ v ∧ v ≤ 1073741823 := by
  induction s with
  | nil => intro h A k r _ _ _ v hv; simp [otoi_steps] at hv
  | cons c s ih =>
    intro h A k r h1 h2 hA v hv
    rw [otoi_steps] at hv
    by_cases hc : is_oct c = true
    · simp only [hc, if_true] at hv
      cases r with
      | zero => simp at hv
      | succ r =>
        rw [List.take_succ_cons] at hv
        have hd := oct_val_range c hc
        obtain ⟨hA1, hA3⟩ := horner_room 8 A r 1073741824 (by omega) hA
        simp only [Nat.add_one_sub_one] at hA1 hA3
        have hv0 : 0 ≤ 8 * h + dec_val c ∧ 8 * h + dec_val c ≤ ((8 * A + 7 : Nat) : Int) := by
          push_cast; omega
        rcases List.mem_cons.mp hv with e | e
        · subst e; omega
        · by_cases hk : k + 1 > 11
          · simp [hk] at e
          · simp only [hk, if_false] at e
            rw [wrap32_small _ (by omega) (by omega)] at e
            exact ih _ (8 * A + 7) (k + 1) r hv0.1 hv0.2 hA1 v e
    · simp [hc] at hv

/-- The digit loop of `stoi` holds, when it is left without NULL, the last
value of its accumulator reduced to `int`, after as many digits as values. -/
theorem stoi_loop_steps (n : Int) (s : List Char) :
    ∀ (i : Int) (k : Nat) (x : Int × Nat × List Char), k ≤ 9 → stoi_loop n i k s = some x →
      x.1 = (((stoi_steps n i k s).map wrap32).getLast?).getD i
      ∧ x.2.1 = k + (stoi_steps n i k s).length ∧ x.2.1 ≤ 9 := by
  induction s with
  | nil => intro i k x hk h; simp [stoi_loop] at h; subst h; simp [stoi_steps, hk]
  | cons c s ih =>
    intro i k x hk h
    rw [stoi_loop] at h
    rw [stoi_steps]
    by_cases hc : is_dec c = true
    · simp only [hc, if_true] at h ⊢
      by_cases hk1 : k + 1 > 9
      · simp [hk1] at h
      · simp only [hk1, if_false] at h ⊢
        obtain ⟨e1, e2, e3⟩ := ih _ (k + 1) x (by omega) h
        refine ⟨?_, ?_, e3⟩
        · rw [e1, List.map_cons, List.getLast?_cons]; rfl
        · rw [e2, List.length_cons]; omega
    · simp only [hc] at h ⊢
      simp at h
      subst h
      simp [hk]

/-- The accumulators take at most 10, 9 and 12 values. -/
theorem stoi_steps_length (n : Int) (s : List Char) :
    ∀ (i : Int) (k : Nat), k ≤ 9 → k + (stoi_steps n i k s).length ≤ 10 := by
  induction s with
  | nil => intro i k hk; simp [stoi_steps]; omega
  | cons c s ih =>
    intro i k hk
    rw [stoi_steps]
    by_cases hc : is_dec c = true
    · simp only [hc, if_true, List.length_cons]
      by_cases hk1 : k + 1 > 9
      · simp [hk1]; omega
      · simp only [hk1, if_false]
        have := ih (wrap32 (10 * i + dec_val c * n)) (k + 1) (by omega)
        omega
    · simp [hc]; omega

theorem htoi_steps_length (s : List Char) :
    ∀ (h : Int) (k : Nat), k ≤ 8 → k + (htoi_steps h k s).length ≤ 9 := by
  induction s with
  | nil => intro h k hk; simp [htoi_steps]; omega
  | cons c s ih =>
    intro h k hk
    rw [htoi_steps]
    cases hc : hex_val c with
    | none => simp; omega
    | some i =>
      simp only [List.length_cons]
      by_cases hk1 : k + 1 > 8
      · simp [hk1]; omega
      · simp only [hk1, if_false]
        have := ih (wrap32 (16 * h + i)) (k + 1) (by omega)
        omega

theorem otoi_steps_length (s : List Char) :
    ∀ (h : Int) (k : Nat), k ≤ 11 → k + (otoi_steps h k s).length ≤ 12 := by
  induction s with
  | nil => intro h k hk; simp [otoi_steps]; omega
  | cons c s ih =>
    intro h k hk
    rw [otoi_steps]
    by_cases hc : is_oct c = true
    · simp only [hc, if_true, List.length_cons]
      by_cases hk1 : k + 1 > 11
      · simp [hk1]; omega
      · simp only [hk1, if_false]
        have := ih (wrap32 (8 * h + dec_val c)) (k + 1) (by omega)
        omega
    · simp [hc]; omega

theorem sign_step_unit (s : List Char) : (sign_step s).1 = 1 ∨ (sign_step s).1 = -1 := by
  unfold sign_step
  by_cases h1 : peek s = '-'
  · simp [h1]
  · by_cases h2 : peek s = '+'
    · simp [h1, h2]
    · simp [h1, h2]

/-- C24, the claim as written fails: the step of the tenth decimal digit is
computed before the count is tested, and the eighth hexadecimal and the
eleventh octal digit are within the limits; `9999999999` gives `stoi` the value
9999999999, and the accepted tokens `FFFFFFFF` and `37777777777` give `htoi` and
`otoi` the value 4294967295, all outside the range of `int`. -/
theorem accumulator_leaves_int_range :
    (9999999999 ∈ stoi_values "9999999999".toList ∧ ¬ in_int32 9999999999)
    ∧ (4294967295 ∈ htoi_values "FFFFFFFF".toList ∧ ¬ in_int32 4294967295
        ∧ htoi mk_default "FFFFFFFF".toList ≠ none)
    ∧ (4294967295 ∈ otoi_values "37777777777".toList
        ∧ otoi mk_default "37777777777".toList ≠ none) := by
  refine ⟨⟨?_, ?_⟩, ⟨?_, ?_, ?_⟩, ⟨?_, ?_⟩⟩
  · decide
  · unfold in_int32; omega
  · decide
  · unfold in_int32; omega
  · decide
  · decide
  · decide

/-- C24 (amended): the accumulators stay within the signed 32-bit range
through the first 9 digits of `stoi`, hence at every step of a token that `stoi`
accepts, through the first 7 digits of `htoi` and through the first 10 digits of
`otoi`; the accumulators are given at most 10, 9 and 12 values, and the result
of an accepted `stoi` is the last of them. The steps after those (the tenth
decimal digit, which is rejected after the step, the eighth and ninth
hexadecimal digit, the eleventh and twelfth octal digit) can leave the range. -/
theorem accumulators_in_int_range (mk : markup_t) (s : List Char) :
    (∀ v ∈ (stoi_values s).take 9, in_int32 v)
    ∧ (∀ x, stoi mk s = some x →
        (∀ v ∈ stoi_values s, in_int32 v) ∧ (stoi_values s).getLast? = some x.1)
    ∧ (∀ v ∈ (htoi_values s).take 7, in_int32 v)
    ∧ (∀ v ∈ (otoi_values s).take 10, in_int32 v)
    ∧ (stoi_values s).length ≤ 10 ∧ (htoi_values s).length ≤ 9
    ∧ (otoi_values s).length ≤ 12 := by
  have hs9 : ∀ v ∈ (stoi_values s).take 9, -999999999 ≤ v ∧ v ≤ 999999999 :=
    stoi_steps_bound _ (sign_step_unit s) _ 0 0 0 9 (by simp) (by simp) (by norm_num)
  refine ⟨?_, ?_, ?_, ?_, ?_, ?_, ?_⟩
  · intro v hv
    have := hs9 v hv
    unfold in_int32; omega
  · intro x hx
    unfold stoi at hx
    simp only at hx
    cases hl : stoi_loop (sign_step s).1 0 0 (sign_step s).2 with
    | none => simp [hl] at hx
    | some y =>
      obtain ⟨i, k, r⟩ := y
      simp only [hl] at hx
      obtain ⟨e1, e2, e3⟩ := stoi_loop_steps _ _ 0 0 (i, k, r) (by omega) hl
      simp only at e1 e2 e3
      have hlen : (stoi_values s).length ≤ 9 := by unfold stoi_values; omega
      have htake : (stoi_values s).take 9 = stoi_values s := List.take_of_length_le hlen
      rw [htake] at hs9
      by_cases hk : k = 0
      · simp [hk] at hx
      · simp only [hk, if_false] at hx
        split at hx
        · simp only [Option.some.injEq] at hx
          subst hx
          refine ⟨fun v hv => ?_, ?_⟩
          · have := hs9 v hv
            unfold in_int32; omega
          · have hne : stoi_values s ≠ [] := by
              intro h0
              unfold stoi_values at h0
              rw [h0] at e2
              simp at e2
              exact hk e2
            obtain ⟨l, a, ha⟩ := List.eq_nil_or_concat (stoi_values s) |>.resolve_left hne
            have hmem : a ∈ stoi_values s := by rw [ha]; simp
            have hab := hs9 a hmem
            show (stoi_values s).getLast? = some i
            rw [e1]
            show _ = some ((((stoi_values s).map wrap32).getLast?).getD 0)
            rw [ha]
            simp only [List.concat_eq_append, List.map_append, List.map_cons, List.map_nil,
              List.getLast?_append, List.getLast?_singleton]
            show some a = some (wrap32 a)
            rw [wrap32_small _ (by omega) (by omega)]
        · simp at hx
  · intro v hv
    have := htoi_steps_bound _ 0 0 0 7 (by simp) (by simp) (by norm_num) v hv
    unfold in_int32; omega
  · intro v hv
    have := otoi_steps_bound _ 0 0 0 10 (by simp) (by simp) (by norm_num) v hv
    unfold in_int32; omega
  · have := stoi_steps_length (sign_step s).1 (sign_step s).2 0 0 (by omega)
    unfold stoi_values; omega
  · have := htoi_steps_length
      (if peek s = '0' ∧ peek s.tail = 'x' then s.tail.tail else s) 0 0 (by omega)
    unfold htoi_values; omega
  · have := otoi_steps_length s 0 0 (by omega)
    unfold otoi_values; omega

open data_hint format_t async_ret

theorem token_text_nil (mk : markup_t) : token_text mk [] = [] := rfl

theorem token_text_term (mk : markup_t) (c : Char) (s : List Char) (h : is_term mk c = true) :
    token_text mk (c :: s) = [] := by
  simp [token_text, h]

theorem token_text_cons (mk : markup_t) (c : Char) (s : List Char) (h : is_term mk c = false) :
    token_text mk (c :: s) = c :: token_text mk s := by
  simp [token_text, h]

/-- The loop of `TEXT_GetLabel` walks the tokens of the buffer: the count, the
labels and the hints. -/
theorem TEXT_GetLabel_loop_spec (mk : markup_t) (K : read_h) (T : Nat)
    (hT : K.READ_TOKEN_MAX = T + 1) (hT1 : 1 ≤ T) (s : List Char) :
    ∀ (m N : Nat) (cur : List Char) (st : label_t), N < K.READ_COLUMN_MAX →
      (m ≠ 0 → cur.length = m ∧ m ≤ T ∧ 1 ≤ N) →
      (TEXT_GetLabel_loop mk K m N cur st s).1
          = min (N + (tokens_from mk (decide (m = 0)) s).length) K.READ_COLUMN_MAX
      ∧ (m ≠ 0 → (TEXT_GetLabel_loop mk K m N cur st s).2.label (N - 1)
          = (cur ++ token_text mk s).take T)
      ∧ (∀ j t, N + j + 1 < K.READ_COLUMN_MAX →
          (tokens_from mk (decide (m = 0)) s)[j]? = some t →
          (TEXT_GetLabel_loop mk K m N cur st s).2.label (N + j) = (token_text mk t).take T)
      ∧ (∀ j, N + j < K.READ_COLUMN_MAX → j < (tokens_from mk (decide (m = 0)) s).length →
          (TEXT_GetLabel_loop mk K m N cur st s).2.hint (N + j) = DATA_HINT_NONE)
      ∧ (∀ i, (i + 1 < N ∨ (m = 0 ∧ i < N) ∨ K.READ_COLUMN_MAX ≤ i + 1
            ∨ N + (tokens_from mk (decide (m = 0)) s).length ≤ i) →
          (TEXT_GetLabel_loop mk K m N cur st s).2.label i = st.label i)
      ∧ (∀ i, (i < N ∨ K.READ_COLUMN_MAX ≤ i
            ∨ N + (tokens_from mk (decide (m = 0)) s).length ≤ i) →
          (TEXT_GetLabel_loop mk K m N cur st s).2.hint i = st.hint i) := by
  have hstop : ∀ (m N : Nat) (cur : List Char) (st : label_t), N < K.READ_COLUMN_MAX →
      (m ≠ 0 → cur.length = m ∧ m ≤ T ∧ 1 ≤ N) →
      (m ≠ 0 → (if m ≠ 0 then st.close N cur else st).label (N - 1) = (cur ++ []).take T)
      ∧ (∀ i, (i + 1 < N ∨ (m = 0 ∧ i < N) ∨ K.READ_COLUMN_MAX ≤ i + 1 ∨ N + 0 ≤ i) →
          (if m ≠ 0 then st.close N cur else st).label i = st.label i)
      ∧ (∀ i, (if m ≠ 0 then st.close N cur else st).hint i = st.hint i) := by
    intro m N cur st hN hm
    refine ⟨?_, ?_, ?_⟩
    · intro h
      obtain ⟨h1, h2, _⟩ := hm h
      simp [h, label_t.close, List.take_of_length_le (show cur.length ≤ T by omega)]
    · intro i hi
      by_cases h : m = 0
      · simp [h]
      · obtain ⟨h1, h2, h3⟩ := hm h
        have hne : i ≠ N - 1 := by omega
        simp [h, label_t.close, Function.update_noteq hne]
    · intro i
      by_cases h : m = 0
      · simp [h]
      · simp [h, label_t.close]
  induction s with
  | nil =>
    intro m N cur st hN hm
    obtain ⟨a, b, c⟩ := hstop m N cur st hN hm
    simp only [TEXT_GetLabel_loop, tokens_from_nil, token_text_nil, List.length_nil]
    refine ⟨by simp; omega, a, ?_, ?_, b, fun i _ => c i⟩
    · intro j t _ h; simp at h
    · intro j _ h; simp at h
  | cons c s ih =>
    intro m N cur st hN hm
    by_cases hc : c = NUL
    · subst hc
      obtain ⟨a, b, c⟩ := hstop m N cur st hN hm
      simp only [TEXT_GetLabel_loop, tokens_from_NUL, token_text_term mk NUL s (is_term_NUL mk),
        List.length_nil, if_true]
      refine ⟨by simp; omega, a, ?_, ?_, b, fun i _ => c i⟩
      · intro j t _ h; simp at h
      · intro j _ h; simp at h
    · rw [tokens_from_cons mk _ c s hc]
      have hterm := is_term_of_ne_NUL mk c hc
      by_cases hs : is_sep mk c = true
      · have hterm1 : is_term mk c = true := by rw [hterm]; exact hs
        rw [token_text_term mk c s hterm1]
        simp only [hterm1, Bool.not_true, Bool.and_false, Bool.false_eq_true, if_false,
          List.nil_append]
        by_cases h : m = 0
        · subst h
          have e : TEXT_GetLabel_loop mk K 0 N cur st (c :: s)
              = TEXT_GetLabel_loop mk K 0 N cur st s := by
            simp [TEXT_GetLabel_loop, hc, hs]
          rw [e]
          obtain ⟨h1, h2, h3, h4, h5, h6⟩ := ih 0 N cur st hN (by simp)
          simp only [decide_True] at h1 h2 h3 h4 h5 h6
          exact ⟨h1, fun hh => absurd rfl hh, h3, h4, fun i hi => h5 i (by simpa using hi), h6⟩
        · obtain ⟨m1, m2, m3⟩ := hm h
          have e : TEXT_GetLabel_loop mk K m N cur st (c :: s)
              = TEXT_GetLabel_loop mk K 0 N cur (st.close N cur) s := by
            simp [TEXT_GetLabel_loop, hc, hs, h]
          rw [e]
          obtain ⟨h1, h2, h3, h4, h5, h6⟩ := ih 0 N cur (st.close N cur) hN (by simp)
          simp only [decide_True] at h1 h2 h3 h4 h5 h6
          refine ⟨h1, ?_, h3, h4, ?_, ?_⟩
          · intro _
            rw [h5 (N - 1) (Or.inr (Or.inl ⟨trivial, by omega⟩))]
            simp [label_t.close, List.take_of_length_le (show cur.length ≤ T by omega)]
          · intro i hi
            have hi2 : i + 1 < N ∨ K.READ_COLUMN_MAX ≤ i + 1
                ∨ N + (tokens_from mk true s).length ≤ i := by
              rcases hi with hi | hi | hi | hi
              · exact Or.inl hi
              · exact absurd hi.1 h
              · exact Or.inr (Or.inl hi)
              · exact Or.inr (Or.inr hi)
            have hne : i ≠ N - 1 := by omega
            rw [h5 i (by omega)]
            simp [label_t.close, Function.update_noteq hne]
          · intro i hi
            rw [h6 i hi]
            simp [label_t.close]
      · have hs' : is_sep mk c = false := by simpa using hs
        have hterm0 : is_term mk c = false := by rw [hterm]; exact hs'
        rw [token_text_cons mk c s hterm0]
        by_cases h : m = 0
        · subst h
          simp only [decide_True, hterm0, Bool.not_false, Bool.and_self, if_true,
            List.singleton_append, List.length_cons]
          by_cases hfull : N + 1 ≥ K.READ_COLUMN_MAX
          · have e : TEXT_GetLabel_loop mk K 0 N cur st (c :: s)
                = (N + 1, { st with hint := Function.update st.hint N DATA_HINT_NONE }) := by
              simp [TEXT_GetLabel_loop, hc, hs', hfull]
            rw [e]
            refine ⟨by simp; omega, fun hh => absurd rfl hh, ?_, ?_, ?_, ?_⟩
            · intro j t hj _; omega
            · intro j hj _
              have : j = 0 := by omega
              subst this
              simp
            · intro i _; rfl
            · intro i hi
              have hne : i ≠ N := by omega
              simp [Function.update_noteq hne]
          · have hN1 : N + 1 < K.READ_COLUMN_MAX := by omega
            have hroom : (0 : Int) < (K.READ_TOKEN_MAX : Int) - 1 := by rw [hT]; push_cast; omega
            have e : TEXT_GetLabel_loop mk K 0 N cur st (c :: s)
                = TEXT_GetLabel_loop mk K 1 (N + 1) [c]
                    { st with hint := Function.update st.hint N DATA_HINT_NONE } s := by
              simp [TEXT_GetLabel_loop, hc, hs', hfull, hroom]
            rw [e]
            obtain ⟨h1, h2, h3, h4, h5, h6⟩ := ih 1 (N + 1) [c]
              { st with hint := Function.update st.hint N DATA_HINT_NONE } hN1
              (fun _ => ⟨rfl, hT1, by omega⟩)
            simp only [show (1 : Nat) ≠ 0 by decide, decide_False, ne_eq, not_false_eq_true,
              forall_true_left, Nat.add_sub_cancel, false_and, false_or] at h1 h2 h3 h4 h5 h6
            refine ⟨by rw [h1]; congr 1; omega, fun hh => absurd rfl hh, ?_, ?_, ?_, ?_⟩
            · intro j t hj ht
              cases j with
              | zero =>
                simp only [List.getElem?_cons_zero, Option.some.injEq] at ht
                subst ht
                simp only [Nat.add_zero]
                rw [h2, token_text_cons mk c s hterm0]
                rfl
              | succ j =>
                simp only [List.getElem?_cons_succ] at ht
                have := h3 j t (by omega) ht
                have e1 : N + (j + 1) = N + 1 + j := by omega
                rw [e1, this]
            · intro j hj hlt
              cases j with
              | zero =>
                simp only [Nat.add_zero]
                rw [h6 N (Or.inl (by omega))]
                simp
              | succ j =>
                have e1 : N + (j + 1) = N + 1 + j := by omega
                rw [e1]
                exact h4 j (by omega) (by omega)
            · intro i hi
              rw [h5 i (by omega)]
            · intro i hi
              rw [h6 i (by omega)]
              have hne : i ≠ N := by omega
              simp [Function.update_noteq hne]
        · obtain ⟨m1, m2, m3⟩ := hm h
          simp only [h, decide_False, Bool.false_and, Bool.false_eq_true, if_false,
            List.nil_append, hterm0]
          by_cases hroom : m < T
          · have hroomi : (m : Int) < (K.READ_TOKEN_MAX : Int) - 1 := by
              rw [hT]; push_cast; omega
            have e : TEXT_GetLabel_loop mk K m N cur st (c :: s)
                = TEXT_GetLabel_loop mk K (m + 1) N (cur ++ [c]) st s := by
              simp [TEXT_GetLabel_loop, hc, hs', h, hroomi]
            rw [e]
            obtain ⟨h1, h2, h3, h4, h5, h6⟩ := ih (m + 1) N (cur ++ [c]) st hN
              (fun _ => ⟨by simp [m1], by omega, m3⟩)
            simp only [Nat.succ_ne_zero, decide_False, ne_eq, not_false_eq_true,
              forall_true_left, false_and, false_or] at h1 h2 h3 h4 h5 h6
            refine ⟨h1, fun _ => ?_, h3, h4, ?_, h6⟩
            · rw [h2]; simp
            · intro i hi
              exact h5 i (by simpa [h] using hi)
          · have hroomi : ¬ ((m : Int) < (K.READ_TOKEN_MAX : Int) - 1) := by
              rw [hT]; push_cast; omega
            have e : TEXT_GetLabel_loop mk K m N cur st (c :: s)
                = TEXT_GetLabel_loop mk K m N cur st s := by
              simp [TEXT_GetLabel_loop, hc, hs', h, hroomi]
            rw [e]
            obtain ⟨h1, h2, h3, h4, h5, h6⟩ := ih m N cur st hN hm
            simp only [h, decide_False, ne_eq, not_false_eq_true,
              forall_true_left, false_and, false_or] at h1 h2 h3 h4 h5 h6
            refine ⟨h1, fun _ => ?_, h3, h4, ?_, h6⟩
            · rw [h2]
              have hl : cur.length = T := by omega
              rw [List.take_append_of_le_length (by omega),
                List.take_append_of_le_length (by omega)]
            · intro i hi
              exact h5 i (by simpa [h] using hi)

/-- The count of `TEXT_GetLabel` is the token count of the line. -/
theorem TEXT_GetLabel_count (mk : markup_t) (K : read_h) (hC : 1 ≤ K.READ_COLUMN_MAX)
    (hT : 2 ≤ K.READ_TOKEN_MAX) (st : label_t) (line : List Char) :
    (TEXT_GetLabel mk K st line).1 = token_count mk K line := by
  have h := (TEXT_GetLabel_loop_spec mk K (K.READ_TOKEN_MAX - 1) (by omega) (by omega) line
    0 0 [] st (by omega) (by simp)).1
  simpa [TEXT_GetLabel, token_count, line_tokens] using h

/-- The count of `TEXT_GetRow` is the token count of the line. -/
theorem TEXT_GetRow_count {α : Type} (A : fval_ops α) (mk : markup_t) (K : read_h)
    (hC : 1 ≤ K.READ_COLUMN_MAX) (st : row_t α) (line : List Char) :
    (TEXT_GetRow A mk K.READ_COLUMN_MAX st line).1 = token_count mk K line :=
  (TEXT_GetRow_spec A mk K.READ_COLUMN_MAX (by omega) st line).1

/-- C25: the row tokenizer and the label tokenizer agree on the column count.
With room for a column and for a byte of a label (`READ_COLUMN_MAX` at least 1,
`READ_TOKEN_MAX` at least 2), for every line, every markup and every state of
the arrays, `TEXT_GetRow` and `TEXT_GetLabel` return the same number: the
number of tokens of the line, which are the maximal runs of bytes that are not
separators, or `READ_COLUMN_MAX` if there are more. -/
theorem tokenizers_agree_on_count {α : Type} (A : fval_ops α) (mk : markup_t) (K : read_h)
    (hC : 1 ≤ K.READ_COLUMN_MAX) (hT : 2 ≤ K.READ_TOKEN_MAX) (rst : row_t α) (lst : label_t)
    (line : List Char) :
    (TEXT_GetRow A mk K.READ_COLUMN_MAX rst line).1
        = min (line_tokens mk line).length K.READ_COLUMN_MAX
    ∧ (TEXT_GetLabel mk K lst line).1 = min (line_tokens mk line).length K.READ_COLUMN_MAX
    ∧ (TEXT_GetRow A mk K.READ_COLUMN_MAX rst line).1 = (TEXT_GetLabel mk K lst line).1 := by
  have h1 := TEXT_GetRow_count A mk K hC rst line
  have h2 := TEXT_GetLabel_count mk K hC hT lst line
  unfold token_count at h1 h2
  exact ⟨h1, h2, by rw [h1, h2]⟩

/-- C25 on a concrete line: three tokens between spaces and a tab. -/
theorem tokenizers_agree_on_count_witness :
    (TEXT_GetRow exact_ops mk_default demo_h.READ_COLUMN_MAX
        { row := fun _ => fexact.nan, hint := fun _ => DATA_HINT_NONE } " 1.5  ab\t7 ".toList).1
      = (TEXT_GetLabel mk_default demo_h
        { label := fun _ => [], hint := fun _ => DATA_HINT_NONE } " 1.5  ab\t7 ".toList).1 :=
  (tokenizers_agree_on_count exact_ops mk_default demo_h (by decide) (by decide)
    { row := fun _ => fexact.nan, hint := fun _ => DATA_HINT_NONE }
    { label := fun _ => [], hint := fun _ => DATA_HINT_NONE } " 1.5  ab\t7 ".toList).2.2

/-- C26: `TEXT_GetLabel` writes the labels of the columns but the last one of
the table. With `READ_COLUMN_MAX` at least 1 and `READ_TOKEN_MAX` at least 2 it
returns the number `n` of tokens of the line, at most `READ_COLUMN_MAX`; every
column below `n` has its hint reset to `DATA_HINT_NONE`; a column `i` below `n`
with `i + 1 < READ_COLUMN_MAX` has its label set to the first
`READ_TOKEN_MAX - 1` bytes of token `i`; labels and hints from `n` on are left.
On a line of `READ_COLUMN_MAX` tokens or more the loop breaks before the first
byte of the label of column `READ_COLUMN_MAX - 1` is stored: the column is
counted and its hint is reset, and its label is left as it was. -/
theorem TEXT_GetLabel_leaves_last_label (mk : markup_t) (K : read_h)
    (hC : 1 ≤ K.READ_COLUMN_MAX) (hT : 2 ≤ K.READ_TOKEN_MAX) (st : label_t)
    (line : List Char) :
    (TEXT_GetLabel mk K st line).1 = min (line_tokens mk line).length K.READ_COLUMN_MAX
    ∧ (∀ i t, i + 1 < K.READ_COLUMN_MAX → (line_tokens mk line)[i]? = some t →
        (TEXT_GetLabel mk K st line).2.label i
          = (token_text mk t).take (K.READ_TOKEN_MAX - 1))
    ∧ (∀ i, i < (TEXT_GetLabel mk K st line).1 →
        (TEXT_GetLabel mk K st line).2.hint i = DATA_HINT_NONE)
    ∧ (∀ i, (TEXT_GetLabel mk K st line).1 ≤ i →
        (TEXT_GetLabel mk K st line).2.label i = st.label i
        ∧ (TEXT_GetLabel mk K st line).2.hint i = st.hint i)
    ∧ (K.READ_COLUMN_MAX ≤ (line_tokens mk line).length →
        (TEXT_GetLabel mk K st line).1 = K.READ_COLUMN_MAX
        ∧ (TEXT_GetLabel mk K st line).2.hint (K.READ_COLUMN_MAX - 1) = DATA_HINT_NONE
        ∧ (TEXT_GetLabel mk K st line).2.label (K.READ_COLUMN_MAX - 1)
            = st.label (K.READ_COLUMN_MAX - 1)) := by
  obtain ⟨h1, _, h3, h4, h5, h6⟩ := TEXT_GetLabel_loop_spec mk K (K.READ_TOKEN_MAX - 1)
    (by omega) (by omega) line 0 0 [] st (by omega) (by simp)
  simp only [decide_True, Nat.zero_add] at h1 h3 h4 h5 h6
  have e : TEXT_GetLabel mk K st line = TEXT_GetLabel_loop mk K 0 0 [] st line := rfl
  rw [e]
  unfold line_tokens
  refine ⟨h1, fun i t hi ht => h3 i t hi ht, ?_, ?_, ?_⟩
  · intro i hi
    rw [h1] at hi
    exact h4 i (by omega) (by omega)
  · intro i hi
    rw [h1] at hi
    have hcase : K.READ_COLUMN_MAX ≤ i ∨ (tokens_from mk true line).length ≤ i := by omega
    exact ⟨h5 i (by omega), h6 i (by omega)⟩
  · intro hfull
    refine ⟨by rw [h1]; omega, h4 _ (by omega) (by omega), h5 _ (by omega)⟩

/-- C26 on a concrete line: with two columns in the table, the line `ab cd`
gives the count 2 and leaves the label of column 1. -/
theorem TEXT_GetLabel_leaves_last_label_witness :
    (TEXT_GetLabel mk_default { demo_h with READ_COLUMN_MAX := 2 }
        { label := fun _ => "old".toList, hint := fun _ => DATA_HINT_HEX } "ab cd".toList).1 = 2
    ∧ (TEXT_GetLabel mk_default { demo_h with READ_COLUMN_MAX := 2 }
        { label := fun _ => "old".toList, hint := fun _ => DATA_HINT_HEX }
        "ab cd".toList).2.hint (2 - 1) = DATA_HINT_NONE
    ∧ (TEXT_GetLabel mk_default { demo_h with READ_COLUMN_MAX := 2 }
        { label := fun _ => "old".toList, hint := fun _ => DATA_HINT_HEX }
        "ab cd".toList).2.label (2 - 1) = "old".toList :=
  (TEXT_GetLabel_leaves_last_label mk_default { demo_h with READ_COLUMN_MAX := 2 }
    (by decide) (by decide) { label := fun _ => "old".toList, hint := fun _ => DATA_HINT_HEX }
    "ab cd".toList).2.2.2.2 (by decide)

open data_hint format_t async_ret

/-- The loop of `TEXT_GetCN` reads at least one line and at most
`READ_TEXT_HEADER_MAX` lines. -/
theorem TEXT_GetCN_loop_bound {α : Type} (A : fval_ops α) (mk : markup_t) (K : read_h)
    (timeout : Int) :
    ∀ (k : Nat) (h : header_t α), h.total_N < K.READ_TEXT_HEADER_MAX → 1 ≤ k →
      h.total_N < (TEXT_GetCN_loop A mk K timeout k h).total_N
      ∧ (TEXT_GetCN_loop A mk K timeout k h).total_N ≤ K.READ_TEXT_HEADER_MAX := by
  intro k
  induction k with
  | zero => intro h _ hk; omega
  | succ k ih =>
    intro h hlt _
    have step : ∀ (c : Prop) [Decidable c] (X Y : header_t α),
        (c ↔ (K.READ_TEXT_HEADER_MAX : Int) ≤ h.total_N + 1) →
        X.total_N = h.total_N + 1 → Y.total_N = h.total_N + 1 →
        h.total_N < (if c then X else TEXT_GetCN_loop A mk K timeout k Y).total_N
        ∧ (if c then X else TEXT_GetCN_loop A mk K timeout k Y).total_N
            ≤ K.READ_TEXT_HEADER_MAX := by
      intro c _ X Y hc eX eY
      by_cases hm : c
      · have := hc.mp hm
        simp only [hm, if_true]; omega
      · have : ¬ ((K.READ_TEXT_HEADER_MAX : Int) ≤ h.total_N + 1) := fun hh => hm (hc.mpr hh)
        simp only [hm, if_false]
        cases k with
        | zero => simp only [TEXT_GetCN_loop]; omega
        | succ k =>
          have := ih Y (by omega) (by omega)
          omega
    rw [TEXT_GetCN_loop]
    simp only
    cases hr : (follow_fgets (K.sizeof_buf : Int) timeout h.fd).1 with
    | none => simp only; omega
    | some line =>
      simp only
      split
      · exact step _ _ _ Iff.rfl rfl rfl
      · split
        · split
          · exact step _ _ _ Iff.rfl rfl rfl
          · split
            · simp only; omega
            · exact step _ _ _ Iff.rfl rfl rfl
        · exact step _ _ _ Iff.rfl rfl rfl

/-- The bound on the turns of the loop of `TEXT_GetCN` is never reached: with
more turns allowed the loop gives the same. -/
theorem TEXT_GetCN_loop_fuel {α : Type} (A : fval_ops α) (mk : markup_t) (K : read_h)
    (timeout : Int) :
    ∀ (k k2 : Nat) (h : header_t α), h.total_N < K.READ_TEXT_HEADER_MAX →
      (K.READ_TEXT_HEADER_MAX : Int) - h.total_N ≤ k →
      (K.READ_TEXT_HEADER_MAX : Int) - h.total_N ≤ k2 →
      TEXT_GetCN_loop A mk K timeout k h = TEXT_GetCN_loop A mk K timeout k2 h := by
  intro k
  induction k with
  | zero => intro k2 h h1 h2 _; omega
  | succ k ih =>
    intro k2 h hlt hk hk2
    cases k2 with
    | zero => omega
    | succ k2 =>
      have step : ∀ (c : Prop) [Decidable c] (X Y : header_t α),
          (c ↔ (K.READ_TEXT_HEADER_MAX : Int) ≤ h.total_N + 1) →
          Y.total_N = h.total_N + 1 →
          (if c then X else TEXT_GetCN_loop A mk K timeout k Y)
            = (if c then X else TEXT_GetCN_loop A mk K timeout k2 Y) := by
        intro c _ X Y hc eY
        by_cases hm : c
        · simp only [hm, if_true]
        · have : ¬ ((K.READ_TEXT_HEADER_MAX : Int) ≤ h.total_N + 1) :=
            fun hh => hm (hc.mpr hh)
          simp only [hm, if_false]
          exact ih k2 Y (by omega) (by omega) (by omega)
      rw [TEXT_GetCN_loop, TEXT_GetCN_loop]
      simp only
      cases hr : (follow_fgets (K.sizeof_buf : Int) timeout h.fd).1 with
      | none => rfl
      | some line =>
        simp only
        split
        · exact step _ _ _ Iff.rfl rfl
        · split
          · split
            · exact step _ _ _ Iff.rfl rfl
            · split
              · rfl
              · exact step _ _ _ Iff.rfl rfl
          · exact step _ _ _ Iff.rfl rfl

/-- A label line followed by rows of which three have tokens is a header. -/
theorem header_found_of_rows (mk : markup_t) (K : read_h) (pre rows post : List (List Char))
    (lab : List Char) (h1 : 1 ≤ token_count mk K lab)
    (h3 : 3 ≤ (rows.filter (fun l => decide (token_count mk K l ≠ 0))).length)
    (hrows : ∀ l ∈ rows, token_count mk K l = 0 ∨ token_count mk K l = token_count mk K lab) :
    header_found mk K (pre ++ lab :: (rows ++ post)) = true := by
  unfold header_found
  rw [List.any_eq_true]
  refine ⟨lab :: (rows ++ post), ?_, ?_⟩
  · rw [List.mem_tails]
    exact List.suffix_append _ _
  · have hp : ∀ l ∈ rows, (fun l => decide (token_count mk K l = 0
        ∨ token_count mk K l = token_count mk K lab)) l = true := by
      intro l hl
      simpa using hrows l hl
    simp only [Bool.and_eq_true, decide_eq_true_eq]
    refine ⟨h1, ?_⟩
    rw [List.takeWhile_append_of_pos hp, List.filter_append, List.length_append]
    omega

theorem lines_of_succ (len timeout : Int) (n : Nat) (fd : stream_t) (line : List Char)
    (h : (follow_fgets len timeout fd).1 = some line) :
    lines_of len timeout (n + 1) fd
      = line :: lines_of len timeout n (follow_fgets len timeout fd).2 := by
  rw [lines_of]; simp only [h]

theorem lines_of_none (len timeout : Int) (n : Nat) (fd : stream_t)
    (h : (follow_fgets len timeout fd).1 = none) :
    lines_of len timeout (n + 1) fd = [] := by
  rw [lines_of]; simp only [h]

/-- The loop of `TEXT_GetCN` on a source that supplies the lines: it returns 0
or it has found a header among the lines. -/
theorem TEXT_GetCN_loop_found {α : Type} (A : fval_ops α) (mk : markup_t) (K : read_h)
    (timeout : Int) (hC : 1 ≤ K.READ_COLUMN_MAX) (hT : 2 ≤ K.READ_TOKEN_MAX) :
    ∀ (k : Nat) (h : header_t α) (P : List (List Char)) (rem : Nat),
      header_inv mk K P h.label_cN h.fixed_N →
      (K.READ_TEXT_HEADER_MAX : Int) - h.total_N = rem → 1 ≤ rem → rem ≤ k →
      (lines_of K.sizeof_buf timeout rem h.fd).length = rem →
      (TEXT_GetCN_loop A mk K timeout k h).cN = 0
      ∨ (1 ≤ (TEXT_GetCN_loop A mk K timeout k h).cN
          ∧ (TEXT_GetCN_loop A mk K timeout k h).cN = (TEXT_GetCN_loop A mk K timeout k h).label_cN
          ∧ (TEXT_GetCN_loop A mk K timeout k h).fixed_N = 3
          ∧ (TEXT_GetCN_loop A mk K timeout k h).line_N
              = (TEXT_GetCN_loop A mk K timeout k h).total_N + 1
          ∧ header_found mk K (P ++ lines_of K.sizeof_buf timeout rem h.fd) = true) := by
  intro k
  induction k with
  | zero => intro h P rem _ _ h1 h2 _; omega
  | succ k ih =>
    intro h P rem hinv hrem hrem1 hk hsup
    obtain ⟨rem1, rfl⟩ : ∃ r, rem = r + 1 := ⟨rem - 1, by omega⟩
    cases hr : (follow_fgets (K.sizeof_buf : Int) timeout h.fd).1 with
    | none =>
      rw [lines_of_none _ _ _ _ hr] at hsup
      simp at hsup
    | some line =>
      rw [lines_of_succ _ _ _ _ line hr] at hsup ⊢
      have hsup1 : (lines_of (K.sizeof_buf : Int) timeout rem1
          (follow_fgets (K.sizeof_buf : Int) timeout h.fd).2).length = rem1 := by
        simpa using hsup
      have step : ∀ (c : Prop) [Decidable c] (X Y : header_t α) (P1 : List (List Char)),
          (c ↔ (K.READ_TEXT_HEADER_MAX : Int) ≤ h.total_N + 1) → X.cN = 0 →
          Y.total_N = h.total_N + 1 →
          Y.fd = (follow_fgets (K.sizeof_buf : Int) timeout h.fd).2 →
          header_inv mk K P1 Y.label_cN Y.fixed_N → P1 = P ++ [line] →
          (if c then X else TEXT_GetCN_loop A mk K timeout k Y).cN = 0
          ∨ (1 ≤ (if c then X else TEXT_GetCN_loop A mk K timeout k Y).cN
            ∧ (if c then X else TEXT_GetCN_loop A mk K timeout k Y).cN
                = (if c then X else TEXT_GetCN_loop A mk K timeout k Y).label_cN
            ∧ (if c then X else TEXT_GetCN_loop A mk K timeout k Y).fixed_N = 3
            ∧ (if c then X else TEXT_GetCN_loop A mk K timeout k Y).line_N
                = (if c then X else TEXT_GetCN_loop A mk K timeout k Y).total_N + 1
            ∧ header_found mk K (P ++ line :: lines_of K.sizeof_buf timeout rem1
                (follow_fgets (K.sizeof_buf : Int) timeout h.fd).2) = true) := by
        intro c _ X Y P1 hc eX eT eF hI eP
        by_cases hm : c
        · simp only [hm, if_true]; exact Or.inl eX
        · have hlt : ¬ ((K.READ_TEXT_HEADER_MAX : Int) ≤ h.total_N + 1) :=
            fun hh => hm (hc.mpr hh)
          simp only [hm, if_false]
          have := ih Y P1 rem1 hI (by rw [eT]; push_cast at hrem; omega)
            (by push_cast at hrem; omega) (by omega) (by rw [eF]; exact hsup1)
          rw [eF, eP, List.append_assoc, List.singleton_append] at this
          exact this
      have hlab : ∀ st : label_t, ((TEXT_GetLabel mk K st line).1 : Int) = token_count mk K line :=
        fun st => by rw [TEXT_GetLabel_count mk K hC hT]
      have hrow : ∀ st : row_t α,
          ((TEXT_GetRow A mk K.READ_COLUMN_MAX st line).1 : Int) = token_count mk K line :=
        fun st => by rw [TEXT_GetRow_count A mk K hC]
      have inv_label : header_inv mk K (P ++ [line]) (token_count mk K line) 0 := by
        by_cases h0 : token_count mk K line = 0
        · left; simp [h0]
        · right
          refine ⟨by omega, by norm_num, P, line, [], rfl, rfl, by simp, by simp⟩
      rw [TEXT_GetCN_loop]
      simp only [hr]
      split
      · rename_i hL
        have hF : h.fixed_N = 0 := by
          rcases hinv with ⟨_, hF⟩ | ⟨hL1, _⟩
          · exact hF
          · omega
        refine step _ _ _ (P ++ [line]) Iff.rfl rfl rfl rfl ?_ rfl
        simp only [header_t.get_label, hlab, hF]
        exact inv_label
      · rename_i hL
        have hL1 : 1 ≤ h.label_cN := by omega
        obtain ⟨pre, lab, rows, eP, eL, eF, hrows⟩ :
            ∃ pre lab rows, P = pre ++ lab :: rows ∧ (token_count mk K lab : Int) = h.label_cN
              ∧ (((rows.filter (fun l => decide (token_count mk K l ≠ 0))).length : Nat) : Int)
                  = h.fixed_N
              ∧ ∀ l ∈ rows, token_count mk K l = 0
                  ∨ token_count mk K l = token_count mk K lab := by
          rcases hinv with ⟨h0, _⟩ | ⟨_, _, hx⟩
          · omega
          · exact hx
        have hF3 : h.fixed_N < 3 := by
          rcases hinv with ⟨h0, _⟩ | ⟨_, hx, _⟩
          · omega
          · exact hx
        split
        · rename_i hcN
          simp only [hrow] at hcN
          split
          · rename_i hne
            refine step _ _ _ (P ++ [line]) Iff.rfl rfl rfl rfl ?_ rfl
            simp only [header_t.get_label, hlab]
            exact inv_label
          · rename_i heq
            simp only [hrow, ne_eq, not_not] at heq
            have hcnt : token_count mk K line = token_count mk K lab := by omega
            have hne0 : token_count mk K line ≠ 0 := by omega
            have hfil : ((rows ++ [line]).filter
                (fun l => decide (token_count mk K l ≠ 0))).length
                = (rows.filter (fun l => decide (token_count mk K l ≠ 0))).length + 1 := by
              simp [List.filter_append, hne0]
            have hrows2 : ∀ l ∈ rows ++ [line], token_count mk K l = 0
                ∨ token_count mk K l = token_count mk K lab := by
              intro l hl
              rcases List.mem_append.mp hl with hl | hl
              · exact hrows l hl
              · simp only [List.mem_singleton] at hl
                subst hl; exact Or.inr hcnt
            split
            · rename_i h3
              right
              simp only [hrow]
              refine ⟨by omega, heq, by omega, trivial, ?_⟩
              have := header_found_of_rows mk K pre (rows ++ [line])
                (lines_of K.sizeof_buf timeout rem1
                  (follow_fgets (K.sizeof_buf : Int) timeout h.fd).2) lab (by omega)
                (by omega) hrows2
              rw [eP]
              simpa using this
            · rename_i h3
              refine step _ _ _ (P ++ [line]) Iff.rfl rfl rfl rfl ?_ rfl
              right
              refine ⟨hL1, by simp only; omega, pre, lab, rows ++ [line], by simp [eP], eL,
                ?_, hrows2⟩
              simp only
              rw [hfil]; push_cast; omega
        · rename_i hcN
          simp only [hrow, ne_eq, not_not] at hcN
          have hc0 : token_count mk K line = 0 := by omega
          refine step _ _ _ (P ++ [line]) Iff.rfl ?_ rfl rfl ?_ rfl
          · rfl
          · right
            have hfil : ((rows ++ [line]).filter
                (fun l => decide (token_count mk K l ≠ 0))).length
                = (rows.filter (fun l => decide (token_count mk K l ≠ 0))).length := by
              simp [List.filter_append, hc0]
            refine ⟨hL1, hF3, pre, lab, rows ++ [line], by simp [eP], eL, ?_, ?_⟩
            · simp only; rw [hfil]; exact eF
            · intro l hl
              rcases List.mem_append.mp hl with hl | hl
              · exact hrows l hl
              · simp only [List.mem_singleton] at hl
                subst hl; exact Or.inl hc0

/-- A text source in which `TEXT_GetCN` finds no header: `readOpenUnified`
returns after the message, before `plotDataAlloc`. -/
theorem readOpenUnified_no_data {σ α : Type} (A : fval_ops α) (P : plot_api (plot_t σ α) α)
    (X : plot_ext σ α) (E : env_t α) (K : read_h) (fd0 : Option (file_t × stream_t))
    (rbuf0 : Nat → α) (r : reader_t σ α) (dN : Nat) (cN lN : Int) (f : List Char)
    (s : file_t × stream_t) (h : header_t α) (hopen : E.fopen f = some s)
    (hh : readOpenUnified_header A E K rbuf0 r dN lN (some f) FORMAT_PLAIN_TEXT = some h)
    (hcN : h.cN < 1) :
    (readOpenUnified A P X E K fd0 rbuf0 r dN cN lN (some f) FORMAT_PLAIN_TEXT).opened
        = r.opened ++ [open_call.fopen f]
    ∧ (readOpenUnified A P X E K fd0 rbuf0 r dN cN lN (some f) FORMAT_PLAIN_TEXT).pump.pl
        = r.pump.pl
    ∧ ((readOpenUnified A P X E K fd0 rbuf0 r dN cN lN (some f)
          FORMAT_PLAIN_TEXT).pump.rd.data dN).fd = none
    ∧ ((readOpenUnified A P X E K fd0 rbuf0 r dN cN lN (some f)
          FORMAT_PLAIN_TEXT).pump.rd.data dN).format = (r.pump.rd.data dN).format
    ∧ ((readOpenUnified A P X E K fd0 rbuf0 r dN cN lN (some f)
          FORMAT_PLAIN_TEXT).pump.rd.data dN).column_N = (r.pump.rd.data dN).column_N
    ∧ (readOpenUnified A P X E K fd0 rbuf0 r dN cN lN (some f) FORMAT_PLAIN_TEXT).bind_N
        = r.bind_N
    ∧ (readOpenUnified A P X E K fd0 rbuf0 r dN cN lN (some f) FORMAT_PLAIN_TEXT).file = r.file
    ∧ readOpenUnified_error A E K rbuf0 r dN lN f FORMAT_PLAIN_TEXT
        = some (open_error.no_correct_data f) := by
  have herr : readOpenUnified_error A E K rbuf0 r dN lN f FORMAT_PLAIN_TEXT
      = some (open_error.no_correct_data f) := by
    unfold readOpenUnified_error
    simp only [hopen, hh, hcN, if_true]
  unfold readOpenUnified_header at hh
  simp only [hopen, if_true, Option.some.injEq] at hh
  unfold readOpenUnified
  simp only [hopen, if_true]
  rw [hh]
  simp only [hcN, if_true]
  by_cases hfd : (r.pump.rd.data dN).fd ≠ none
  · simp only [hfd, ne_eq, not_false_eq_true, if_true]
    refine ⟨?_, ?_, ?_, ?_, ?_, ?_, ?_, herr⟩ <;>
      first
      | trivial
      | rfl
      | simp [reader_t.put_header, readClose, pump_t.set_data]
  · have hnone : (r.pump.rd.data dN).fd = none := by
      by_contra hx; exact hfd hx
    simp only [hfd, if_false]
    refine ⟨?_, ?_, ?_, ?_, ?_, ?_, ?_, herr⟩ <;>
      first
      | trivial
      | rfl
      | simp [reader_t.put_header, readClose, pump_t.set_data, hnone]

/-- C27: header detection is bounded. With constants of `read.h` that allow
one header line, one column and one byte of a label, `TEXT_GetCN` reads at
least one and at most `READ_TEXT_HEADER_MAX` lines, and the bound on the turns
of its loop in the model is never reached. On a source that supplies
`READ_TEXT_HEADER_MAX` lines among which no label line is followed by three
consecutive non-empty rows with its token count, it returns 0. When
`TEXT_GetCN` returns less than 1 in `readOpenUnified`, the message
`No correct data` is reported, no `plotDataAlloc` or `plotDataInsert` is made,
the plot, the format, the column count, the file name and `bind_N` are left,
and the dataset has no stream. -/
theorem header_detection_bounded {σ α : Type} (A : fval_ops α) (K : read_h)
    (r : reader_t σ α) (dN : Nat) (fd : stream_t) (rbuf : Nat → α)
    (hH : 1 ≤ K.READ_TEXT_HEADER_MAX) (hC : 1 ≤ K.READ_COLUMN_MAX)
    (hT : 2 ≤ K.READ_TOKEN_MAX) :
    (1 ≤ (TEXT_GetCN A K r dN fd rbuf).total_N
      ∧ (TEXT_GetCN A K r dN fd rbuf).total_N ≤ K.READ_TEXT_HEADER_MAX)
    ∧ (∀ (mk : markup_t) (timeout : Int) (k : Nat) (h : header_t α), h.total_N = 0 →
        K.READ_TEXT_HEADER_MAX + 1 ≤ k →
        TEXT_GetCN_loop A mk K timeout k h
          = TEXT_GetCN_loop A mk K timeout (K.READ_TEXT_HEADER_MAX + 1) h)
    ∧ ((lines_of K.sizeof_buf (if (r.pump.rd.data dN).follow ≠ 0 then r.timeout else 0)
          K.READ_TEXT_HEADER_MAX fd).length = K.READ_TEXT_HEADER_MAX →
        header_found r.pump.rd.mk_text K
          (lines_of K.sizeof_buf (if (r.pump.rd.data dN).follow ≠ 0 then r.timeout else 0)
            K.READ_TEXT_HEADER_MAX fd) = false →
        (TEXT_GetCN A K r dN fd rbuf).cN = 0)
    ∧ (∀ (P : plot_api (plot_t σ α) α) (X : plot_ext σ α) (E : env_t α)
        (fd0 : Option (file_t × stream_t)) (cN lN : Int) (f : List Char)
        (s : file_t × stream_t) (h : header_t α), E.fopen f = some s →
        readOpenUnified_header A E K rbuf r dN lN (some f) FORMAT_PLAIN_TEXT = some h →
        h.cN < 1 →
        (readOpenUnified A P X E K fd0 rbuf r dN cN lN (some f) FORMAT_PLAIN_TEXT).opened
            = r.opened ++ [open_call.fopen f]
        ∧ (readOpenUnified A P X E K fd0 rbuf r dN cN lN (some f) FORMAT_PLAIN_TEXT).pump.pl
            = r.pump.pl
        ∧ ((readOpenUnified A P X E K fd0 rbuf r dN cN lN (some f)
              FORMAT_PLAIN_TEXT).pump.rd.data dN).fd = none
        ∧ ((readOpenUnified A P X E K fd0 rbuf r dN cN lN (some f)
              FORMAT_PLAIN_TEXT).pump.rd.data dN).format = (r.pump.rd.data dN).format
        ∧ ((readOpenUnified A P X E K fd0 rbuf r dN cN lN (some f)
              FORMAT_PLAIN_TEXT).pump.rd.data dN).column_N = (r.pump.rd.data dN).column_N
        ∧ (readOpenUnified A P X E K fd0 rbuf r dN cN lN (some f) FORMAT_PLAIN_TEXT).bind_N
            = r.bind_N
        ∧ (readOpenUnified A P X E K fd0 rbuf r dN cN lN (some f) FORMAT_PLAIN_TEXT).file
            = r.file
        ∧ readOpenUnified_error A E K rbuf r dN lN f FORMAT_PLAIN_TEXT
            = some (open_error.no_correct_data f)) := by
  refine ⟨?_, ?_, ?_, ?_⟩
  · have := TEXT_GetCN_loop_bound A r.pump.rd.mk_text K
      (if (r.pump.rd.data dN).follow ≠ 0 then r.timeout else 0) (K.READ_TEXT_HEADER_MAX + 1)
      { buf := (r.pump.rd.data dN).buf.text,
        row := { row := (r.pump.rd.data dN).row, hint := (r.pump.rd.data dN).hint },
        label := r.label dN, line_N := (r.pump.rd.data dN).line_N, fd := fd, rbuf := rbuf,
        label_cN := 0, fixed_N := 0, total_N := 0, cN := 0 }
      (by simp only; omega) (by omega)
    simp only at this
    unfold TEXT_GetCN
    simp only
    omega
  · intro mk timeout k h h0 hk
    exact TEXT_GetCN_loop_fuel A mk K timeout k (K.READ_TEXT_HEADER_MAX + 1) h
      (by omega) (by omega) (by push_cast; omega)
  · intro hsup hnf
    have := TEXT_GetCN_loop_found A r.pump.rd.mk_text K
      (if (r.pump.rd.data dN).follow ≠ 0 then r.timeout else 0) hC hT
      (K.READ_TEXT_HEADER_MAX + 1)
      { buf := (r.pump.rd.data dN).buf.text,
        row := { row := (r.pump.rd.data dN).row, hint := (r.pump.rd.data dN).hint },
        label := r.label dN, line_N := (r.pump.rd.data dN).line_N, fd := fd, rbuf := rbuf,
        label_cN := 0, fixed_N := 0, total_N := 0, cN := 0 }
      [] K.READ_TEXT_HEADER_MAX (Or.inl ⟨rfl, rfl⟩) (by simp) hH (by omega) hsup
    rcases this with h0 | ⟨_, _, _, _, hf⟩
    · exact h0
    · simp only [List.nil_append] at hf
      rw [hnf] at hf
      exact absurd hf (by decide)
  · intro P X E fd0 cN lN f s h hopen hh hcN
    exact readOpenUnified_no_data A P X E K fd0 rbuf r dN cN lN f s h hopen hh hcN

/-- C27 on a concrete source: nine lines that have one and two tokens in turn. -/
theorem header_detection_bounded_witness :
    (TEXT_GetCN exact_ops demo_h (demo_reader (demo_closed (demo_plot 0))) 0
      ("1\n1 2\n1\n1 2\n1\n1 2\n1\n1 2\n1\n".toList.map some)
      (fun _ => fexact.nan)).cN = 0 :=
  (header_detection_bounded exact_ops demo_h (demo_reader (demo_closed (demo_plot 0))) 0
    ("1\n1 2\n1\n1 2\n1\n1 2\n1\n1 2\n1\n".toList.map some) (fun _ => fexact.nan)
    (by decide) (by decide) (by decide)).2.2.1 (by decide) (by decide)

open data_hint format_t async_ret

theorem is_eol_iff (c : Char) : is_eol c = true ↔ (c = '\r' ∨ c = '\n') := by
  unfold is_eol; simp

/-- The loop of `follow_fgets` after the end of the row: the CR and LF bytes
are consumed, the next byte is put back. -/
theorem follow_fgets_loop_eol (len : Int) (bs : List Char) (s : List Char) (nq w : Int)
    (hnq : 0 < nq) :
    follow_fgets_loop len 0 (bs.map some) s 1 nq w = (s, 1, (bs.dropWhile is_eol).map some) := by
  induction bs with
  | nil => simp [follow_fgets_loop]
  | cons c bs ih =>
    rw [List.map_cons, follow_fgets_loop]
    by_cases hc : c = '\r' ∨ c = '\n'
    · have he : is_eol c = true := (is_eol_iff c).mpr hc
      simp only [hc, if_true, gt_iff_lt, hnq, List.dropWhile_cons_of_pos he]
      exact ih
    · have he : ¬ (is_eol c = true) := fun h => hc ((is_eol_iff c).mp h)
      simp [hc, List.dropWhile_cons_of_neg he]

/-- The loop of `follow_fgets` in the row: bytes are stored while there is
room, up to the first CR or LF. -/
theorem follow_fgets_loop_data (len : Int) (bs : List Char) :
    ∀ (s : List Char) (nq w : Int), 0 < nq → nq = s.length → nq ≤ len - 1 →
    follow_fgets_loop len 0 (bs.map some) s 0 nq w =
      ((s ++ bs.takeWhile (fun c => !is_eol c)).take (len - 1).toNat,
       if bs.dropWhile (fun c => !is_eol c) ≠ [] then 1 else 0,
       ((bs.dropWhile (fun c => !is_eol c)).dropWhile is_eol).map some) := by
  induction bs with
  | nil =>
    intro s nq w h0 h1 h2
    have : s.length ≤ (len - 1).toNat := by omega
    simp [follow_fgets_loop]; omega
  | cons c bs ih =>
    intro s nq w h0 h1 h2
    rw [List.map_cons, follow_fgets_loop]
    by_cases hc : c = '\r' ∨ c = '\n'
    · have he : is_eol c = true := (is_eol_iff c).mpr hc
      have hlen : s.length ≤ (len - 1).toNat := by omega
      simp only [hc, if_true, gt_iff_lt, h0]
      rw [follow_fgets_loop_eol len bs s nq w h0]
      simp [he]; omega
    · have he : is_eol c = false := by
        cases h : is_eol c with
        | false => rfl
        | true => exact absurd ((is_eol_iff c).mp h) hc
      simp only [hc, if_false, zero_ne_one]
      have htw : (c :: bs).takeWhile (fun c => !is_eol c)
          = c :: bs.takeWhile (fun c => !is_eol c) := by simp [he]
      have hdw : (c :: bs).dropWhile (fun c => !is_eol c)
          = bs.dropWhile (fun c => !is_eol c) := by simp [he]
      rw [htw, hdw]
      by_cases hroom : nq < len - 1
      · simp only [hroom, if_true]
        rw [ih (s ++ [c]) (nq + 1) w (by omega) (by simp; omega) (by omega)]
        simp
      · simp only [hroom, if_false]
        rw [ih s nq w h0 h1 h2]
        have hlen : (len - 1).toNat = s.length := by omega
        simp [hlen]

/-- The loop of `follow_fgets` before the row: CR and LF bytes are skipped. -/
theorem follow_fgets_loop_skip (len : Int) (bs : List Char) (w : Int) (hlen : 2 ≤ len) :
    follow_fgets_loop len 0 (bs.map some) [] 0 0 w =
      (((bs.dropWhile is_eol).takeWhile (fun c => !is_eol c)).take (len - 1).toNat,
       if (bs.dropWhile is_eol).takeWhile (fun c => !is_eol c) ≠ []
          ∧ (bs.dropWhile is_eol).dropWhile (fun c => !is_eol c) ≠ [] then 1 else 0,
       if (bs.dropWhile is_eol).takeWhile (fun c => !is_eol c) ≠ [] then
         (((bs.dropWhile is_eol).dropWhile (fun c => !is_eol c)).dropWhile is_eol).map some
       else []) := by
  induction bs with
  | nil => simp [follow_fgets_loop]
  | cons c bs ih =>
    rw [List.map_cons, follow_fgets_loop]
    by_cases hc : c = '\r' ∨ c = '\n'
    · have he : is_eol c = true := (is_eol_iff c).mpr hc
      simp only [hc, if_true, gt_iff_lt, lt_self_iff_false, if_false,
        List.dropWhile_cons_of_pos he]
      exact ih
    · have he : is_eol c = false := by
        cases h : is_eol c with
        | false => rfl
        | true => exact absurd ((is_eol_iff c).mp h) hc
      have hne : ¬ (is_eol c = true) := by simp [he]
      have hroom : (0 : Int) < len - 1 := by omega
      simp only [hc, if_false, zero_ne_one, hroom, if_true, List.dropWhile_cons_of_neg hne]
      rw [List.nil_append, follow_fgets_loop_data len bs [c] (0 + 1) w (by omega) (by simp) (by omega)]
      simp [he]

theorem while_stop (p : Char → Bool) (a b : List Char) (ha : a ≠ [])
    (h : ∀ c ∈ a, p c = false) :
    (a ++ b).dropWhile p = a ++ b ∧ (a ++ b).takeWhile p = [] := by
  cases a with
  | nil => exact absurd rfl ha
  | cons c a =>
    have hc := h c (List.mem_cons_self _ _)
    simp [hc]

theorem while_head (p : Char → Bool) (b : List Char) (h : ∀ c ∈ b.head?, p c = false) :
    b.dropWhile p = b ∧ b.takeWhile p = [] := by
  cases b with
  | nil => simp
  | cons c b =>
    have hc := h c (by simp)
    simp [hc]

/-- The function `follow_fgets` with no timeout is the reference. -/
theorem follow_fgets_eq_ref (len : Int) (bytes : List Char) (hlen : 2 ≤ len) :
    follow_fgets len 0 (bytes.map some)
      = ((follow_fgets_ref len bytes).1, (follow_fgets_ref len bytes).2.map some) := by
  unfold follow_fgets follow_fgets_ref
  rw [follow_fgets_loop_skip len bytes 0 hlen]
  by_cases h1 : (bytes.dropWhile is_eol).takeWhile (fun c => !is_eol c) ≠ []
  · by_cases h2 : (bytes.dropWhile is_eol).dropWhile (fun c => !is_eol c) ≠ []
    · simp [h1, h2]
    · have h2e : (bytes.dropWhile is_eol).dropWhile (fun c => !is_eol c) = [] := by
        by_contra hh; exact h2 hh
      simp [h1, h2e]
  · simp [h1]

/-- C28: over a finite stream of bytes, with no timeout and a buffer of at
least two bytes, `follow_fgets` returns the next row: it skips the leading CR
and LF bytes, stores the bytes up to the first CR or LF, of which it keeps the
first `len - 1`, and consumes the CR and LF bytes that follow, leaving the
first byte of the next line in the stream; it returns the row exactly when a
CR or LF follows at least one byte of data, and NULL, with the stream
exhausted, otherwise. -/
theorem follow_fgets_next_row (len : Int) (bytes : List Char) (hlen : 2 ≤ len) :
    follow_fgets len 0 (bytes.map some)
      = ((follow_fgets_ref len bytes).1, (follow_fgets_ref len bytes).2.map some)
    ∧ (∀ pre data eols next, (∀ c ∈ pre, is_eol c = true) → data ≠ [] →
        (∀ c ∈ data, is_eol c = false) → eols ≠ [] → (∀ c ∈ eols, is_eol c = true) →
        (∀ c ∈ next.head?, is_eol c = false) → bytes = pre ++ (data ++ (eols ++ next)) →
        follow_fgets len 0 (bytes.map some)
          = (some (data.take (len - 1).toNat), next.map some))
    ∧ (∀ pre data, (∀ c ∈ pre, is_eol c = true) → (∀ c ∈ data, is_eol c = false) →
        bytes = pre ++ data → follow_fgets len 0 (bytes.map some) = (none, [])) := by
  refine ⟨follow_fgets_eq_ref len bytes hlen, ?_, ?_⟩
  · intro pre data eols next hpre hd hdata he heols hnext hb
    rw [follow_fgets_eq_ref len bytes hlen, hb]
    have hdata2 : ∀ c ∈ data, (fun c => !is_eol c) c = true := by
      intro c hc; simp [hdata c hc]
    have heols2 : ∀ c ∈ eols, (fun c => !is_eol c) c = false := by
      intro c hc; simp [heols c hc]
    have e1 : (pre ++ (data ++ (eols ++ next))).dropWhile is_eol = data ++ (eols ++ next) := by
      rw [List.dropWhile_append_of_pos hpre]
      exact (while_stop is_eol data _ hd hdata).1
    have e2 : (data ++ (eols ++ next)).takeWhile (fun c => !is_eol c) = data := by
      rw [List.takeWhile_append_of_pos hdata2, (while_stop _ eols next he heols2).2,
        List.append_nil]
    have e3 : (data ++ (eols ++ next)).dropWhile (fun c => !is_eol c) = eols ++ next := by
      rw [List.dropWhile_append_of_pos hdata2]
      exact (while_stop _ eols next he heols2).1
    have e4 : (eols ++ next).dropWhile is_eol = next := by
      rw [List.dropWhile_append_of_pos heols]
      exact (while_head is_eol next hnext).1
    have e5 : eols ++ next ≠ [] := by simp [he]
    unfold follow_fgets_ref
    simp only [e1, e2, e3, e4]
    simp [hd, e5]
  · intro pre data hpre hdata hb
    rw [follow_fgets_eq_ref len bytes hlen, hb]
    have hdata2 : ∀ c ∈ data, (fun c => !is_eol c) c = true := by
      intro c hc; simp [hdata c hc]
    have e1 : (pre ++ data).dropWhile is_eol = data := by
      rw [List.dropWhile_append_of_pos hpre]
      cases data with
      | nil => rfl
      | cons c data => simpa using (while_stop is_eol (c :: data) [] (by simp) hdata).1
    have e3 : data.dropWhile (fun c => !is_eol c) = [] := by
      exact List.dropWhile_eq_nil_iff.mpr hdata2
    unfold follow_fgets_ref
    simp only [e1, e3]
    simp

/-- C28 on a concrete stream: two blank lines, a row of five bytes into a
buffer of four, and the next line. -/
theorem follow_fgets_next_row_witness :
    follow_fgets 4 0 ("\r\n12345\r\n\nab".toList.map some)
      = (some "123".toList, "ab".toList.map some) :=
  ((follow_fgets_next_row 4 "\r\n12345\r\n\nab".toList (by decide)).2.1
    "\r\n".toList "12345".toList "\r\n\n".toList "ab".toList
    (by decide) (by decide) (by decide) (by decide) (by decide) (by decide) (by decide))

open data_hint format_t async_ret

/-- One call of `readToggleHint` on an allocated dataset and a column of it
moves the hint of the column one step along the cycle and leaves the rest. -/
theorem readToggleHint_step {σ α : Type} (m : pump_t σ α) (dN : Nat) (cN : Int)
    (hf : (m.rd.data dN).format ≠ FORMAT_NONE) (h0 : 0 ≤ cN)
    (h1 : cN < (m.rd.data dN).column_N) :
    readToggleHint m dN cN = m.set_data dN { m.rd.data dN with
      hint := Function.update (m.rd.data dN).hint cN.toNat
        (next_hint ((m.rd.data dN).hint cN.toNat)) } := by
  unfold readToggleHint
  have hr : ¬ (cN < 0 ∨ cN ≥ (m.rd.data dN).column_N) := by
    intro h; rcases h with h | h <;> omega
  simp only [hf, hr, if_false]
  cases hh : (m.rd.data dN).hint cN.toNat <;> simp [next_hint]

theorem next_hint_cycle (h : data_hint) : next_hint (next_hint (next_hint (next_hint h))) = h := by
  cases h <;> rfl

theorem next_hint_ne (h : data_hint) : next_hint h ≠ h := by
  cases h <;> simp [next_hint]

/-- C29: `readToggleHint` cycles the hint of a column through NONE, FLOAT, HEX,
OCT and back to NONE. For an allocated dataset and a column in `[0, column_N)`
one call sets `hint[cN]` to the next hint of the cycle and changes nothing
else: the other hints, the other fields of the dataset, the other datasets,
the plot and the record are left; four successive calls restore the reader.
For a dataset with the format NONE, or a column outside the range, a call
changes nothing. -/
theorem readToggleHint_cycles {σ α : Type} (m : pump_t σ α) (dN : Nat) (cN : Int) :
    ((m.rd.data dN).format ≠ FORMAT_NONE → 0 ≤ cN → cN < (m.rd.data dN).column_N →
      ((readToggleHint m dN cN).rd.data dN).hint cN.toNat
          = next_hint ((m.rd.data dN).hint cN.toNat)
      ∧ ((readToggleHint m dN cN).rd.data dN).hint cN.toNat ≠ (m.rd.data dN).hint cN.toNat
      ∧ (∀ j, j ≠ cN.toNat →
          ((readToggleHint m dN cN).rd.data dN).hint j = (m.rd.data dN).hint j)
      ∧ (readToggleHint m dN cN).rd.data dN
          = { m.rd.data dN with hint := ((readToggleHint m dN cN).rd.data dN).hint }
      ∧ (∀ d, d ≠ dN → (readToggleHint m dN cN).rd.data d = m.rd.data d)
      ∧ (readToggleHint m dN cN).pl = m.pl
      ∧ (readToggleHint m dN cN).trace = m.trace
      ∧ (readToggleHint m dN cN).rd.files_N = m.rd.files_N
      ∧ readToggleHint (readToggleHint (readToggleHint (readToggleHint m dN cN) dN cN) dN cN)
          dN cN = m)
    ∧ (((m.rd.data dN).format = FORMAT_NONE ∨ cN < 0 ∨ (m.rd.data dN).column_N ≤ cN) →
        readToggleHint m dN cN = m) := by
  refine ⟨?_, ?_⟩
  · intro hf h0 h1
    have step := readToggleHint_step m dN cN hf h0 h1
    refine ⟨?_, ?_, ?_, ?_, ?_, ?_, ?_, ?_, ?_⟩
    · rw [step, set_data_same]; simp
    · rw [step, set_data_same]
      simpa using next_hint_ne _
    · intro j hj
      rw [step, set_data_same]
      simp [Function.update_noteq hj]
    · rw [step, set_data_same]
    · intro d hd
      rw [step, set_data_other _ _ _ _ hd]
    · rw [step]; rfl
    · rw [step]; rfl
    · rw [step]; rfl
    · have keep : ∀ (x : pump_t σ α), (x.rd.data dN).format = (m.rd.data dN).format →
          (x.rd.data dN).column_N = (m.rd.data dN).column_N →
          ((readToggleHint x dN cN).rd.data dN).format = (m.rd.data dN).format
          ∧ ((readToggleHint x dN cN).rd.data dN).column_N = (m.rd.data dN).column_N := by
        intro x hxf hxc
        rw [readToggleHint_step x dN cN (by rw [hxf]; exact hf) h0 (by rw [hxc]; exact h1),
          set_data_same]
        exact ⟨hxf, hxc⟩
      have k1 := keep m rfl rfl
      have k2 := keep _ k1.1 k1.2
      have k3 := keep _ k2.1 k2.2
      rw [readToggleHint_step _ dN cN (by rw [k3.1]; exact hf) h0 (by rw [k3.2]; exact h1)]
      rw [readToggleHint_step _ dN cN (by rw [k2.1]; exact hf) h0 (by rw [k2.2]; exact h1)]
      rw [readToggleHint_step _ dN cN (by rw [k1.1]; exact hf) h0 (by rw [k1.2]; exact h1)]
      rw [step]
      simp only [set_data_same, Function.update_same, next_hint_cycle]
      cases m with
      | mk rd pl trace =>
        cases rd with
        | mk data files_N mk_text =>
          simp only [pump_t.set_data, Function.update_idem]
          congr 2
          funext d
          by_cases hd : d = dN
          · subst hd
            simp only [Function.update_same]
            have : Function.update (data d).hint cN.toNat ((data d).hint cN.toNat) = (data d).hint :=
              Function.update_eq_self _ _
            simp [this]
          · simp [Function.update_noteq hd]
  · intro h
    unfold readToggleHint
    rcases h with h | h | h
    · simp [h]
    · by_cases hf : (m.rd.data dN).format = FORMAT_NONE
      · simp [hf]
      · simp [hf, h]
    · by_cases hf : (m.rd.data dN).format = FORMAT_NONE
      · simp [hf]
      · have : cN < 0 ∨ cN ≥ (m.rd.data dN).column_N := Or.inr h
        simp [hf, this]

/-- C29 on a concrete reader: column 1 of a text dataset of 2 columns. -/
theorem readToggleHint_cycles_witness :
    ((readToggleHint (demo_pump (demo_data 0 none) 0) 0 1).rd.data 0).hint (1 : Int).toNat
        = next_hint (((demo_pump (demo_data 0 none) 0).rd.data 0).hint (1 : Int).toNat)
    ∧ readToggleHint (demo_pump (demo_data 0 none) 0) 0 2 = demo_pump (demo_data 0 none) 0 :=
  ⟨((readToggleHint_cycles (demo_pump (demo_data 0 none) 0) 0 1).1 (by decide) (by decide)
      (by decide)).1,
    (readToggleHint_cycles (demo_pump (demo_data 0 none) 0) 0 2).2 (Or.inr (Or.inr (by decide)))⟩

open data_hint format_t async_ret

/-- The loop of a token without quotes stores at most `READ_TOKEN_MAX` bytes. -/
theorem lexer_plain_length (mk : markup_t) (K : read_h) (fd : stream_t) :
    ∀ acc : List Char, acc.length ≤ K.READ_TOKEN_MAX →
      (lexer_plain mk K fd acc).2.2.length ≤ K.READ_TOKEN_MAX := by
  induction fd with
  | nil => intro acc h; simpa [lexer_plain] using h
  | cons c fd ih =>
    intro acc h
    cases c with
    | none => simpa [lexer_plain] using h
    | some x =>
      rw [lexer_plain]
      split
      · exact h
      · apply ih
        split
        · simp; omega
        · exact h

/-- The loop of a quoted token stores at most `READ_TOKEN_MAX - 1` bytes. -/
theorem lexer_quoted_length (mk : markup_t) (K : read_h) (fd : stream_t) :
    ∀ acc : List Char, acc.length ≤ K.READ_TOKEN_MAX - 1 →
      (lexer_quoted mk K fd acc).2.2.length ≤ K.READ_TOKEN_MAX - 1 := by
  induction fd with
  | nil => intro acc h; simpa [lexer_quoted] using h
  | cons c fd ih =>
    intro acc h
    cases c with
    | none => simpa [lexer_quoted] using h
    | some x =>
      rw [lexer_quoted]
      split
      · exact h
      · apply ih
        split
        · rename_i hlt
          simp; omega
        · exact h

/-- The loop of a token without quotes on the bytes of a token: the bytes are
stored while fewer than `READ_TOKEN_MAX` are. -/
theorem lexer_plain_spec (mk : markup_t) (K : read_h) (rest : stream_t)
    (hrest : ∀ x, rest.head? = some (some x) →
      strchr mk.space x = true ∨ strchr mk.lend x = true)
    (s : List Char) :
    ∀ acc : List Char, (∀ c ∈ s, strchr mk.space c = false ∧ strchr mk.lend c = false) →
      acc.length ≤ K.READ_TOKEN_MAX →
      (lexer_plain mk K (s.map some ++ rest) acc).2.2 = (acc ++ s).take K.READ_TOKEN_MAX := by
  induction s with
  | nil =>
    intro acc _ hacc
    simp only [List.map_nil, List.nil_append, List.append_nil, List.take_of_length_le hacc]
    cases rest with
    | nil => rfl
    | cons c rest =>
      cases c with
      | none => rfl
      | some x =>
        have := hrest x rfl
        simp [lexer_plain, this]
  | cons c s ih =>
    intro acc hs hacc
    have hc := hs c (List.mem_cons_self _ _)
    rw [List.map_cons, List.cons_append, lexer_plain]
    simp only [hc.1, hc.2, Bool.false_eq_true, or_self, if_false]
    by_cases hroom : acc.length < K.READ_TOKEN_MAX
    · simp only [hroom, if_true]
      rw [ih (acc ++ [c]) (fun x hx => hs x (List.mem_cons_of_mem _ hx)) (by simp; omega)]
      simp
    · simp only [hroom, if_false]
      rw [ih acc (fun x hx => hs x (List.mem_cons_of_mem _ hx)) hacc]
      have hl : K.READ_TOKEN_MAX ≤ acc.length := by omega
      rw [List.take_append_of_le_length hl, List.take_append_of_le_length hl]

theorem lexer_skip_stop (mk : markup_t) (c : Char) (fd : stream_t)
    (h : strchr mk.space c = false) :
    lexer_skip mk (some c :: fd) = some (some c, fd) := by
  simp [lexer_skip, int_chr, h]

/-- C30: a token without quotes fills `READ_TOKEN_MAX` bytes of `pa->tbuf`
before the NUL. On an input that starts with the bytes `s` of a token, none of
them a space or line-end character and the first no quote, up to a byte that
ends the token or the end of the input, `configLexerFSM` returns 0 with the
first `READ_TOKEN_MAX` bytes of `s` in `tbuf`: the loop stores while
`n < READ_TOKEN_MAX`, where the loop of a quoted token stores while
`n < READ_TOKEN_MAX - 1`. Every token that is written has at most
`READ_TOKEN_MAX` bytes before its NUL, a quoted one at most
`READ_TOKEN_MAX - 1`, and when no token is returned `tbuf` is left. -/
theorem plain_token_fills_READ_TOKEN_MAX (mk : markup_t) (K : read_h) (pa : lexer_t)
    (s : List Char) (rest : stream_t) (hun : pa.unchar = none)
    (hfd : pa.fd = s.map some ++ rest) (hne : s ≠ []) (hq : s.head? ≠ some '"')
    (hs : ∀ c ∈ s, strchr mk.space c = false ∧ strchr mk.lend c = false)
    (hrest : ∀ x, rest.head? = some (some x) →
      strchr mk.space x = true ∨ strchr mk.lend x = true) :
    (∃ pa1, configLexerFSM mk K pa = some (0, pa1) ∧ pa1.tbuf = s.take K.READ_TOKEN_MAX
      ∧ pa1.tbuf.length = min s.length K.READ_TOKEN_MAX)
    ∧ (∀ pa0 r pa1, configLexerFSM mk K pa0 = some (r, pa1) →
        (r = 0 → pa1.tbuf.length ≤ K.READ_TOKEN_MAX) ∧ (r ≠ 0 → pa1.tbuf = pa0.tbuf))
    ∧ (∀ pa0 fd, pa0.unchar = none → pa0.fd = some '"' :: fd →
        strchr mk.space '"' = false →
        ∃ pa1, configLexerFSM mk K pa0 = some (0, pa1)
          ∧ pa1.tbuf.length ≤ K.READ_TOKEN_MAX - 1) := by
  refine ⟨?_, ?_, ?_⟩
  · cases s with
    | nil => exact absurd rfl hne
    | cons c s =>
      have hc := hs c (List.mem_cons_self _ _)
      have hcq : c ≠ '"' := by
        intro h; apply hq; simp [h]
      have hfirst : (if 0 < K.READ_TOKEN_MAX then [c] else []).length ≤ K.READ_TOKEN_MAX := by
        split <;> simp; omega
      have hspec := lexer_plain_spec mk K rest hrest s
        (if 0 < K.READ_TOKEN_MAX then [c] else [])
        (fun x hx => hs x (List.mem_cons_of_mem _ hx)) hfirst
      have htake : ((if 0 < K.READ_TOKEN_MAX then [c] else []) ++ s).take K.READ_TOKEN_MAX
          = (c :: s).take K.READ_TOKEN_MAX := by
        by_cases h0 : 0 < K.READ_TOKEN_MAX
        · simp [h0]
        · have : K.READ_TOKEN_MAX = 0 := by omega
          simp [this]
      unfold configLexerFSM
      simp only [hun, hfd, List.map_cons, List.cons_append, lexer_skip_stop mk c _ hc.1, hcq,
        if_false, hc.2, Bool.false_eq_true]
      refine ⟨_, rfl, ?_, ?_⟩
      · simp only [hspec, htake]
      · simp only [hspec, htake, List.length_take]
        omega
  · intro pa0 r pa1 h
    unfold configLexerFSM at h
    simp only at h
    split at h
    · simp at h
    · simp only [Option.some.injEq, Prod.mk.injEq] at h
      obtain ⟨hr, hp⟩ := h
      subst hr; subst hp
      exact ⟨fun h0 => absurd h0 (by decide), fun _ => rfl⟩
    · split at h
      · simp only [Option.some.injEq, Prod.mk.injEq] at h
        obtain ⟨hr, hp⟩ := h
        subst hr; subst hp
        refine ⟨fun _ => ?_, fun h0 => absurd rfl h0⟩
        exact le_trans (lexer_quoted_length mk K _ [] (by simp)) (Nat.sub_le _ _)
      · split at h
        · simp only [Option.some.injEq, Prod.mk.injEq] at h
          obtain ⟨hr, hp⟩ := h
          subst hr; subst hp
          exact ⟨fun h0 => absurd h0 (by decide), fun _ => rfl⟩
        · simp only [Option.some.injEq, Prod.mk.injEq] at h
          obtain ⟨hr, hp⟩ := h
          subst hr; subst hp
          refine ⟨fun _ => ?_, fun h0 => absurd rfl h0⟩
          apply lexer_plain_length
          split <;> simp; omega
  · intro pa0 fd hun0 hfd0 hsp
    unfold configLexerFSM
    simp only [hun0, hfd0, lexer_skip_stop mk '"' fd hsp, if_true]
    exact ⟨_, rfl, lexer_quoted_length mk K fd [] (by simp)⟩

/-- C30 on a concrete input: a token of 20 bytes with `READ_TOKEN_MAX` 16. -/
theorem plain_token_fills_READ_TOKEN_MAX_witness :
    ∃ pa1, configLexerFSM mk_default demo_h
        { fd := "abcdefghijklmnopqrst 1".toList.map some, unchar := none, tbuf := [],
          line_N := 1, newline := 0 } = some (0, pa1)
      ∧ pa1.tbuf = "abcdefghijklmnop".toList ∧ pa1.tbuf.length = 16 :=
  (plain_token_fills_READ_TOKEN_MAX mk_default demo_h
    { fd := "abcdefghijklmnopqrst 1".toList.map some, unchar := none, tbuf := [],
      line_N := 1, newline := 0 } "abcdefghijklmnopqrst".toList (" 1".toList.map some) rfl
    (by decide) (by decide) (by decide) (by decide)
    (by intro x hx; simp at hx; subst hx; decide)).1

open data_hint format_t async_ret

theorem combineGetFreeAxis_sF_spec (map : Nat → Int) (N : Nat) :
    ∀ left J, (combineGetFreeAxis_sF map N left J = 0 ↔ ∀ I, J ≤ I → I < J + left → map I ≠ (N : Int))
      ∧ (combineGetFreeAxis_sF map N left J = 0 ∨ combineGetFreeAxis_sF map N left J = 1) := by
  intro left
  induction left with
  | zero =>
    intro J
    simp only [combineGetFreeAxis_sF, true_iff, true_or, and_true]
    intro I h1 h2; omega
  | succ left ih =>
    intro J
    rw [combineGetFreeAxis_sF]
    by_cases h : map J = (N : Int)
    · simp only [h, if_true, one_ne_zero, false_iff, or_true, and_true]
      intro hall
      exact hall J (le_refl _) (by omega) h
    · simp only [h, if_false]
      obtain ⟨ih1, ih2⟩ := ih (J + 1)
      refine ⟨?_, ih2⟩
      rw [ih1]
      constructor
      · intro hall I h1 h2
        by_cases hI : I = J
        · subst hI; exact h
        · exact hall I (by omega) (by omega)
      · intro hall I h1 h2
        exact hall I (by omega) (by omega)

theorem combineGetFreeAxis_sF_unused (busy : Nat → Int) (map : Nat → Int) (N : Nat) :
    (busy N = AXIS_FREE ∧ combineGetFreeAxis_sF map N PLOT_AXES_MAX 0 = 0)
      ↔ axis_unused busy map N := by
  unfold axis_unused
  rw [(combineGetFreeAxis_sF_spec map N PLOT_AXES_MAX 0).1]
  constructor
  · intro ⟨h1, h2⟩
    exact ⟨h1, fun J hJ => h2 J (Nat.zero_le _) (by omega)⟩
  · intro ⟨h1, h2⟩
    exact ⟨h1, fun I _ hI => h2 I (by omega)⟩

theorem combineGetFreeAxis_loop_spec (busy : Nat → Int) (map : Nat → Int) :
    ∀ left N,
      (combineGetFreeAxis_loop busy map left N = -1
        ∧ ∀ M, N ≤ M → M < N + left → ¬ axis_unused busy map M)
      ∨ (∃ r : Nat, combineGetFreeAxis_loop busy map left N = (r : Int) ∧ N ≤ r ∧ r < N + left
        ∧ axis_unused busy map r ∧ ∀ M, N ≤ M → M < r → ¬ axis_unused busy map M) := by
  intro left
  induction left with
  | zero =>
    intro N
    left
    exact ⟨rfl, fun M h1 h2 => by omega⟩
  | succ left ih =>
    intro N
    rw [combineGetFreeAxis_loop]
    by_cases hu : busy N = AXIS_FREE ∧ combineGetFreeAxis_sF map N PLOT_AXES_MAX 0 = 0
    · right
      simp only [hu.1, hu.2, if_true]
      exact ⟨N, rfl, le_refl _, by omega,
        (combineGetFreeAxis_sF_unused busy map N).mp hu, fun M h1 h2 => by omega⟩
    · have hnot : ¬ axis_unused busy map N :=
        fun h => hu ((combineGetFreeAxis_sF_unused busy map N).mpr h)
      have e : (if busy N = AXIS_FREE then
            if combineGetFreeAxis_sF map N PLOT_AXES_MAX 0 = 0 then (N : Int)
            else combineGetFreeAxis_loop busy map left (N + 1)
          else combineGetFreeAxis_loop busy map left (N + 1))
          = combineGetFreeAxis_loop busy map left (N + 1) := by
        by_cases h1 : busy N = AXIS_FREE
        · have h2 : ¬ (combineGetFreeAxis_sF map N PLOT_AXES_MAX 0 = 0) := fun h => hu ⟨h1, h⟩
          simp only [h1, h2, if_true, if_false]
        · simp only [h1, if_false]
      rw [e]
      rcases ih (N + 1) with ⟨h1, h2⟩ | ⟨r, h1, h2, h3, h4, h5⟩
      · left
        refine ⟨h1, fun M hM1 hM2 => ?_⟩
        by_cases hMN : M = N
        · subst hMN; exact hnot
        · exact h2 M (by omega) (by omega)
      · right
        refine ⟨r, h1, by omega, by omega, h4, fun M hM1 hM2 => ?_⟩
        by_cases hMN : M = N
        · subst hMN; exact hnot
        · exact h5 M (by omega) hM2

/-- C37: `combineGetFreeAxis` returns the least index `N` below `PLOT_AXES_MAX`
such that `pl->axis[N].busy == AXIS_FREE` and `N` does not occur in
`map[0 .. PLOT_AXES_MAX)`, and it returns -1 exactly when there is no such
index; the function reads the plot and the map and changes neither. -/
theorem combineGetFreeAxis_least_unused (busy : Nat → Int) (map : Nat → Int) :
    (combineGetFreeAxis busy map = -1
      ↔ ∀ N, N < PLOT_AXES_MAX → ¬ axis_unused busy map N)
    ∧ (∀ N : Nat, combineGetFreeAxis busy map = (N : Int)
      ↔ (N < PLOT_AXES_MAX ∧ axis_unused busy map N
          ∧ ∀ M, M < N → ¬ axis_unused busy map M))
    ∧ (combineGetFreeAxis busy map = -1
      ∨ ∃ N : Nat, N < PLOT_AXES_MAX ∧ combineGetFreeAxis busy map = (N : Int)) := by
  unfold combineGetFreeAxis
  rcases combineGetFreeAxis_loop_spec busy map PLOT_AXES_MAX 0 with
    ⟨h1, h2⟩ | ⟨r, h1, h2, h3, h4, h5⟩
  · refine ⟨?_, ?_, Or.inl h1⟩
    · rw [h1]
      simp only [true_iff]
      intro N hN
      exact h2 N (Nat.zero_le _) (by omega)
    · intro N
      rw [h1]
      constructor
      · intro h; omega
      · intro ⟨hN, hu, _⟩
        exact absurd hu (h2 N (Nat.zero_le _) (by omega))
  · refine ⟨?_, ?_, Or.inr ⟨r, by omega, h1⟩⟩
    · rw [h1]
      constructor
      · intro h; omega
      · intro hall
        exact absurd h4 (hall r (by omega))
    · intro N
      rw [h1]
      constructor
      · intro h
        have : N = r := by omega
        subst this
        exact ⟨by omega, h4, fun M hM => h5 M (Nat.zero_le _) hM⟩
      · intro ⟨hN, hu, hleast⟩
        have hrN : ¬ (r < N) := fun hlt => hleast r hlt h4
        have hNr : ¬ (N < r) := fun hlt => h5 N (Nat.zero_le _) hlt hu
        have : r = N := by omega
        rw [this]

open data_hint format_t async_ret

open data_hint format_t async_ret

/-- The command `figure` in terms of its arguments: the flag `failed` and the
reader it leaves. -/
theorem config_figure_spec {σ α : Type} (c : config_t σ α) :
    (∀ a b label, figure_args c = some (a, b, label) → figure_allowed c.rd a b →
      (config_figure c).failed = 0
      ∧ (config_figure c).rd = { c.rd with
          figure_N := c.rd.figure_N + 1
          page := Function.update c.rd.page c.rd.page_N
            { c.rd.page c.rd.page_N with
              fig := Function.update (c.rd.page c.rd.page_N).fig (c.rd.figure_N + 1).toNat
                (figure_entry c.rd.bind_N a b label) } })
    ∧ (∀ a b label, figure_args c = some (a, b, label) → ¬ figure_allowed c.rd a b →
      (config_figure c).failed = 1 ∧ (config_figure c).rd = c.rd)
    ∧ (figure_args c = none → (config_figure c).failed = 1 ∧ (config_figure c).rd = c.rd) := by
  have hf : first_int { c with failed := 1 } = first_int c := rfl
  cases h1 : first_int c with
  | none =>
    have e : config_figure c = { c with failed := 1, pa := (next_token c.pa).2 } := by
      unfold config_figure
      rw [lex_int_none { c with failed := 1 } 0 (by rw [hf]; exact h1)]
      rfl
    have hnone : figure_args c = none := by unfold figure_args; rw [h1]
    refine ⟨?_, ?_, ?_⟩
    · intro a b label h; rw [hnone] at h; exact absurd h (by simp)
    · intro a b label h; rw [hnone] at h; exact absurd h (by simp)
    · intro _; rw [e]; exact ⟨rfl, rfl⟩
  | some a =>
    have hl1 := lex_int_some { c with failed := 1 } 0 a (by rw [hf]; exact h1)
    have hc1 : ∃ c1 : config_t σ α,
        c1 = { c with failed := 1, pa := (next_token c.pa).2, argi := Function.update c.argi 0 a } :=
      ⟨_, rfl⟩
    obtain ⟨c1, ec1⟩ := hc1
    rw [← ec1] at hl1
    have hf2 : first_int c1 = first_int { c with pa := (next_token c.pa).2 } := by
      rw [ec1]; rfl
    cases h2 : first_int { c with pa := (next_token c.pa).2 } with
    | none =>
      have hl2 := lex_int_none c1 1 (by rw [hf2]; exact h2)
      have e : (config_figure c).failed = 1 ∧ (config_figure c).rd = c.rd := by
        unfold config_figure
        rw [hl1]
        simp only [bind, Except.bind]
        rw [hl2]
        subst ec1
        exact ⟨rfl, rfl⟩
      have hnone : figure_args c = none := by unfold figure_args; rw [h1]; simp only; rw [h2]
      refine ⟨?_, ?_, ?_⟩
      · intro a b label h; rw [hnone] at h; exact absurd h (by simp)
      · intro a b label h; rw [hnone] at h; exact absurd h (by simp)
      · intro _; exact e
    | some b =>
      have hl2 := lex_int_some c1 1 b (by rw [hf2]; exact h2)
      by_cases h3 : (next_token (next_token (next_token c.pa).2).2).1 = 0
      · have hargs : figure_args c = some (a, b,
            cstr (next_token (next_token (next_token c.pa).2).2).2.tbuf) := by
          unfold figure_args; rw [h1]; simp only; rw [h2]; simp only [h3, if_true]
        refine ⟨?_, ?_, ?_⟩
        · intro a1 b1 label h hal
          rw [hargs] at h
          simp only [Option.some.injEq, Prod.mk.injEq] at h
          obtain ⟨ha, hb, hlab⟩ := h
          subst ha; subst hb; subst hlab
          obtain ⟨p1, p2, p3, p4, p5, p6, p7⟩ := hal
          have q3 : ¬ (a < -1) := by omega
          have q4 : ¬ (a ≥ c.rd.pump.pl.column_N c.rd.bind_N.toNat) := by omega
          have q5 : ¬ (b < -1) := by omega
          have q6 : ¬ (b ≥ c.rd.pump.pl.column_N c.rd.bind_N.toNat) := by omega
          unfold config_figure
          rw [hl1]
          simp only [bind, Except.bind]
          rw [hl2]
          subst ec1
          simp [finish, pure, Except.pure, throw, throwThe, MonadExceptOf.throw, p1, p2, q3, q4,
            q5, q6, p7, h3]
        · intro a1 b1 label h hal
          rw [hargs] at h
          simp only [Option.some.injEq, Prod.mk.injEq] at h
          obtain ⟨ha, hb, hlab⟩ := h
          subst ha; subst hb; subst hlab
          unfold figure_allowed at hal
          unfold config_figure
          rw [hl1]
          simp only [bind, Except.bind]
          rw [hl2]
          subst ec1
          simp only [finish, pure, Except.pure, throw, throwThe, MonadExceptOf.throw,
            Function.update_same, ne_eq, one_ne_zero, not_false_eq_true,
            Function.update_noteq, h3, if_true]
          by_cases p1 : c.rd.page_N = -1
          · simp [p1]
          · by_cases p2 : c.rd.bind_N = -1
            · simp [p1, p2]
            · by_cases p3 : a < -1 ∨ a ≥ c.rd.pump.pl.column_N c.rd.bind_N.toNat ∨ b < -1
                  ∨ b ≥ c.rd.pump.pl.column_N c.rd.bind_N.toNat
              · simp [p1, p2, p3]
              · have p7 : ¬ (c.rd.figure_N < PLOT_FIGURE_MAX - 1) := by
                  intro h7
                  apply hal
                  exact ⟨p1, p2, by omega, by omega, by omega, by omega, h7⟩
                simp [p1, p2, p3, p7]
        · intro h; rw [hargs] at h; exact absurd h (by simp)
      · have hnone : figure_args c = none := by
          unfold figure_args; rw [h1]; simp only; rw [h2]; simp only [h3, if_false]
        refine ⟨?_, ?_, ?_⟩
        · intro a b label h; rw [hnone] at h; exact absurd h (by simp)
        · intro a b label h; rw [hnone] at h; exact absurd h (by simp)
        · intro _
          unfold config_figure
          rw [hl1]
          simp only [bind, Except.bind]
          rw [hl2]
          subst ec1
          simp only [finish, pure, Except.pure, throw, throwThe, MonadExceptOf.throw, h3,
            if_false]
          by_cases p1 : c.rd.page_N = -1
          · simp [p1]
          · by_cases p2 : c.rd.bind_N = -1
            · simp [p1, p2]
            · simp only [p1, p2, if_false]
              split_ifs <;> exact ⟨rfl, rfl⟩

/-- C34, amended: the command `figure` keeps the count of figures within
bounds and takes a page to be full by that count. A count `figure_N` in
`[-1, PLOT_FIGURE_MAX - 1]` stays there. The command is not reported as failed
exactly when its arguments are two integers and a label token, a page and a
dataset are selected, both column numbers are in `[-1, column_N)` of the bound
dataset and `figure_N < PLOT_FIGURE_MAX - 1`; then `figure_N` is increased by
one, the figure `fig[figure_N]` of the selected page is written and nothing
else of the reader is changed. In every other case, the count at
`PLOT_FIGURE_MAX - 1` included, the command is reported as failed and leaves
the reader, its pages and `figure_N` included. A page that holds
`PLOT_FIGURE_MAX` busy figures is refused when the count covers the busy
figures of the page, that is, when every busy figure has an index up to
`figure_N`. -/
theorem figure_keeps_table_bounds {σ α : Type} (c : config_t σ α) :
    (-1 ≤ c.rd.figure_N → c.rd.figure_N ≤ PLOT_FIGURE_MAX - 1 →
      -1 ≤ (config_figure c).rd.figure_N
      ∧ (config_figure c).rd.figure_N ≤ PLOT_FIGURE_MAX - 1)
    ∧ ((config_figure c).failed = 0
        ↔ ∃ a b label, figure_args c = some (a, b, label) ∧ figure_allowed c.rd a b)
    ∧ (∀ a b label, figure_args c = some (a, b, label) → figure_allowed c.rd a b →
        (config_figure c).rd.figure_N = c.rd.figure_N + 1
        ∧ ((config_figure c).rd.page c.rd.page_N).fig (c.rd.figure_N + 1).toNat
            = figure_entry c.rd.bind_N a b label
        ∧ (∀ fN, fN ≠ (c.rd.figure_N + 1).toNat →
            ((config_figure c).rd.page c.rd.page_N).fig fN = (c.rd.page c.rd.page_N).fig fN)
        ∧ (∀ pN, pN ≠ c.rd.page_N → (config_figure c).rd.page pN = c.rd.page pN)
        ∧ (config_figure c).rd.pump = c.rd.pump
        ∧ (config_figure c).rd.page_N = c.rd.page_N
        ∧ (config_figure c).rd.bind_N = c.rd.bind_N)
    ∧ ((config_figure c).failed ≠ 0 →
        (config_figure c).failed = 1 ∧ (config_figure c).rd = c.rd
        ∧ (config_figure c).rd.page = c.rd.page
        ∧ (config_figure c).rd.figure_N = c.rd.figure_N)
    ∧ (c.rd.figure_N ≥ PLOT_FIGURE_MAX - 1 →
        (config_figure c).failed = 1 ∧ (config_figure c).rd = c.rd)
    ∧ ((∀ k : Nat, (k : Int) < PLOT_FIGURE_MAX →
          ((c.rd.page c.rd.page_N).fig k).busy ≠ 0 → (k : Int) ≤ c.rd.figure_N) →
        (∀ k : Nat, (k : Int) < PLOT_FIGURE_MAX →
          ((c.rd.page c.rd.page_N).fig k).busy ≠ 0) →
        (config_figure c).failed = 1 ∧ (config_figure c).rd = c.rd) := by
  obtain ⟨s1, s2, s3⟩ := config_figure_spec c
  have hcases : (∃ a b label, figure_args c = some (a, b, label) ∧ figure_allowed c.rd a b)
      ∨ ((config_figure c).failed = 1 ∧ (config_figure c).rd = c.rd) := by
    cases hargs : figure_args c with
    | none => exact Or.inr (s3 hargs)
    | some x =>
      obtain ⟨a, b, label⟩ := x
      by_cases hal : figure_allowed c.rd a b
      · exact Or.inl ⟨a, b, label, rfl, hal⟩
      · exact Or.inr (s2 a b label hargs hal)
  have hfull : c.rd.figure_N ≥ PLOT_FIGURE_MAX - 1 →
      (config_figure c).failed = 1 ∧ (config_figure c).rd = c.rd := by
    intro hfull
    rcases hcases with ⟨a, b, label, hargs, hal⟩ | h
    · have := hal.2.2.2.2.2.2
      omega
    · exact h
  refine ⟨?_, ?_, ?_, ?_, hfull, ?_⟩
  · intro h0 h1
    rcases hcases with ⟨a, b, label, hargs, hal⟩ | ⟨_, hrd⟩
    · rw [(s1 a b label hargs hal).2]
      have := hal.2.2.2.2.2.2
      simp only
      constructor <;> omega
    · rw [hrd]; exact ⟨h0, h1⟩
  · constructor
    · intro hf
      rcases hcases with h | ⟨h, _⟩
      · exact h
      · rw [h] at hf; exact absurd hf (by decide)
    · rintro ⟨a, b, label, hargs, hal⟩
      exact (s1 a b label hargs hal).1
  · intro a b label hargs hal
    rw [(s1 a b label hargs hal).2]
    refine ⟨rfl, ?_, ?_, ?_, rfl, rfl, rfl⟩
    · simp
    · intro fN hfN
      simp [Function.update_noteq hfN]
    · intro pN hpN
      simp [Function.update_noteq hpN]
  · intro hf
    rcases hcases with ⟨a, b, label, hargs, hal⟩ | ⟨h1, h2⟩
    · exact absurd (s1 a b label hargs hal).1 hf
    · exact ⟨h1, h2, by rw [h2], by rw [h2]⟩
  · intro hcount hbusy
    have h7 : ((7 : Nat) : Int) ≤ c.rd.figure_N :=
      hcount 7 (by decide) (hbusy 7 (by decide))
    apply hfull
    have : PLOT_FIGURE_MAX = 8 := rfl
    omega

/-- The command `figure 0 1 "u"` on a page of a reader with a dataset of three
columns adds the first figure of the page. -/
theorem figure_adds_first :
    (config_figure { demo_config [token_t.TOKEN "0".toList, token_t.TOKEN "1".toList,
        token_t.TOKEN "u".toList] with
      rd := { demo_reader (demo_closed (demo_plot 2)) with page_N := 1, bind_N := 0 } }).failed = 0
    ∧ (config_figure { demo_config [token_t.TOKEN "0".toList, token_t.TOKEN "1".toList,
        token_t.TOKEN "u".toList] with
      rd := { demo_reader (demo_closed (demo_plot 2)) with page_N := 1, bind_N := 0 }
      }).rd.figure_N = 0 := by
  constructor <;> decide

/-- C34, the claim as stated fails: after `load 0 0 float 0 x` on a file that
does not open, `page t` and eight commands `figure -1 -1 u`, page 1 holds
`PLOT_FIGURE_MAX` busy figures and `figure_N` is 7; `mkpages -1` makes no page
for the dataset without columns, leaves `page_N = 1` and sets `figure_N = -1`;
the next `figure -1 -1 v` is then not reported as failed, sets `figure_N = 0`
and overwrites `fig[0]` of the page that holds `PLOT_FIGURE_MAX` figures. -/
theorem figure_overwrites_full_page :
    demo_full_page.rd.page_N = 1 ∧ demo_full_page.rd.figure_N = 7
    ∧ (∀ k ∈ List.range 8, ((demo_full_page.rd.page 1).fig k).busy = 1)
    ∧ demo_count_reset.failed = 0
    ∧ demo_count_reset.rd.page_N = 1 ∧ demo_count_reset.rd.figure_N = -1
    ∧ (∀ k ∈ List.range 8, ((demo_count_reset.rd.page 1).fig k).busy = 1)
    ∧ ((demo_count_reset.rd.page 1).fig 0).label = "u".toList
    ∧ (config_figure (demo_count_reset.at_command ["-1", "-1", "v"])).failed = 0
    ∧ (config_figure (demo_count_reset.at_command ["-1", "-1", "v"])).rd.figure_N = 0
    ∧ (((config_figure (demo_count_reset.at_command ["-1", "-1", "v"])).rd.page 1).fig 0).label
        = "v".toList := by
  decide

open data_hint format_t async_ret

theorem free_pages_ge (page : Int → page_t) (M s : Nat) (h : M ≤ s) :
    free_pages page M s = [] := by
  unfold free_pages
  have : M - s = 0 := by omega
  rw [this]; rfl

theorem free_pages_lt (page : Int → page_t) (M s : Nat) (h : s < M) :
    free_pages page M s
      = (if (page s).busy = 0 then [s] else []) ++ free_pages page M (s + 1) := by
  unfold free_pages
  have e : M - s = (M - (s + 1)) + 1 := by omega
  rw [e, List.range'_succ, List.filter_cons]
  by_cases hb : (page s).busy = 0
  · simp [hb]
  · simp [hb]

theorem free_pages_mem (page : Int → page_t) (M s p : Nat) (h : p ∈ free_pages page M s) :
    s ≤ p ∧ p < M ∧ (page p).busy = 0 := by
  unfold free_pages at h
  rw [List.mem_filter, List.mem_range'_1] at h
  obtain ⟨⟨h1, h2⟩, h3⟩ := h
  refine ⟨h1, by omega, by simpa using h3⟩

theorem free_pages_sorted (page : Int → page_t) (M s : Nat) :
    (free_pages page M s).Pairwise (fun a b => a < b) := by
  unfold free_pages
  exact List.Pairwise.filter _ (List.pairwise_lt_range' s (M - s))

/-- The free pages after the first one. -/
theorem free_pages_tail (page : Int → page_t) (M : Nat) (p : Nat) (rest : List Nat) :
    ∀ (d s : Nat), M - s ≤ d → free_pages page M s = p :: rest →
      rest = free_pages page M (p + 1) := by
  intro d
  induction d with
  | zero =>
    intro s hd h
    rw [free_pages_ge page M s (by omega)] at h
    exact absurd h (by simp)
  | succ d ih =>
    intro s hd h
    by_cases hs : s < M
    · rw [free_pages_lt page M s hs] at h
      by_cases hb : (page s).busy = 0
      · simp only [hb, if_true, List.singleton_append, List.cons.injEq] at h
        obtain ⟨h1, h2⟩ := h
        subst h1
        exact h2.symm
      · simp only [hb, if_false, List.nil_append] at h
        exact ih (s + 1) (by omega) h
    · rw [free_pages_ge page M s (by omega)] at h
      exact absurd h (by simp)

/-- The scan of `readMakePages` stops at the first free page, or past the table. -/
theorem readMakePages_scan_spec (page : Int → page_t) (M : Nat) :
    ∀ (fuel s : Nat), M - s < fuel →
      (free_pages page M s = [] → (M : Int) ≤ readMakePages_scan page M fuel s)
      ∧ (∀ p rest, free_pages page M s = p :: rest →
          readMakePages_scan page M fuel s = (p : Int)) := by
  intro fuel
  induction fuel with
  | zero => intro s h; omega
  | succ fuel ih =>
    intro s hf
    rw [readMakePages_scan]
    by_cases hb : (page s).busy = 0
    · have hb2 : ¬ ((page (s : Int)).busy ≠ 0) := by simpa using hb
      rw [if_neg hb2]
      constructor
      · intro hnil
        by_cases hs : s < M
        · rw [free_pages_lt page M s hs] at hnil
          simp [hb] at hnil
        · omega
      · intro p rest h
        by_cases hs : s < M
        · rw [free_pages_lt page M s hs] at h
          simp only [hb, if_true, List.singleton_append, List.cons.injEq] at h
          rw [h.1]
        · rw [free_pages_ge page M s (by omega)] at h
          exact absurd h (by simp)
    · have hb2 : (page (s : Int)).busy ≠ 0 := hb
      rw [if_pos hb2]
      by_cases hlast : (s : Int) + 1 ≥ (M : Int)
      · rw [if_pos hlast]
        have hnil : free_pages page M s = [] := by
          by_cases hs : s < M
          · rw [free_pages_lt page M s hs, free_pages_ge page M (s + 1) (by omega)]
            simp [hb]
          · exact free_pages_ge page M s (by omega)
        constructor
        · intro _; omega
        · intro p rest h; rw [hnil] at h; exact absurd h (by simp)
      · rw [if_neg hlast]
        have hs : s < M := by omega
        have e : free_pages page M s = free_pages page M (s + 1) := by
          rw [free_pages_lt page M s hs]
          simp [hb]
        have hcast : (s : Int) + 1 = ((s + 1 : Nat) : Int) := by push_cast; rfl
        rw [hcast, e]
        exact ih (s + 1) (by omega)

/-- The free pages after a page that has just been made. -/
theorem free_pages_update (page : Int → page_t) (M p : Nat) (X : page_t) (hX : X.busy ≠ 0)
    (hp : p < M) :
    free_pages (Function.update page (p : Int) X) M p = free_pages page M (p + 1) := by
  rw [free_pages_lt _ M p hp]
  simp only [Function.update_same, hX, if_false, List.nil_append]
  unfold free_pages
  apply List.filter_congr
  intro q hq
  rw [List.mem_range'_1] at hq
  have hne : (q : Int) ≠ (p : Int) := by omega
  rw [Function.update_noteq hne]

/-- The loop of `readMakePages` fills the free pages in turn, one for each
column, and leaves the other pages. -/
theorem readMakePages_loop_spec (T : text_api) (M : Nat) (file : List Char)
    (label : Nat → List Char) (dN cX : Int) (Ns : List Nat) :
    ∀ (s : Nat) (page : Int → page_t),
      (∀ k p N : Nat, (free_pages page M s)[k]? = some p → Ns[k]? = some N →
        (readMakePages_loop T M file label dN cX Ns s page).2 p
          = readMakePages_page T file (label N) (page p) dN cX N)
      ∧ (∀ q : Int, (∀ k p : Nat, k < Ns.length → (free_pages page M s)[k]? = some p →
          (p : Int) ≠ q) →
        (readMakePages_loop T M file label dN cX Ns s page).2 q = page q)
      ∧ (Ns.length ≤ (free_pages page M s).length → Ns ≠ [] →
        (free_pages page M s)[Ns.length - 1]?
          = some (readMakePages_loop T M file label dN cX Ns s page).1.toNat
        ∧ 0 ≤ (readMakePages_loop T M file label dN cX Ns s page).1)
      ∧ ((free_pages page M s).length < Ns.length →
        (M : Int) ≤ (readMakePages_loop T M file label dN cX Ns s page).1) := by
  induction Ns with
  | nil =>
    intro s page
    refine ⟨?_, ?_, ?_, ?_⟩
    · intro k p N _ h; simp at h
    · intro q _; rfl
    · intro _ h; exact absurd rfl h
    · intro h; simp at h
  | cons N Ns ih =>
    intro s page
    have hs1 : (if (s : Int) = -1 then (1 : Int) else (s : Int)) = (s : Int) := by
      have : ¬ ((s : Int) = -1) := by omega
      rw [if_neg this]
    have hfuel : ((M : Int) - (s : Int)).toNat.succ = (M - s) + 1 := by omega
    rw [readMakePages_loop]
    simp only [hs1, hfuel]
    obtain ⟨sc1, sc2⟩ := readMakePages_scan_spec page M ((M - s) + 1) s (by omega)
    cases hfl : free_pages page M s with
    | nil =>
      have hge := sc1 hfl
      rw [if_pos hge]
      refine ⟨?_, ?_, ?_, ?_⟩
      · intro k p N1 h _; simp at h
      · intro q _; rfl
      · intro h _; simp at h
      · intro _; exact hge
    | cons p rest =>
      have hsc := sc2 p rest hfl
      obtain ⟨hp1, hp2, hp3⟩ := free_pages_mem page M s p (by rw [hfl]; exact List.mem_cons_self _ _)
      have hrest := free_pages_tail page M p rest (M - s) s (le_refl _) hfl
      rw [hsc]
      have hlt : ¬ ((p : Int) ≥ (M : Int)) := by omega
      rw [if_neg hlt]
      have hbusy : (readMakePages_page T file (label N) (page p) dN cX N).busy ≠ 0 := by
        simp [readMakePages_page]
      have hfl2 := free_pages_update page M p _ hbusy hp2
      obtain ⟨i1, i2, i3, i4⟩ := ih p
        (Function.update page (p : Int) (readMakePages_page T file (label N) (page p) dN cX N))
      rw [hfl2, ← hrest] at i1 i2 i3 i4
      have hgt : ∀ k q : Nat, rest[k]? = some q → p < q := by
        intro k q hq
        have hm : q ∈ free_pages page M (p + 1) := by
          rw [← hrest]; exact List.getElem?_mem hq
        have := free_pages_mem page M (p + 1) q hm
        omega
      refine ⟨?_, ?_, ?_, ?_⟩
      · intro k q N1 hq hN
        cases k with
        | zero =>
          simp only [List.getElem?_cons_zero, Option.some.injEq] at hq hN
          subst hq; subst hN
          rw [i2 (p : Int) (fun k q _ hq => by have := hgt k q hq; omega)]
          simp
        | succ k =>
          simp only [List.getElem?_cons_succ] at hq hN
          rw [i1 k q N1 hq hN]
          have hne : (q : Int) ≠ (p : Int) := by have := hgt k q hq; omega
          rw [Function.update_noteq hne]
      · intro q hq
        have hq0 : (p : Int) ≠ q := hq 0 p (by simp) (by simp)
        rw [i2 q (fun k q1 hk hq1 => hq (k + 1) q1 (by simp; omega) (by simpa using hq1))]
        exact Function.update_noteq (fun h => hq0 h.symm) _ _
      · intro hlen _
        simp only [List.length_cons] at hlen ⊢
        simp only [Nat.add_sub_cancel]
        cases Ns with
        | nil =>
          simp only [readMakePages_loop, List.length_nil, List.getElem?_cons_zero]
          exact ⟨by simp, by omega⟩
        | cons N2 Ns2 =>
          obtain ⟨j1, j2⟩ := i3 (by simp only [List.length_cons] at hlen ⊢; omega) (by simp)
          simp only [List.length_cons, Nat.add_sub_cancel] at j1 ⊢
          rw [List.getElem?_cons_succ]
          exact ⟨j1, j2⟩
      · intro hlen
        simp only [List.length_cons] at hlen
        cases Ns with
        | nil => simp at hlen
        | cons N2 Ns2 => exact i4 (by simp only [List.length_cons] at hlen ⊢; omega)

/-- The pages of the loop of `readMakePages` from `rd->page_N`. -/
theorem readMakePages_loop_start (T : text_api) (M : Nat) (file : List Char)
    (label : Nat → List Char) (dN cX : Int) (Ns : List Nat) (pN : Int) (page : Int → page_t)
    (hp : -1 ≤ pN) :
    (readMakePages_loop T M file label dN cX Ns pN page).2
      = (readMakePages_loop T M file label dN cX Ns
          (((if pN = -1 then 1 else pN).toNat : Nat) : Int) page).2 := by
  by_cases h : pN = -1
  · subst h
    cases Ns with
    | nil => rfl
    | cons N Ns =>
      rw [readMakePages_loop, readMakePages_loop]
      rfl
  · have e : (((if pN = -1 then 1 else pN).toNat : Nat) : Int) = pN := by
      rw [if_neg h]; omega
    rw [e]

/-- C33: `readMakePages` makes one page for each column and leaves the pages
that exist. For a dataset `dN` of the table and `rd->page_N >= -1`, let the
free pages be the indices `p` from the start (`rd->page_N`, or 1 when it is -1)
below `READ_PAGE_MAX` with `busy == 0`, in ascending order. For each column
`k` of the dataset for which there is a `k`-th free page, that page is made:
`busy = 2`, the title and the label of axis 1 are set, and `fig[0]` is `busy 1,
dN, cX, cY = k, aX = 0, aY = 1` with `cX` replaced by `rd->timecol` when it is
below -1. Every other page, so every page that was busy, is left unchanged;
the columns beyond the number of free pages get no page. -/
theorem readMakePages_fills_free_pages {σ α : Type} (T : text_api) (K : read_h)
    (r : reader_t σ α) (dN cX fromUI : Int) (hd0 : 0 ≤ dN) (hd1 : dN < PLOT_DATASET_MAX)
    (hp : -1 ≤ r.page_N) :
    (free_pages r.page K.READ_PAGE_MAX (readMakePages_start r)).Pairwise (fun a b => a < b)
    ∧ (∀ p ∈ free_pages r.page K.READ_PAGE_MAX (readMakePages_start r),
        readMakePages_start r ≤ p ∧ p < K.READ_PAGE_MAX ∧ (r.page p).busy = 0)
    ∧ (∀ k p : Nat, k < readMakePages_columns r dN →
        (free_pages r.page K.READ_PAGE_MAX (readMakePages_start r))[k]? = some p →
        (readMakePages T K r dN cX fromUI).page p
          = readMakePages_page T (r.file dN.toNat) (r.label dN.toNat k) (r.page p) dN
              (if cX < -1 then r.timecol else cX) k
        ∧ ((readMakePages T K r dN cX fromUI).page p).busy = 2
        ∧ (((readMakePages T K r dN cX fromUI).page p).fig 0).busy = 1
        ∧ (((readMakePages T K r dN cX fromUI).page p).fig 0).dN = dN
        ∧ (((readMakePages T K r dN cX fromUI).page p).fig 0).cX
            = (if cX < -1 then r.timecol else cX)
        ∧ (((readMakePages T K r dN cX fromUI).page p).fig 0).cY = k
        ∧ (((readMakePages T K r dN cX fromUI).page p).fig 0).aX = 0
        ∧ (((readMakePages T K r dN cX fromUI).page p).fig 0).aY = 1)
    ∧ (∀ q : Int, (∀ k p : Nat, k < readMakePages_columns r dN →
          (free_pages r.page K.READ_PAGE_MAX (readMakePages_start r))[k]? = some p →
          (p : Int) ≠ q) →
        (readMakePages T K r dN cX fromUI).page q = r.page q)
    ∧ (∀ q : Int, (r.page q).busy ≠ 0 → (readMakePages T K r dN cX fromUI).page q = r.page q)
    ∧ (readMakePages T K r dN cX fromUI).pump = r.pump := by
  have hd : ¬ (dN < 0 ∨ dN ≥ PLOT_DATASET_MAX) := by omega
  have hpage : (readMakePages T K r dN cX fromUI).page
      = (readMakePages_loop T K.READ_PAGE_MAX (r.file dN.toNat) (r.label dN.toNat) dN
          (if cX < -1 then r.timecol else cX) (List.range (readMakePages_columns r dN))
          ((readMakePages_start r : Nat) : Int) r.page).2 := by
    unfold readMakePages
    simp only [hd, if_false]
    rw [readMakePages_loop_start T K.READ_PAGE_MAX _ _ dN _ _ r.page_N r.page hp]
    split <;> rfl
  have hpump : (readMakePages T K r dN cX fromUI).pump = r.pump := by
    unfold readMakePages
    simp only [hd, if_false]
    split <;> rfl
  obtain ⟨l1, l2, _, _⟩ := readMakePages_loop_spec T K.READ_PAGE_MAX (r.file dN.toNat)
    (r.label dN.toNat) dN (if cX < -1 then r.timecol else cX)
    (List.range (readMakePages_columns r dN)) (readMakePages_start r) r.page
  have hmade : ∀ k p : Nat, k < readMakePages_columns r dN →
      (free_pages r.page K.READ_PAGE_MAX (readMakePages_start r))[k]? = some p →
      (readMakePages T K r dN cX fromUI).page p
        = readMakePages_page T (r.file dN.toNat) (r.label dN.toNat k) (r.page p) dN
            (if cX < -1 then r.timecol else cX) k := by
    intro k p hk hfl
    rw [hpage]
    exact l1 k p k hfl (by simp [hk])
  have hframe : ∀ q : Int, (∀ k p : Nat, k < readMakePages_columns r dN →
        (free_pages r.page K.READ_PAGE_MAX (readMakePages_start r))[k]? = some p →
        (p : Int) ≠ q) →
      (readMakePages T K r dN cX fromUI).page q = r.page q := by
    intro q hq
    rw [hpage]
    exact l2 q (fun k p hk hfl => hq k p (by simpa using hk) hfl)
  refine ⟨free_pages_sorted _ _ _, fun p hp1 => free_pages_mem _ _ _ p hp1, ?_, hframe, ?_,
    hpump⟩
  · intro k p hk hfl
    rw [hmade k p hk hfl]
    refine ⟨rfl, rfl, ?_, ?_, ?_, ?_, ?_, ?_⟩ <;> simp [readMakePages_page]
  · intro q hq
    apply hframe
    intro k p _ hfl hpq
    have := (free_pages_mem _ _ _ p (List.getElem?_mem hfl)).2.2
    rw [hpq] at this
    exact hq this

/-- C33 on a concrete run: a fresh reader, whose dataset 0 has two columns, with
room for the pages 1 to 5; the pages 1 and 2 are made and page 3 is left. -/
theorem readMakePages_fills_free_pages_witness :
    ((readMakePages demo_text demo_h (demo_reader (demo_closed (demo_plot 0))) 0 0 0).page
        (1 : Nat)).busy = 2
    ∧ (((readMakePages demo_text demo_h (demo_reader (demo_closed (demo_plot 0))) 0 0 0).page
        (2 : Nat)).fig 0).cY = (1 : Nat)
    ∧ (readMakePages demo_text demo_h (demo_reader (demo_closed (demo_plot 0))) 0 0 0).page 3
        = (demo_reader (demo_closed (demo_plot 0))).page 3 :=
  ⟨((readMakePages_fills_free_pages demo_text demo_h
      (demo_reader (demo_closed (demo_plot 0))) 0 0 0 (by decide) (by decide)
      (by decide)).2.2.1 0 1 (by decide) (by decide)).2.1,
    ((readMakePages_fills_free_pages demo_text demo_h
      (demo_reader (demo_closed (demo_plot 0))) 0 0 0 (by decide) (by decide)
      (by decide)).2.2.1 1 2 (by decide) (by decide)).2.2.2.2.2.1,
    (readMakePages_fills_free_pages demo_text demo_h
      (demo_reader (demo_closed (demo_plot 0))) 0 0 0 (by decide) (by decide)
      (by decide)).2.2.2.1 3 (by
        intro k p hk hfl
        have hk2 : k < 2 := hk
        have hfree : free_pages (demo_reader (demo_closed (demo_plot 0))).page
            demo_h.READ_PAGE_MAX (readMakePages_start (demo_reader (demo_closed (demo_plot 0))))
            = [1, 2, 3, 4, 5] := by decide
        rw [hfree] at hfl
        interval_cases k <;> simp at hfl <;> subst hfl <;> decide)⟩

open data_hint format_t async_ret

theorem langFill_fields_same :
    (langFill_assign lang_code.LANG_EN).map Prod.fst
      = (langFill_assign lang_code.LANG_RU).map Prod.fst := by
  decide

set_option maxRecDepth 1000000 in
/-- The tables of `langFill`, field by field: both languages assign a value, and
the two values give the same menu structure. -/
theorem langFill_tables_same :
    ∀ f ∈ (langFill_assign lang_code.LANG_EN).map Prod.fst,
      (langFill_value lang_code.LANG_EN f).isSome = true
      ∧ (langFill_value lang_code.LANG_RU f).isSome = true
      ∧ same_menu ((langFill_value lang_code.LANG_EN f).getD [])
          ((langFill_value lang_code.LANG_RU f).getD []) = true := by
  decide

theorem langFill_of_some (la : lang_field → List Char) (lang : lang_code) (f : lang_field)
    (h : (langFill_value lang f).isSome = true) :
    langFill la lang f = (langFill_value lang f).getD [] := by
  unfold langFill
  cases hv : langFill_value lang f with
  | none => rw [hv] at h; exact absurd h (by decide)
  | some v => rfl

theorem same_menu_spec (en ru : List Char) (h : same_menu en ru = true) :
    is_menu en = is_menu ru
    ∧ (is_menu en = true →
        (menu_items en).length = (menu_items ru).length
        ∧ ∀ (i : Nat) (a b : List Char), (menu_items en)[i]? = some a →
            (menu_items ru)[i]? = some b →
            hotkey a = hotkey b ∧ (hotkey a).length = 4 ∧ ∀ c ∈ hotkey a, c.toNat < 128) := by
  unfold same_menu at h
  simp only [Bool.and_eq_true, Bool.or_eq_true, beq_iff_eq, Bool.not_eq_true',
    decide_eq_true_eq, List.all_eq_true] at h
  obtain ⟨h1, h2⟩ := h
  refine ⟨h1, fun hm => ?_⟩
  rcases h2 with h2 | ⟨⟨h3, h4⟩, h5⟩
  · rw [hm] at h2; exact absurd h2 (by decide)
  · refine ⟨h3, fun i a b ha hb => ?_⟩
    have e1 : ((menu_items en).map hotkey)[i]? = some (hotkey a) := by
      rw [List.getElem?_map, ha]; rfl
    have e2 : ((menu_items ru).map hotkey)[i]? = some (hotkey b) := by
      rw [List.getElem?_map, hb]; rfl
    rw [h4, e2] at e1
    have hab : hotkey a = hotkey b := by
      simp only [Option.some.injEq] at e1
      exact e1.symm
    have hmem := h5 a (List.getElem?_mem ha)
    exact ⟨hab, hmem.1, hmem.2⟩

/-- C36: `langFill` gives both languages the same menu structure. For
`LANG_EN` and `LANG_RU` it assigns the same fields of `lang_t` in the same
order, whatever `la` held; a field is a menu (a string with NUL separators) in
one language exactly when it is in the other, and for every menu field the
English and the Russian string have the same number of items, with the same
hotkey prefix, four characters of one byte each, at every item position. -/
theorem langFill_same_menu_structure (la1 la2 : lang_field → List Char) :
    (langFill_assign lang_code.LANG_EN).map Prod.fst
      = (langFill_assign lang_code.LANG_RU).map Prod.fst
    ∧ ∀ f ∈ (langFill_assign lang_code.LANG_EN).map Prod.fst,
      is_menu (langFill la1 lang_code.LANG_EN f) = is_menu (langFill la2 lang_code.LANG_RU f)
      ∧ (is_menu (langFill la1 lang_code.LANG_EN f) = true →
          (menu_items (langFill la1 lang_code.LANG_EN f)).length
            = (menu_items (langFill la2 lang_code.LANG_RU f)).length
          ∧ ∀ (i : Nat) (a b : List Char),
              (menu_items (langFill la1 lang_code.LANG_EN f))[i]? = some a →
              (menu_items (langFill la2 lang_code.LANG_RU f))[i]? = some b →
              hotkey a = hotkey b ∧ (hotkey a).length = 4 ∧ ∀ c ∈ hotkey a, c.toNat < 128) := by
  refine ⟨langFill_fields_same, fun f hf => ?_⟩
  obtain ⟨h1, h2, h3⟩ := langFill_tables_same f hf
  rw [langFill_of_some la1 _ f h1, langFill_of_some la2 _ f h2]
  exact same_menu_spec _ _ h3

/-- The menu `global_zoom_menu` in the two languages: four items, with the
hotkeys A, Q, G and W. -/
theorem langFill_zoom_menu :
    (menu_items (langFill (fun _ => []) lang_code.LANG_EN lang_field.global_zoom_menu)).map hotkey
      = ["A   ".toList, "Q   ".toList, "G   ".toList, "W   ".toList]
    ∧ (menu_items (langFill (fun _ => []) lang_code.LANG_RU lang_field.global_zoom_menu)).map
        hotkey = ["A   ".toList, "Q   ".toList, "G   ".toList, "W   ".toList] := by
  constructor <;> decide

open data_hint format_t async_ret

/-! ## C32: `readDatasetClean` -/

open data_hint format_t async_ret

/-! ## C31: the count of open files -/

/-- Two tests that differ at one index, where the first holds and the second
does not, count one apart on a range that has the index. -/
theorem countP_range_flip (p q : Nat → Bool) (d : Nat) (h : ∀ j, j ≠ d → q j = p j)
    (hp : p d = true) (hq : q d = false) :
    ∀ n, d < n → (List.range n).countP p = (List.range n).countP q + 1 := by
  intro n
  induction n with
  | zero => intro hd; omega
  | succ n ih =>
    intro hd
    rw [List.range_succ, List.countP_append, List.countP_append]
    by_cases hdn : d = n
    · subst hdn
      have hc : (List.range d).countP p = (List.range d).countP q := by
        apply List.countP_congr
        intro x hx
        have hx2 := List.mem_range.mp hx
        rw [h x (by omega)]
      rw [hc]
      simp [List.countP_cons, hp, hq]
    · rw [ih (by omega)]
      have hn : q n = p n := h n (fun e => hdn e.symm)
      simp [List.countP_cons, hn]
      omega

theorem fd_table_set_data {σ α : Type} (m : pump_t σ α) (dN : Nat) (d : data_t α) :
    fd_table (m.set_data dN d) = Function.update (fd_table m) dN d.fd := by
  funext j
  unfold fd_table pump_t.set_data
  by_cases hj : j = dN
  · subst hj
    simp
  · simp [Function.update_noteq hj]

theorem fd_table_readClose {σ α : Type} (m : pump_t σ α) (dN : Nat) :
    fd_table (readClose m dN) = Function.update (fd_table m) dN none := by
  unfold readClose
  exact fd_table_set_data m dN _

theorem files_N_readClose {σ α : Type} (m : pump_t σ α) (dN : Nat) :
    (readClose m dN).rd.files_N = m.rd.files_N - 1 := rfl

/-- A step that leaves the streams and the count keeps the equality. -/
theorem files_inv_keep {σ α τ : Type} (m : pump_t σ α) (m1 : pump_t τ α)
    (h1 : fd_table m1 = fd_table m) (h2 : m1.rd.files_N = m.rd.files_N) (h : files_inv m) :
    files_inv m1 := by
  unfold files_inv open_count at *
  rw [h1, h2]
  exact h

/-- A step that closes an open dataset of the table and takes one from the
count keeps the equality. -/
theorem files_inv_close {σ α τ : Type} (m : pump_t σ α) (m1 : pump_t τ α) (dN : Nat)
    (hd : dN < PLOT_DATASET_MAX) (h1 : ∀ j, j ≠ dN → fd_table m1 j = fd_table m j)
    (ho : fd_table m dN ≠ none) (hc : fd_table m1 dN = none)
    (h2 : m1.rd.files_N = m.rd.files_N - 1) (h : files_inv m) : files_inv m1 := by
  unfold files_inv open_count at *
  have := countP_range_flip (fun j => (fd_table m j).isSome) (fun j => (fd_table m1 j).isSome) dN
    (fun j hj => by simp only [h1 j hj])
    (by simpa [Option.isSome_iff_ne_none] using ho) (by simp [hc]) PLOT_DATASET_MAX hd
  rw [h2, h, this]
  push_cast
  ring

/-- A step that opens a closed dataset of the table and adds one to the count
keeps the equality. -/
theorem files_inv_open {σ α τ : Type} (m : pump_t σ α) (m1 : pump_t τ α) (dN : Nat)
    (hd : dN < PLOT_DATASET_MAX) (h1 : ∀ j, j ≠ dN → fd_table m1 j = fd_table m j)
    (hc : fd_table m dN = none) (ho : fd_table m1 dN ≠ none)
    (h2 : m1.rd.files_N = m.rd.files_N + 1) (h : files_inv m) : files_inv m1 := by
  unfold files_inv open_count at *
  have := countP_range_flip (fun j => (fd_table m1 j).isSome) (fun j => (fd_table m j).isSome) dN
    (fun j hj => by simp only [h1 j hj])
    (by simpa [Option.isSome_iff_ne_none] using ho) (by simp [hc]) PLOT_DATASET_MAX hd
  rw [h2, h, this]
  push_cast
  ring

theorem fd_step_refl {σ α : Type} (m : pump_t σ α) (dN : Nat) : fd_step m m dN :=
  ⟨fun _ _ => rfl, Or.inl ⟨rfl, rfl⟩⟩

theorem fd_step_trans {σ α : Type} (m m1 m2 : pump_t σ α) (dN : Nat) (h : fd_step m m1 dN)
    (h1 : fd_step m1 m2 dN) : fd_step m m2 dN := by
  obtain ⟨a1, a2⟩ := h
  obtain ⟨b1, b2⟩ := h1
  refine ⟨fun j hj => by rw [b1 j hj, a1 j hj], ?_⟩
  rcases a2 with ⟨a2, a3⟩ | ⟨a2, a3, a4⟩
  · rcases b2 with ⟨b2, b3⟩ | ⟨b2, b3, b4⟩
    · exact Or.inl ⟨by rw [b2, a2], by rw [b3, a3]⟩
    · exact Or.inr ⟨by rw [← a2]; exact b2, b3, by rw [b4, a3]⟩
  · rcases b2 with ⟨b2, b3⟩ | ⟨b2, b3, b4⟩
    · exact Or.inr ⟨a2, by rw [b2, a3], by rw [b3, a4]⟩
    · exact absurd a3 b2

/-- A step that keeps the equality. -/
theorem fd_step_inv {σ α : Type} (m m1 : pump_t σ α) (dN : Nat) (hd : dN < PLOT_DATASET_MAX)
    (hs : fd_step m m1 dN) (h : files_inv m) : files_inv m1 := by
  obtain ⟨a1, a2⟩ := hs
  rcases a2 with ⟨a2, a3⟩ | ⟨a2, a3, a4⟩
  · refine files_inv_keep m m1 ?_ a3 h
    funext j
    by_cases hj : j = dN
    · rw [hj, a2]
    · exact a1 j hj
  · exact files_inv_close m m1 dN hd a1 a2 a3 a4 h

/-- An assignment to `rd->data[dN]` that keeps the stream. -/
theorem fd_step_set_data {σ α : Type} (m : pump_t σ α) (dN : Nat) (d : data_t α)
    (hd : d.fd = (m.rd.data dN).fd) : fd_step m (m.set_data dN d) dN := by
  refine ⟨fun j hj => ?_, Or.inl ⟨?_, rfl⟩⟩
  · rw [fd_table_set_data, Function.update_noteq hj]
  · rw [fd_table_set_data, Function.update_same, hd]
    rfl

/-- The function `readClose` on an open dataset. -/
theorem fd_step_readClose {σ α : Type} (m : pump_t σ α) (dN : Nat)
    (ho : fd_table m dN ≠ none) : fd_step m (readClose m dN) dN := by
  refine ⟨fun j hj => ?_, Or.inr ⟨ho, ?_, rfl⟩⟩
  · rw [fd_table_readClose, Function.update_noteq hj]
  · rw [fd_table_readClose, Function.update_same]

/-- A change of the plot and the record. -/
theorem fd_step_rest {σ α : Type} (m : pump_t σ α) (dN : Nat) (pl : σ)
    (t : List (pump_event σ α)) : fd_step m { m with pl := pl, trace := t } dN :=
  ⟨fun _ _ => rfl, Or.inl ⟨rfl, rfl⟩⟩

/-- The function `TEXT_Read` on an open dataset: the stream is closed only by
a read that returns 0. -/
theorem TEXT_Read_fd {σ α : Type} (A : fval_ops α) (P : plot_api σ α) (READ_COLUMN_MAX : Nat)
    (m : pump_t σ α) (dN : Nat) (ho : fd_table m dN ≠ none) :
    fd_step m (TEXT_Read A P READ_COLUMN_MAX m dN).2 dN
    ∧ ((TEXT_Read A P READ_COLUMN_MAX m dN).1 ≠ 0 →
        fd_table (TEXT_Read A P READ_COLUMN_MAX m dN).2 dN ≠ none) := by
  rcases async_read_cases (m.rd.data dN).afd (m.rd.data dN).buf with ⟨b, es, h⟩ | ⟨es, h⟩ | h
  · unfold TEXT_Read
    simp only [h, async_read_ok, set_data_same]
    have e1 := fd_step_set_data m dN { m.rd.data dN with afd := some es, buf := b } rfl
    have e2 := fd_step_set_data (m.set_data dN { m.rd.data dN with afd := some es, buf := b }) dN
      { m.rd.data dN with
        afd := some es
        buf := b
        row := (TEXT_GetRow A (m.set_data dN
          { m.rd.data dN with afd := some es, buf := b }).rd.mk_text READ_COLUMN_MAX
          { row := (m.rd.data dN).row, hint := (m.rd.data dN).hint } b.text).2.row
        hint := (TEXT_GetRow A (m.set_data dN
          { m.rd.data dN with afd := some es, buf := b }).rd.mk_text READ_COLUMN_MAX
          { row := (m.rd.data dN).row, hint := (m.rd.data dN).hint } b.text).2.hint }
      (by rw [set_data_same])
    have e12 := fd_step_trans _ _ _ _ e1 e2
    have hfd : fd_table ((m.set_data dN { m.rd.data dN with afd := some es, buf := b }).set_data dN
      { m.rd.data dN with
        afd := some es
        buf := b
        row := (TEXT_GetRow A (m.set_data dN
          { m.rd.data dN with afd := some es, buf := b }).rd.mk_text READ_COLUMN_MAX
          { row := (m.rd.data dN).row, hint := (m.rd.data dN).hint } b.text).2.row
        hint := (TEXT_GetRow A (m.set_data dN
          { m.rd.data dN with afd := some es, buf := b }).rd.mk_text READ_COLUMN_MAX
          { row := (m.rd.data dN).row, hint := (m.rd.data dN).hint } b.text).2.hint }) dN
        ≠ none := by
      rw [fd_table_set_data, Function.update_same]
      exact ho
    split
    · exact ⟨fd_step_trans _ _ _ _ e12 (fd_step_rest _ dN _ _), fun _ => hfd⟩
    · exact ⟨e12, fun _ => hfd⟩
  · unfold TEXT_Read
    simp only [h, async_read_eof]
    have e1 := fd_step_set_data m dN
      { m.rd.data dN with afd := some es, buf := (m.rd.data dN).buf } rfl
    refine ⟨fd_step_trans _ _ _ _ e1 (fd_step_readClose _ dN ?_), fun h0 => absurd rfl h0⟩
    rw [fd_table_set_data, Function.update_same]
    exact ho
  · unfold TEXT_Read
    simp only [h]
    have e1 := fd_step_set_data m dN
      { m.rd.data dN with afd := (m.rd.data dN).afd.map List.tail, buf := (m.rd.data dN).buf } rfl
    exact ⟨e1, fun h0 => absurd rfl h0⟩

/-- The function `FLOAT_Read` on an open dataset. -/
theorem FLOAT_Read_fd {σ α : Type} (P : plot_api σ α) (m : pump_t σ α) (dN : Nat)
    (ho : fd_table m dN ≠ none) :
    fd_step m (FLOAT_Read P m dN).2 dN
    ∧ ((FLOAT_Read P m dN).1 ≠ 0 → fd_table (FLOAT_Read P m dN).2 dN ≠ none) := by
  rcases async_read_cases (m.rd.data dN).afd (m.rd.data dN).buf with ⟨b, es, h⟩ | ⟨es, h⟩ | h
  · unfold FLOAT_Read
    simp only [h, async_read_ok, set_data_same]
    have e1 := fd_step_set_data m dN { m.rd.data dN with afd := some es, buf := b } rfl
    have e2 := fd_step_set_data (m.set_data dN { m.rd.data dN with afd := some es, buf := b }) dN
      { m.rd.data dN with
        afd := some es
        buf := b
        row := row_fill (P.column_N m.pl dN) b.f32 (m.rd.data dN).row }
      (by rw [set_data_same])
    have e12 := fd_step_trans _ _ _ _ e1 e2
    refine ⟨fd_step_trans _ _ _ _ e12 (fd_step_rest _ dN _ _), fun _ => ?_⟩
    show fd_table ((m.set_data dN { m.rd.data dN with afd := some es, buf := b }).set_data dN
      { m.rd.data dN with
        afd := some es
        buf := b
        row := row_fill (P.column_N m.pl dN) b.f32 (m.rd.data dN).row }) dN ≠ none
    rw [fd_table_set_data, Function.update_same]
    exact ho
  · unfold FLOAT_Read
    simp only [h, async_read_eof]
    have e1 := fd_step_set_data m dN
      { m.rd.data dN with afd := some es, buf := (m.rd.data dN).buf } rfl
    refine ⟨fd_step_trans _ _ _ _ e1 (fd_step_readClose _ dN ?_), fun h0 => absurd rfl h0⟩
    rw [fd_table_set_data, Function.update_same]
    exact ho
  · unfold FLOAT_Read
    simp only [h]
    have e1 := fd_step_set_data m dN
      { m.rd.data dN with afd := (m.rd.data dN).afd.map List.tail, buf := (m.rd.data dN).buf } rfl
    exact ⟨e1, fun h0 => absurd rfl h0⟩

/-- The function `DOUBLE_Read` on an open dataset. -/
theorem DOUBLE_Read_fd {σ α : Type} (P : plot_api σ α) (m : pump_t σ α) (dN : Nat)
    (ho : fd_table m dN ≠ none) :
    fd_step m (DOUBLE_Read P m dN).2 dN
    ∧ ((DOUBLE_Read P m dN).1 ≠ 0 → fd_table (DOUBLE_Read P m dN).2 dN ≠ none) := by
  rcases async_read_cases (m.rd.data dN).afd (m.rd.data dN).buf with ⟨b, es, h⟩ | ⟨es, h⟩ | h
  · unfold DOUBLE_Read
    simp only [h, async_read_ok, set_data_same]
    have e1 := fd_step_set_data m dN { m.rd.data dN with afd := some es, buf := b } rfl
    have e2 := fd_step_set_data (m.set_data dN { m.rd.data dN with afd := some es, buf := b }) dN
      { m.rd.data dN with
        afd := some es
        buf := b
        row := row_fill (P.column_N m.pl dN) b.f64 (m.rd.data dN).row }
      (by rw [set_data_same])
    have e12 := fd_step_trans _ _ _ _ e1 e2
    refine ⟨fd_step_trans _ _ _ _ e12 (fd_step_rest _ dN _ _), fun _ => ?_⟩
    show fd_table ((m.set_data dN { m.rd.data dN with afd := some es, buf := b }).set_data dN
      { m.rd.data dN with
        afd := some es
        buf := b
        row := row_fill (P.column_N m.pl dN) b.f64 (m.rd.data dN).row }) dN ≠ none
    rw [fd_table_set_data, Function.update_same]
    exact ho
  · unfold DOUBLE_Read
    simp only [h, async_read_eof]
    have e1 := fd_step_set_data m dN
      { m.rd.data dN with afd := some es, buf := (m.rd.data dN).buf } rfl
    refine ⟨fd_step_trans _ _ _ _ e1 (fd_step_readClose _ dN ?_), fun h0 => absurd rfl h0⟩
    rw [fd_table_set_data, Function.update_same]
    exact ho
  · unfold DOUBLE_Read
    simp only [h]
    have e1 := fd_step_set_data m dN
      { m.rd.data dN with afd := (m.rd.data dN).afd.map List.tail, buf := (m.rd.data dN).buf } rfl
    exact ⟨e1, fun h0 => absurd rfl h0⟩

/-- The test on the result of a read. -/
theorem readUpdate_count_fd {σ α : Type} (m : pump_t σ α) (dN : Nat) (ulN : Int)
    (r : Int × pump_t σ α)
    (hr : fd_step m r.2 dN ∧ (r.1 ≠ 0 → fd_table r.2 dN ≠ none)) :
    fd_step m (readUpdate_count r dN ulN).1 dN
    ∧ ((readUpdate_count r dN ulN).2 ≠ none →
        fd_table (readUpdate_count r dN ulN).1 dN ≠ none) := by
  unfold readUpdate_count
  by_cases h1 : r.1 ≠ 0
  · rw [if_pos h1]
    exact ⟨fd_step_trans _ _ _ _ hr.1 (fd_step_rest r.2 dN r.2.pl _), fun _ => hr.2 h1⟩
  · rw [if_neg h1]
    exact ⟨hr.1, fun h0 => absurd rfl h0⟩

/-- The read step of the loop of `readUpdate` on an open dataset. -/
theorem readUpdate_read_fd {σ α : Type} (A : fval_ops α) (P : plot_api σ α)
    (READ_COLUMN_MAX : Nat) (m : pump_t σ α) (dN : Nat) (ulN : Int)
    (ho : fd_table m dN ≠ none) :
    fd_step m (readUpdate_read A P READ_COLUMN_MAX m dN ulN).1 dN
    ∧ ((readUpdate_read A P READ_COLUMN_MAX m dN ulN).2 ≠ none →
        fd_table (readUpdate_read A P READ_COLUMN_MAX m dN ulN).1 dN ≠ none) := by
  unfold readUpdate_read
  by_cases h1 : (m.rd.data dN).format = FORMAT_PLAIN_TEXT
  · rw [if_pos h1]
    exact readUpdate_count_fd m dN ulN _ (TEXT_Read_fd A P READ_COLUMN_MAX m dN ho)
  · rw [if_neg h1]
    by_cases h2 : (m.rd.data dN).format = FORMAT_BINARY_FLOAT
    · rw [if_pos h2]
      exact readUpdate_count_fd m dN ulN _ (FLOAT_Read_fd P m dN ho)
    · rw [if_neg h2]
      by_cases h3 : (m.rd.data dN).format = FORMAT_BINARY_DOUBLE
      · rw [if_pos h3]
        exact readUpdate_count_fd m dN ulN _ (DOUBLE_Read_fd P m dN ho)
      · rw [if_neg h3]
        exact ⟨fd_step_refl m dN, fun _ => ho⟩

/-- The growth step of the loop of `readUpdate`. -/
theorem readUpdate_grow_fd {σ α : Type} (P : plot_api σ α) (m : pump_t σ α) (dN : Nat) :
    fd_step m (readUpdate_grow P m dN) dN
    ∧ fd_table (readUpdate_grow P m dN) dN = fd_table m dN := by
  unfold readUpdate_grow
  have e1 := fd_step_set_data m dN
    { m.rd.data dN with line_N := (m.rd.data dN).line_N + 1 } rfl
  have e2 : fd_table (m.set_data dN { m.rd.data dN with line_N := (m.rd.data dN).line_N + 1 }) dN
      = fd_table m dN := by
    rw [fd_table_set_data, Function.update_same]
    rfl
  simp only
  split
  · exact ⟨fd_step_trans _ _ _ _ e1 (fd_step_rest _ dN _ _), e2⟩
  · exact ⟨e1, e2⟩

/-- The `do` loop of `readUpdate` on an open dataset. -/
theorem readUpdate_loop_fd {σ α : Type} (A : fval_ops α) (P : plot_api σ α)
    (READ_COLUMN_MAX : Nat) (dN : Nat) (tTOP : Nat) :
    ∀ (ticks : List Nat) (m : pump_t σ α) (ulN : Int), fd_table m dN ≠ none →
      fd_step m (readUpdate_loop A P READ_COLUMN_MAX dN tTOP ticks m ulN).1 dN := by
  intro ticks
  induction ticks with
  | nil =>
    intro m ulN ho
    obtain ⟨r1, r2⟩ := readUpdate_read_fd A P READ_COLUMN_MAX m dN ulN ho
    unfold readUpdate_loop
    split
    · rename_i m1 heq
      rw [heq] at r1
      exact r1
    · rename_i m1 u heq
      rw [heq] at r1
      exact fd_step_trans _ _ _ _ r1 (readUpdate_grow_fd P m1 dN).1
  | cons t ts ih =>
    intro m ulN ho
    obtain ⟨r1, r2⟩ := readUpdate_read_fd A P READ_COLUMN_MAX m dN ulN ho
    unfold readUpdate_loop
    split
    · rename_i m1 heq
      rw [heq] at r1
      exact r1
    · rename_i m1 u heq
      rw [heq] at r1 r2
      have ho1 : fd_table m1 dN ≠ none := r2 (by simp)
      have g := readUpdate_grow_fd P m1 dN
      split
      · exact fd_step_trans _ _ _ _ (fd_step_trans _ _ _ _ r1 g.1)
          (ih _ _ (by rw [g.2]; exact ho1))
      · exact fd_step_trans _ _ _ _ r1 g.1

/-- One turn of the dataset loop of `readUpdate`: an open dataset is counted in
`file_N` and its stream is left or closed; a closed dataset is passed. -/
theorem readUpdate_dataset_fd {σ α : Type} (A : fval_ops α) (P : plot_api σ α)
    (READ_COLUMN_MAX : Nat) (acc : pump_t σ α × List Nat × Int × Int) (d : Nat) :
    (fd_table acc.1 d ≠ none →
      fd_step acc.1 (readUpdate_dataset A P READ_COLUMN_MAX acc d).1 d
      ∧ (readUpdate_dataset A P READ_COLUMN_MAX acc d).2.2.1 = acc.2.2.1 + 1)
    ∧ (fd_table acc.1 d = none → readUpdate_dataset A P READ_COLUMN_MAX acc d = acc) := by
  constructor
  · intro ho
    have hfd : (acc.1.rd.data d).fd ≠ none := ho
    unfold readUpdate_dataset
    simp only [hfd, ne_eq, not_false_eq_true, if_true]
    exact ⟨fd_step_trans _ _ _ _
      (readUpdate_loop_fd A P READ_COLUMN_MAX d _ acc.2.1.tail acc.1 acc.2.2.2 ho)
      (fd_step_rest _ d _ _), trivial⟩
  · intro hc
    have hfd : (acc.1.rd.data d).fd = none := hc
    unfold readUpdate_dataset
    simp only [hfd, ne_eq, not_true_eq_false, if_false]

/-- The dataset loop of `readUpdate` over the datasets `k .. k + n - 1` of the
table keeps the equality, and leaves the count of open files at most `file_N`
when it was at most `file_N` and the number of the open datasets to come. -/
theorem readUpdate_fold_files {σ α : Type} (A : fval_ops α) (P : plot_api σ α)
    (READ_COLUMN_MAX : Nat) :
    ∀ (n k : Nat) (acc : pump_t σ α × List Nat × Int × Int), k + n ≤ PLOT_DATASET_MAX →
      files_inv acc.1 →
      acc.1.rd.files_N
        ≤ acc.2.2.1 + ((List.range' k n).countP (fun j => (fd_table acc.1 j).isSome) : Nat) →
      files_inv ((List.range' k n).foldl (readUpdate_dataset A P READ_COLUMN_MAX) acc).1
      ∧ ((List.range' k n).foldl (readUpdate_dataset A P READ_COLUMN_MAX) acc).1.rd.files_N
          ≤ ((List.range' k n).foldl (readUpdate_dataset A P READ_COLUMN_MAX) acc).2.2.1 := by
  intro n
  induction n with
  | zero =>
    intro k acc _ h1 h2
    simp only [List.range', List.foldl_nil, List.countP_nil, Nat.cast_zero, add_zero] at h2 ⊢
    exact ⟨h1, h2⟩
  | succ n ih =>
    intro k acc hk h1 h2
    simp only [List.range'_succ, List.foldl_cons]
    obtain ⟨d1, d2⟩ := readUpdate_dataset_fd A P READ_COLUMN_MAX acc k
    by_cases ho : fd_table acc.1 k ≠ none
    · obtain ⟨s1, s2⟩ := d1 ho
      have hcount : (List.range' (k + 1) n).countP
            (fun j => (fd_table (readUpdate_dataset A P READ_COLUMN_MAX acc k).1 j).isSome)
          = (List.range' (k + 1) n).countP (fun j => (fd_table acc.1 j).isSome) := by
        apply List.countP_congr
        intro x hx
        have := (List.mem_range'_1.mp hx).1
        rw [s1.1 x (by omega)]
      have hle : (readUpdate_dataset A P READ_COLUMN_MAX acc k).1.rd.files_N
          ≤ acc.1.rd.files_N := by
        rcases s1.2 with ⟨_, e⟩ | ⟨_, _, e⟩
        · rw [e]
        · rw [e]; omega
      have hsome : (fd_table acc.1 k).isSome = true := by
        simpa [Option.isSome_iff_ne_none] using ho
      simp only [List.range'_succ, List.countP_cons, hsome, if_true] at h2
      apply ih (k + 1) _ (by omega) (fd_step_inv _ _ k (by omega) s1 h1)
      rw [hcount, s2]
      push_cast at h2 ⊢
      omega
    · have hc : fd_table acc.1 k = none := by simpa using ho
      rw [d2 hc]
      have hnone : ¬ (fd_table acc.1 k).isSome = true := by simp [hc]
      simp only [List.range'_succ, List.countP_cons, hnone, if_false, Nat.add_zero] at h2
      exact ih (k + 1) acc (by omega) h1 h2

/-- The function `readUpdate` keeps the equality: the closes at the end of a
stream take one from the count each, and the last assignment leaves it. -/
theorem readUpdate_files {σ α : Type} (A : fval_ops α) (P : plot_api σ α)
    (READ_COLUMN_MAX : Nat) (ticks : List Nat) (m : pump_t σ α) (h : files_inv m) :
    files_inv (readUpdate A P READ_COLUMN_MAX ticks m).2 := by
  have h0 : m.rd.files_N ≤ (0 : Int)
      + ((List.range' 0 PLOT_DATASET_MAX).countP (fun j => (fd_table m j).isSome) : Nat) := by
    have := h
    unfold files_inv open_count at this
    rw [List.range_eq_range'] at this
    rw [this]
    omega
  obtain ⟨f1, f2⟩ := readUpdate_fold_files A P READ_COLUMN_MAX PLOT_DATASET_MAX 0
    (m, ticks, 0, 0) (by omega) h h0
  rw [← List.range_eq_range'] at f1 f2
  refine files_inv_keep
    ((List.range PLOT_DATASET_MAX).foldl (readUpdate_dataset A P READ_COLUMN_MAX)
      (m, ticks, 0, 0)).1 (readUpdate A P READ_COLUMN_MAX ticks m).2 rfl ?_ f1
  unfold readUpdate
  simp only
  rw [if_neg (by omega)]

theorem files_N_set_data {σ α : Type} (m : pump_t σ α) (dN : Nat) (d : data_t α) :
    (m.set_data dN d).rd.files_N = m.rd.files_N := rfl

/-- The end of `readOpenUnified`: the stream of `dN` is set. -/
theorem readOpenUnified_bind_fd {σ α : Type} (P : plot_api (plot_t σ α) α)
    (X : plot_ext σ α) (E : env_t α) (K : read_h) (r : reader_t σ α) (dN : Nat) (cN lN : Int)
    (name : List Char) (fmt : format_t) (fd : file_t × stream_t) (rbuf : Nat → α) :
    fd_table (readOpenUnified_bind P X E K r dN cN lN name fmt fd rbuf).pump
        = Function.update (fd_table r.pump) dN (some fd.1) := by
  unfold readOpenUnified_bind
  by_cases hf : fmt = FORMAT_PLAIN_TEXT
  · simp only [hf, if_true]
    exact fd_table_set_data _ dN _
  · simp only [hf, if_false]
    exact fd_table_set_data _ dN _

/-- The end of `readOpenUnified`: the count of open files is one more. -/
theorem readOpenUnified_bind_files_N {σ α : Type} (P : plot_api (plot_t σ α) α)
    (X : plot_ext σ α) (E : env_t α) (K : read_h) (r : reader_t σ α) (dN : Nat) (cN lN : Int)
    (name : List Char) (fmt : format_t) (fd : file_t × stream_t) (rbuf : Nat → α) :
    (readOpenUnified_bind P X E K r dN cN lN name fmt fd rbuf).pump.rd.files_N
        = r.pump.rd.files_N + 1 := by
  unfold readOpenUnified_bind
  by_cases hf : fmt = FORMAT_PLAIN_TEXT
  · simp only [hf, if_true]
    rfl
  · simp only [hf, if_false]
    rfl

theorem put_header_fd {σ α : Type} (r : reader_t σ α) (dN : Nat) (h : header_t α) :
    fd_table (r.put_header dN h).pump = fd_table r.pump := by
  unfold reader_t.put_header
  simp only
  rw [fd_table_set_data]
  exact Function.update_eq_self dN (fd_table r.pump)

theorem put_header_files_N {σ α : Type} (r : reader_t σ α) (dN : Nat) (h : header_t α) :
    (r.put_header dN h).pump.rd.files_N = r.pump.rd.files_N := rfl

/-- The function `readOpenUnified` on a closed dataset: the streams of the
other datasets are left; on the failure paths the stream of `dN` stays closed
and the count of open files is left; on success the stream of `dN` is set
and the count is one more. -/
theorem readOpenUnified_fd {σ α : Type} (A : fval_ops α)
    (P : plot_api (plot_t σ α) α) (X : plot_ext σ α) (E : env_t α) (K : read_h)
    (fd0 : Option (file_t × stream_t)) (rbuf0 : Nat → α) (r : reader_t σ α) (dN : Nat)
    (cN lN : Int) (file : Option (List Char)) (fmt : format_t)
    (hfd : (r.pump.rd.data dN).fd = none) :
    (∀ j, j ≠ dN →
      fd_table (readOpenUnified A P X E K fd0 rbuf0 r dN cN lN file fmt).pump j
        = fd_table r.pump j)
    ∧ ((fd_table (readOpenUnified A P X E K fd0 rbuf0 r dN cN lN file fmt).pump dN = none
        ∧ (readOpenUnified A P X E K fd0 rbuf0 r dN cN lN file fmt).pump.rd.files_N
            = r.pump.rd.files_N)
      ∨ (fd_table (readOpenUnified A P X E K fd0 rbuf0 r dN cN lN file fmt).pump dN ≠ none
        ∧ (readOpenUnified A P X E K fd0 rbuf0 r dN cN lN file fmt).pump.rd.files_N
            = r.pump.rd.files_N + 1)) := by
  have hfd2 : fd_table r.pump dN = none := hfd
  unfold readOpenUnified
  simp only [hfd, ne_eq, not_true_eq_false, if_false]
  cases file with
  | none =>
    simp only
    cases hfv : (if fmt = FORMAT_PLAIN_TEXT then some (file_t.stdin, E.stdin) else fd0) with
    | none =>
      simp only
      refine ⟨fun j hj => ?_, ?_⟩
      · first
        | rfl
        | simp only [readOpenUnified_bind_fd, put_header_fd, fd_table_set_data, Function.update_noteq hj, ne_eq, not_false_eq_true]
      · first
        | exact Or.inl ⟨hfd2, rfl⟩
        | simp [readOpenUnified_bind_fd, readOpenUnified_bind_files_N, put_header_fd, put_header_files_N, fd_table_set_data, files_N_set_data, hfd, hfd2]
    | some fd =>
      simp only
      by_cases ht : fmt = FORMAT_PLAIN_TEXT
      · simp only [ht, if_true]
        generalize TEXT_GetCN A K _ dN _ rbuf0 = h
        by_cases hc : h.cN < 1
        · simp only [hc, if_true]
          refine ⟨fun j hj => ?_, ?_⟩
          · first
            | rfl
            | simp only [readOpenUnified_bind_fd, put_header_fd, fd_table_set_data, Function.update_noteq hj, ne_eq, not_false_eq_true]
          · first
            | exact Or.inl ⟨hfd2, rfl⟩
            | simp [readOpenUnified_bind_fd, readOpenUnified_bind_files_N, put_header_fd, put_header_files_N, fd_table_set_data, files_N_set_data, hfd, hfd2]
        · simp only [hc, if_false]
          refine ⟨fun j hj => ?_, ?_⟩
          · first
            | rfl
            | simp only [readOpenUnified_bind_fd, put_header_fd, fd_table_set_data, Function.update_noteq hj, ne_eq, not_false_eq_true]
          · first
            | exact Or.inl ⟨hfd2, rfl⟩
            | simp [readOpenUnified_bind_fd, readOpenUnified_bind_files_N, put_header_fd, put_header_files_N, fd_table_set_data, files_N_set_data, hfd, hfd2]
      · simp only [ht, if_false]
        by_cases h2 : fmt = FORMAT_BINARY_FLOAT
        · simp only [h2, if_true]
          refine ⟨fun j hj => ?_, ?_⟩
          · first
            | rfl
            | simp only [readOpenUnified_bind_fd, put_header_fd, fd_table_set_data, Function.update_noteq hj, ne_eq, not_false_eq_true]
          · first
            | exact Or.inl ⟨hfd2, rfl⟩
            | simp [readOpenUnified_bind_fd, readOpenUnified_bind_files_N, put_header_fd, put_header_files_N, fd_table_set_data, files_N_set_data, hfd, hfd2]
        · simp only [h2, if_false]
          by_cases h3 : fmt = FORMAT_BINARY_DOUBLE
          · simp only [h3, if_true]
            refine ⟨fun j hj => ?_, ?_⟩
            · first
              | rfl
              | simp only [readOpenUnified_bind_fd, put_header_fd, fd_table_set_data, Function.update_noteq hj, ne_eq, not_false_eq_true]
            · first
              | exact Or.inl ⟨hfd2, rfl⟩
              | simp [readOpenUnified_bind_fd, readOpenUnified_bind_files_N, put_header_fd, put_header_files_N, fd_table_set_data, files_N_set_data, hfd, hfd2]
          · simp only [h3, if_false]
            refine ⟨fun j hj => ?_, ?_⟩
            · first
              | rfl
              | simp only [readOpenUnified_bind_fd, put_header_fd, fd_table_set_data, Function.update_noteq hj, ne_eq, not_false_eq_true]
            · first
              | exact Or.inl ⟨hfd2, rfl⟩
              | simp [readOpenUnified_bind_fd, readOpenUnified_bind_files_N, put_header_fd, put_header_files_N, fd_table_set_data, files_N_set_data, hfd, hfd2]
  | some f =>
    simp only
    cases hfv : E.fopen f with
    | none =>
      simp only
      refine ⟨fun j hj => ?_, ?_⟩
      · first
        | rfl
        | simp only [readOpenUnified_bind_fd, put_header_fd, fd_table_set_data, Function.update_noteq hj, ne_eq, not_false_eq_true]
      · first
        | exact Or.inl ⟨hfd2, rfl⟩
        | simp [readOpenUnified_bind_fd, readOpenUnified_bind_files_N, put_header_fd, put_header_files_N, fd_table_set_data, files_N_set_data, hfd, hfd2]
    | some fd =>
      simp only
      by_cases ht : fmt = FORMAT_PLAIN_TEXT
      · simp only [ht, if_true]
        generalize TEXT_GetCN A K _ dN _ rbuf0 = h
        by_cases hc : h.cN < 1
        · simp only [hc, if_true]
          refine ⟨fun j hj => ?_, ?_⟩
          · first
            | rfl
            | simp only [readOpenUnified_bind_fd, put_header_fd, fd_table_set_data, Function.update_noteq hj, ne_eq, not_false_eq_true]
          · first
            | exact Or.inl ⟨hfd2, rfl⟩
            | simp [readOpenUnified_bind_fd, readOpenUnified_bind_files_N, put_header_fd, put_header_files_N, fd_table_set_data, files_N_set_data, hfd, hfd2]
        · simp only [hc, if_false]
          refine ⟨fun j hj => ?_, ?_⟩
          · first
            | rfl
            | simp only [readOpenUnified_bind_fd, put_header_fd, fd_table_set_data, Function.update_noteq hj, ne_eq, not_false_eq_true]
          · first
            | exact Or.inl ⟨hfd2, rfl⟩
            | simp [readOpenUnified_bind_fd, readOpenUnified_bind_files_N, put_header_fd, put_header_files_N, fd_table_set_data, files_N_set_data, hfd, hfd2]
      · simp only [ht, if_false]
        by_cases h2 : fmt = FORMAT_BINARY_FLOAT
        · simp only [h2, if_true]
          refine ⟨fun j hj => ?_, ?_⟩
          · first
            | rfl
            | simp only [readOpenUnified_bind_fd, put_header_fd, fd_table_set_data, Function.update_noteq hj, ne_eq, not_false_eq_true]
          · first
            | exact Or.inl ⟨hfd2, rfl⟩
            | simp [readOpenUnified_bind_fd, readOpenUnified_bind_files_N, put_header_fd, put_header_files_N, fd_table_set_data, files_N_set_data, hfd, hfd2]
        · simp only [h2, if_false]
          by_cases h3 : fmt = FORMAT_BINARY_DOUBLE
          · simp only [h3, if_true]
            refine ⟨fun j hj => ?_, ?_⟩
            · first
              | rfl
              | simp only [readOpenUnified_bind_fd, put_header_fd, fd_table_set_data, Function.update_noteq hj, ne_eq, not_false_eq_true]
            · first
              | exact Or.inl ⟨hfd2, rfl⟩
              | simp [readOpenUnified_bind_fd, readOpenUnified_bind_files_N, put_header_fd, put_header_files_N, fd_table_set_data, files_N_set_data, hfd, hfd2]
          · simp only [h3, if_false]
            refine ⟨fun j hj => ?_, ?_⟩
            · first
              | rfl
              | simp only [readOpenUnified_bind_fd, put_header_fd, fd_table_set_data, Function.update_noteq hj, ne_eq, not_false_eq_true]
            · first
              | exact Or.inl ⟨hfd2, rfl⟩
              | simp [readOpenUnified_bind_fd, readOpenUnified_bind_files_N, put_header_fd, put_header_files_N, fd_table_set_data, files_N_set_data, hfd, hfd2]

theorem readClose_fd {σ α : Type} (m : pump_t σ α) (dN : Nat) :
    ((readClose m dN).rd.data dN).fd = none := by
  simp [readClose, pump_t.set_data]

/-- The function `readOpenUnified` on an open dataset closes it and goes on as
on a closed one. -/
theorem readOpenUnified_reopen {σ α : Type} (A : fval_ops α)
    (P : plot_api (plot_t σ α) α) (X : plot_ext σ α) (E : env_t α) (K : read_h)
    (fd0 : Option (file_t × stream_t)) (rbuf0 : Nat → α) (r : reader_t σ α) (dN : Nat)
    (cN lN : Int) (file : Option (List Char)) (fmt : format_t)
    (ho : (r.pump.rd.data dN).fd ≠ none) :
    readOpenUnified A P X E K fd0 rbuf0 r dN cN lN file fmt
      = readOpenUnified A P X E K fd0 rbuf0 { r with pump := readClose r.pump dN } dN cN lN
          file fmt := by
  have hc := readClose_fd r.pump dN
  unfold readOpenUnified
  simp only [ho, hc, ne_eq, not_false_eq_true, not_true_eq_false, if_true, if_false]

/-- The function `readOpenUnified` keeps the equality, on success and on each
failure path. -/
theorem readOpenUnified_files {σ α : Type} (A : fval_ops α)
    (P : plot_api (plot_t σ α) α) (X : plot_ext σ α) (E : env_t α) (K : read_h)
    (fd0 : Option (file_t × stream_t)) (rbuf0 : Nat → α) (r : reader_t σ α) (dN : Nat)
    (cN lN : Int) (file : Option (List Char)) (fmt : format_t) (hd : dN < PLOT_DATASET_MAX)
    (h : files_inv r.pump) :
    files_inv (readOpenUnified A P X E K fd0 rbuf0 r dN cN lN file fmt).pump := by
  have key : ∀ r1 : reader_t σ α, files_inv r1.pump → (r1.pump.rd.data dN).fd = none →
      files_inv (readOpenUnified A P X E K fd0 rbuf0 r1 dN cN lN file fmt).pump := by
    intro r1 h1 hfd
    obtain ⟨a1, a2⟩ := readOpenUnified_fd A P X E K fd0 rbuf0 r1 dN cN lN file fmt hfd
    rcases a2 with ⟨a2, a3⟩ | ⟨a2, a3⟩
    · refine files_inv_keep r1.pump _ ?_ a3 h1
      funext j
      by_cases hj : j = dN
      · rw [hj, a2]
        exact hfd.symm
      · exact a1 j hj
    · exact files_inv_open r1.pump _ dN hd a1 hfd a2 a3 h1
  by_cases ho : (r.pump.rd.data dN).fd ≠ none
  · rw [readOpenUnified_reopen A P X E K fd0 rbuf0 r dN cN lN file fmt ho]
    exact key _ (fd_step_inv r.pump _ dN hd (fd_step_readClose r.pump dN ho) h)
      (readClose_fd r.pump dN)
  · exact key r h (by simpa using ho)

/-- The function `readOpenStub` keeps the equality: it opens no stream. -/
theorem readOpenStub_files {σ α : Type} (X : plot_ext σ α) (r : reader_t σ α) (dN : Nat)
    (cN lN : Int) (file : List Char) (fmt : format_t) (h : files_inv r.pump) :
    files_inv (readOpenStub X r dN cN lN file fmt).pump := by
  refine files_inv_keep r.pump _ ?_ rfl h
  funext j
  unfold readOpenStub
  simp only [reader_t.alloc, fd_table, pump_t.set_data]
  by_cases hj : j = dN
  · subst hj
    simp
  · simp [Function.update_noteq hj]

/-- The function `readDatasetClean` keeps the equality. -/
theorem readDatasetClean_files {σ α : Type} (A : fval_ops α) (C : plot_clean_t σ α)
    (K : read_h) (r : reader_t σ α) (dN : Int) (h : files_inv r.pump) :
    files_inv (readDatasetClean A C K r dN).pump := by
  unfold readDatasetClean
  by_cases hd : dN < 0 ∨ dN ≥ PLOT_DATASET_MAX
  · rw [if_pos hd]
    exact h
  · rw [if_neg hd]
    have hlt : dN.toNat < PLOT_DATASET_MAX := by
      have : (PLOT_DATASET_MAX : Int) = 10 := rfl
      omega
    by_cases ho : (r.pump.rd.data dN.toNat).fd ≠ none
    · simp only [ho, ne_eq, not_false_eq_true, if_true]
      have s1 := fd_step_readClose r.pump dN.toNat ho
      have s2 := fd_step_set_data (readClose r.pump dN.toNat) dN.toNat (data_zero A)
        (by rw [readClose_fd]; rfl)
      have := fd_step_inv _ _ dN.toNat hlt (fd_step_trans _ _ _ _ s1 s2) h
      exact files_inv_keep _ _ rfl rfl this
    · have hc : (r.pump.rd.data dN.toNat).fd = none := by simpa using ho
      simp only [hc, ne_eq, not_true_eq_false, if_false]
      have s2 := fd_step_set_data r.pump dN.toNat (data_zero A) (by rw [hc]; rfl)
      have := fd_step_inv _ _ dN.toNat hlt s2 h
      exact files_inv_keep _ _ rfl rfl this

/-- The loop of `readDataReload` over datasets of the table keeps the equality. -/
theorem readDataReload_fold_files {σ α : Type} (A : fval_ops α)
    (P : plot_api (plot_t σ α) α) (X : plot_ext σ α) (E : env_t α) (K : read_h)
    (fd0 : Option (file_t × stream_t)) (rbuf0 : Nat → α) :
    ∀ (l : List Nat) (r : reader_t σ α), (∀ d ∈ l, d < PLOT_DATASET_MAX) → files_inv r.pump →
      files_inv (l.foldl (readDataReload_dataset A P X E K fd0 rbuf0) r).pump := by
  intro l
  induction l with
  | nil => intro r _ h; exact h
  | cons d l ih =>
    intro r hl h
    rw [List.foldl_cons]
    apply ih _ (fun x hx => hl x (List.mem_cons_of_mem d hx))
    unfold readDataReload_dataset
    split
    · exact readOpenUnified_files A P X E K fd0 rbuf0 r d _ _ _ _
        (hl d (List.mem_cons_self d l)) h
    · exact h

/-- C31. The count `rd->files_N` is the number of datasets of the table whose
`rd->data[dN].fd` is not NULL: the equality holds in the reader that
`readAlloc` returns, and when it holds in a reader it holds after
`readOpenUnified` for a dataset of the table, whatever the file, the format
and the path taken, after `readOpenStub`, after `readUpdate`, whatever the
sources give and so with the closes at the end of a stream, after
`readDatasetClean` and after `readDataReload`. -/
theorem files_N_counts_open_datasets {σ α : Type} (A : fval_ops α)
    (P : plot_api (plot_t σ α) α) (X : plot_ext σ α) (C : plot_clean_t σ α) (E : env_t α)
    (K : read_h) (fd0 : Option (file_t × stream_t)) (rbuf0 : Nat → α) (pl : plot_t σ α)
    (r : reader_t σ α) (h : r.pump.rd.files_N = (open_count r.pump : Int)) :
    (readAlloc A pl).pump.rd.files_N = (open_count (readAlloc A pl).pump : Int)
    ∧ (∀ (dN : Nat) (cN lN : Int) (file : Option (List Char)) (fmt : format_t),
        dN < PLOT_DATASET_MAX →
        (readOpenUnified A P X E K fd0 rbuf0 r dN cN lN file fmt).pump.rd.files_N
          = (open_count (readOpenUnified A P X E K fd0 rbuf0 r dN cN lN file fmt).pump : Int))
    ∧ (∀ (dN : Nat) (cN lN : Int) (file : List Char) (fmt : format_t),
        (readOpenStub X r dN cN lN file fmt).pump.rd.files_N
          = (open_count (readOpenStub X r dN cN lN file fmt).pump : Int))
    ∧ (∀ ticks : List Nat,
        (readUpdate A P K.READ_COLUMN_MAX ticks r.pump).2.rd.files_N
          = (open_count (readUpdate A P K.READ_COLUMN_MAX ticks r.pump).2 : Int))
    ∧ (∀ dN : Int,
        (readDatasetClean A C K r dN).pump.rd.files_N
          = (open_count (readDatasetClean A C K r dN).pump : Int))
    ∧ (readDataReload A P X E K fd0 rbuf0 r).pump.rd.files_N
        = (open_count (readDataReload A P X E K fd0 rbuf0 r).pump : Int) := by
  refine ⟨?_, ?_, ?_, ?_, ?_, ?_⟩
  · have h0 : open_count (readAlloc A pl).pump = 0 := by
      unfold open_count
      rw [List.countP_eq_zero]
      intro a _
      simp [fd_table, readAlloc, data_zero]
    rw [h0]
    rfl
  · intro dN cN lN file fmt hd
    exact readOpenUnified_files A P X E K fd0 rbuf0 r dN cN lN file fmt hd h
  · intro dN cN lN file fmt
    exact readOpenStub_files X r dN cN lN file fmt h
  · intro ticks
    exact readUpdate_files A P K.READ_COLUMN_MAX ticks r.pump h
  · intro dN
    exact readDatasetClean_files A C K r dN h
  · have hr : files_inv (readDataReload A P X E K fd0 rbuf0 r).pump := by
      unfold readDataReload
      exact readDataReload_fold_files A P X E K fd0 rbuf0 (List.range PLOT_DATASET_MAX) r
        (fun d hd => List.mem_range.mp hd) h
    exact hr

/-- C31 on a concrete run: two datasets are open and counted; a tick of
`readUpdate` meets the end of the stream of dataset 0 and closes it, and the
count is the number of open datasets, which is 1. -/
theorem files_N_counts_open_datasets_witness :
    demo_open.pump.rd.files_N = (open_count demo_open.pump : Int)
    ∧ (readUpdate exact_ops demo_papi demo_h.READ_COLUMN_MAX [] demo_open.pump).2.rd.files_N
        = (open_count
            (readUpdate exact_ops demo_papi demo_h.READ_COLUMN_MAX [] demo_open.pump).2 : Int)
    ∧ open_count (readUpdate exact_ops demo_papi demo_h.READ_COLUMN_MAX [] demo_open.pump).2
        = 1 :=
  ⟨by decide,
    (files_N_counts_open_datasets exact_ops demo_papi demo_ext demo_clean demo_env demo_h none
      (fun _ => fexact.nan) (demo_plot 0) demo_open (by decide)).2.2.2.1 [],
    by decide⟩

end GP
